import Mathlib

/-!
# xcheck: a consistency checker for xv6 file-system images

Shallow embedding of `src/src/xcheck.c` (with the layout of `src/include/fs.h`) and, for the
claims about generated images, of the fixture generator `src/tools/mkfs copy.c`.

Modelling conventions.

* The mapped image is a byte memory addressed relative to `img_ptr`, together with the
  mapped length (`sbuf.st_size`).  The C program never compares an offset with that length;
  neither does the model: a read at any offset returns the byte stored there, so every
  theorem below holds whatever an access past the end of the mapping would return.
  Where the length matters, `mainOnBuffer` is the run on a buffer of that length: it has an
  outcome only when every read of the run lies inside the buffer.
* `uint` arithmetic is taken modulo `2 ^ 32` wherever the C expression has type `uint`
  (`addr * BSIZE`, `bmapstart + blocknum / BPB`, `sb_size + BPB - 1`, ...).
* The host is little-endian (the program reads `sb->size` and `sb->inodestart` without
  `xint`); every multi-byte field is therefore the little-endian value of its bytes.
* `exit(1)` after a diagnostic is `Except.error` carrying the diagnostic's kind;
  `return 0` is `Except.ok ()`.
* The `calloc`-ed `int` tables are total functions on indices, and the counters are
  unbounded naturals: `inode_linkcount` would need more than `2 ^ 31` directory entries
  naming one inode (over 32 GiB of directory blocks) to overflow its `int`, which is
  undefined behaviour in C and outside this model.
-/

namespace Xcheck

/-! ## Constants (`fs.h`, `xcheck.c`) -/

abbrev ROOTINO : Nat := 1
abbrev BSIZE : Nat := 512
abbrev T_DIR : Nat := 1
abbrev T_FILE : Nat := 2
abbrev T_DEV : Nat := 3
abbrev NDIRECT : Nat := 12
/-- Size in bytes of `uint`. -/
abbrev UINT_SIZE : Nat := 4
/-- Value of `sizeof(struct dinode)`: four shorts, one `uint`, thirteen `uint` addresses. -/
abbrev DINODE_SIZE : Nat := 64
/-- Value of `sizeof(struct dirent)`: one `ushort` and `DIRSIZ` name bytes. -/
abbrev DIRENT_SIZE : Nat := 16
abbrev NINDIRECT : Nat := BSIZE / UINT_SIZE
abbrev IPB : Nat := BSIZE / DINODE_SIZE
abbrev BPB : Nat := BSIZE * 8
abbrev DIRSIZ : Nat := 14
abbrev UNUSED : Nat := 0
abbrev DIRECT : Nat := 1
abbrev INDIRECT : Nat := 2
/-- Modulus of `uint` arithmetic. -/
abbrev U32 : Nat := 4294967296

/-! ## Diagnostics -/

/-- One constructor per `fprintf(stderr, ...); exit(1)` site kind of `main` and
`process_directory_block`.  `FreeBlockInUse` is the bitmap check made when a block is
claimed, `BitmapFalseNegative` the two final sweeps; they print the same line. -/
inductive Err where
  | BadInodeType
  | BadAddressDirect
  | BadAddressIndirect
  | DuplicateDirect
  | DuplicateIndirect
  | FreeBlockInUse
  | DirFormatError
  | DanglingReference
  | MissingRoot
  | Orphan
  | BadRefCount
  | MultiplyLinkedDirectory
  | BitmapFalsePositive
  | BitmapFalseNegative
  deriving DecidableEq, Repr

/-- The line written to `stderr` at each failure site. -/
def Err.message : Err → String
  | .BadInodeType => "ERROR: bad inode."
  | .BadAddressDirect => "ERROR: bad direct address in inode."
  | .BadAddressIndirect => "ERROR: bad indirect address in inode."
  | .DuplicateDirect => "ERROR: direct address used more than once."
  | .DuplicateIndirect => "ERROR: indirect address used more than once."
  | .FreeBlockInUse => "ERROR: address used by inode but marked free in bitmap."
  | .DirFormatError => "ERROR: directory not properly formatted."
  | .DanglingReference => "ERROR: inode referred to in directory but marked free."
  | .MissingRoot => "ERROR: root directory does not exist."
  | .Orphan => "ERROR: inode marked use but not found in a directory."
  | .BadRefCount => "ERROR: bad reference count for file."
  | .MultiplyLinkedDirectory => "ERROR: directory appears more than once in file system."
  | .BitmapFalsePositive => "ERROR: bitmap marks block in use but it is not in use."
  | .BitmapFalseNegative => "ERROR: address used by inode but marked free in bitmap."

/-! ## The image and its fields -/

/-- The mapped image: `len` is `sbuf.st_size`, `mem off` the byte at `img_ptr + off`. -/
structure Image where
  len : Nat
  mem : Nat → Nat

/-- One `uchar` of the image. -/
def Image.byte (img : Image) (off : Nat) : Nat := img.mem off % 256

/-- `xshort`: the value of a 16-bit object whose bytes in memory are `a0, a1`. -/
def xshort (a0 a1 : Nat) : Nat := a0 ||| (a1 <<< 8)

/-- `xint`: the value of a 32-bit object whose bytes in memory are `a0 .. a3`. -/
def xint (a0 a1 a2 a3 : Nat) : Nat := a0 ||| (a1 <<< 8) ||| (a2 <<< 16) ||| (a3 <<< 24)

/-- A `ushort` field stored at byte offset `off`. -/
def Image.u16 (img : Image) (off : Nat) : Nat := xshort (img.byte off) (img.byte (off + 1))

/-- A `uint` field stored at byte offset `off`. -/
def Image.u32 (img : Image) (off : Nat) : Nat :=
  xint (img.byte off) (img.byte (off + 1)) (img.byte (off + 2)) (img.byte (off + 3))

/-- Field `sb->size`; the superblock is at `img_ptr + BSIZE`. -/
def sb_size (img : Image) : Nat := img.u32 (BSIZE + 0)
/-- Field `sb->ninodes`. -/
def sb_ninodes (img : Image) : Nat := img.u32 (BSIZE + 8)
/-- Field `sb->inodestart`. -/
def sb_inodestart (img : Image) : Nat := img.u32 (BSIZE + 20)
/-- Field `sb->bmapstart`. -/
def sb_bmapstart (img : Image) : Nat := img.u32 (BSIZE + 24)

/-- Local `num_bitmap_blocks` of `main`: `(sb_size + BPB - 1) / BPB` in `uint`. -/
def num_bitmap_blocks (img : Image) : Nat := ((sb_size img + BPB - 1) % U32) / BPB

/-- Local `data_block_start` of `main`: `bmapstart + num_bitmap_blocks` in `uint`. -/
def data_block_start (img : Image) : Nat := (sb_bmapstart img + num_bitmap_blocks img) % U32

/-- Byte offset of block `b` as the program computes it: `b * BSIZE` in `uint`. -/
def blockOff (b : Nat) : Nat := (b * BSIZE) % U32

/-- `block_is_marked`: the bitmap bit of `blocknum`, 0 or 1. -/
def block_is_marked (img : Image) (blocknum : Nat) : Nat :=
  let bmapstart := sb_bmapstart img
  let bmap_block := (bmapstart + blocknum / BPB) % U32
  let bmap_block_offset := blocknum % BPB
  let byte_index := bmap_block_offset / 8
  let bit_index := bmap_block_offset % 8
  let byte := img.byte (blockOff bmap_block + byte_index)
  (byte >>> bit_index) &&& 1

/-- `get_inode`: byte offset of the `dinode` record of inode `inum`. -/
def get_inode (img : Image) (inum : Nat) : Nat :=
  let block := (sb_inodestart img + inum / IPB) % U32
  let offset := (inum % IPB) * DINODE_SIZE
  blockOff block + offset

/-- Field `dip->type` read through `xshort`. -/
def inodeType (img : Image) (inum : Nat) : Nat := img.u16 (get_inode img inum + 0)
/-- Field `dip->nlink` read through `xshort`. -/
def inodeNlink (img : Image) (inum : Nat) : Nat := img.u16 (get_inode img inum + 6)
/-- Field `dip->addrs[i]` read through `xint`. -/
def inodeAddr (img : Image) (inum i : Nat) : Nat := img.u32 (get_inode img inum + 12 + 4 * i)
/-- Entry `indirect_block[i]` of the block `indirect_addr`, read through `xint`. -/
def indirectEntry (img : Image) (indirect_addr i : Nat) : Nat :=
  img.u32 (blockOff indirect_addr + 4 * i)

/-- Byte offset of `de[i]` in the directory block `addr`. -/
def direntOff (addr i : Nat) : Nat := blockOff addr + i * DIRENT_SIZE
/-- Field `de[i].inum`. -/
def direntInum (img : Image) (addr i : Nat) : Nat := img.u16 (direntOff addr i + 0)
/-- Byte `de[i].name[k]`. -/
def direntName (img : Image) (addr i : Nat) (k : Nat) : Nat := img.byte (direntOff addr i + 2 + k)

/-- Bytes of the C string literal `"."`. -/
def strDot (k : Nat) : Nat := if k = 0 then 46 else 0
/-- Bytes of the C string literal `".."`. -/
def strDotDot (k : Nat) : Nat := if k < 2 then 46 else 0

/-- `strncmp(a + k, b + k, n) == 0`: the strings agree up to the first NUL or `n` bytes. -/
def strncmp0 (a b : Nat → Nat) : Nat → Nat → Bool
  | _, 0 => true
  | k, n + 1 =>
    if a k ≠ b k then false
    else if a k = 0 then true
    else strncmp0 a b (k + 1) n

/-- Test `strncmp(de[i].name, ".", DIRSIZ) == 0`. -/
def isDot (img : Image) (addr i : Nat) : Bool := strncmp0 (direntName img addr i) strDot 0 DIRSIZ
/-- Test `strncmp(de[i].name, "..", DIRSIZ) == 0`. -/
def isDotDot (img : Image) (addr i : Nat) : Bool :=
  strncmp0 (direntName img addr i) strDotDot 0 DIRSIZ

/-! ## Tracking tables -/

/-- Assignment `f[a] = v` on a table. -/
def setAt {α : Type} (f : Nat → α) (a : Nat) (v : α) : Nat → α :=
  fun x => if x = a then v else f x

/-- The eight tables `main` allocates. -/
structure Tables where
  inode_used : Nat → Nat
  inode_referenced : Nat → Nat
  inode_type : Nat → Nat
  inode_nlink : Nat → Nat
  inode_linkcount : Nat → Nat
  inode_parent : Nat → Int
  block_used : Nat → Nat
  block_type : Nat → Nat

/-- Tables after the `calloc`s and the loop setting `inode_parent[i] = -1`. -/
def initTables : Tables where
  inode_used := fun _ => 0
  inode_referenced := fun _ => 0
  inode_type := fun _ => 0
  inode_nlink := fun _ => 0
  inode_linkcount := fun _ => 0
  inode_parent := fun _ => -1
  block_used := fun _ => 0
  block_type := fun _ => 0

/-- A C `for` loop whose body may `exit(1)`: the indices are visited in list order and the
first failure ends the run. -/
def forLoop {ι σ : Type} (body : ι → σ → Except Err σ) : List ι → σ → Except Err σ
  | [], s => .ok s
  | i :: rest, s =>
    match body i s with
    | .error e => .error e
    | .ok s1 => forLoop body rest s1

/-! ## `main`, lines 85-107 and 302-323: reference counts -/

/-- Body of the reference-count loops. -/
def refCountBody (t : Tables) (inum : Nat) (_ : Unit) : Except Err Unit :=
  if t.inode_used inum ≠ 0 then
    if t.inode_type inum = T_FILE then
      if t.inode_nlink inum ≠ t.inode_linkcount inum then .error .BadRefCount else .ok ()
    else if t.inode_type inum = T_DIR then
      if inum ≠ ROOTINO ∧ t.inode_linkcount inum > 1 then .error .MultiplyLinkedDirectory
      else .ok ()
    else .ok ()
  else .ok ()

/-- Loop `for (inum = 1; inum < num_inodes; inum++)` over `refCountBody`. -/
def refCountCheck (img : Image) (t : Tables) : Except Err Unit :=
  forLoop (refCountBody t) (List.range' 1 (sb_ninodes img - 1)) ()

/-! ## `main`, lines 109-233: the inode and address scanner -/

/-- The block repeated three times in `main` (lines 133-160, 167-194, 201-228): range check,
duplicate check, claim, bitmap check.  `kind` is `DIRECT` or `INDIRECT`. -/
def claimBlock (img : Image) (kind addr : Nat) (t : Tables) : Except Err Tables :=
  if addr < data_block_start img ∨ addr ≥ sb_size img then
    .error (if kind = DIRECT then .BadAddressDirect else .BadAddressIndirect)
  else if t.block_used addr ≠ 0 then
    .error (if t.block_type addr = DIRECT then .DuplicateDirect else .DuplicateIndirect)
  else
    let t1 := { t with block_used := setAt t.block_used addr 1,
                       block_type := setAt t.block_type addr kind }
    if block_is_marked img addr = 0 then .error .FreeBlockInUse else .ok t1

/-- Body of the direct loop, lines 130-162. -/
def scanDirect (img : Image) (inum i : Nat) (t : Tables) : Except Err Tables :=
  let addr := inodeAddr img inum i
  if addr ≠ 0 then claimBlock img DIRECT addr t else .ok t

/-- Body of the loop over the indirect block, lines 198-230. -/
def scanIndirectEntry (img : Image) (indirect_addr i : Nat) (t : Tables) : Except Err Tables :=
  let addr := indirectEntry img indirect_addr i
  if addr ≠ 0 then claimBlock img INDIRECT addr t else .ok t

/-- Lines 165-231: the indirect slot and the block it names. -/
def scanIndirect (img : Image) (inum : Nat) (t : Tables) : Except Err Tables :=
  let indirect_addr := inodeAddr img inum NDIRECT
  if indirect_addr ≠ 0 then
    match claimBlock img INDIRECT indirect_addr t with
    | .error e => .error e
    | .ok t1 => forLoop (scanIndirectEntry img indirect_addr) (List.range NINDIRECT) t1
  else .ok t

/-- Lines 125-127: the inode is recorded as allocated. -/
def markInode (img : Image) (inum : Nat) (t : Tables) : Tables :=
  { t with inode_used := setAt t.inode_used inum 1,
           inode_type := setAt t.inode_type inum (inodeType img inum),
           inode_nlink := setAt t.inode_nlink inum (inodeNlink img inum) }

/-- Body of the loop of lines 110-233. -/
def scanInode (img : Image) (inum : Nat) (t : Tables) : Except Err Tables :=
  let type := inodeType img inum
  if type ≠ 0 ∧ type ≠ T_FILE ∧ type ≠ T_DIR ∧ type ≠ T_DEV then .error .BadInodeType
  else if type ≠ 0 then
    match forLoop (scanDirect img inum) (List.range NDIRECT) (markInode img inum t) with
    | .error e => .error e
    | .ok t1 => scanIndirect img inum t1
  else .ok t

/-- Loop `for (inum = 0; inum < num_inodes; inum++)` over `scanInode`. -/
def scanInodes (img : Image) (t : Tables) : Except Err Tables :=
  forLoop (scanInode img) (List.range (sb_ninodes img)) t

/-! ## `process_directory_block` and `main`, lines 244-289: the directory walk -/

/-- The flags `dot_found`, `dotdot_found` of the directory being walked, and the tables. -/
structure WalkState where
  dot_found : Nat
  dotdot_found : Nat
  t : Tables

/-- Body of the loop of `process_directory_block` for entry `de[i]` of block `addr`. -/
def direntStep (img : Image) (addr dir_inum num_inodes i : Nat) (s : WalkState) :
    Except Err WalkState :=
  if direntInum img addr i = 0 then .ok s
  else
    let dir_inum_ref := direntInum img addr i
    let named : Except Err WalkState :=
      if isDot img addr i then
        if dir_inum_ref ≠ dir_inum then .error .DirFormatError
        else .ok { s with dot_found := 1 }
      else if isDotDot img addr i then
        .ok { s with dotdot_found := 1,
                     t := { s.t with inode_parent := setAt s.t.inode_parent dir_inum dir_inum_ref } }
      else .ok s
    match named with
    | .error e => .error e
    | .ok s1 =>
      if dir_inum_ref ≥ num_inodes then .error .DanglingReference
      else if s1.t.inode_used dir_inum_ref = 0 then .error .DanglingReference
      else
        let t2 := { s1.t with inode_referenced := setAt s1.t.inode_referenced dir_inum_ref 1 }
        let count := t2.inode_linkcount dir_inum_ref
        let t3 :=
          if t2.inode_type dir_inum_ref = T_FILE ∨ t2.inode_type dir_inum_ref = T_DIR then
            { t2 with inode_linkcount := setAt t2.inode_linkcount dir_inum_ref (count + 1) }
          else t2
        .ok { s1 with t := t3 }

/-- `process_directory_block`: the `BSIZE / sizeof(struct dirent)` entries of block `addr`. -/
def process_directory_block (img : Image) (addr dir_inum num_inodes : Nat) (s : WalkState) :
    Except Err WalkState :=
  forLoop (direntStep img addr dir_inum num_inodes) (List.range (BSIZE / DIRENT_SIZE)) s

/-- Body of the direct loop of the walk, lines 253-258. -/
def walkDirect (img : Image) (inum i : Nat) (s : WalkState) : Except Err WalkState :=
  let addr := inodeAddr img inum i
  if addr ≠ 0 then process_directory_block img addr inum (sb_ninodes img) s else .ok s

/-- Body of the loop over the indirect block of the walk, lines 264-269. -/
def walkIndirectEntry (img : Image) (inum indirect_addr i : Nat) (s : WalkState) :
    Except Err WalkState :=
  let addr := indirectEntry img indirect_addr i
  if addr ≠ 0 then process_directory_block img addr inum (sb_ninodes img) s else .ok s

/-- Lines 249-270: all the blocks of directory `inum`, from cleared flags. -/
def walkBlocks (img : Image) (inum : Nat) (t : Tables) : Except Err WalkState :=
  match forLoop (walkDirect img inum) (List.range NDIRECT)
      { dot_found := 0, dotdot_found := 0, t := t } with
  | .error e => .error e
  | .ok s1 =>
    let indirect_addr := inodeAddr img inum NDIRECT
    if indirect_addr ≠ 0 then
      forLoop (walkIndirectEntry img inum indirect_addr) (List.range NINDIRECT) s1
    else .ok s1

/-- Body of the loop of lines 245-289. -/
def walkInode (img : Image) (inum : Nat) (t : Tables) : Except Err Tables :=
  if t.inode_used inum ≠ 0 ∧ t.inode_type inum = T_DIR then
    match walkBlocks img inum t with
    | .error e => .error e
    | .ok s =>
      if s.dot_found = 0 ∨ s.dotdot_found = 0 then .error .DirFormatError
      else if inum = ROOTINO ∧ s.t.inode_parent inum ≠ (ROOTINO : Int) then .error .MissingRoot
      else .ok s.t
  else .ok t

/-- Loop `for (inum = 0; inum < num_inodes; inum++)` over `walkInode`. -/
def walkInodes (img : Image) (t : Tables) : Except Err Tables :=
  forLoop (walkInode img) (List.range (sb_ninodes img)) t

/-! ## `main`, lines 291-357: the final checks -/

/-- Body of the loop of lines 292-300. -/
def orphanBody (t : Tables) (inum : Nat) (_ : Unit) : Except Err Unit :=
  if t.inode_used inum ≠ 0 ∧ t.inode_referenced inum = 0 ∧ t.inode_type inum ≠ T_DIR then
    .error .Orphan
  else .ok ()

/-- Lines 292-300. -/
def orphanCheck (img : Image) (t : Tables) : Except Err Unit :=
  forLoop (orphanBody t) (List.range' 1 (sb_ninodes img - 1)) ()

/-- Body of the sweep of lines 326-334. -/
def sweepMarkedBody (img : Image) (t : Tables) (blocknum : Nat) (_ : Unit) : Except Err Unit :=
  if block_is_marked img blocknum ≠ 0 ∧ t.block_used blocknum = 0 then
    .error .BitmapFalsePositive
  else .ok ()

/-- Body of the sweeps of lines 337-345 and 349-357. -/
def sweepUsedBody (img : Image) (t : Tables) (blocknum : Nat) (_ : Unit) : Except Err Unit :=
  if t.block_used blocknum ≠ 0 ∧ block_is_marked img blocknum = 0 then
    .error .BitmapFalseNegative
  else .ok ()

/-- The block numbers `data_block_start .. sb->size - 1` of the three sweeps. -/
def sweepRange (img : Image) : List Nat :=
  List.range' (data_block_start img) (sb_size img - data_block_start img)

/-- Lines 325-357: the three bitmap sweeps. -/
def bitmapSweeps (img : Image) (t : Tables) : Except Err Unit :=
  match forLoop (sweepMarkedBody img t) (sweepRange img) () with
  | .error e => .error e
  | .ok _ =>
    match forLoop (sweepUsedBody img t) (sweepRange img) () with
    | .error e => .error e
    | .ok _ => forLoop (sweepUsedBody img t) (sweepRange img) ()

/-- Lines 235-357 of `main`: everything after the scanner, on the scanner's tables. -/
def afterScan (img : Image) (t : Tables) : Except Err Unit :=
  if t.inode_used ROOTINO = 0 then .error .MissingRoot
  else
    match walkInodes img t with
    | .error e => .error e
    | .ok t1 =>
      match orphanCheck img t1 with
      | .error e => .error e
      | .ok _ =>
        match refCountCheck img t1 with
        | .error e => .error e
        | .ok _ => bitmapSweeps img t1

/-- `main` once the image is mapped (lines 59-373): the outcome of xcheck on `img`. -/
def main (img : Image) : Except Err Unit :=
  match refCountCheck img initTables with
  | .error e => .error e
  | .ok _ =>
    match scanInodes img initTables with
    | .error e => .error e
    | .ok t => afterScan img t

/-! ## Concrete images -/

/-- Memory holding the listed `(offset, byte)` pairs and zero elsewhere. -/
def memOf : List (Nat × Nat) → Nat → Nat
  | [], _ => 0
  | (k, v) :: rest, off => if off = k then v else memOf rest off

/-- Superblock of an 8-block image: 4 inodes, inode table in block 2, bitmap in block 3,
hence data blocks 4..7. -/
def sbBytes : List (Nat × Nat) := [(512, 8), (520, 4), (532, 2), (536, 3)]

/-- An 8-block image holding only the root directory: inode 1 is a directory whose block 4
holds `.` and `..`, both naming inode 1; bitmap bits 0..4 set. -/
def imgRootOnly : Image where
  len := 4096
  mem := memOf (sbBytes ++
    [(1088, 1), (1094, 1), (1100, 4), (1536, 31),
     (2048, 1), (2050, 46), (2064, 1), (2066, 46), (2067, 46)])

/-- Equality of outcomes is decidable. -/
instance instDecidableEqOutcome : DecidableEq (Except Err Unit)
  | .ok _, .ok _ => isTrue rfl
  | .error a, .error b =>
    if h : a = b then isTrue (by rw [h]) else isFalse (by intro h2; cases h2; exact h rfl)
  | .ok _, .error _ => isFalse (by intro h; cases h)
  | .error _, .ok _ => isFalse (by intro h; cases h)

/-! ## The scanner as a sequence of events

The order in which `main` visits inodes and address slots, as a list computed from the image
alone: for each inode in index order its type check, then (type non-zero) the non-zero direct
slots 0..11, then the non-zero indirect slot followed by the non-zero entries of the block it
names. -/

/-- One step of the scanner: the type check of an inode, or one claimed address. -/
inductive ScanEvent where
  | inode (inum : Nat)
  | claim (kind addr : Nat)
  deriving DecidableEq, Repr

/-- What the scanner does at an event. -/
def scanStep (img : Image) : ScanEvent → Tables → Except Err Tables
  | .inode inum, t =>
    let type := inodeType img inum
    if type ≠ 0 ∧ type ≠ T_FILE ∧ type ≠ T_DIR ∧ type ≠ T_DEV then .error .BadInodeType
    else if type ≠ 0 then .ok (markInode img inum t)
    else .ok t
  | .claim kind addr, t => claimBlock img kind addr t

/-- The non-zero values among `f 0 .. f (n-1)`, in order. -/
def nonzeroValues (f : Nat → Nat) (n : Nat) : List Nat :=
  ((List.range n).map f).filter (fun a => a ≠ 0)

/-- The non-zero direct slots of inode `inum`. -/
def directBlocks (img : Image) (inum : Nat) : List Nat :=
  nonzeroValues (inodeAddr img inum) NDIRECT

/-- The non-zero entries of the indirect block of inode `inum` (none when its indirect slot
is zero). -/
def indirectBlocks (img : Image) (inum : Nat) : List Nat :=
  if inodeAddr img inum NDIRECT ≠ 0 then
    nonzeroValues (indirectEntry img (inodeAddr img inum NDIRECT)) NINDIRECT
  else []

/-- The non-zero indirect slot of inode `inum`, as a list of length at most one. -/
def indirectSlot (img : Image) (inum : Nat) : List Nat :=
  if inodeAddr img inum NDIRECT ≠ 0 then [inodeAddr img inum NDIRECT] else []

/-- Events of one inode. -/
def inodeEvents (img : Image) (inum : Nat) : List ScanEvent :=
  .inode inum ::
    (if inodeType img inum ≠ 0 then
      (directBlocks img inum).map (ScanEvent.claim DIRECT) ++
      ((indirectSlot img inum ++ indirectBlocks img inum).map (ScanEvent.claim INDIRECT))
    else [])

/-- Events of the whole scan. -/
def scanEvents (img : Image) : List ScanEvent :=
  (List.range (sb_ninodes img)).flatMap (inodeEvents img)

/-- The tagged address of a claim event. -/
def ScanEvent.claimOf : ScanEvent → Option (Nat × Nat)
  | .inode _ => none
  | .claim kind addr => some (kind, addr)

/-! ## The claims of an image, in the words of the specification -/

/-- An inode is allocated when its index is below `ninodes` and its type field is not 0. -/
def allocated (img : Image) (inum : Nat) : Prop :=
  inum < sb_ninodes img ∧ inodeType img inum ≠ 0

instance (img : Image) (inum : Nat) : Decidable (allocated img inum) := by
  unfold allocated; infer_instance

/-- The block numbers an inode claims: its non-zero direct slots, its non-zero indirect slot
and the non-zero entries of the indirect block. -/
def inodeBlocks (img : Image) (inum : Nat) : List Nat :=
  directBlocks img inum ++ indirectSlot img inum ++ indirectBlocks img inum

/-- All claims of all allocated inodes, one list element per claiming slot. -/
def claimedBlocks (img : Image) : List Nat :=
  (List.range (sb_ninodes img)).flatMap
    (fun inum => if inodeType img inum ≠ 0 then inodeBlocks img inum else [])

/-- The blocks holding the content of inode `inum`: direct ones, then those named by the
indirect block (the indirect block itself holds addresses, not content). -/
def contentBlocks (img : Image) (inum : Nat) : List Nat :=
  directBlocks img inum ++ indirectBlocks img inum

/-- The entry slots `(block, index)` of the content of inode `inum`, in walk order. -/
def dirSlots (img : Image) (inum : Nat) : List (Nat × Nat) :=
  (contentBlocks img inum).flatMap
    (fun addr => (List.range (BSIZE / DIRENT_SIZE)).map (fun i => (addr, i)))

/-- Inode `inum` is an allocated directory. -/
def isDir (img : Image) (inum : Nat) : Prop :=
  inum < sb_ninodes img ∧ inodeType img inum = T_DIR

instance (img : Image) (inum : Nat) : Decidable (isDir img inum) := by
  unfold isDir; infer_instance

/-- Slot `e` holds a non-free entry named `.`. -/
def dotEntry (img : Image) (e : Nat × Nat) : Prop :=
  direntInum img e.1 e.2 ≠ 0 ∧ isDot img e.1 e.2 = true

/-- Slot `e` holds a non-free entry named `..`. -/
def dotdotEntry (img : Image) (e : Nat × Nat) : Prop :=
  direntInum img e.1 e.2 ≠ 0 ∧ isDotDot img e.1 e.2 = true

instance (img : Image) (e : Nat × Nat) : Decidable (dotEntry img e) := by
  unfold dotEntry; infer_instance

instance (img : Image) (e : Nat × Nat) : Decidable (dotdotEntry img e) := by
  unfold dotdotEntry; infer_instance

/-- The tagged addresses `(kind, addr)` of the claim events of a list, in order. -/
def taggedClaims (evs : List ScanEvent) : List (Nat × Nat) :=
  evs.flatMap (fun ev => ev.claimOf.toList)

/-- What the tables record after the scanner has passed the events `evs`. -/
structure ScanInv (img : Image) (evs : List ScanEvent) (t : Tables) : Prop where
  nodup : ((taggedClaims evs).map Prod.snd).Nodup
  used_iff : ∀ b, t.block_used b ≠ 0 ↔ b ∈ (taggedClaims evs).map Prod.snd
  claim_ok : ∀ k b, (k, b) ∈ taggedClaims evs →
    t.block_type b = k ∧ data_block_start img ≤ b ∧ b < sb_size img ∧ block_is_marked img b ≠ 0
  inode_used_eq : ∀ i, t.inode_used i =
    if ScanEvent.inode i ∈ evs ∧ inodeType img i ≠ 0 then 1 else 0
  inode_type_eq : ∀ i, t.inode_type i = if ScanEvent.inode i ∈ evs then inodeType img i else 0
  inode_nlink_eq : ∀ i, t.inode_nlink i =
    if ScanEvent.inode i ∈ evs ∧ inodeType img i ≠ 0 then inodeNlink img i else 0
  type_ok : ∀ i, ScanEvent.inode i ∈ evs →
    inodeType img i = 0 ∨ inodeType img i = T_FILE ∨ inodeType img i = T_DIR ∨
      inodeType img i = T_DEV
  referenced_eq : t.inode_referenced = initTables.inode_referenced
  linkcount_eq : t.inode_linkcount = initTables.inode_linkcount
  parent_eq : t.inode_parent = initTables.inode_parent

/-- The tables the directory walk never writes. -/
def Frame (t t1 : Tables) : Prop :=
  t1.inode_used = t.inode_used ∧ t1.inode_type = t.inode_type ∧
    t1.inode_nlink = t.inode_nlink ∧ t1.block_used = t.block_used ∧
    t1.block_type = t.block_type

/-- The walk of directory `dir_inum` at the entry slot `e = (block, index)`. -/
def walkStep (img : Image) (dir_inum : Nat) (e : Nat × Nat) (s : WalkState) :
    Except Err WalkState :=
  direntStep img e.1 dir_inum (sb_ninodes img) e.2 s

/-- What the walk of directory `d`, started on tables `t0`, has established after the entry
slots `L`. -/
structure DirInv (img : Image) (d : Nat) (t0 : Tables) (L : List (Nat × Nat))
    (s : WalkState) : Prop where
  frame : Frame t0 s.t
  entry_ok : ∀ e ∈ L, direntInum img e.1 e.2 ≠ 0 →
    direntInum img e.1 e.2 < sb_ninodes img ∧ t0.inode_used (direntInum img e.1 e.2) ≠ 0 ∧
      (isDot img e.1 e.2 = true → direntInum img e.1 e.2 = d)
  dot_iff : s.dot_found ≠ 0 ↔ ∃ e ∈ L, dotEntry img e
  dotdot_iff : s.dotdot_found ≠ 0 ↔ ∃ e ∈ L, dotdotEntry img e
  parent_dotdot : s.dotdot_found ≠ 0 →
    ∃ e ∈ L, dotdotEntry img e ∧ s.t.inode_parent d = (direntInum img e.1 e.2 : Int)

/-- What a completed walk of directory `d` has established, `t0` being the scanner's tables. -/
def DirFacts (img : Image) (t0 : Tables) (d : Nat) : Prop :=
  (∀ e ∈ dirSlots img d, direntInum img e.1 e.2 ≠ 0 →
    direntInum img e.1 e.2 < sb_ninodes img ∧ t0.inode_used (direntInum img e.1 e.2) ≠ 0 ∧
      (isDot img e.1 e.2 = true → direntInum img e.1 e.2 = d)) ∧
  (∃ e ∈ dirSlots img d, dotEntry img e) ∧
  (∃ e ∈ dirSlots img d, dotdotEntry img e) ∧
  (d = ROOTINO → ∃ e ∈ dirSlots img d, dotdotEntry img e ∧ direntInum img e.1 e.2 = ROOTINO)

/-- The run reached its end without a diagnostic. -/
def passes {α : Type} : Except Err α → Bool
  | .ok _ => true
  | .error _ => false

/-- Root directory only, with direct slot 0 of the root set to 9, one past the last block. -/
def imgBadDirect : Image where
  len := 4096
  mem := memOf (sbBytes ++ [(1088, 1), (1094, 1), (1100, 9), (1536, 31)])

/-- Root directory in block 4 with a marked indirect block 5 whose entry 0 is 9. -/
def imgBadIndirect : Image where
  len := 4096
  mem := memOf (sbBytes ++
    [(1088, 1), (1094, 1), (1100, 4), (1148, 5), (1536, 63),
     (2048, 1), (2050, 46), (2064, 1), (2066, 46), (2067, 46), (2560, 9)])

/-- Root directory in block 4 and a file, inode 2, whose direct slot 0 is also 4. -/
def imgDupDirect : Image where
  len := 4096
  mem := memOf (sbBytes ++
    [(1088, 1), (1094, 1), (1100, 4), (1152, 2), (1158, 1), (1164, 4), (1536, 31),
     (2048, 1), (2050, 46), (2064, 1), (2066, 46), (2067, 46)])

/-- Root directory only, with the type field of inode 2 set to 99. -/
def imgBadType : Image where
  len := 4096
  mem := memOf (sbBytes ++
    [(1088, 1), (1094, 1), (1100, 4), (1152, 99), (1536, 31),
     (2048, 1), (2050, 46), (2064, 1), (2066, 46), (2067, 46)])

/-- The state a run ended in, or `dflt` if it failed. -/
def getOk {α : Type} (r : Except Err α) (dflt : α) : α :=
  match r with
  | .ok a => a
  | .error _ => dflt

/-- The number of entry slots of the content of inode `d` that satisfy `p`. -/
def countSlots (img : Image) (d : Nat) (p : Nat × Nat → Bool) : Nat :=
  (dirSlots img d).countP p

/-- Inode 1 is a file with one link; inode 2 is a directory whose block 4 holds `.` naming
inode 2 and `..` naming inode 1. -/
def imgRootIsFile : Image where
  len := 4096
  mem := memOf (sbBytes ++
    [(1088, 2), (1094, 1), (1152, 1), (1158, 1), (1164, 4), (1536, 31),
     (2048, 2), (2050, 46), (2064, 1), (2066, 46), (2067, 46)])

/-- Root directory whose block 4 holds, in this order, `.`, `..`, `.`, `..`, all naming
inode 1. -/
def imgTwoDots : Image where
  len := 4096
  mem := memOf (sbBytes ++
    [(1088, 1), (1094, 1), (1100, 4), (1536, 31),
     (2048, 1), (2050, 46), (2064, 1), (2066, 46), (2067, 46),
     (2080, 1), (2082, 46), (2096, 1), (2098, 46), (2099, 46)])

/-- Root directory with no data block at all (what the generator writes when it leaves out
`.` and `..`). -/
def imgNoDots : Image where
  len := 4096
  mem := memOf (sbBytes ++ [(1088, 1), (1094, 1), (1536, 15)])

/-- Root directory whose block 4 holds `.` naming inode 3, which is unallocated, and `..`
naming inode 1. -/
def imgDotDangling : Image where
  len := 4096
  mem := memOf (sbBytes ++
    [(1088, 1), (1094, 1), (1100, 4), (1536, 31),
     (2048, 3), (2050, 46), (2064, 1), (2066, 46), (2067, 46)])

/-- Root directory whose block 4 holds `.`, `..` and an entry `a` naming inode 3, which is
unallocated. -/
def imgDangling : Image where
  len := 4096
  mem := memOf (sbBytes ++
    [(1088, 1), (1094, 1), (1100, 4), (1536, 31),
     (2048, 1), (2050, 46), (2064, 1), (2066, 46), (2067, 46), (2080, 3), (2082, 97)])

/-- Slot `e` holds a non-free entry naming inode `j`. -/
def refersTo (img : Image) (j : Nat) (e : Nat × Nat) : Bool :=
  decide (direntInum img e.1 e.2 ≠ 0 ∧ direntInum img e.1 e.2 = j)

/-- The entry slots of all allocated directory inodes, in the order of the walk. -/
def allSlots (img : Image) : List (Nat × Nat) :=
  (List.range (sb_ninodes img)).flatMap
    (fun d => if inodeType img d = T_DIR then dirSlots img d else [])

/-- The number of non-free directory entries, over all blocks of all allocated directory
inodes, that name inode `j`. -/
def measuredLinks (img : Image) (j : Nat) : Nat := (allSlots img).countP (refersTo img j)

/-- What the walk, started on tables `t0`, has counted after the entry slots `L`. -/
structure CountInv (img : Image) (t0 : Tables) (L : List (Nat × Nat)) (t : Tables) : Prop where
  frame : Frame t0 t
  linkcount_eq : ∀ j, t.inode_linkcount j = t0.inode_linkcount j +
    (if t0.inode_type j = T_FILE ∨ t0.inode_type j = T_DIR then L.countP (refersTo img j) else 0)
  referenced_iff : ∀ j, t.inode_referenced j ≠ 0 ↔
    (t0.inode_referenced j ≠ 0 ∨ 0 < L.countP (refersTo img j))

/-- Root directory in block 4 and a second directory, inode 2, in block 5 holding `.`
naming inode 2 and `..` naming inode 1; no entry of the root names inode 2. -/
def imgTwoDirs : Image where
  len := 4096
  mem := memOf (sbBytes ++
    [(1088, 1), (1094, 1), (1100, 4), (1152, 1), (1158, 1), (1164, 5), (1536, 63),
     (2048, 1), (2050, 46), (2064, 1), (2066, 46), (2067, 46),
     (2560, 2), (2562, 46), (2576, 1), (2578, 46), (2579, 46)])

/-! ## The report engine, read off the image -/

/-- Inode `j` is referenced: a non-free entry in some block of some allocated directory
inode names it. -/
def referencedInode (img : Image) (j : Nat) : Prop :=
  ∃ d, isDir img d ∧ ∃ e ∈ dirSlots img d, direntInum img e.1 e.2 ≠ 0 ∧ direntInum img e.1 e.2 = j

/-- Inode `j` is allocated, is not a directory, and no entry names it. -/
def orphanInode (img : Image) (j : Nat) : Prop :=
  allocated img j ∧ inodeType img j ≠ T_DIR ∧ measuredLinks img j = 0

/-- Inode `j` is an allocated file whose `nlink` field differs from its measured link
count. -/
def badRefCount (img : Image) (j : Nat) : Prop :=
  allocated img j ∧ inodeType img j = T_FILE ∧ inodeNlink img j ≠ measuredLinks img j

/-- Inode `j` is an allocated directory other than inode 1 that more than one entry names. -/
def multiplyLinked (img : Image) (j : Nat) : Prop :=
  isDir img j ∧ j ≠ ROOTINO ∧ measuredLinks img j > 1

/-- Block `b` has its bitmap bit set and no allocated inode claims it. -/
def falsePositive (img : Image) (b : Nat) : Prop :=
  block_is_marked img b ≠ 0 ∧ b ∉ claimedBlocks img

instance (img : Image) (j : Nat) : Decidable (orphanInode img j) := by
  unfold orphanInode; infer_instance

instance (img : Image) (j : Nat) : Decidable (badRefCount img j) := by
  unfold badRefCount; infer_instance

instance (img : Image) (j : Nat) : Decidable (multiplyLinked img j) := by
  unfold multiplyLinked; infer_instance

instance (img : Image) (b : Nat) : Decidable (falsePositive img b) := by
  unfold falsePositive; infer_instance

/-- The orphan test of lines 292-300 at inode `j`, in terms of the image. -/
def reportOrphan (img : Image) (j : Nat) (_ : Unit) : Except Err Unit :=
  if orphanInode img j then .error .Orphan else .ok ()

/-- The reference-count test of lines 303-323 at inode `j`, in terms of the image: one loop
body makes the file test and the directory test. -/
def reportRefCount (img : Image) (j : Nat) (_ : Unit) : Except Err Unit :=
  if badRefCount img j then .error .BadRefCount
  else if multiplyLinked img j then .error .MultiplyLinkedDirectory
  else .ok ()

/-- The first bitmap sweep of lines 326-334 at block `b`, in terms of the image. -/
def reportSweep (img : Image) (b : Nat) (_ : Unit) : Except Err Unit :=
  if falsePositive img b then .error .BitmapFalsePositive else .ok ()

/-- The inode numbers `1 .. ninodes - 1` of the orphan and reference-count loops. -/
def inumsFrom1 (img : Image) : List Nat := List.range' 1 (sb_ninodes img - 1)

/-- The checks that follow the directory walk, in terms of the image. -/
def report (img : Image) : Except Err Unit :=
  match forLoop (reportOrphan img) (inumsFrom1 img) () with
  | .error e => .error e
  | .ok _ =>
    match forLoop (reportRefCount img) (inumsFrom1 img) () with
    | .error e => .error e
    | .ok _ => forLoop (reportSweep img) (sweepRange img) ()

/-- Root directory only, and inode 0 marked as a file with `nlink` 1; no directory entry can
name inode 0, since inode number 0 marks a free slot. -/
def imgInode0File : Image where
  len := 4096
  mem := memOf (sbBytes ++
    [(1024, 2), (1030, 1), (1088, 1), (1094, 1), (1100, 4), (1536, 31),
     (2048, 1), (2050, 46), (2064, 1), (2066, 46), (2067, 46)])

/-- Root directory with an entry `a` naming inode 2, a file with `nlink` 1 and no blocks. -/
def imgGoodFile : Image where
  len := 4096
  mem := memOf (sbBytes ++
    [(1088, 1), (1094, 1), (1100, 4), (1152, 2), (1158, 1), (1536, 31),
     (2048, 1), (2050, 46), (2064, 1), (2066, 46), (2067, 46), (2080, 2), (2082, 97)])

/-- Root directory only, and inode 2 a file that no entry names. -/
def imgOrphan : Image where
  len := 4096
  mem := memOf (sbBytes ++
    [(1088, 1), (1094, 1), (1100, 4), (1152, 2), (1158, 1), (1536, 31),
     (2048, 1), (2050, 46), (2064, 1), (2066, 46), (2067, 46)])

/-- Root directory with an entry `a` naming inode 2, a file whose `nlink` field is 5. -/
def imgBadNlink : Image where
  len := 4096
  mem := memOf (sbBytes ++
    [(1088, 1), (1094, 1), (1100, 4), (1152, 2), (1158, 5), (1536, 31),
     (2048, 1), (2050, 46), (2064, 1), (2066, 46), (2067, 46), (2080, 2), (2082, 97)])

/-- Root directory with an entry `d` naming inode 2, a directory in block 5 with `.` naming
inode 2 and `..` naming inode 1: a subdirectory linked from its parent. -/
def imgLinkedDir : Image where
  len := 4096
  mem := memOf (sbBytes ++
    [(1088, 1), (1094, 1), (1100, 4), (1152, 1), (1158, 1), (1164, 5), (1536, 63),
     (2048, 1), (2050, 46), (2064, 1), (2066, 46), (2067, 46), (2080, 2), (2082, 100),
     (2560, 2), (2562, 46), (2576, 1), (2578, 46), (2579, 46)])

/-- Inode 1 unallocated; inode 2 a directory without any block. -/
def imgNoRootBadDir : Image where
  len := 4096
  mem := memOf (sbBytes ++ [(1152, 1), (1158, 1), (1536, 15)])

/-- The image `imgLinkedDir` with one more root entry, `f`, naming inode 3, a file whose
`nlink` field is 5: the multiply linked directory has the smaller index. -/
def imgMultiBeforeBad : Image where
  len := 4096
  mem := memOf (sbBytes ++
    [(1088, 1), (1094, 1), (1100, 4), (1152, 1), (1158, 1), (1164, 5), (1216, 2), (1222, 5),
     (1536, 63),
     (2048, 1), (2050, 46), (2064, 1), (2066, 46), (2067, 46), (2080, 2), (2082, 100),
     (2096, 3), (2098, 102),
     (2560, 2), (2562, 46), (2576, 1), (2578, 46), (2579, 46)])

/-- The run stopped with the diagnostic `e`. -/
def failsWith {α : Type} (r : Except Err α) (e : Err) : Bool :=
  match r with
  | .ok _ => false
  | .error e1 => decide (e1 = e)

/-! ## Well-formed layouts and the acceptance invariants of the specification -/

/-- The block where the data blocks start according to the layout:
`bmapstart + ceil(size / 4096)`, computed without wrap-around. -/
def dataStartSpec (img : Image) : Nat := sb_bmapstart img + (sb_size img + (BPB - 1)) / BPB

/-- A well-formed layout: more than one inode, a buffer of `size * 512` bytes, and the inode
table and the bitmap inside the image and before `data_block_start` (the value the program
computes). -/
structure WellFormedLayout (img : Image) : Prop where
  ninodes_gt : 1 < sb_ninodes img
  buffer : img.len = sb_size img * BSIZE
  inodes_before : sb_inodestart img + (sb_ninodes img + (IPB - 1)) / IPB ≤ data_block_start img
  bitmap_before : sb_bmapstart img + (sb_size img + (BPB - 1)) / BPB ≤ data_block_start img
  data_inside : data_block_start img ≤ sb_size img

/-- The acceptance invariants 1-8 of the specification, on the claimable range
`[bmapstart + ceil(size / 4096), size)`. -/
structure Invariants (img : Image) : Prop where
  /-- Invariant 1: every inode's type is unused, file, directory or device. -/
  types_valid : ∀ i, i < sb_ninodes img →
    inodeType img i = 0 ∨ inodeType img i = T_FILE ∨ inodeType img i = T_DIR ∨
      inodeType img i = T_DEV
  /-- Invariant 2: every claimed block lies in the claimable range. -/
  claims_in_range : ∀ b ∈ claimedBlocks img, dataStartSpec img ≤ b ∧ b < sb_size img
  /-- Invariant 2: every claimed block is claimed once. -/
  claims_once : (claimedBlocks img).Nodup
  /-- Invariant 2: every claimed block has its bitmap bit set. -/
  claims_marked : ∀ b ∈ claimedBlocks img, block_is_marked img b ≠ 0
  /-- Invariant 3: every bitmap-set block of the claimable range is claimed. -/
  marked_claimed : ∀ b, dataStartSpec img ≤ b → b < sb_size img → block_is_marked img b ≠ 0 →
    b ∈ claimedBlocks img
  /-- Invariant 4: every directory has exactly one `.`, referencing itself, and exactly one
  `..`. -/
  dot_dotdot : ∀ d, isDir img d →
    countSlots img d (fun e => decide (dotEntry img e)) = 1 ∧
    countSlots img d (fun e => decide (dotdotEntry img e)) = 1 ∧
    ∀ e ∈ dirSlots img d, dotEntry img e → direntInum img e.1 e.2 = d
  /-- Invariant 5: the root is allocated, is a directory and is its own parent. -/
  root : isDir img ROOTINO ∧
    ∀ e ∈ dirSlots img ROOTINO, dotdotEntry img e → direntInum img e.1 e.2 = ROOTINO
  /-- Invariant 6: every allocated non-directory inode is referenced. -/
  referenced : ∀ j, allocated img j → inodeType img j ≠ T_DIR → referencedInode img j
  /-- Invariant 6: the declared link count of a file is its measured link count. -/
  link_counts : ∀ j, allocated img j → inodeType img j = T_FILE →
    inodeNlink img j = measuredLinks img j
  /-- Invariant 7: a directory other than the root is referenced by at most one entry. -/
  dir_links : ∀ d, isDir img d → d ≠ ROOTINO → measuredLinks img d ≤ 1
  /-- Invariant 8: no directory entry references an out-of-range or unallocated inode. -/
  no_dangling : ∀ d, isDir img d → ∀ e ∈ dirSlots img d, direntInum img e.1 e.2 ≠ 0 →
    direntInum img e.1 e.2 < sb_ninodes img ∧ inodeType img (direntInum img e.1 e.2) ≠ 0

/-! ## What a run touches

Companions of the functions above that list, in program order, what each of them touches:
the byte ranges of the image it reads, the block numbers it passes to `block_is_marked` or
uses as an index of `block_used` / `block_type`, and the inode numbers it uses as an index
of one of the six per-inode tables.  The control flow is that of the function itself.  The
superblock fields, which are read over and over (loop conditions, `get_inode`,
`block_is_marked`), are listed once, in `sbLog`. -/

/-- One thing a run touches. -/
inductive Access where
  /-- The bytes `off .. off + width - 1` of the image are read. -/
  | bytes (off width : Nat)
  /-- Block number `b` is passed to `block_is_marked` or indexes `block_used`/`block_type`. -/
  | block (b : Nat)
  /-- Inode number `i` indexes one of the per-inode tables. -/
  | inode (i : Nat)
  deriving DecidableEq, Repr

/-- What a loop touches: what each body that is run touches, in order; the loop ends with the
first body that fails. -/
def forLoopLog {ι σ β : Type} (body : ι → σ → Except Err σ) (log : ι → σ → List β) :
    List ι → σ → List β
  | [], _ => []
  | i :: rest, s =>
    log i s ++
      (match body i s with
       | .error _ => []
       | .ok s1 => forLoopLog body log rest s1)

/-- The superblock fields the program reads: `ninodes`, `size`, `bmapstart`, `inodestart`. -/
def sbLog : List Access :=
  [.bytes (BSIZE + 8) 4, .bytes (BSIZE + 0) 4, .bytes (BSIZE + 24) 4, .bytes (BSIZE + 20) 4]

/-- `block_is_marked`: the query and the bitmap byte it reads. -/
def block_is_marked_log (img : Image) (blocknum : Nat) : List Access :=
  [.block blocknum,
   .bytes (blockOff ((sb_bmapstart img + blocknum / BPB) % U32) + blocknum % BPB / 8) 1]

/-- The reference-count loop body: the tables are indexed by `inum`. -/
def refCountBodyLog (inum : Nat) (_ : Unit) : List Access := [.inode inum]

/-- The claim block of `main`: nothing is touched when the range check fails; otherwise
`block_used[addr]` (and `block_type[addr]`), then, for an unclaimed block, the bitmap. -/
def claimBlockLog (img : Image) (addr : Nat) (t : Tables) : List Access :=
  if addr < data_block_start img ∨ addr ≥ sb_size img then []
  else .block addr :: (if t.block_used addr ≠ 0 then [] else block_is_marked_log img addr)

/-- Body of the direct loop: `dip->addrs[i]`, then the claim. -/
def scanDirectLog (img : Image) (inum i : Nat) (t : Tables) : List Access :=
  .bytes (get_inode img inum + 12 + 4 * i) 4 ::
    (if inodeAddr img inum i ≠ 0 then claimBlockLog img (inodeAddr img inum i) t else [])

/-- Body of the loop over the indirect block: `indirect_block[i]`, then the claim. -/
def scanIndirectEntryLog (img : Image) (indirect_addr i : Nat) (t : Tables) : List Access :=
  .bytes (blockOff indirect_addr + 4 * i) 4 ::
    (if indirectEntry img indirect_addr i ≠ 0 then
      claimBlockLog img (indirectEntry img indirect_addr i) t else [])

/-- The indirect slot: `dip->addrs[NDIRECT]`, its claim, then the entries of the block. -/
def scanIndirectLog (img : Image) (inum : Nat) (t : Tables) : List Access :=
  .bytes (get_inode img inum + 12 + 4 * NDIRECT) 4 ::
    (if inodeAddr img inum NDIRECT ≠ 0 then
      claimBlockLog img (inodeAddr img inum NDIRECT) t ++
        (match claimBlock img INDIRECT (inodeAddr img inum NDIRECT) t with
         | .error _ => []
         | .ok t1 =>
           forLoopLog (scanIndirectEntry img (inodeAddr img inum NDIRECT))
             (scanIndirectEntryLog img (inodeAddr img inum NDIRECT)) (List.range NINDIRECT) t1)
    else [])

/-- Body of the scanner loop: `dip->type`; for an allocated inode the tables at `inum`,
`dip->nlink`, the direct slots and the indirect slot. -/
def scanInodeLog (img : Image) (inum : Nat) (t : Tables) : List Access :=
  .bytes (get_inode img inum + 0) 2 ::
    (if inodeType img inum ≠ 0 ∧ inodeType img inum ≠ T_FILE ∧ inodeType img inum ≠ T_DIR ∧
        inodeType img inum ≠ T_DEV then []
     else if inodeType img inum ≠ 0 then
       .inode inum :: .bytes (get_inode img inum + 6) 2 ::
         (forLoopLog (scanDirect img inum) (scanDirectLog img inum) (List.range NDIRECT)
            (markInode img inum t) ++
          (match forLoop (scanDirect img inum) (List.range NDIRECT) (markInode img inum t) with
           | .error _ => []
           | .ok t1 => scanIndirectLog img inum t1))
     else [])

/-- The positions `strncmp(a + k, b + k, n)` reads of its first argument. -/
def strncmpLog (a b : Nat → Nat) : Nat → Nat → List Nat
  | _, 0 => []
  | k, n + 1 =>
    k :: (if a k ≠ b k then [] else if a k = 0 then [] else strncmpLog a b (k + 1) n)

/-- Body of the loop of `process_directory_block`: `de[i].inum`; for a non-free entry the
name bytes the two `strncmp` calls read, `inode_parent[dir_inum]` for `..`, and the tables at
the referenced inode once it is known to be below `num_inodes`. -/
def direntStepLog (img : Image) (addr dir_inum num_inodes i : Nat) (_ : WalkState) :
    List Access :=
  .bytes (direntOff addr i + 0) 2 ::
    (if direntInum img addr i = 0 then []
     else
       (strncmpLog (direntName img addr i) strDot 0 DIRSIZ).map
           (fun k => Access.bytes (direntOff addr i + 2 + k) 1) ++
       (if isDot img addr i then
          (if direntInum img addr i ≠ dir_inum then []
           else if direntInum img addr i ≥ num_inodes then []
           else [.inode (direntInum img addr i)])
        else
          (strncmpLog (direntName img addr i) strDotDot 0 DIRSIZ).map
              (fun k => Access.bytes (direntOff addr i + 2 + k) 1) ++
          (if isDotDot img addr i then [.inode dir_inum] else []) ++
          (if direntInum img addr i ≥ num_inodes then []
           else [.inode (direntInum img addr i)])))

/-- `process_directory_block`. -/
def process_directory_block_log (img : Image) (addr dir_inum num_inodes : Nat)
    (s : WalkState) : List Access :=
  forLoopLog (direntStep img addr dir_inum num_inodes)
    (direntStepLog img addr dir_inum num_inodes) (List.range (BSIZE / DIRENT_SIZE)) s

/-- Body of the direct loop of the walk. -/
def walkDirectLog (img : Image) (inum i : Nat) (s : WalkState) : List Access :=
  .bytes (get_inode img inum + 12 + 4 * i) 4 ::
    (if inodeAddr img inum i ≠ 0 then
      process_directory_block_log img (inodeAddr img inum i) inum (sb_ninodes img) s else [])

/-- Body of the loop over the indirect block of the walk. -/
def walkIndirectEntryLog (img : Image) (inum indirect_addr i : Nat) (s : WalkState) :
    List Access :=
  .bytes (blockOff indirect_addr + 4 * i) 4 ::
    (if indirectEntry img indirect_addr i ≠ 0 then
      process_directory_block_log img (indirectEntry img indirect_addr i) inum
        (sb_ninodes img) s
     else [])

/-- All the blocks of directory `inum`. -/
def walkBlocksLog (img : Image) (inum : Nat) (t : Tables) : List Access :=
  forLoopLog (walkDirect img inum) (walkDirectLog img inum) (List.range NDIRECT)
      { dot_found := 0, dotdot_found := 0, t := t } ++
    (match forLoop (walkDirect img inum) (List.range NDIRECT)
        { dot_found := 0, dotdot_found := 0, t := t } with
     | .error _ => []
     | .ok s1 =>
       .bytes (get_inode img inum + 12 + 4 * NDIRECT) 4 ::
         (if inodeAddr img inum NDIRECT ≠ 0 then
           forLoopLog (walkIndirectEntry img inum (inodeAddr img inum NDIRECT))
             (walkIndirectEntryLog img inum (inodeAddr img inum NDIRECT))
             (List.range NINDIRECT) s1
          else []))

/-- Body of the walk loop: the tables at `inum`, then the blocks of a directory. -/
def walkInodeLog (img : Image) (inum : Nat) (t : Tables) : List Access :=
  .inode inum ::
    (if t.inode_used inum ≠ 0 ∧ t.inode_type inum = T_DIR then walkBlocksLog img inum t
     else [])

/-- The three bitmap sweeps: `block_is_marked` and `block_used` at every block number of the
range; the second sweep queries the bitmap only for the blocks marked used. -/
def bitmapSweepsLog (img : Image) (t : Tables) : List Access :=
  forLoopLog (sweepMarkedBody img t) (fun b _ => block_is_marked_log img b) (sweepRange img) () ++
    (match forLoop (sweepMarkedBody img t) (sweepRange img) () with
     | .error _ => []
     | .ok _ =>
       forLoopLog (sweepUsedBody img t)
           (fun b _ => .block b :: (if t.block_used b ≠ 0 then block_is_marked_log img b else []))
           (sweepRange img) () ++
         (match forLoop (sweepUsedBody img t) (sweepRange img) () with
          | .error _ => []
          | .ok _ =>
            forLoopLog (sweepUsedBody img t) (fun b _ => block_is_marked_log img b)
              (sweepRange img) ()))

/-- Everything after the scanner. -/
def afterScanLog (img : Image) (t : Tables) : List Access :=
  .inode ROOTINO ::
    (if t.inode_used ROOTINO = 0 then []
     else
       forLoopLog (walkInode img) (walkInodeLog img) (List.range (sb_ninodes img)) t ++
         (match walkInodes img t with
          | .error _ => []
          | .ok t1 =>
            forLoopLog (orphanBody t1) refCountBodyLog (inumsFrom1 img) () ++
              (match orphanCheck img t1 with
               | .error _ => []
               | .ok _ =>
                 forLoopLog (refCountBody t1) refCountBodyLog (inumsFrom1 img) () ++
                   (match refCountCheck img t1 with
                    | .error _ => []
                    | .ok _ => bitmapSweepsLog img t1))))

/-- Everything `main` touches on `img`. -/
def mainLog (img : Image) : List Access :=
  sbLog ++ forLoopLog (refCountBody initTables) refCountBodyLog (inumsFrom1 img) () ++
    (match refCountCheck img initTables with
     | .error _ => []
     | .ok _ =>
       forLoopLog (scanInode img) (scanInodeLog img) (List.range (sb_ninodes img)) initTables ++
         (match scanInodes img initTables with
          | .error _ => []
          | .ok t => afterScanLog img t))

/-- Where an access comes from: a byte range lies in the superblock, in the record of an inode
below `ninodes`, is the bitmap byte of a block of the claimable range, or lies in a block of
the claimable range; a block number lies in the claimable range; an inode number is below
`ninodes` or is `ROOTINO`. -/
def Origin (img : Image) : Access → Prop
  | .bytes off w =>
    (BSIZE ≤ off ∧ off + w ≤ BSIZE + 28) ∨
    (∃ inum, inum < sb_ninodes img ∧ get_inode img inum ≤ off ∧
      off + w ≤ get_inode img inum + DINODE_SIZE) ∨
    (∃ blk, data_block_start img ≤ blk ∧ blk < sb_size img ∧
      off = blockOff ((sb_bmapstart img + blk / BPB) % U32) + blk % BPB / 8 ∧ w = 1) ∨
    (∃ b, data_block_start img ≤ b ∧ b < sb_size img ∧ blockOff b ≤ off ∧
      off + w ≤ blockOff b + BSIZE)
  | .block b => data_block_start img ≤ b ∧ b < sb_size img
  | .inode i => i < sb_ninodes img ∨ i = ROOTINO

/-- An 8-block buffer whose superblock says 8 blocks and 4 inodes but puts the inode table
at block 1000. -/
def imgFarInodes : Image where
  len := 4096
  mem := memOf [(512, 8), (520, 4), (532, 232), (533, 3), (536, 3)]

/-! ## The generator's encoders (`mkfs`, lines 491-507) and the checker without its first pass -/

/-- Bytes `a[0]`, `a[1]` of the value returned by the `xshort` of `mkfs` on `x`; storing a
wider value into a `uchar` keeps its low eight bits. -/
def Mkfs.xshort (x : Nat) : Nat → Nat
  | 0 => x % 256
  | 1 => (x >>> 8) % 256
  | _ => 0

/-- Bytes `a[0] .. a[3]` of the value returned by the `xint` of `mkfs` on `x`. -/
def Mkfs.xint (x : Nat) : Nat → Nat
  | 0 => x % 256
  | 1 => (x >>> 8) % 256
  | 2 => (x >>> 16) % 256
  | 3 => (x >>> 24) % 256
  | _ => 0

/-- The program `main` with the loop of lines 85-107 removed: the scanner runs first. -/
def mainWithoutEarlyPass (img : Image) : Except Err Unit :=
  match scanInodes img initTables with
  | .error e => .error e
  | .ok t => afterScan img t

/-- The image `imgRootOnly` with the bitmap bit of block 4, the root directory's block,
cleared. -/
def imgClearBit : Image where
  len := 4096
  mem := memOf (sbBytes ++
    [(1088, 1), (1094, 1), (1100, 4), (1536, 15),
     (2048, 1), (2050, 46), (2064, 1), (2066, 46), (2067, 46)])

/-- The access is in bounds: a byte range lies inside the buffer, a block number is an index
of the per-block tables, an inode number is an index of the per-inode tables. -/
def Access.inBounds (img : Image) : Access → Prop
  | .bytes off w => off + w ≤ img.len
  | .block b => b < sb_size img
  | .inode i => i < sb_ninodes img

/-- Directory `d` holds a `.` entry naming itself and one more entry names it: an entry of
another directory (a name in its parent, the `..` of a child), or another entry of `d`
(its own `..`, a second `.`). -/
def linkedBesidesDot (img : Image) (d : Nat) : Prop :=
  ∃ e0 ∈ dirSlots img d, dotEntry img e0 ∧ direntInum img e0.1 e0.2 = d ∧
    ∃ d1 e1, isDir img d1 ∧ e1 ∈ dirSlots img d1 ∧ direntInum img e1.1 e1.2 = d ∧
      (d1 ≠ d ∨ e1 ≠ e0)

/-! ## Images that agree where pointers lead -/

/-- The byte of the bitmap that holds the bit of block `blocknum`, where `block_is_marked`
reads it. -/
def bitmapByteOff (img : Image) (blocknum : Nat) : Nat :=
  blockOff ((sb_bmapstart img + blocknum / BPB) % U32) + blocknum % BPB / 8

/-- Two images hold the same bytes in the superblock, in the records of the inodes below
`ninodes`, in the bitmap bytes of the blocks below `size`, and in every block that a non-zero
pointer of an allocated inode names (a direct slot, the indirect slot, an entry of the
indirect block).  Nothing is asked of any other byte. -/
structure AgreeWhereReached (img1 img2 : Image) : Prop where
  superblock : ∀ off, BSIZE ≤ off → off < BSIZE + 28 → img1.byte off = img2.byte off
  inodes : ∀ i k, i < sb_ninodes img1 → k < DINODE_SIZE →
    img1.byte (get_inode img1 i + k) = img2.byte (get_inode img1 i + k)
  bitmap : ∀ b, b < sb_size img1 →
    img1.byte (bitmapByteOff img1 b) = img2.byte (bitmapByteOff img1 b)
  blocks : ∀ b ∈ claimedBlocks img1, ∀ k, k < BSIZE →
    img1.byte (blockOff b + k) = img2.byte (blockOff b + k)

/-- The image `imgGoodFile` with other bytes in block 0, the block a zero pointer would
address, and in block 6, which no pointer names and whose bitmap bit is clear. -/
def imgGoodFileNoise : Image where
  len := 4096
  mem := fun off => if off = 0 then 7 else if off = 3072 then 9 else imgGoodFile.mem off

/-! ## The fixture generator `mkfs` (`src/tools/mkfs copy.c`)

The image file `fsfd` is a byte memory with a length; `rsect` fails (`exit(1)` after a short
`read`) on a sector that is not wholly inside the file, and a failed `assert` ends the run:
such runs return `none`.  Structures in memory (`struct dinode`, `struct dirent`, the sector
buffers) are byte buffers: every field is stored through `xshort`/`xint`, so the bytes in
memory are the bytes on disk.  The input files exist and `read` returns full 512-byte chunks
of them until their end. -/

abbrev Mkfs.NINODES : Nat := 200
abbrev Mkfs.FSSIZE : Nat := 1000
abbrev Mkfs.LOGSIZE : Nat := 30
abbrev Mkfs.MAXFILE : Nat := NDIRECT + NINDIRECT
abbrev Mkfs.nbitmap : Nat := Mkfs.FSSIZE / (BSIZE * 8) + 1
abbrev Mkfs.ninodeblocks : Nat := Mkfs.NINODES / IPB + 1
abbrev Mkfs.nlog : Nat := Mkfs.LOGSIZE
/-- Number of meta blocks (boot, super, log, inode, bitmap), line 98. -/
abbrev Mkfs.nmeta : Nat := 2 + Mkfs.nlog + Mkfs.ninodeblocks + Mkfs.nbitmap
/-- Field `sb.inodestart`, line 106. -/
abbrev Mkfs.inodestart : Nat := 2 + Mkfs.nlog
/-- Field `sb.bmapstart`, line 107. -/
abbrev Mkfs.bmapstart : Nat := 2 + Mkfs.nlog + Mkfs.ninodeblocks

/-- The file `fsfd` and the globals `freeinode`, `freeblock`. -/
structure Mkfs.State where
  disk : Nat → Nat
  fsize : Nat
  freeinode : Nat
  freeblock : Nat

/-- A buffer with bytes `off .. off + n - 1` replaced by `src 0 .. src (n - 1)`
(`memmove(buf + off, src, n)`, or the assignment of a field). -/
def Mkfs.store (buf : Nat → Nat) (off n : Nat) (src : Nat → Nat) : Nat → Nat :=
  fun k => if off ≤ k ∧ k < off + n then src (k - off) else buf k

/-- A zeroed buffer (`bzero`, `memset(buf, 0, ...)`, the global `zeroes`). -/
def Mkfs.zeroes : Nat → Nat := fun _ => 0

/-- The value `xint(field)` of a `uint` field stored at `off` of a buffer. -/
def Mkfs.load32 (buf : Nat → Nat) (off : Nat) : Nat :=
  Xcheck.xint (buf off % 256) (buf (off + 1) % 256) (buf (off + 2) % 256) (buf (off + 3) % 256)

/-- `wsect`: sector `sec` of the file is overwritten with `buf`. -/
def Mkfs.wsect (sec : Nat) (buf : Nat → Nat) (s : Mkfs.State) : Mkfs.State :=
  { s with disk := Mkfs.store s.disk (blockOff sec) BSIZE buf,
           fsize := max s.fsize (blockOff sec + BSIZE) }

/-- `rsect`: the bytes of sector `sec`; the run ends when the file is too short. -/
def Mkfs.rsect (sec : Nat) (s : Mkfs.State) : Option (Nat → Nat) :=
  if blockOff sec + BSIZE ≤ s.fsize then some (fun k => s.disk (blockOff sec + k)) else none

/-- The macro `IBLOCK(i, sb)` with the `sb` of `main`. -/
def Mkfs.IBLOCK (inum : Nat) : Nat := (inum / IPB + Mkfs.inodestart) % U32

/-- `winode`: the record of inode `inum` is overwritten with `ip`. -/
def Mkfs.winode (inum : Nat) (ip : Nat → Nat) (s : Mkfs.State) : Option Mkfs.State :=
  match Mkfs.rsect (Mkfs.IBLOCK inum) s with
  | none => none
  | some buf =>
    some (Mkfs.wsect (Mkfs.IBLOCK inum) (Mkfs.store buf ((inum % IPB) * DINODE_SIZE) DINODE_SIZE ip) s)

/-- `rinode`: the record of inode `inum`. -/
def Mkfs.rinode (inum : Nat) (s : Mkfs.State) : Option (Nat → Nat) :=
  match Mkfs.rsect (Mkfs.IBLOCK inum) s with
  | none => none
  | some buf => some (fun k => buf ((inum % IPB) * DINODE_SIZE + k))

/-- `ialloc`: the next inode number, its record zeroed but for `type` and `nlink = 1`. -/
def Mkfs.ialloc (type : Nat) (s : Mkfs.State) : Option (Nat × Mkfs.State) :=
  let inum := s.freeinode
  let s1 := { s with freeinode := (s.freeinode + 1) % U32 }
  let din := Mkfs.store (Mkfs.store (Mkfs.store Mkfs.zeroes 0 2 (Mkfs.xshort type))
    6 2 (Mkfs.xshort 1)) 8 4 (Mkfs.xint 0)
  match Mkfs.winode inum din s1 with
  | none => none
  | some s2 => some (inum, s2)

/-- Lines 442-457 of `iappend`: the block holding file block `fbn` of the inode whose record
in memory is `din`, allocated from `freeblock` when its slot is zero (for `fbn >= NDIRECT`
through the indirect block, itself allocated when its slot is zero). -/
def Mkfs.locate (fbn : Nat) (din : Nat → Nat) (s : Mkfs.State) :
    Option ((Nat → Nat) × Nat × Mkfs.State) :=
  if fbn < NDIRECT then
    let fresh := Mkfs.load32 din (12 + 4 * fbn) = 0
    let din1 := if fresh then Mkfs.store din (12 + 4 * fbn) 4 (Mkfs.xint s.freeblock) else din
    let s1 := if fresh then { s with freeblock := (s.freeblock + 1) % U32 } else s
    some (din1, Mkfs.load32 din1 (12 + 4 * fbn), s1)
  else
    let fresh := Mkfs.load32 din (12 + 4 * NDIRECT) = 0
    let din1 :=
      if fresh then Mkfs.store din (12 + 4 * NDIRECT) 4 (Mkfs.xint s.freeblock) else din
    let s1 := if fresh then { s with freeblock := (s.freeblock + 1) % U32 } else s
    match Mkfs.rsect (Mkfs.load32 din1 (12 + 4 * NDIRECT)) s1 with
    | none => none
    | some indirect =>
      if Mkfs.load32 indirect (4 * (fbn - NDIRECT)) = 0 then
        let indirect1 := Mkfs.store indirect (4 * (fbn - NDIRECT)) 4 (Mkfs.xint s1.freeblock)
        let s2 := Mkfs.wsect (Mkfs.load32 din1 (12 + 4 * NDIRECT)) indirect1
          { s1 with freeblock := (s1.freeblock + 1) % U32 }
        some (din1, Mkfs.load32 indirect1 (4 * (fbn - NDIRECT)), s2)
      else some (din1, Mkfs.load32 indirect (4 * (fbn - NDIRECT)), s1)

/-- The loop of `iappend` (lines 438-466): `n` bytes `p pos, p (pos + 1), ...` are still to be
written at file offset `off` of the inode whose record in memory is `din`.  Every round
writes at least one byte, so `fuel = n` rounds are enough. -/
def Mkfs.iappendLoop : (fuel : Nat) → (p : Nat → Nat) → (pos n off : Nat) → (din : Nat → Nat) →
    Mkfs.State → Option ((Nat → Nat) × Nat × Mkfs.State)
  | 0, _, _, _, off, din, s => some (din, off, s)
  | fuel + 1, p, pos, n, off, din, s =>
    if n = 0 then some (din, off, s)
    else
      let fbn := off / BSIZE
      if ¬ fbn < Mkfs.MAXFILE then none
      else
        match Mkfs.locate fbn din s with
        | none => none
        | some (din1, x, s1) =>
          let n1 := min n (BSIZE - off % BSIZE)
          match Mkfs.rsect x s1 with
          | none => none
          | some buf =>
            let s2 := Mkfs.wsect x (Mkfs.store buf (off % BSIZE) n1 (fun k => p (pos + k))) s1
            Mkfs.iappendLoop fuel p (pos + n1) (n - n1) ((off + n1) % U32) din1 s2

/-- `iappend`: `n` bytes of `p` are appended to the content of inode `inum`. -/
def Mkfs.iappend (inum : Nat) (p : Nat → Nat) (n : Nat) (s : Mkfs.State) : Option Mkfs.State :=
  match Mkfs.rinode inum s with
  | none => none
  | some din =>
    match Mkfs.iappendLoop n p 0 n (Mkfs.load32 din 8) din s with
    | none => none
    | some (din1, off, s1) => Mkfs.winode inum (Mkfs.store din1 8 4 (Mkfs.xint off)) s1

/-- The bitmap buffer of `balloc` (lines 483-486): bit `i` is set for `i < BPB`, `i < used`. -/
def Mkfs.ballocBuf (used : Nat) : Nat → Nat :=
  (List.range (min BPB used)).foldl
    (fun buf i => Mkfs.store buf (i / 8) 1 (fun _ => (buf (i / 8) ||| (1 <<< (i % 8))) % 256))
    Mkfs.zeroes

/-- `balloc`: the first `used` blocks are marked in the bitmap (one bitmap block, since
`(FSSIZE + BPB - 1) / BPB = 1`); `assert(used < FSSIZE)`. -/
def Mkfs.balloc (used : Nat) (s : Mkfs.State) : Option Mkfs.State :=
  if ¬ used < Mkfs.FSSIZE then none
  else
    some ((List.range ((Mkfs.FSSIZE + BPB - 1) / BPB)).foldl
      (fun s1 b => Mkfs.wsect ((Mkfs.bmapstart + b) % U32) (Mkfs.ballocBuf (used - b * BPB)) s1) s)
/-- The bytes of a string literal. -/
def Mkfs.bytesOf (s : String) : List Nat := s.toList.map Char.toNat

/-- The characters of the C string held in `l`: those before its first NUL. -/
def Mkfs.cstr (l : List Nat) : List Nat := l.takeWhile (fun c => c ≠ 0)

/-- A `struct dirent` after `bzero(&de, sizeof(de))`, `de.inum = xshort(inum)` and
`strncpy(de.name, name, DIRSIZ)` (or `strcpy` of `"."`, `".."`). -/
def Mkfs.dirent (inum : Nat) (name : List Nat) : Nat → Nat :=
  Mkfs.store (Mkfs.store Mkfs.zeroes 0 2 (Mkfs.xshort inum)) 2 DIRSIZ
    (fun k => (Mkfs.cstr name).getD k 0 % 256)

/-- The loop `while ((cc = read(fd, buf, sizeof(buf))) > 0) iappend(inum, buf, cc)` over the
remaining content `rest` of the input file; `fuel = rest.length` rounds are enough. -/
def Mkfs.copyFile (inum : Nat) : (fuel : Nat) → (rest : List Nat) → Mkfs.State →
    Option Mkfs.State
  | 0, _, s => some s
  | fuel + 1, rest, s =>
    if rest = [] then some s
    else
      match Mkfs.iappend inum (fun k => rest.getD k 0 % 256) (min BSIZE rest.length) s with
      | none => none
      | some s1 => Mkfs.copyFile inum fuel (rest.drop BSIZE) s1

/-- Lines 189-191: `din.addrs[0] = xint(FSSIZE + 1)` in the record of `inum`. -/
def Mkfs.badDirect (inum : Nat) (s : Mkfs.State) : Option Mkfs.State :=
  match Mkfs.rinode inum s with
  | none => none
  | some din => Mkfs.winode inum (Mkfs.store din 12 4 (Mkfs.xint (Mkfs.FSSIZE + 1))) s

/-- Lines 197-206: a second inode whose direct slot 0 is `freeblock - 1`, named `dup_file`
in the root directory. -/
def Mkfs.dupDirect (rootino : Nat) (s : Mkfs.State) : Option Mkfs.State :=
  match Mkfs.ialloc T_FILE s with
  | none => none
  | some (inum2, s1) =>
    match Mkfs.rinode inum2 s1 with
    | none => none
    | some din =>
      match Mkfs.winode inum2
          (Mkfs.store (Mkfs.store din 6 2 (Mkfs.xshort 1)) 12 4
            (Mkfs.xint ((s1.freeblock + U32 - 1) % U32))) s1 with
      | none => none
      | some s2 =>
        Mkfs.iappend rootino (Mkfs.dirent inum2 (Mkfs.bytesOf "dup_file")) DIRENT_SIZE s2

/-- Lines 213-215: `din.nlink = xshort(2)` in the record of `inum`. -/
def Mkfs.setNlink (inum nlink : Nat) (s : Mkfs.State) : Option Mkfs.State :=
  match Mkfs.rinode inum s with
  | none => none
  | some din => Mkfs.winode inum (Mkfs.store din 6 2 (Mkfs.xshort nlink)) s

/-- Body of the loop of lines 154-217 for one input file `(argv[i], content)`. -/
def Mkfs.addFile (create_error rootino : Nat) (file : List Nat × List Nat) (s : Mkfs.State) :
    Option Mkfs.State :=
  let name := if file.1.head? = some 95 then file.1.tail else file.1
  match Mkfs.ialloc T_FILE s with
  | none => none
  | some (inum, s1) =>
    match (if create_error ≠ 10 then
        Mkfs.iappend rootino (Mkfs.dirent inum name) DIRENT_SIZE s1 else some s1) with
    | none => none
    | some s2 =>
      match Mkfs.rinode inum s2 with
      | none => none
      | some din =>
        let din1 := Mkfs.store din 6 2 (Mkfs.xshort 1)
        let din2 := if create_error = 1 then Mkfs.store din1 0 2 (Mkfs.xshort 99) else din1
        match Mkfs.winode inum din2 s2 with
        | none => none
        | some s3 =>
          match Mkfs.copyFile inum file.2.length file.2 s3 with
          | none => none
          | some s4 =>
            match (if create_error = 2 then Mkfs.badDirect inum s4 else some s4) with
            | none => none
            | some s5 =>
              match (if create_error = 8 then Mkfs.dupDirect rootino s5 else some s5) with
              | none => none
              | some s6 => if create_error = 12 then Mkfs.setNlink inum 2 s6 else some s6

/-- The loop of lines 154-217 over the input files. -/
def Mkfs.addFiles (create_error rootino : Nat) :
    List (List Nat × List Nat) → Mkfs.State → Option Mkfs.State
  | [], s => some s
  | file :: rest, s =>
    match Mkfs.addFile create_error rootino file s with
    | none => none
    | some s1 => Mkfs.addFiles create_error rootino rest s1

/-- Lines 219-234: an inode whose indirect slot is `FSSIZE + 1`, named `bad_indirect`. -/
def Mkfs.badIndirect (rootino : Nat) (s : Mkfs.State) : Option Mkfs.State :=
  match Mkfs.ialloc T_FILE s with
  | none => none
  | some (inum, s1) =>
    match Mkfs.iappend rootino (Mkfs.dirent inum (Mkfs.bytesOf "bad_indirect")) DIRENT_SIZE s1 with
    | none => none
    | some s2 =>
      match Mkfs.rinode inum s2 with
      | none => none
      | some din =>
        Mkfs.winode inum
          (Mkfs.store (Mkfs.store din 6 2 (Mkfs.xshort 1)) (12 + 4 * NDIRECT) 4
            (Mkfs.xint (Mkfs.FSSIZE + 1))) s2

/-- The loop of lines 247-249: `count` zeroed blocks are appended to inode `inum`. -/
def Mkfs.appendZeroBlocks (inum : Nat) : (count : Nat) → Mkfs.State → Option Mkfs.State
  | 0, s => some s
  | count + 1, s =>
    match Mkfs.iappend inum Mkfs.zeroes BSIZE s with
    | none => none
    | some s1 => Mkfs.appendZeroBlocks inum count s1

/-- Lines 236-265: an inode of 13 blocks, named `dup_indirect`, and a second inode,
named `dup_indirect2`, whose indirect slot is the indirect block of the first. -/
def Mkfs.dupIndirect (rootino : Nat) (s : Mkfs.State) : Option Mkfs.State :=
  match Mkfs.ialloc T_FILE s with
  | none => none
  | some (inum, s1) =>
    match Mkfs.iappend rootino (Mkfs.dirent inum (Mkfs.bytesOf "dup_indirect")) DIRENT_SIZE s1 with
    | none => none
    | some s2 =>
      match Mkfs.appendZeroBlocks inum (NDIRECT + 1) s2 with
      | none => none
      | some s3 =>
        match Mkfs.rinode inum s3 with
        | none => none
        | some din =>
          let indir_block := Mkfs.load32 din (12 + 4 * NDIRECT)
          match Mkfs.ialloc T_FILE s3 with
          | none => none
          | some (inum2, s4) =>
            match Mkfs.iappend rootino (Mkfs.dirent inum2 (Mkfs.bytesOf "dup_indirect2"))
                DIRENT_SIZE s4 with
            | none => none
            | some s5 =>
              match Mkfs.rinode inum2 s5 with
              | none => none
              | some din2 =>
                Mkfs.winode inum2
                  (Mkfs.store (Mkfs.store din2 6 2 (Mkfs.xshort 1)) (12 + 4 * NDIRECT) 4
                    (Mkfs.xint indir_block)) s5

/-- Lines 267-272: the size of the root directory is rounded up to the next multiple of
`BSIZE`. -/
def Mkfs.fixRootSize (rootino : Nat) (s : Mkfs.State) : Option Mkfs.State :=
  match Mkfs.rinode rootino s with
  | none => none
  | some din =>
    let off := ((Mkfs.load32 din 8 / BSIZE + 1) * BSIZE) % U32
    Mkfs.winode rootino (Mkfs.store din 8 4 (Mkfs.xint off)) s

/-- Lines 275-302 and, again, 330-357: an inode whose direct slot 0 is the next free block,
named `file_with_free_block`, and the bitmap bit of that block cleared. -/
def Mkfs.freeAddrInUse (rootino : Nat) (s : Mkfs.State) : Option Mkfs.State :=
  match Mkfs.ialloc T_FILE s with
  | none => none
  | some (inum, s1) =>
    match Mkfs.rinode inum s1 with
    | none => none
    | some din =>
      let din1 := Mkfs.store (Mkfs.store din 12 4 (Mkfs.xint s1.freeblock)) 8 4 (Mkfs.xint BSIZE)
      let s2 := { s1 with freeblock := (s1.freeblock + 1) % U32 }
      match Mkfs.winode inum din1 s2 with
      | none => none
      | some s3 =>
        match Mkfs.iappend rootino (Mkfs.dirent inum (Mkfs.bytesOf "file_with_free_block"))
            DIRENT_SIZE s3 with
        | none => none
        | some s4 =>
          let addr := Mkfs.load32 din1 12
          let bmap_block := (Mkfs.bmapstart + addr / BPB) % U32
          match Mkfs.rsect bmap_block s4 with
          | none => none
          | some bitmap_buf =>
            let block_offset := addr % BPB
            some (Mkfs.wsect bmap_block
              (Mkfs.store bitmap_buf (block_offset / 8) 1
                (fun _ => bitmap_buf (block_offset / 8) % 256 &&&
                  (255 ^^^ (1 <<< (block_offset % 8))))) s4)

/-- Lines 315-326: the bitmap bit of the next free block is set. -/
def Mkfs.bmapNotInUse (s : Mkfs.State) : Option Mkfs.State :=
  let fake_block := s.freeblock
  let bmap_block := (Mkfs.bmapstart + fake_block / BPB) % U32
  match Mkfs.rsect bmap_block s with
  | none => none
  | some bitmap_buf =>
    let block_offset := fake_block % BPB
    some (Mkfs.wsect bmap_block
      (Mkfs.store bitmap_buf (block_offset / 8) 1
        (fun _ => (bitmap_buf (block_offset / 8) % 256 ||| (1 <<< (block_offset % 8))) % 256)) s)

/-- The `create_error` value selected by the last argument (lines 55-86); `none` is the
`exit(1)` on an unknown `error_` name. -/
def Mkfs.create_error_of (arg : String) : Option Nat :=
  if arg = "error_bad_inode_type" then some 1
  else if arg = "error_bad_direct_addr" then some 2
  else if arg = "error_bad_indirect_addr" then some 3
  else if arg = "error_missing_root" then some 4
  else if arg = "error_dir_not_formatted" then some 5
  else if arg = "error_free_addr_in_use" then some 6
  else if arg = "error_bmap_not_in_use" then some 7
  else if arg = "error_duplicate_direct_addr" then some 8
  else if arg = "error_duplicate_indirect_addr" then some 9
  else if arg = "error_inode_not_found" then some 10
  else if arg = "error_inode_referred_not_used" then some 11
  else if arg = "error_bad_ref_count" then some 12
  else none

/-- The superblock `sb` of lines 101-107, as the 28 bytes `memmove` copies into the sector
buffer. -/
def Mkfs.sbBuf : Nat → Nat :=
  Mkfs.store (Mkfs.store (Mkfs.store (Mkfs.store (Mkfs.store (Mkfs.store (Mkfs.store Mkfs.zeroes
    0 4 (Mkfs.xint Mkfs.FSSIZE))
    4 4 (Mkfs.xint (Mkfs.FSSIZE - Mkfs.nmeta)))
    8 4 (Mkfs.xint Mkfs.NINODES))
    12 4 (Mkfs.xint Mkfs.nlog))
    16 4 (Mkfs.xint 2))
    20 4 (Mkfs.xint Mkfs.inodestart))
    24 4 (Mkfs.xint Mkfs.bmapstart)

/-- Lines 91-120: the file is created empty, `freeblock = nmeta`, every sector is zeroed and
the superblock is written to sector 1. -/
def Mkfs.format : Mkfs.State :=
  Mkfs.wsect 1 Mkfs.sbBuf
    ((List.range Mkfs.FSSIZE).foldl (fun s i => Mkfs.wsect i Mkfs.zeroes s)
      { disk := fun _ => 0, fsize := 0, freeinode := 1, freeblock := Mkfs.nmeta })

/-- Lines 130-151: the root directory with `.` and `..` (left out when `create_error` is 5)
and `nlink = 2`; `assert(rootino == ROOTINO)`. -/
def Mkfs.makeRoot (create_error : Nat) (s : Mkfs.State) : Option (Nat × Mkfs.State) :=
  match Mkfs.ialloc T_DIR s with
  | none => none
  | some (rootino, s1) =>
    if rootino ≠ ROOTINO then none
    else
      match (if create_error ≠ 5 then
          Mkfs.iappend rootino (Mkfs.dirent rootino (Mkfs.bytesOf ".")) DIRENT_SIZE s1
        else some s1) with
      | none => none
      | some s2 =>
        match (if create_error ≠ 5 then
            Mkfs.iappend rootino (Mkfs.dirent rootino (Mkfs.bytesOf "..")) DIRENT_SIZE s2
          else some s2) with
        | none => none
        | some s3 =>
          match Mkfs.setNlink rootino 2 s3 with
          | none => none
          | some s4 => some (rootino, s4)

/-- Lines 219-357: what follows the loop over the input files. -/
def Mkfs.finish (create_error rootino : Nat) (s : Mkfs.State) : Option Mkfs.State :=
  match (if create_error = 3 then Mkfs.badIndirect rootino s else some s) with
  | none => none
  | some s1 =>
    match (if create_error = 9 then Mkfs.dupIndirect rootino s1 else some s1) with
    | none => none
    | some s2 =>
      match Mkfs.fixRootSize rootino s2 with
      | none => none
      | some s3 =>
        match (if create_error = 6 then Mkfs.freeAddrInUse rootino s3 else some s3) with
        | none => none
        | some s4 =>
          match (if create_error = 11 then
              Mkfs.iappend rootino
                (Mkfs.dirent ((s4.freeinode + 1) % U32) (Mkfs.bytesOf "bad_inode_ref"))
                DIRENT_SIZE s4
            else some s4) with
          | none => none
          | some s5 =>
            match Mkfs.balloc s5.freeblock s5 with
            | none => none
            | some s6 =>
              match (if create_error = 7 then Mkfs.bmapNotInUse s6 else some s6) with
              | none => none
              | some s7 => if create_error = 6 then Mkfs.freeAddrInUse rootino s7 else some s7

/-- The image file a state holds. -/
def Mkfs.State.image (s : Mkfs.State) : Image := { len := s.fsize, mem := s.disk }

/-- Lines 122-366 of `main`, on the formatted file `s0`. -/
def Mkfs.mainFrom (s0 : Mkfs.State) (files : List (List Nat × List Nat)) (create_error : Nat) :
    Option Image :=
  if create_error = 4 then
    match Mkfs.balloc s0.freeblock s0 with
    | none => none
    | some s => some s.image
  else
    match Mkfs.makeRoot create_error s0 with
    | none => none
    | some (rootino, s1) =>
      match Mkfs.addFiles create_error rootino files s1 with
      | none => none
      | some s2 =>
        match Mkfs.finish create_error rootino s2 with
        | none => none
        | some s3 => some s3.image

/-- The program `main` of `mkfs` on the input files `files` (name and content of each) with
the given `create_error` (0 when no error type is passed): the image it leaves in the file, or
`none` when the run ends in `exit(1)` or a failed `assert`. -/
def Mkfs.main (files : List (List Nat × List Nat)) (create_error : Nat) : Option Image :=
  Mkfs.mainFrom Mkfs.format files create_error

/-- The formatted file in closed form: 1000 zeroed sectors but for the superblock. -/
def Mkfs.formatted : Mkfs.State :=
  { disk := Mkfs.store (fun _ => 0) BSIZE BSIZE Mkfs.sbBuf,
    fsize := Mkfs.FSSIZE * BSIZE, freeinode := 1, freeblock := Mkfs.nmeta }

/-- The outcome of xcheck on the image `mkfs` writes, when it writes one. -/
def checkGenerated (files : List (List Nat × List Nat)) (create_error : Nat) :
    Option (Except Err Unit) :=
  (Mkfs.main files create_error).map main

/-- The bitmap buffer of `balloc` in closed form: bytes wholly below `used` are 255, the
byte holding bit `used` has its low bits set. -/
def Mkfs.ballocBytes (used : Nat) : Nat → Nat :=
  fun k =>
    if 8 * k + 8 ≤ min BPB used then 255
    else if 8 * k < min BPB used then 2 ^ (min BPB used - 8 * k) - 1
    else 0

/-- The outcome of xcheck on the image `mkfs` writes when its last argument is the error
type `arg`. -/
def checkMode (files : List (List Nat × List Nat)) (arg : String) : Option (Except Err Unit) :=
  (Mkfs.create_error_of arg).bind (checkGenerated files)

/-- One input file, named `a`, holding three bytes. -/
def Mkfs.oneSmallFile : List (List Nat × List Nat) := [([97], [1, 2, 3])]

/-- One input file, named `a`, of 6145 bytes: twelve blocks and one byte. -/
def Mkfs.oneBigFile : List (List Nat × List Nat) := [([97], List.replicate 6145 7)]

/-- One input file given as `_.`: `mkfs` drops the leading underscore, so its name on the
image is `.`. -/
def Mkfs.oneDotFile : List (List Nat × List Nat) := [([95, 46], [])]

/-- The image `mkfs` leaves, or an empty image when the run does not complete. -/
def Mkfs.generated (files : List (List Nat × List Nat)) (create_error : Nat) : Image :=
  (Mkfs.main files create_error).getD { len := 0, mem := fun _ => 0 }

/-! ## The generator: what holds of the file between its operations -/

/-- A state whose file has the size of the formatted image. -/
def Mkfs.Sized (s : Mkfs.State) : Prop := s.fsize = 512000

/-- Bytes `off ..` of the file replaced by `src`. -/
def Mkfs.State.put (s : Mkfs.State) (off n : Nat) (src : Nat → Nat) : Mkfs.State :=
  { s with disk := Mkfs.store s.disk off n src }

/-- Byte offset of the record of inode `i` in the image of `mkfs`. -/
def Mkfs.ioff (i : Nat) : Nat := 16384 + 64 * i

/-- A `ushort` field at byte `a` of the file. -/
def Mkfs.rd16 (d : Nat → Nat) (a : Nat) : Nat := Xcheck.xshort (d a % 256) (d (a + 1) % 256)

/-- The block number held at position `j` of inode `i`: direct slot `j < 12`, the indirect
slot `j = 12`, entry `j - 13` of the indirect block (0 when the inode has none). -/
def Mkfs.slotVal (d : Nat → Nat) (i j : Nat) : Nat :=
  if j ≤ 12 then Mkfs.load32 d (Mkfs.ioff i + 12 + 4 * j)
  else if Mkfs.load32 d (Mkfs.ioff i + 60) ≠ 0 then
    Mkfs.load32 d (Mkfs.load32 d (Mkfs.ioff i + 60) * 512 + 4 * (j - 13))
  else 0

/-- What holds of the file between two operations of `mkfs`: the superblock is in place, the
inodes from `freeinode` on and the blocks from `freeblock` on are zero, and the blocks
`59 .. freeblock - 1` are each held at exactly one position of one inode. -/
structure Mkfs.Inv (s : Mkfs.State) : Prop where
  sized : Mkfs.Sized s
  sb : ∀ j, j < 512 → s.disk (512 + j) = Mkfs.sbBuf j
  fi_hi : s.freeinode ≤ 208
  fb_lo : 59 ≤ s.freeblock
  fb_hi : s.freeblock ≤ 1000
  zero_blocks : ∀ a, s.freeblock * 512 ≤ a → a < 512000 → s.disk a = 0
  zero_inodes : ∀ i, (i = 0 ∨ s.freeinode ≤ i) → i < 208 → ∀ j, j < 64 →
    s.disk (Mkfs.ioff i + j) = 0
  val_range : ∀ i j, i < 208 → j < 141 → Mkfs.slotVal s.disk i j ≠ 0 →
    59 ≤ Mkfs.slotVal s.disk i j ∧ Mkfs.slotVal s.disk i j < s.freeblock
  val_inj : ∀ i j i1 j1, i < 208 → j < 141 → i1 < 208 → j1 < 141 →
    Mkfs.slotVal s.disk i j ≠ 0 → Mkfs.slotVal s.disk i j = Mkfs.slotVal s.disk i1 j1 →
    i = i1 ∧ j = j1
  val_cover : ∀ b, 59 ≤ b → b < s.freeblock →
    ∃ i j, i < 208 ∧ j < 141 ∧ Mkfs.slotVal s.disk i j = b

/-- What a change made on behalf of inode `c` leaves alone: the records of the other inodes,
the first four fields of the record of `c`, and the blocks held by the other inodes. -/
structure Mkfs.Keeps (c : Nat) (d d1 : Nat → Nat) : Prop where
  recs : ∀ i, i < 208 → i ≠ c → ∀ k, k < 64 → d1 (Mkfs.ioff i + k) = d (Mkfs.ioff i + k)
  own : ∀ k, k < 8 → d1 (Mkfs.ioff c + k) = d (Mkfs.ioff c + k)
  blocks : ∀ i j, i < 208 → i ≠ c → j < 141 → Mkfs.slotVal d i j ≠ 0 →
    ∀ k, k < 512 → d1 (Mkfs.slotVal d i j * 512 + k) = d (Mkfs.slotVal d i j * 512 + k)

/-- A change of the file made on behalf of inode `c`: the invariant holds afterwards, the
other inodes are left alone and no inode is allocated. -/
structure Mkfs.Step (c : Nat) (s s1 : Mkfs.State) : Prop where
  inv : Mkfs.Inv s1
  keeps : Mkfs.Keeps c s.disk s1.disk
  freeinode : s1.freeinode = s.freeinode
  freeblock : s.freeblock ≤ s1.freeblock

/-- The record `ialloc` writes: `type`, `nlink = 1`, `size = 0`, the rest zero. -/
def Mkfs.freshRecord (type : Nat) : Nat → Nat :=
  Mkfs.store (Mkfs.store (Mkfs.store Mkfs.zeroes 0 2 (Mkfs.xshort type)) 6 2 (Mkfs.xshort 1))
    8 4 (Mkfs.xint 0)

/-- The bytes of entry `q` of a directory holding the entries `ents` (inode number and name):
zero from the end of the list on. -/
def Mkfs.entryAt (ents : List (Nat × List Nat)) (q : Nat) (k : Nat) : Nat :=
  match ents[q]? with
  | none => 0
  | some e => Mkfs.dirent e.1 e.2 k

/-- The root directory holds the entries `ents`: its direct slots are set as far as the
entries reach, and every block it holds is made of the entries followed by zeroes. -/
structure Mkfs.Dir (d : Nat → Nat) (ents : List (Nat × List Nat)) : Prop where
  slots : ∀ j, j < 141 → (Mkfs.slotVal d 1 j ≠ 0 ↔ j * 512 < 16 * ents.length)
  entries : ∀ j t k, j < 12 → t < 32 → k < 16 → Mkfs.slotVal d 1 j ≠ 0 →
    d (Mkfs.slotVal d 1 j * 512 + 16 * t + k) = Mkfs.entryAt ents (32 * j + t) k

/-- The name under which `mkfs` enters the input file `arg`: a leading `_` is dropped. -/
def Mkfs.nameOf (arg : List Nat) : List Nat := if arg.head? = some 95 then arg.tail else arg

/-- Byte `k` of the name field of the entry `mkfs` writes for `name`. -/
def Mkfs.storedName (name : List Nat) (k : Nat) : Nat := (Mkfs.cstr name).getD k 0 % 256

/-- The stored name compares equal neither to `.` nor to `..`. -/
def Mkfs.plainName (name : List Nat) : Prop :=
  strncmp0 (Mkfs.storedName name) strDot 0 DIRSIZ = false ∧
    strncmp0 (Mkfs.storedName name) strDotDot 0 DIRSIZ = false

instance (name : List Nat) : Decidable (Mkfs.plainName name) := by
  unfold Mkfs.plainName; infer_instance

/-- The file as `mkfs` lays it out: the invariant, the root directory with the entries `ents`
(entry `q` names inode `q` from the third on, under a plain name), and one file inode with
`nlink = 1` per entry from the third on. -/
structure Mkfs.Laid (s : Mkfs.State) (ents : List (Nat × List Nat)) : Prop where
  inv : Mkfs.Inv s
  fi : s.freeinode = ents.length
  root_type : Mkfs.rd16 s.disk (Mkfs.ioff 1) = 1
  files : ∀ i, 2 ≤ i → i < s.freeinode →
    Mkfs.rd16 s.disk (Mkfs.ioff i) = 2 ∧ Mkfs.rd16 s.disk (Mkfs.ioff i + 6) = 1
  dir : Mkfs.Dir s.disk ents
  dot : ents[0]? = some (1, Mkfs.bytesOf ".")
  dotdot : ents[1]? = some (1, Mkfs.bytesOf "..")
  rest : ∀ q e, 2 ≤ q → ents[q]? = some e → e.1 = q ∧ Mkfs.plainName e.2

/-- The state of `mkfs` between two input files: the layout above, the size of the root
directory being that of its entries. -/
structure Mkfs.Good (s : Mkfs.State) (ents : List (Nat × List Nat)) : Prop where
  laid : Mkfs.Laid s ents
  size : Mkfs.load32 s.disk (Mkfs.ioff 1 + 8) = 16 * ents.length

/-- The entries of the root directory after `makeRoot`. -/
def Mkfs.dotEntries : List (Nat × List Nat) := [(1, Mkfs.bytesOf "."), (1, Mkfs.bytesOf "..")]

/-- The size `fixRootSize` gives the root directory. -/
def Mkfs.roundedSize (d : Nat → Nat) : Nat :=
  ((Mkfs.load32 d (Mkfs.ioff 1 + 8) / BSIZE + 1) * BSIZE) % U32

/-- 199 input files named `a`, without content. -/
def Mkfs.manyFiles : List (List Nat × List Nat) := List.replicate 199 ([97], [])

/-- One input file given as `_..`: its name on the image is `..`. -/
def Mkfs.oneDotDotFile : List (List Nat × List Nat) := [([95, 46, 46], [])]

/-! ## Runs on a buffer of a given length -/

/-- Root directory with an entry `d` naming inode 3, a directory in block 5 with `.` naming
inode 3 and `..` naming inode 1, and an entry `f` naming inode 2, a file whose `nlink` field
is 5: the file with the wrong link count has the smaller index. -/
def imgBadBeforeMulti : Image where
  len := 4096
  mem := memOf (sbBytes ++
    [(1088, 1), (1094, 1), (1100, 4), (1152, 2), (1158, 5), (1216, 1), (1222, 1), (1228, 5),
     (1536, 63),
     (2048, 1), (2050, 46), (2064, 1), (2066, 46), (2067, 46), (2080, 3), (2082, 100),
     (2096, 2), (2098, 102),
     (2560, 3), (2562, 46), (2576, 1), (2578, 46), (2579, 46)])

end Xcheck

namespace Xcheck

/-! ## Loops -/

@[simp] theorem forLoop_nil {ι σ : Type} (body : ι → σ → Except Err σ) (s : σ) :
    forLoop body [] s = .ok s := rfl

theorem forLoop_cons {ι σ : Type} (body : ι → σ → Except Err σ) (i : ι) (l : List ι) (s : σ) :
    forLoop body (i :: l) s =
      match body i s with
      | .error e => .error e
      | .ok s1 => forLoop body l s1 := rfl

theorem forLoop_cons_ok {ι σ : Type} {body : ι → σ → Except Err σ} {i : ι} {s s1 : σ}
    (h : body i s = .ok s1) (l : List ι) : forLoop body (i :: l) s = forLoop body l s1 := by
  rw [forLoop_cons, h]

theorem forLoop_cons_error {ι σ : Type} {body : ι → σ → Except Err σ} {i : ι} {s : σ} {e : Err}
    (h : body i s = .error e) (l : List ι) : forLoop body (i :: l) s = .error e := by
  rw [forLoop_cons, h]

theorem forLoop_append {ι σ : Type} (body : ι → σ → Except Err σ) (l1 l2 : List ι) (s : σ) :
    forLoop body (l1 ++ l2) s =
      match forLoop body l1 s with
      | .error e => .error e
      | .ok s1 => forLoop body l2 s1 := by
  induction l1 generalizing s with
  | nil => rfl
  | cons i l ih =>
    rw [List.cons_append, forLoop_cons, forLoop_cons]
    cases body i s with
    | error e => rfl
    | ok s1 => exact ih s1

theorem forLoop_append_ok {ι σ : Type} {body : ι → σ → Except Err σ} {l1 : List ι} {s s1 : σ}
    (h : forLoop body l1 s = .ok s1) (l2 : List ι) :
    forLoop body (l1 ++ l2) s = forLoop body l2 s1 := by
  rw [forLoop_append, h]

theorem forLoop_append_error {ι σ : Type} {body : ι → σ → Except Err σ} {l1 : List ι} {s : σ}
    {e : Err} (h : forLoop body l1 s = .error e) (l2 : List ι) :
    forLoop body (l1 ++ l2) s = .error e := by
  rw [forLoop_append, h]

/-- A successful run over `l1 ++ l2` passes through a state after `l1`. -/
theorem forLoop_append_inv {ι σ : Type} {body : ι → σ → Except Err σ} {l1 l2 : List ι}
    {s s2 : σ} (h : forLoop body (l1 ++ l2) s = .ok s2) :
    ∃ s1, forLoop body l1 s = .ok s1 ∧ forLoop body l2 s1 = .ok s2 := by
  rw [forLoop_append] at h
  cases h1 : forLoop body l1 s with
  | error e => rw [h1] at h; cases h
  | ok s1 => rw [h1] at h; exact ⟨s1, rfl, h⟩

/-- A loop whose body is itself a loop is the loop over the concatenated index lists. -/
theorem forLoop_flatMap {ι κ σ : Type} (body : κ → σ → Except Err σ) (f : ι → List κ)
    (l : List ι) (s : σ) :
    forLoop (fun i s1 => forLoop body (f i) s1) l s = forLoop body (l.flatMap f) s := by
  induction l generalizing s with
  | nil => rfl
  | cons i l ih =>
    rw [List.flatMap_cons, forLoop_append, forLoop_cons]
    cases forLoop body (f i) s with
    | error e => rfl
    | ok s1 => exact ih s1

/-- Two bodies that agree on the indices of the list give the same loop. -/
theorem forLoop_congr {ι σ : Type} {b1 b2 : ι → σ → Except Err σ} {l : List ι}
    (h : ∀ i ∈ l, ∀ s, b1 i s = b2 i s) (s : σ) : forLoop b1 l s = forLoop b2 l s := by
  induction l generalizing s with
  | nil => rfl
  | cons i l ih =>
    rw [forLoop_cons, forLoop_cons, h i (List.mem_cons_self _ _)]
    cases b2 i s with
    | error e => rfl
    | ok s1 => exact ih (fun j hj => h j (List.mem_cons_of_mem _ hj)) s1

/-- The shape `if (addr != 0) { ... }` of the slot loops: only non-zero values are acted on. -/
theorem forLoop_nonzero {σ : Type} (f : Nat → Nat) (act : Nat → σ → Except Err σ)
    (l : List Nat) (s : σ) :
    forLoop (fun i s1 => if f i ≠ 0 then act (f i) s1 else .ok s1) l s =
      forLoop act ((l.map f).filter (fun a => a ≠ 0)) s := by
  induction l generalizing s with
  | nil => rfl
  | cons i l ih =>
    rw [forLoop_cons, List.map_cons]
    by_cases h : f i = 0
    · simp only [h, ne_eq, not_true_eq_false, ↓reduceIte]
      rw [List.filter_cons_of_neg (by simp)]
      exact ih s
    · rw [List.filter_cons_of_pos (by simpa using h), forLoop_cons]
      simp only [ne_eq, h, not_false_eq_true, ↓reduceIte]
      cases act (f i) s with
      | error e => rfl
      | ok s1 => exact ih s1

/-- A loop over mapped indices. -/
theorem forLoop_map {ι κ σ : Type} (body : κ → σ → Except Err σ) (g : ι → κ) (l : List ι)
    (s : σ) : forLoop body (l.map g) s = forLoop (fun i s1 => body (g i) s1) l s := by
  induction l generalizing s with
  | nil => rfl
  | cons i l ih =>
    rw [List.map_cons, forLoop_cons, forLoop_cons]
    cases body (g i) s with
    | error e => rfl
    | ok s1 => exact ih s1

/-- Invariant rule: a property kept by every successful step of the body holds at the end,
and a state-independent fact established by each step holds of every index. -/
theorem forLoop_invariant {ι σ : Type} {body : ι → σ → Except Err σ} (Q : σ → Prop)
    (P : ι → Prop) (hstep : ∀ i s s1, Q s → body i s = .ok s1 → P i ∧ Q s1) :
    ∀ (l : List ι) (s s1 : σ), Q s → forLoop body l s = .ok s1 → (∀ i ∈ l, P i) ∧ Q s1 := by
  intro l
  induction l with
  | nil =>
    intro s s1 hq h
    simp only [forLoop_nil, Except.ok.injEq] at h
    subst h
    exact ⟨by simp, hq⟩
  | cons i l ih =>
    intro s s1 hq h
    rw [forLoop_cons] at h
    cases hb : body i s with
    | error e => rw [hb] at h; cases h
    | ok s2 =>
      rw [hb] at h
      obtain ⟨hp, hq2⟩ := hstep i s s2 hq hb
      obtain ⟨hall, hq1⟩ := ih s2 s1 hq2 h
      refine ⟨?_, hq1⟩
      intro j hj
      rcases List.mem_cons.mp hj with rfl | hj
      · exact hp
      · exact hall j hj

/-- Accumulating invariant rule: the invariant is indexed by the list of what has been
processed so far. -/
theorem forLoop_accum {ι σ β : Type} {body : ι → σ → Except Err σ} (f : ι → List β)
    (I : List β → σ → Prop)
    (hstep : ∀ i s s1 L, I L s → body i s = .ok s1 → I (L ++ f i) s1) :
    ∀ (l : List ι) (s s1 : σ) (L : List β), I L s → forLoop body l s = .ok s1 →
      I (L ++ l.flatMap f) s1 := by
  intro l
  induction l with
  | nil =>
    intro s s1 L hI h
    simp only [forLoop_nil, Except.ok.injEq] at h
    subst h
    simpa using hI
  | cons i l ih =>
    intro s s1 L hI h
    rw [forLoop_cons] at h
    cases hb : body i s with
    | error e => rw [hb] at h; cases h
    | ok s2 =>
      rw [hb] at h
      have := ih s2 s1 (L ++ f i) (hstep i s s2 L hI hb) h
      simpa [List.flatMap_cons, List.append_assoc] using this

/-! ## The scanner follows its events -/

theorem scanInode_eq_events (img : Image) (inum : Nat) (t : Tables) :
    scanInode img inum t = forLoop (scanStep img) (inodeEvents img inum) t := by
  unfold scanInode inodeEvents
  rw [forLoop_cons]
  simp only [scanStep]
  by_cases hbad : inodeType img inum ≠ 0 ∧ inodeType img inum ≠ T_FILE ∧
      inodeType img inum ≠ T_DIR ∧ inodeType img inum ≠ T_DEV
  · rw [if_pos hbad, if_pos hbad]
  · rw [if_neg hbad, if_neg hbad]
    by_cases h0 : inodeType img inum ≠ 0
    · rw [if_pos h0, if_pos h0, if_pos h0]
      simp only []
      rw [forLoop_append]
      have hd : forLoop (scanDirect img inum) (List.range NDIRECT) (markInode img inum t) =
          forLoop (scanStep img) ((directBlocks img inum).map (ScanEvent.claim DIRECT))
            (markInode img inum t) := by
        rw [forLoop_map]
        exact forLoop_nonzero (inodeAddr img inum) (claimBlock img DIRECT) _ _
      rw [hd]
      cases forLoop (scanStep img) ((directBlocks img inum).map (ScanEvent.claim DIRECT))
        (markInode img inum t) with
      | error e => rfl
      | ok t1 =>
        simp only []
        unfold scanIndirect indirectSlot indirectBlocks
        by_cases hi : inodeAddr img inum NDIRECT ≠ 0
        · simp only [if_pos hi, List.singleton_append, List.map_cons]
          rw [forLoop_cons]
          simp only [scanStep]
          cases claimBlock img INDIRECT (inodeAddr img inum NDIRECT) t1 with
          | error e => rfl
          | ok t2 =>
            simp only []
            rw [forLoop_map]
            exact forLoop_nonzero (indirectEntry img (inodeAddr img inum NDIRECT))
              (claimBlock img INDIRECT) _ _
        · simp only [if_neg hi, List.append_nil, List.map_nil, forLoop_nil]
    · rw [if_neg h0, if_neg h0, if_neg h0]
      rfl

theorem scanInodes_eq_events (img : Image) (t : Tables) :
    scanInodes img t = forLoop (scanStep img) (scanEvents img) t := by
  unfold scanInodes scanEvents
  rw [← forLoop_flatMap]
  exact forLoop_congr (fun i _ s => scanInode_eq_events img i s) t

/-- Prefix rule: the invariant is indexed by the list of indices already passed. -/
theorem forLoop_prefix {ι σ : Type} {body : ι → σ → Except Err σ} (I : List ι → σ → Prop)
    (hstep : ∀ i s s1 L, I L s → body i s = .ok s1 → I (L ++ [i]) s1) :
    ∀ (l : List ι) (s s1 : σ) (L : List ι), I L s → forLoop body l s = .ok s1 →
      I (L ++ l) s1 := by
  intro l
  induction l with
  | nil =>
    intro s s1 L hI h
    simp only [forLoop_nil, Except.ok.injEq] at h
    subst h
    simpa using hI
  | cons i l ih =>
    intro s s1 L hI h
    rw [forLoop_cons] at h
    cases hb : body i s with
    | error e => rw [hb] at h; cases h
    | ok s2 =>
      rw [hb] at h
      have := ih s2 s1 (L ++ [i]) (hstep i s s2 L hI hb) h
      simpa [List.append_assoc] using this

/-! ## What the scanner records -/

theorem taggedClaims_append (l1 l2 : List ScanEvent) :
    taggedClaims (l1 ++ l2) = taggedClaims l1 ++ taggedClaims l2 := by
  unfold taggedClaims
  exact List.flatMap_append _ _ _

theorem taggedClaims_inode (i : Nat) : taggedClaims [ScanEvent.inode i] = [] := rfl

theorem taggedClaims_claim (k a : Nat) : taggedClaims [ScanEvent.claim k a] = [(k, a)] := rfl

theorem taggedClaims_map_claim (k : Nat) (l : List Nat) :
    taggedClaims (l.map (ScanEvent.claim k)) = l.map (fun a => (k, a)) := by
  induction l with
  | nil => rfl
  | cons a l ih =>
    rw [List.map_cons, List.map_cons, ← List.singleton_append, taggedClaims_append, ih]
    rfl

theorem scanInv_init (img : Image) : ScanInv img [] initTables where
  nodup := by simp [taggedClaims]
  used_iff := by intro b; simp [taggedClaims, initTables]
  claim_ok := by intro k b h; simp [taggedClaims] at h
  inode_used_eq := by intro i; simp [initTables]
  inode_type_eq := by intro i; simp [initTables]
  inode_nlink_eq := by intro i; simp [initTables]
  type_ok := by intro i h; simp at h
  referenced_eq := rfl
  linkcount_eq := rfl
  parent_eq := rfl

/-- A successful claim: the address was in range, unclaimed and marked, and only its two
table cells change. -/
theorem claimBlock_ok {img : Image} {kind addr : Nat} {t t1 : Tables}
    (h : claimBlock img kind addr t = .ok t1) :
    data_block_start img ≤ addr ∧ addr < sb_size img ∧ t.block_used addr = 0 ∧
      block_is_marked img addr ≠ 0 ∧
      t1 = { t with block_used := setAt t.block_used addr 1,
                    block_type := setAt t.block_type addr kind } := by
  unfold claimBlock at h
  by_cases h1 : addr < data_block_start img ∨ addr ≥ sb_size img
  · rw [if_pos h1] at h; cases h
  · rw [if_neg h1] at h
    by_cases h2 : t.block_used addr ≠ 0
    · rw [if_pos h2] at h; cases h
    · rw [if_neg h2] at h
      simp only [] at h
      by_cases h3 : block_is_marked img addr = 0
      · rw [if_pos h3] at h; cases h
      · rw [if_neg h3] at h
        simp only [Except.ok.injEq] at h
        refine ⟨by omega, by omega, by simpa using h2, h3, h.symm⟩

theorem scanInv_step (img : Image) (ev : ScanEvent) (t t1 : Tables) (evs : List ScanEvent)
    (hI : ScanInv img evs t) (h : scanStep img ev t = .ok t1) : ScanInv img (evs ++ [ev]) t1 := by
  cases ev with
  | inode inum =>
    simp only [scanStep] at h
    have hcl : taggedClaims (evs ++ [ScanEvent.inode inum]) = taggedClaims evs := by
      rw [taggedClaims_append, taggedClaims_inode, List.append_nil]
    by_cases hbad : inodeType img inum ≠ 0 ∧ inodeType img inum ≠ T_FILE ∧
        inodeType img inum ≠ T_DIR ∧ inodeType img inum ≠ T_DEV
    · rw [if_pos hbad] at h; cases h
    · rw [if_neg hbad] at h
      have hty : inodeType img inum = 0 ∨ inodeType img inum = T_FILE ∨
          inodeType img inum = T_DIR ∨ inodeType img inum = T_DEV := by
        by_contra hc
        push_neg at hc
        exact hbad hc
      by_cases h0 : inodeType img inum ≠ 0
      · rw [if_pos h0] at h
        simp only [Except.ok.injEq] at h
        subst h
        refine ⟨by rw [hcl]; exact hI.nodup, ?_, ?_, ?_, ?_, ?_, ?_, hI.referenced_eq,
          hI.linkcount_eq, hI.parent_eq⟩
        · intro b; rw [hcl]; exact hI.used_iff b
        · intro k b hkb; rw [hcl] at hkb; exact hI.claim_ok k b hkb
        · intro i
          simp only [markInode, setAt, List.mem_append, List.mem_singleton,
            ScanEvent.inode.injEq]
          by_cases hi : i = inum
          · subst hi; simp [h0]
          · simp [hi, hI.inode_used_eq i]
        · intro i
          simp only [markInode, setAt, List.mem_append, List.mem_singleton,
            ScanEvent.inode.injEq]
          by_cases hi : i = inum
          · subst hi; simp
          · simp [hi, hI.inode_type_eq i]
        · intro i
          simp only [markInode, setAt, List.mem_append, List.mem_singleton,
            ScanEvent.inode.injEq]
          by_cases hi : i = inum
          · subst hi; simp [h0]
          · simp [hi, hI.inode_nlink_eq i]
        · intro i hi
          rcases List.mem_append.mp hi with hi | hi
          · exact hI.type_ok i hi
          · simp only [List.mem_singleton, ScanEvent.inode.injEq] at hi
            subst hi; exact hty
      · rw [if_neg h0] at h
        simp only [Except.ok.injEq] at h
        subst h
        have h0 : inodeType img inum = 0 := by simpa using h0
        refine ⟨by rw [hcl]; exact hI.nodup, ?_, ?_, ?_, ?_, ?_, ?_, hI.referenced_eq,
          hI.linkcount_eq, hI.parent_eq⟩
        · intro b; rw [hcl]; exact hI.used_iff b
        · intro k b hkb; rw [hcl] at hkb; exact hI.claim_ok k b hkb
        · intro i
          rw [hI.inode_used_eq i]
          simp only [List.mem_append, List.mem_singleton, ScanEvent.inode.injEq]
          by_cases hi : i = inum
          · subst hi; simp [h0]
          · simp [hi]
        · intro i
          rw [hI.inode_type_eq i]
          simp only [List.mem_append, List.mem_singleton, ScanEvent.inode.injEq]
          by_cases hi : i = inum
          · subst hi; simp [h0]
          · simp [hi]
        · intro i
          rw [hI.inode_nlink_eq i]
          simp only [List.mem_append, List.mem_singleton, ScanEvent.inode.injEq]
          by_cases hi : i = inum
          · subst hi; simp [h0]
          · simp [hi]
        · intro i hi
          rcases List.mem_append.mp hi with hi | hi
          · exact hI.type_ok i hi
          · simp only [List.mem_singleton, ScanEvent.inode.injEq] at hi
            subst hi; exact hty
  | claim kind addr =>
    simp only [scanStep] at h
    obtain ⟨hlo, hhi, hunused, hmark, ht1⟩ := claimBlock_ok h
    subst ht1
    have hcl : taggedClaims (evs ++ [ScanEvent.claim kind addr]) =
        taggedClaims evs ++ [(kind, addr)] := by
      rw [taggedClaims_append, taggedClaims_claim]
    have hnew : addr ∉ (taggedClaims evs).map Prod.snd := by
      intro hmem
      exact (hI.used_iff addr).mpr hmem hunused
    have hmemI : ∀ i, ScanEvent.inode i ∈ evs ++ [ScanEvent.claim kind addr] ↔
        ScanEvent.inode i ∈ evs := by
      intro i; simp
    refine ⟨?_, ?_, ?_, ?_, ?_, ?_, ?_, hI.referenced_eq, hI.linkcount_eq, hI.parent_eq⟩
    · rw [hcl, List.map_append, List.nodup_append]
      refine ⟨hI.nodup, by simp, ?_⟩
      intro x hx hx2
      simp only [List.map_cons, List.map_nil, List.mem_singleton] at hx2
      subst hx2
      exact hnew hx
    · intro b
      rw [hcl, List.map_append, List.mem_append]
      simp only [setAt, List.map_cons, List.map_nil, List.mem_singleton]
      by_cases hb : b = addr
      · subst hb; simp
      · simp only [hb, if_false, or_false]
        exact hI.used_iff b
    · intro k b hkb
      rw [hcl, List.mem_append] at hkb
      simp only [setAt]
      rcases hkb with hkb | hkb
      · have hb : b ≠ addr := by
          intro hb
          subst hb
          exact hnew (List.mem_map.mpr ⟨(k, b), hkb, rfl⟩)
        simp only [hb, if_false]
        exact hI.claim_ok k b hkb
      · simp only [List.mem_singleton, Prod.mk.injEq] at hkb
        obtain ⟨rfl, rfl⟩ := hkb
        simp only [if_true]
        exact ⟨trivial, hlo, hhi, hmark⟩
    · intro i; rw [hI.inode_used_eq i]; simp only [hmemI]
    · intro i; rw [hI.inode_type_eq i]; simp only [hmemI]
    · intro i; rw [hI.inode_nlink_eq i]; simp only [hmemI]
    · intro i hi; exact hI.type_ok i ((hmemI i).mp hi)

/-- The invariant holds after any prefix of events the scanner has passed. -/
theorem scanInv_of_run (img : Image) (evs : List ScanEvent) (t : Tables)
    (h : forLoop (scanStep img) evs initTables = .ok t) : ScanInv img evs t := by
  have := forLoop_prefix (ScanInv img) (fun ev s s1 L hI hs => scanInv_step img ev s s1 L hI hs)
    evs initTables t [] (scanInv_init img) h
  simpa using this

theorem taggedClaims_inodeEvents (img : Image) (inum : Nat) :
    (taggedClaims (inodeEvents img inum)).map Prod.snd =
      if inodeType img inum ≠ 0 then inodeBlocks img inum else [] := by
  unfold inodeEvents
  rw [← List.singleton_append, taggedClaims_append, taggedClaims_inode, List.nil_append]
  by_cases h0 : inodeType img inum ≠ 0
  · rw [if_pos h0, if_pos h0, taggedClaims_append, taggedClaims_map_claim,
      taggedClaims_map_claim, List.map_append, List.map_map, List.map_map]
    unfold inodeBlocks
    rw [List.append_assoc]
    congr 1
    · exact List.map_id _
    · exact List.map_id _
  · rw [if_neg h0, if_neg h0]
    rfl

theorem taggedClaims_flatMap {ι : Type} (f : ι → List ScanEvent) (l : List ι) :
    taggedClaims (l.flatMap f) = l.flatMap (fun i => taggedClaims (f i)) := by
  induction l with
  | nil => rfl
  | cons i l ih => rw [List.flatMap_cons, List.flatMap_cons, taggedClaims_append, ih]

theorem map_flatMap_list {α β γ : Type} (g : β → γ) (f : α → List β) (l : List α) :
    (l.flatMap f).map g = l.flatMap (fun a => (f a).map g) := by
  induction l with
  | nil => rfl
  | cons a l ih => rw [List.flatMap_cons, List.flatMap_cons, List.map_append, ih]

/-- The addresses of the claim events are the claims of the allocated inodes. -/
theorem taggedClaims_scanEvents (img : Image) :
    (taggedClaims (scanEvents img)).map Prod.snd = claimedBlocks img := by
  unfold scanEvents claimedBlocks
  rw [taggedClaims_flatMap, map_flatMap_list]
  congr 1
  funext inum
  exact taggedClaims_inodeEvents img inum

theorem inode_mem_inodeEvents (img : Image) (i inum : Nat) :
    ScanEvent.inode i ∈ inodeEvents img inum ↔ i = inum := by
  unfold inodeEvents
  by_cases h0 : inodeType img inum ≠ 0
  · simp [h0]
  · simp [h0]

theorem inode_mem_scanEvents (img : Image) (i : Nat) :
    ScanEvent.inode i ∈ scanEvents img ↔ i < sb_ninodes img := by
  unfold scanEvents
  rw [List.mem_flatMap]
  constructor
  · rintro ⟨inum, hmem, hi⟩
    rw [inode_mem_inodeEvents] at hi
    subst hi
    exact List.mem_range.mp hmem
  · intro h
    exact ⟨i, List.mem_range.mpr h, (inode_mem_inodeEvents img i i).mpr rfl⟩

/-- The tables of a scan that succeeded. -/
theorem scanInv_of_scanInodes {img : Image} {t : Tables}
    (h : scanInodes img initTables = .ok t) : ScanInv img (scanEvents img) t := by
  rw [scanInodes_eq_events] at h
  exact scanInv_of_run img _ t h

/-! ## The first reference-count pass (lines 85-107) -/

theorem refCountBody_init (inum : Nat) : refCountBody initTables inum () = .ok () := by
  simp [refCountBody, initTables]

theorem forLoop_unit_ok {ι : Type} {body : ι → Unit → Except Err Unit} (l : List ι)
    (h : ∀ i ∈ l, body i () = .ok ()) : forLoop body l () = .ok () := by
  induction l with
  | nil => rfl
  | cons i l ih =>
    rw [forLoop_cons, h i (List.mem_cons_self _ _)]
    exact ih (fun j hj => h j (List.mem_cons_of_mem _ hj))

theorem refCountCheck_init (img : Image) : refCountCheck img initTables = .ok () :=
  forLoop_unit_ok _ (fun i _ => refCountBody_init i)

/-- After the vacuous first pass `main` is the scanner followed by the rest. -/
theorem main_eq (img : Image) :
    main img =
      match scanInodes img initTables with
      | .error e => .error e
      | .ok t => afterScan img t := by
  unfold main
  rw [refCountCheck_init]

theorem main_of_scan_error {img : Image} {e : Err}
    (h : scanInodes img initTables = .error e) : main img = .error e := by
  rw [main_eq, h]

theorem main_of_scan_ok {img : Image} {t : Tables}
    (h : scanInodes img initTables = .ok t) : main img = afterScan img t := by
  rw [main_eq, h]

/-- The phases of a successful run. -/
theorem main_ok_phases {img : Image} (h : main img = .ok ()) :
    ∃ t t1, scanInodes img initTables = .ok t ∧ t.inode_used ROOTINO ≠ 0 ∧
      walkInodes img t = .ok t1 ∧ orphanCheck img t1 = .ok () ∧
      refCountCheck img t1 = .ok () ∧ bitmapSweeps img t1 = .ok () := by
  rw [main_eq] at h
  cases hs : scanInodes img initTables with
  | error e => rw [hs] at h; cases h
  | ok t =>
    rw [hs] at h
    simp only [afterScan] at h
    by_cases hr : t.inode_used ROOTINO = 0
    · rw [if_pos hr] at h; cases h
    · rw [if_neg hr] at h
      cases hw : walkInodes img t with
      | error e => rw [hw] at h; cases h
      | ok t1 =>
        rw [hw] at h
        simp only [] at h
        cases ho : orphanCheck img t1 with
        | error e => rw [ho] at h; cases h
        | ok u =>
          rw [ho] at h
          simp only [] at h
          cases hc : refCountCheck img t1 with
          | error e => rw [hc] at h; cases h
          | ok u2 =>
            rw [hc] at h
            simp only [] at h
            exact ⟨t, t1, rfl, hr, hw, ho, hc, h⟩

/-! ## Directory entries -/

theorem isDot_iff (img : Image) (addr i : Nat) :
    isDot img addr i = true ↔ direntName img addr i 0 = 46 ∧ direntName img addr i 1 = 0 := by
  unfold isDot
  show strncmp0 _ _ 0 (13 + 1) = true ↔ _
  rw [strncmp0]
  show (if _ then false else if _ then true else strncmp0 _ _ 1 (12 + 1)) = true ↔ _
  rw [strncmp0]
  simp only [strDot]
  by_cases h0 : direntName img addr i 0 = 46
  · by_cases h1 : direntName img addr i 1 = 0
    · simp [h0, h1]
    · simp [h0, h1]
  · simp [h0]

theorem isDotDot_iff (img : Image) (addr i : Nat) :
    isDotDot img addr i = true ↔ direntName img addr i 0 = 46 ∧ direntName img addr i 1 = 46 ∧
      direntName img addr i 2 = 0 := by
  unfold isDotDot
  show strncmp0 _ _ 0 (13 + 1) = true ↔ _
  rw [strncmp0]
  show (if _ then false else if _ then true else strncmp0 _ _ 1 (12 + 1)) = true ↔ _
  rw [strncmp0]
  show (if _ then false else if _ then true else
    (if _ then false else if _ then true else strncmp0 _ _ 2 (11 + 1))) = true ↔ _
  rw [strncmp0]
  simp only [strDotDot]
  by_cases h0 : direntName img addr i 0 = 46
  · by_cases h1 : direntName img addr i 1 = 46
    · by_cases h2 : direntName img addr i 2 = 0
      · simp [h0, h1, h2]
      · simp [h0, h1, h2]
    · simp [h0, h1]
  · simp [h0]

/-- No name is both `.` and `..`. -/
theorem isDotDot_of_isDot {img : Image} {addr i : Nat} (h : isDot img addr i = true) :
    isDotDot img addr i = false := by
  rw [isDot_iff] at h
  cases hdd : isDotDot img addr i with
  | false => rfl
  | true =>
    rw [isDotDot_iff] at hdd
    omega

theorem direntStep_free {img : Image} {addr dir_inum num_inodes i : Nat} (s : WalkState)
    (h : direntInum img addr i = 0) : direntStep img addr dir_inum num_inodes i s = .ok s := by
  unfold direntStep
  rw [if_pos h]

/-- A `.` entry naming another inode fails the format check, before anything else. -/
theorem direntStep_dot_mismatch {img : Image} {addr dir_inum num_inodes i : Nat} (s : WalkState)
    (h0 : direntInum img addr i ≠ 0) (hdot : isDot img addr i = true)
    (hne : direntInum img addr i ≠ dir_inum) :
    direntStep img addr dir_inum num_inodes i s = .error .DirFormatError := by
  unfold direntStep
  rw [if_neg h0]
  simp only [hdot, if_true, if_pos hne]

/-- An entry that passes the name checks and names no allocated inode is dangling. -/
theorem direntStep_dangling {img : Image} {addr dir_inum num_inodes i : Nat} (s : WalkState)
    (h0 : direntInum img addr i ≠ 0)
    (hname : isDot img addr i = true → direntInum img addr i = dir_inum)
    (hd : direntInum img addr i ≥ num_inodes ∨ s.t.inode_used (direntInum img addr i) = 0) :
    direntStep img addr dir_inum num_inodes i s = .error .DanglingReference := by
  unfold direntStep
  rw [if_neg h0]
  by_cases hdot : isDot img addr i = true
  · have heq := hname hdot
    simp only [hdot, if_true, ne_eq, heq, not_true_eq_false, if_false]
    rw [heq] at hd
    rcases hd with hd | hd
    · rw [if_pos hd]
    · by_cases hge : dir_inum ≥ num_inodes
      · rw [if_pos hge]
      · rw [if_neg hge, if_pos hd]
  · simp only [hdot, Bool.false_eq_true, if_false]
    by_cases hdd : isDotDot img addr i = true
    · simp only [hdd, if_true]
      rcases hd with hd | hd
      · rw [if_pos hd]
      · by_cases hge : direntInum img addr i ≥ num_inodes
        · rw [if_pos hge]
        · rw [if_neg hge, if_pos hd]
    · simp only [hdd, Bool.false_eq_true, if_false]
      rcases hd with hd | hd
      · rw [if_pos hd]
      · by_cases hge : direntInum img addr i ≥ num_inodes
        · rw [if_pos hge]
        · rw [if_neg hge, if_pos hd]

theorem frame_refl (t : Tables) : Frame t t := ⟨rfl, rfl, rfl, rfl, rfl⟩

theorem frame_trans {t t1 t2 : Tables} (h1 : Frame t t1) (h2 : Frame t1 t2) : Frame t t2 :=
  ⟨h2.1.trans h1.1, h2.2.1.trans h1.2.1, h2.2.2.1.trans h1.2.2.1,
    h2.2.2.2.1.trans h1.2.2.2.1, h2.2.2.2.2.trans h1.2.2.2.2⟩

/-- A non-free entry that passes: what was checked and what was written. -/
theorem direntStep_ok {img : Image} {addr dir_inum num_inodes i : Nat} {s s1 : WalkState}
    (h0 : direntInum img addr i ≠ 0)
    (h : direntStep img addr dir_inum num_inodes i s = .ok s1) :
    direntInum img addr i < num_inodes ∧ s.t.inode_used (direntInum img addr i) ≠ 0 ∧
      (isDot img addr i = true → direntInum img addr i = dir_inum) ∧
      s1.dot_found = (if isDot img addr i = true then 1 else s.dot_found) ∧
      s1.dotdot_found = (if isDotDot img addr i = true then 1 else s.dotdot_found) ∧
      s1.t.inode_parent = (if isDotDot img addr i = true then
        setAt s.t.inode_parent dir_inum (direntInum img addr i) else s.t.inode_parent) ∧
      Frame s.t s1.t := by
  unfold direntStep at h
  rw [if_neg h0] at h
  by_cases hdot : isDot img addr i = true
  · have hdd := isDotDot_of_isDot hdot
    simp only [hdot, if_true] at h
    by_cases hne : direntInum img addr i ≠ dir_inum
    · rw [if_pos hne] at h; cases h
    · rw [if_neg hne] at h
      simp only [] at h
      by_cases hge : direntInum img addr i ≥ num_inodes
      · rw [if_pos hge] at h; cases h
      · rw [if_neg hge] at h
        by_cases hu : s.t.inode_used (direntInum img addr i) = 0
        · rw [if_pos hu] at h; cases h
        · rw [if_neg hu] at h
          simp only [Except.ok.injEq] at h
          subst h
          refine ⟨by omega, hu, fun _ => by simpa using hne, by simp [hdot], by simp [hdd],
            ?_, ?_⟩
          · simp only [hdd, Bool.false_eq_true, if_false]
            split <;> rfl
          · unfold Frame
            split <;> exact ⟨rfl, rfl, rfl, rfl, rfl⟩
  · simp only [hdot, Bool.false_eq_true, if_false] at h
    by_cases hdd : isDotDot img addr i = true
    · simp only [hdd, if_true] at h
      by_cases hge : direntInum img addr i ≥ num_inodes
      · rw [if_pos hge] at h; cases h
      · rw [if_neg hge] at h
        by_cases hu : s.t.inode_used (direntInum img addr i) = 0
        · rw [if_pos hu] at h; cases h
        · rw [if_neg hu] at h
          simp only [Except.ok.injEq] at h
          subst h
          refine ⟨by omega, hu, fun hd => absurd hd hdot, by simp [hdot], by simp [hdd],
            ?_, ?_⟩
          · simp only [hdd, if_true]
            split <;> rfl
          · unfold Frame
            split <;> exact ⟨rfl, rfl, rfl, rfl, rfl⟩
    · simp only [hdd, Bool.false_eq_true, if_false] at h
      by_cases hge : direntInum img addr i ≥ num_inodes
      · rw [if_pos hge] at h; cases h
      · rw [if_neg hge] at h
        by_cases hu : s.t.inode_used (direntInum img addr i) = 0
        · rw [if_pos hu] at h; cases h
        · rw [if_neg hu] at h
          simp only [Except.ok.injEq] at h
          subst h
          refine ⟨by omega, hu, fun hd => absurd hd hdot, by simp [hdot], by simp [hdd],
            ?_, ?_⟩
          · simp only [hdd, Bool.false_eq_true, if_false]
            split <;> rfl
          · unfold Frame
            split <;> exact ⟨rfl, rfl, rfl, rfl, rfl⟩

/-! ## The walk of one directory follows its entry slots -/

theorem process_directory_block_eq (img : Image) (addr d : Nat) (s : WalkState) :
    process_directory_block img addr d (sb_ninodes img) s =
      forLoop (walkStep img d) ((List.range (BSIZE / DIRENT_SIZE)).map (fun i => (addr, i))) s := by
  unfold process_directory_block
  rw [forLoop_map]
  rfl

theorem walkBlocks_eq_slots (img : Image) (d : Nat) (t : Tables) :
    walkBlocks img d t =
      forLoop (walkStep img d) (dirSlots img d) { dot_found := 0, dotdot_found := 0, t := t } := by
  unfold walkBlocks dirSlots contentBlocks
  rw [List.flatMap_append, forLoop_append]
  have hd : ∀ s, forLoop (walkDirect img d) (List.range NDIRECT) s =
      forLoop (walkStep img d) ((directBlocks img d).flatMap
        (fun addr => (List.range (BSIZE / DIRENT_SIZE)).map (fun i => (addr, i)))) s := by
    intro s
    rw [← forLoop_flatMap]
    have := forLoop_nonzero (inodeAddr img d)
      (fun addr s1 => process_directory_block img addr d (sb_ninodes img) s1)
      (List.range NDIRECT) s
    unfold walkDirect directBlocks nonzeroValues
    rw [this]
    exact forLoop_congr (fun a _ s1 => process_directory_block_eq img a d s1) s
  rw [hd]
  cases forLoop (walkStep img d) ((directBlocks img d).flatMap
        (fun addr => (List.range (BSIZE / DIRENT_SIZE)).map (fun i => (addr, i))))
        { dot_found := 0, dotdot_found := 0, t := t } with
  | error e => rfl
  | ok s1 =>
    simp only []
    unfold indirectBlocks
    by_cases hi : inodeAddr img d NDIRECT ≠ 0
    · rw [if_pos hi, if_pos hi, ← forLoop_flatMap]
      have := forLoop_nonzero (indirectEntry img (inodeAddr img d NDIRECT))
        (fun addr s2 => process_directory_block img addr d (sb_ninodes img) s2)
        (List.range NINDIRECT) s1
      unfold walkIndirectEntry nonzeroValues
      rw [this]
      exact forLoop_congr (fun a _ s2 => process_directory_block_eq img a d s2) s1
    · rw [if_neg hi, if_neg hi]
      rfl

theorem dirInv_init (img : Image) (d : Nat) (t : Tables) :
    DirInv img d t [] { dot_found := 0, dotdot_found := 0, t := t } where
  frame := frame_refl t
  entry_ok := by intro e he; simp at he
  dot_iff := by simp
  dotdot_iff := by simp
  parent_dotdot := by simp

theorem dirInv_step (img : Image) (d : Nat) (t0 : Tables) (e : Nat × Nat) (s s1 : WalkState)
    (L : List (Nat × Nat)) (hI : DirInv img d t0 L s) (h : walkStep img d e s = .ok s1) :
    DirInv img d t0 (L ++ [e]) s1 := by
  unfold walkStep at h
  by_cases h0 : direntInum img e.1 e.2 = 0
  · rw [direntStep_free s h0] at h
    simp only [Except.ok.injEq] at h
    subst h
    have hnd : ¬ dotEntry img e := fun hd => hd.1 h0
    have hndd : ¬ dotdotEntry img e := fun hd => hd.1 h0
    refine ⟨hI.frame, ?_, ?_, ?_, ?_⟩
    · intro x hx hx0
      rcases List.mem_append.mp hx with hx | hx
      · exact hI.entry_ok x hx hx0
      · rw [List.mem_singleton] at hx
        subst hx
        exact absurd h0 hx0
    · rw [hI.dot_iff]
      constructor
      · rintro ⟨x, hx, hxd⟩
        exact ⟨x, List.mem_append_left _ hx, hxd⟩
      · rintro ⟨x, hx, hxd⟩
        rcases List.mem_append.mp hx with hx | hx
        · exact ⟨x, hx, hxd⟩
        · rw [List.mem_singleton] at hx
          subst hx
          exact absurd hxd hnd
    · rw [hI.dotdot_iff]
      constructor
      · rintro ⟨x, hx, hxd⟩
        exact ⟨x, List.mem_append_left _ hx, hxd⟩
      · rintro ⟨x, hx, hxd⟩
        rcases List.mem_append.mp hx with hx | hx
        · exact ⟨x, hx, hxd⟩
        · rw [List.mem_singleton] at hx
          subst hx
          exact absurd hxd hndd
    · intro hdd
      obtain ⟨x, hx, hxd, hp⟩ := hI.parent_dotdot hdd
      exact ⟨x, List.mem_append_left _ hx, hxd, hp⟩
  · obtain ⟨hlt, hused, hself, hdot, hdotdot, hpar, hfr⟩ := direntStep_ok h0 h
    refine ⟨frame_trans hI.frame hfr, ?_, ?_, ?_, ?_⟩
    · intro x hx hx0
      rcases List.mem_append.mp hx with hx | hx
      · exact hI.entry_ok x hx hx0
      · rw [List.mem_singleton] at hx
        subst hx
        refine ⟨hlt, ?_, hself⟩
        rw [← hI.frame.1]
        exact hused
    · rw [hdot]
      by_cases hd : isDot img e.1 e.2 = true
      · rw [if_pos hd]
        simp only [ne_eq, one_ne_zero, not_false_eq_true, true_iff]
        exact ⟨e, List.mem_append_right _ (List.mem_singleton.mpr rfl), h0, hd⟩
      · rw [if_neg hd, hI.dot_iff]
        constructor
        · rintro ⟨x, hx, hxd⟩
          exact ⟨x, List.mem_append_left _ hx, hxd⟩
        · rintro ⟨x, hx, hxd⟩
          rcases List.mem_append.mp hx with hx | hx
          · exact ⟨x, hx, hxd⟩
          · rw [List.mem_singleton] at hx
            subst hx
            exact absurd hxd.2 hd
    · rw [hdotdot]
      by_cases hd : isDotDot img e.1 e.2 = true
      · rw [if_pos hd]
        simp only [ne_eq, one_ne_zero, not_false_eq_true, true_iff]
        exact ⟨e, List.mem_append_right _ (List.mem_singleton.mpr rfl), h0, hd⟩
      · rw [if_neg hd, hI.dotdot_iff]
        constructor
        · rintro ⟨x, hx, hxd⟩
          exact ⟨x, List.mem_append_left _ hx, hxd⟩
        · rintro ⟨x, hx, hxd⟩
          rcases List.mem_append.mp hx with hx | hx
          · exact ⟨x, hx, hxd⟩
          · rw [List.mem_singleton] at hx
            subst hx
            exact absurd hxd.2 hd
    · intro hdd
      rw [hpar]
      by_cases hd : isDotDot img e.1 e.2 = true
      · rw [if_pos hd]
        refine ⟨e, List.mem_append_right _ (List.mem_singleton.mpr rfl), ⟨h0, hd⟩, ?_⟩
        simp [setAt]
      · rw [hdotdot, if_neg hd] at hdd
        rw [if_neg hd]
        obtain ⟨x, hx, hxd, hp⟩ := hI.parent_dotdot hdd
        exact ⟨x, List.mem_append_left _ hx, hxd, hp⟩

/-- The invariant after any run of entry slots from the start of a directory. -/
theorem dirInv_of_run (img : Image) (d : Nat) (t : Tables) (L : List (Nat × Nat))
    (s : WalkState)
    (h : forLoop (walkStep img d) L { dot_found := 0, dotdot_found := 0, t := t } = .ok s) :
    DirInv img d t L s := by
  have := forLoop_prefix (DirInv img d t)
    (fun e s s1 L hI hs => dirInv_step img d t e s s1 L hI hs) L _ s [] (dirInv_init img d t) h
  simpa using this

/-- One directory of the walk: the tables the walk never writes are kept, and a directory
that passes has well-formed content. -/
theorem walkInode_ok {img : Image} {d : Nat} {t0 t t1 : Tables} (hfr : Frame t0 t)
    (h : walkInode img d t = .ok t1) :
    (t0.inode_used d ≠ 0 ∧ t0.inode_type d = T_DIR → DirFacts img t0 d) ∧ Frame t0 t1 := by
  unfold walkInode at h
  rw [hfr.1, hfr.2.1] at h
  by_cases hdir : t0.inode_used d ≠ 0 ∧ t0.inode_type d = T_DIR
  · rw [if_pos hdir] at h
    cases hw : walkBlocks img d t with
    | error e => rw [hw] at h; cases h
    | ok s =>
      rw [hw] at h
      simp only [] at h
      by_cases hflags : s.dot_found = 0 ∨ s.dotdot_found = 0
      · rw [if_pos hflags] at h; cases h
      · rw [if_neg hflags] at h
        by_cases hroot : d = ROOTINO ∧ s.t.inode_parent d ≠ (ROOTINO : Int)
        · rw [if_pos hroot] at h; cases h
        · rw [if_neg hroot] at h
          simp only [Except.ok.injEq] at h
          subst h
          rw [walkBlocks_eq_slots] at hw
          have hI := dirInv_of_run img d t _ s hw
          push_neg at hflags
          refine ⟨fun _ => ⟨?_, hI.dot_iff.mp hflags.1, hI.dotdot_iff.mp hflags.2, ?_⟩,
            frame_trans hfr hI.frame⟩
          · intro e he he0
            obtain ⟨h1, h2, h3⟩ := hI.entry_ok e he he0
            refine ⟨h1, ?_, h3⟩
            rw [← hfr.1]
            exact h2
          · intro hd1
            obtain ⟨e, he, hed, hp⟩ := hI.parent_dotdot hflags.2
            refine ⟨e, he, hed, ?_⟩
            have hpar : s.t.inode_parent d = (ROOTINO : Int) := by
              by_contra hc
              exact hroot ⟨hd1, hc⟩
            rw [hpar] at hp
            exact_mod_cast hp.symm
  · rw [if_neg hdir] at h
    simp only [Except.ok.injEq] at h
    subst h
    exact ⟨fun hd => absurd hd hdir, hfr⟩

/-- The whole walk. -/
theorem walkInodes_ok {img : Image} {t t1 : Tables} (h : walkInodes img t = .ok t1) :
    (∀ d, d < sb_ninodes img → t.inode_used d ≠ 0 → t.inode_type d = T_DIR →
      DirFacts img t d) ∧ Frame t t1 := by
  have := forLoop_invariant (Frame t)
    (fun d => t.inode_used d ≠ 0 ∧ t.inode_type d = T_DIR → DirFacts img t d)
    (fun d s s1 hq hb => walkInode_ok hq hb) (List.range (sb_ninodes img)) t t1 (frame_refl t) h
  exact ⟨fun d hd hu hty => this.1 d (List.mem_range.mpr hd) ⟨hu, hty⟩, this.2⟩

/-! ## Auxiliary facts for the claims -/

theorem passes_iff {α : Type} (r : Except Err α) : passes r = true ↔ ∃ a, r = .ok a := by
  cases r with
  | error e => simp [passes]
  | ok a => simp [passes]

theorem mem_claimedBlocks (img : Image) (b : Nat) :
    b ∈ claimedBlocks img ↔ ∃ inum, allocated img inum ∧ b ∈ inodeBlocks img inum := by
  unfold claimedBlocks allocated
  rw [List.mem_flatMap]
  constructor
  · rintro ⟨inum, hmem, hb⟩
    by_cases h0 : inodeType img inum ≠ 0
    · rw [if_pos h0] at hb
      exact ⟨inum, ⟨List.mem_range.mp hmem, h0⟩, hb⟩
    · rw [if_neg h0] at hb
      simp at hb
  · rintro ⟨inum, ⟨hlt, h0⟩, hb⟩
    refine ⟨inum, List.mem_range.mpr hlt, ?_⟩
    rw [if_pos h0]
    exact hb

theorem mem_sweepRange (img : Image) (b : Nat) :
    b ∈ sweepRange img ↔ data_block_start img ≤ b ∧ b < sb_size img := by
  unfold sweepRange
  rw [List.mem_range'_1]
  omega

/-- The start of the data blocks as computed in `uint` never exceeds the exact value. -/
theorem data_block_start_le (img : Image) :
    data_block_start img ≤ sb_bmapstart img + (sb_size img + (BPB - 1)) / BPB := by
  unfold data_block_start num_bitmap_blocks
  have h1 : (sb_size img + BPB - 1) % U32 / BPB ≤ (sb_size img + (BPB - 1)) / BPB := by
    apply Nat.div_le_div_right
    have : sb_size img + BPB - 1 = sb_size img + (BPB - 1) := by simp only [BPB, BSIZE]; omega
    rw [this]
    exact Nat.mod_le _ _
  calc (sb_bmapstart img + (sb_size img + BPB - 1) % U32 / BPB) % U32
      ≤ sb_bmapstart img + (sb_size img + BPB - 1) % U32 / BPB := Nat.mod_le _ _
    _ ≤ sb_bmapstart img + (sb_size img + (BPB - 1)) / BPB := Nat.add_le_add_left h1 _

/-- The first sweep passed: every marked block of the range is claimed in the tables. -/
theorem sweepMarked_ok {img : Image} {t : Tables}
    (h : forLoop (sweepMarkedBody img t) (sweepRange img) () = .ok ()) (b : Nat)
    (hb : b ∈ sweepRange img) (hm : block_is_marked img b ≠ 0) : t.block_used b ≠ 0 := by
  have := forLoop_invariant (fun _ => True)
    (fun b => block_is_marked img b ≠ 0 → t.block_used b ≠ 0)
    (fun i s s1 _ hb => by
      refine ⟨?_, trivial⟩
      intro hm hu
      unfold sweepMarkedBody at hb
      rw [if_pos ⟨hm, hu⟩] at hb
      cases hb) (sweepRange img) () () trivial h
  exact this.1 b hb hm

theorem bitmapSweeps_ok {img : Image} {t : Tables} (h : bitmapSweeps img t = .ok ()) :
    forLoop (sweepMarkedBody img t) (sweepRange img) () = .ok () := by
  unfold bitmapSweeps at h
  cases h1 : forLoop (sweepMarkedBody img t) (sweepRange img) () with
  | error e => rw [h1] at h; cases h
  | ok u => rfl

theorem range_split {k n : Nat} (h : k < n) :
    ∃ rest, List.range n = List.range k ++ k :: rest := by
  induction n with
  | zero => omega
  | succ m ih =>
    rw [List.range_succ]
    by_cases hk : k = m
    · subst hk
      exact ⟨[], rfl⟩
    · obtain ⟨rest, hr⟩ := ih (by omega)
      exact ⟨rest ++ [m], by rw [hr]; simp⟩

/-- The events of the scan, split at inode `k`. -/
theorem scanEvents_split (img : Image) {k : Nat} (h : k < sb_ninodes img) :
    ∃ rest, scanEvents img =
      (List.range k).flatMap (inodeEvents img) ++ ScanEvent.inode k :: rest := by
  obtain ⟨r, hr⟩ := range_split h
  unfold scanEvents
  rw [hr, List.flatMap_append, List.flatMap_cons]
  unfold inodeEvents
  rw [List.cons_append]
  exact ⟨_, rfl⟩

/-- A scan that stops at an event stops `main` with the same diagnostic. -/
theorem main_of_event_error {img : Image} {pre post : List ScanEvent} {ev : ScanEvent}
    {t : Tables} {e : Err} (hev : scanEvents img = pre ++ ev :: post)
    (hrun : forLoop (scanStep img) pre initTables = .ok t)
    (hstep : scanStep img ev t = .error e) : main img = .error e := by
  apply main_of_scan_error
  rw [scanInodes_eq_events, hev, forLoop_append_ok hrun, forLoop_cons_error hstep]

/-- If every claim of a list of events passes when reached, the run over the list either
passes or stops at a type check. -/
theorem run_ok_or_badType (img : Image) (E : List ScanEvent)
    (H : ∀ pre post kind a t, E = pre ++ ScanEvent.claim kind a :: post →
      forLoop (scanStep img) pre initTables = .ok t → passes (claimBlock img kind a t) = true) :
    (∃ t, forLoop (scanStep img) E initTables = .ok t) ∨
      forLoop (scanStep img) E initTables = .error .BadInodeType := by
  induction E using List.reverseRecOn with
  | nil => exact Or.inl ⟨initTables, rfl⟩
  | append_singleton E ev ih =>
    have ih2 := ih (fun pre post kind a t hE hrun =>
      H pre (post ++ [ev]) kind a t (by rw [hE]; simp) hrun)
    rcases ih2 with ⟨t, ht⟩ | herr
    · rw [forLoop_append_ok ht, forLoop_cons]
      cases ev with
      | inode i =>
        simp only [scanStep]
        by_cases hbad : inodeType img i ≠ 0 ∧ inodeType img i ≠ T_FILE ∧
            inodeType img i ≠ T_DIR ∧ inodeType img i ≠ T_DEV
        · rw [if_pos hbad]; exact Or.inr rfl
        · rw [if_neg hbad]
          by_cases h0 : inodeType img i ≠ 0
          · rw [if_pos h0]; exact Or.inl ⟨_, rfl⟩
          · rw [if_neg h0]; exact Or.inl ⟨_, rfl⟩
      | claim kind a =>
        have hp := H E [] kind a t rfl ht
        rw [passes_iff] at hp
        obtain ⟨t1, ht1⟩ := hp
        simp only [scanStep, ht1]
        exact Or.inl ⟨_, rfl⟩
    · exact Or.inr (forLoop_append_error herr _)

theorem eq_ok_getOk {α : Type} {r : Except Err α} (dflt : α) (h : passes r = true) :
    r = .ok (getOk r dflt) := by
  cases r with
  | error e => simp [passes] at h
  | ok a => rfl

/-- The scanner's tables agree with the image on which inodes are allocated directories. -/
theorem scanInv_isDir {img : Image} {t : Tables} (hI : ScanInv img (scanEvents img) t)
    {d : Nat} (hd : isDir img d) : t.inode_used d ≠ 0 ∧ t.inode_type d = T_DIR := by
  have hmem := (inode_mem_scanEvents img d).mpr hd.1
  have hty : inodeType img d ≠ 0 := by rw [hd.2]; decide
  constructor
  · rw [hI.inode_used_eq d, if_pos ⟨hmem, hty⟩]; decide
  · rw [hI.inode_type_eq d, if_pos hmem]; exact hd.2

theorem scanInv_used_iff {img : Image} {t : Tables} (hI : ScanInv img (scanEvents img) t)
    (i : Nat) : t.inode_used i ≠ 0 ↔ allocated img i := by
  rw [hI.inode_used_eq i]
  unfold allocated
  have hm := inode_mem_scanEvents img i
  by_cases h : i < sb_ninodes img ∧ inodeType img i ≠ 0
  · rw [if_pos ⟨hm.mpr h.1, h.2⟩]
    exact ⟨fun _ => h, fun _ => by decide⟩
  · rw [if_neg (fun hc => h ⟨hm.mp hc.1, hc.2⟩)]
    exact ⟨fun hc => absurd rfl hc, fun hc => absurd hc h⟩

/-- What an accepted image satisfies, directory by directory. -/
theorem dirFacts_of_ok {img : Image} (h : main img = .ok ()) :
    ∃ t, ScanInv img (scanEvents img) t ∧ ∀ d, isDir img d → DirFacts img t d := by
  obtain ⟨t, t1, hs, _, hw, _, _, _⟩ := main_ok_phases h
  have hI := scanInv_of_scanInodes hs
  refine ⟨t, hI, ?_⟩
  intro d hd
  obtain ⟨hu, hty⟩ := scanInv_isDir hI hd
  exact (walkInodes_ok hw).1 d hd.1 hu hty

/-- An accepted image has inode 1 allocated; in particular its `ninodes` exceeds 1. -/
theorem root_allocated_of_ok {img : Image} (h : main img = .ok ()) : allocated img ROOTINO := by
  obtain ⟨t, t1, hs, hr, _, _, _, _⟩ := main_ok_phases h
  exact (scanInv_used_iff (scanInv_of_scanInodes hs) ROOTINO).mp hr

/-- The walk stops `main` with the diagnostic of the first directory that fails. -/
theorem main_of_walk_error {img : Image} {d : Nat} {t0 t1 : Tables} {e : Err}
    (hscan : scanInodes img initTables = .ok t0) (hroot : allocated img ROOTINO)
    (hwalk : forLoop (walkInode img) (List.range d) t0 = .ok t1) (hd : d < sb_ninodes img)
    (herr : walkInode img d t1 = .error e) : main img = .error e := by
  rw [main_of_scan_ok hscan]
  have hI := scanInv_of_scanInodes hscan
  have hr := (scanInv_used_iff hI ROOTINO).mpr hroot
  unfold afterScan
  rw [if_neg hr]
  obtain ⟨rest, hsplit⟩ := range_split hd
  have : walkInodes img t0 = .error e := by
    unfold walkInodes
    rw [hsplit, forLoop_append_ok hwalk, forLoop_cons_error herr]
  rw [this]

/-- The tables before directory `d` is walked still record the scanner's view of `d`. -/
theorem walk_prefix_frame {img : Image} {d : Nat} {t0 t1 : Tables}
    (hwalk : forLoop (walkInode img) (List.range d) t0 = .ok t1) : Frame t0 t1 :=
  (forLoop_invariant (Frame t0) (fun _ => True)
    (fun _ _ _ hq hb => ⟨trivial, (walkInode_ok hq hb).2⟩) (List.range d) t0 t1
    (frame_refl t0) hwalk).2

theorem walkInode_of_isDir {img : Image} {d : Nat} {t0 t1 : Tables}
    (hscan : scanInodes img initTables = .ok t0)
    (hwalk : forLoop (walkInode img) (List.range d) t0 = .ok t1) (hd : isDir img d) :
    walkInode img d t1 =
      match walkBlocks img d t1 with
      | .error e => .error e
      | .ok s =>
        if s.dot_found = 0 ∨ s.dotdot_found = 0 then .error .DirFormatError
        else if d = ROOTINO ∧ s.t.inode_parent d ≠ (ROOTINO : Int) then .error .MissingRoot
        else .ok s.t := by
  have hI := scanInv_of_scanInodes hscan
  have hfr := walk_prefix_frame hwalk
  have hdir := scanInv_isDir hI hd
  rw [← hfr.1, ← hfr.2.1] at hdir
  unfold walkInode
  rw [if_pos hdir]

/-! ## Reference counting by the walk -/

/-- A non-free entry that passes: what was counted. -/
theorem direntStep_counts {img : Image} {addr dir_inum num_inodes i : Nat} {s s1 : WalkState}
    (h0 : direntInum img addr i ≠ 0)
    (h : direntStep img addr dir_inum num_inodes i s = .ok s1) :
    s1.t.inode_referenced = setAt s.t.inode_referenced (direntInum img addr i) 1 ∧
      s1.t.inode_linkcount =
        (if s.t.inode_type (direntInum img addr i) = T_FILE ∨
            s.t.inode_type (direntInum img addr i) = T_DIR then
          setAt s.t.inode_linkcount (direntInum img addr i)
            (s.t.inode_linkcount (direntInum img addr i) + 1)
        else s.t.inode_linkcount) := by
  unfold direntStep at h
  rw [if_neg h0] at h
  by_cases hty : s.t.inode_type (direntInum img addr i) = T_FILE ∨
      s.t.inode_type (direntInum img addr i) = T_DIR
  · by_cases hdot : isDot img addr i = true
    · simp only [hdot, if_true] at h
      by_cases hne : direntInum img addr i ≠ dir_inum
      · rw [if_pos hne] at h; cases h
      · rw [if_neg hne] at h
        simp only [] at h
        by_cases hge : direntInum img addr i ≥ num_inodes
        · rw [if_pos hge] at h; cases h
        · rw [if_neg hge] at h
          by_cases hu : s.t.inode_used (direntInum img addr i) = 0
          · rw [if_pos hu] at h; cases h
          · rw [if_neg hu, if_pos hty] at h
            simp only [Except.ok.injEq] at h
            subst h
            rw [if_pos hty]
            exact ⟨rfl, rfl⟩
    · simp only [hdot, Bool.false_eq_true, if_false] at h
      by_cases hdd : isDotDot img addr i = true
      · simp only [hdd, if_true] at h
        by_cases hge : direntInum img addr i ≥ num_inodes
        · rw [if_pos hge] at h; cases h
        · rw [if_neg hge] at h
          by_cases hu : s.t.inode_used (direntInum img addr i) = 0
          · rw [if_pos hu] at h; cases h
          · rw [if_neg hu, if_pos hty] at h
            simp only [Except.ok.injEq] at h
            subst h
            rw [if_pos hty]
            exact ⟨rfl, rfl⟩
      · simp only [hdd, Bool.false_eq_true, if_false] at h
        by_cases hge : direntInum img addr i ≥ num_inodes
        · rw [if_pos hge] at h; cases h
        · rw [if_neg hge] at h
          by_cases hu : s.t.inode_used (direntInum img addr i) = 0
          · rw [if_pos hu] at h; cases h
          · rw [if_neg hu, if_pos hty] at h
            simp only [Except.ok.injEq] at h
            subst h
            rw [if_pos hty]
            exact ⟨rfl, rfl⟩
  · by_cases hdot : isDot img addr i = true
    · simp only [hdot, if_true] at h
      by_cases hne : direntInum img addr i ≠ dir_inum
      · rw [if_pos hne] at h; cases h
      · rw [if_neg hne] at h
        simp only [] at h
        by_cases hge : direntInum img addr i ≥ num_inodes
        · rw [if_pos hge] at h; cases h
        · rw [if_neg hge] at h
          by_cases hu : s.t.inode_used (direntInum img addr i) = 0
          · rw [if_pos hu] at h; cases h
          · rw [if_neg hu, if_neg hty] at h
            simp only [Except.ok.injEq] at h
            subst h
            rw [if_neg hty]
            exact ⟨rfl, rfl⟩
    · simp only [hdot, Bool.false_eq_true, if_false] at h
      by_cases hdd : isDotDot img addr i = true
      · simp only [hdd, if_true] at h
        by_cases hge : direntInum img addr i ≥ num_inodes
        · rw [if_pos hge] at h; cases h
        · rw [if_neg hge] at h
          by_cases hu : s.t.inode_used (direntInum img addr i) = 0
          · rw [if_pos hu] at h; cases h
          · rw [if_neg hu, if_neg hty] at h
            simp only [Except.ok.injEq] at h
            subst h
            rw [if_neg hty]
            exact ⟨rfl, rfl⟩
      · simp only [hdd, Bool.false_eq_true, if_false] at h
        by_cases hge : direntInum img addr i ≥ num_inodes
        · rw [if_pos hge] at h; cases h
        · rw [if_neg hge] at h
          by_cases hu : s.t.inode_used (direntInum img addr i) = 0
          · rw [if_pos hu] at h; cases h
          · rw [if_neg hu, if_neg hty] at h
            simp only [Except.ok.injEq] at h
            subst h
            rw [if_neg hty]
            exact ⟨rfl, rfl⟩

theorem countP_refersTo_snoc (img : Image) (j : Nat) (L : List (Nat × Nat)) (e : Nat × Nat) :
    (L ++ [e]).countP (refersTo img j) =
      L.countP (refersTo img j) +
        (if direntInum img e.1 e.2 ≠ 0 ∧ direntInum img e.1 e.2 = j then 1 else 0) := by
  rw [List.countP_append, List.countP_cons, List.countP_nil, Nat.zero_add]
  simp only [refersTo, decide_eq_true_eq]

theorem countInv_refl (img : Image) (t : Tables) : CountInv img t [] t where
  frame := frame_refl t
  linkcount_eq := by intro j; simp
  referenced_iff := by intro j; simp

theorem countInv_step (img : Image) (d : Nat) (t0 : Tables) (e : Nat × Nat) (s s1 : WalkState)
    (L : List (Nat × Nat)) (hI : CountInv img t0 L s.t) (h : walkStep img d e s = .ok s1) :
    CountInv img t0 (L ++ [e]) s1.t := by
  unfold walkStep at h
  by_cases h0 : direntInum img e.1 e.2 = 0
  · rw [direntStep_free s h0] at h
    simp only [Except.ok.injEq] at h
    subst h
    have hc : ∀ j, (L ++ [e]).countP (refersTo img j) = L.countP (refersTo img j) := by
      intro j
      rw [countP_refersTo_snoc, if_neg (fun hc => hc.1 h0), Nat.add_zero]
    refine ⟨hI.frame, ?_, ?_⟩
    · intro j; rw [hc j]; exact hI.linkcount_eq j
    · intro j; rw [hc j]; exact hI.referenced_iff j
  · obtain ⟨_, _, _, _, _, _, hfr⟩ := direntStep_ok h0 h
    obtain ⟨href, hlink⟩ := direntStep_counts h0 h
    have htyeq : s.t.inode_type = t0.inode_type := hI.frame.2.1
    refine ⟨frame_trans hI.frame hfr, ?_, ?_⟩
    · intro j
      have hIj := hI.linkcount_eq j
      rw [hlink, countP_refersTo_snoc, htyeq]
      by_cases hj : direntInum img e.1 e.2 = j
      · subst hj
        have hcond : direntInum img e.1 e.2 ≠ 0 ∧
            direntInum img e.1 e.2 = direntInum img e.1 e.2 := ⟨h0, rfl⟩
        rw [if_pos hcond]
        by_cases hty : t0.inode_type (direntInum img e.1 e.2) = T_FILE ∨
            t0.inode_type (direntInum img e.1 e.2) = T_DIR
        · simp only [if_pos hty] at hIj ⊢
          simp only [setAt, ↓reduceIte]
          omega
        · simp only [if_neg hty] at hIj ⊢
          exact hIj
      · have hcond : ¬ (direntInum img e.1 e.2 ≠ 0 ∧ direntInum img e.1 e.2 = j) :=
          fun hc => hj hc.2
        have hj2 : ¬ j = direntInum img e.1 e.2 := fun hc => hj hc.symm
        by_cases hty : t0.inode_type (direntInum img e.1 e.2) = T_FILE ∨
            t0.inode_type (direntInum img e.1 e.2) = T_DIR
        · simp only [if_pos hty, if_neg hcond, setAt, if_neg hj2, Nat.add_zero]
          exact hIj
        · simp only [if_neg hty, if_neg hcond, Nat.add_zero]
          exact hIj
    · intro j
      rw [href, countP_refersTo_snoc]
      by_cases hj : direntInum img e.1 e.2 = j
      · subst hj
        rw [if_pos ⟨h0, rfl⟩]
        simp only [setAt, if_true]
        constructor
        · intro _; right; omega
        · intro _; decide
      · rw [if_neg (fun hc => hj hc.2), Nat.add_zero]
        have hj2 : j ≠ direntInum img e.1 e.2 := fun hc => hj hc.symm
        simp only [setAt, if_neg hj2]
        exact hI.referenced_iff j

/-- The counts after any run of entry slots of a directory. -/
theorem countInv_of_run (img : Image) (d : Nat) (L : List (Nat × Nat)) (s0 s : WalkState)
    (h : forLoop (walkStep img d) L s0 = .ok s) : CountInv img s0.t L s.t := by
  have := forLoop_prefix (fun L s => CountInv img s0.t L s.t)
    (fun e s s1 L hI hs => countInv_step img d s0.t e s s1 L hI hs) L s0 s []
    (countInv_refl img s0.t) h
  simpa using this

theorem countInv_trans {img : Image} {t0 t1 t2 : Tables} {L1 L2 : List (Nat × Nat)}
    (h1 : CountInv img t0 L1 t1) (h2 : CountInv img t1 L2 t2) :
    CountInv img t0 (L1 ++ L2) t2 := by
  refine ⟨frame_trans h1.frame h2.frame, ?_, ?_⟩
  · intro j
    rw [h2.linkcount_eq j, h1.linkcount_eq j, h1.frame.2.1, List.countP_append]
    by_cases hty : t0.inode_type j = T_FILE ∨ t0.inode_type j = T_DIR
    · simp only [if_pos hty]; omega
    · simp only [if_neg hty]
  · intro j
    rw [h2.referenced_iff j, h1.referenced_iff j, List.countP_append]
    constructor
    · rintro ((h | h) | h)
      · exact Or.inl h
      · right; omega
      · right; omega
    · rintro (h | h)
      · exact Or.inl (Or.inl h)
      · by_cases hc : 0 < List.countP (refersTo img j) L1
        · exact Or.inl (Or.inr hc)
        · right; omega

/-- The slots the walk visits for inode `d`, as the tables `t0` classify it. -/
theorem walkInode_counts {img : Image} {d : Nat} {t0 t t1 : Tables} {L : List (Nat × Nat)}
    (hI : CountInv img t0 L t) (h : walkInode img d t = .ok t1) :
    CountInv img t0
      (L ++ (if t0.inode_used d ≠ 0 ∧ t0.inode_type d = T_DIR then dirSlots img d else [])) t1 := by
  unfold walkInode at h
  rw [hI.frame.1, hI.frame.2.1] at h
  by_cases hdir : t0.inode_used d ≠ 0 ∧ t0.inode_type d = T_DIR
  · rw [if_pos hdir] at h
    rw [if_pos hdir]
    cases hw : walkBlocks img d t with
    | error e => rw [hw] at h; cases h
    | ok s =>
      rw [hw] at h
      simp only [] at h
      by_cases hflags : s.dot_found = 0 ∨ s.dotdot_found = 0
      · rw [if_pos hflags] at h; cases h
      · rw [if_neg hflags] at h
        by_cases hroot : d = ROOTINO ∧ s.t.inode_parent d ≠ (ROOTINO : Int)
        · rw [if_pos hroot] at h; cases h
        · rw [if_neg hroot] at h
          simp only [Except.ok.injEq] at h
          subst h
          rw [walkBlocks_eq_slots] at hw
          exact countInv_trans hI (countInv_of_run img d _ _ s hw)
  · rw [if_neg hdir] at h
    rw [if_neg hdir, List.append_nil]
    simp only [Except.ok.injEq] at h
    subst h
    exact hI

/-- After the scanner and the walk, the link-count table holds the measured link counts of
the files and directories, and the referenced table marks the inodes some entry names. -/
theorem walk_counts {img : Image} {t t1 : Tables} (hscan : scanInodes img initTables = .ok t)
    (hwalk : walkInodes img t = .ok t1) :
    Frame t t1 ∧
    (∀ j, t1.inode_linkcount j =
      if t.inode_type j = T_FILE ∨ t.inode_type j = T_DIR then measuredLinks img j else 0) ∧
    (∀ j, t1.inode_referenced j ≠ 0 ↔ 0 < measuredLinks img j) := by
  have hS := scanInv_of_scanInodes hscan
  have hC := forLoop_accum
    (fun d => if t.inode_used d ≠ 0 ∧ t.inode_type d = T_DIR then dirSlots img d else [])
    (fun L t2 => CountInv img t L t2)
    (fun d s s1 L hI hb => walkInode_counts hI hb)
    (List.range (sb_ninodes img)) t t1 [] (countInv_refl img t) hwalk
  rw [List.nil_append] at hC
  have hslots : (List.range (sb_ninodes img)).flatMap
      (fun d => if t.inode_used d ≠ 0 ∧ t.inode_type d = T_DIR then dirSlots img d else []) =
      allSlots img := by
    unfold allSlots
    apply List.flatMap_congr
    intro d hd
    have hd2 := List.mem_range.mp hd
    have hm := (inode_mem_scanEvents img d).mpr hd2
    by_cases hty : inodeType img d = T_DIR
    · rw [if_pos (scanInv_isDir hS ⟨hd2, hty⟩), if_pos hty]
    · rw [if_neg hty, if_neg]
      intro hc
      have := hS.inode_type_eq d
      rw [if_pos hm] at this
      exact hty (this ▸ hc.2)
  rw [hslots] at hC
  refine ⟨hC.frame, ?_, ?_⟩
  · intro j
    have := hC.linkcount_eq j
    rw [hS.linkcount_eq] at this
    simpa [initTables, measuredLinks] using this
  · intro j
    have := hC.referenced_iff j
    rw [hS.referenced_eq] at this
    simpa [initTables, measuredLinks] using this

/-- The second reference-count pass succeeded: its test holds of every inode from 1 on. -/
theorem refCountCheck_ok {img : Image} {t : Tables} (h : refCountCheck img t = .ok ()) (inum : Nat)
    (h1 : 1 ≤ inum) (h2 : inum < sb_ninodes img) : refCountBody t inum () = .ok () := by
  have := forLoop_invariant (fun _ => True) (fun inum => refCountBody t inum () = .ok ())
    (fun i s s1 _ hb => ⟨hb, trivial⟩) (List.range' 1 (sb_ninodes img - 1)) () () trivial h
  apply this.1 inum
  rw [List.mem_range'_1]
  omega

/-- The entry slots of a directory are a segment of the slots of the whole walk. -/
theorem allSlots_split (img : Image) {d : Nat} (hd : isDir img d) :
    ∃ A B, allSlots img = A ++ dirSlots img d ++ B := by
  obtain ⟨rest, hr⟩ := range_split hd.1
  unfold allSlots
  rw [hr, List.flatMap_append, List.flatMap_cons, if_pos hd.2]
  exact ⟨_, _, (List.append_assoc _ _ _).symm⟩

/-! ## The report engine follows the image -/

theorem mem_allSlots (img : Image) (e : Nat × Nat) :
    e ∈ allSlots img ↔ ∃ d, isDir img d ∧ e ∈ dirSlots img d := by
  unfold allSlots isDir
  rw [List.mem_flatMap]
  constructor
  · rintro ⟨d, hd, he⟩
    by_cases hty : inodeType img d = T_DIR
    · rw [if_pos hty] at he
      exact ⟨d, ⟨List.mem_range.mp hd, hty⟩, he⟩
    · rw [if_neg hty] at he
      simp at he
  · rintro ⟨d, ⟨hd, hty⟩, he⟩
    refine ⟨d, List.mem_range.mpr hd, ?_⟩
    rw [if_pos hty]
    exact he

/-- The measured link count is positive exactly for the referenced inodes. -/
theorem referencedInode_iff (img : Image) (j : Nat) :
    referencedInode img j ↔ 0 < measuredLinks img j := by
  unfold referencedInode measuredLinks
  rw [List.countP_pos_iff]
  constructor
  · rintro ⟨d, hd, e, he, h0, hj⟩
    exact ⟨e, (mem_allSlots img e).mpr ⟨d, hd, he⟩, decide_eq_true ⟨h0, hj⟩⟩
  · rintro ⟨e, he, hp⟩
    obtain ⟨d, hd, hed⟩ := (mem_allSlots img e).mp he
    have := of_decide_eq_true hp
    exact ⟨d, hd, e, hed, this.1, this.2⟩

theorem scanInv_type_of_lt {img : Image} {t : Tables} (hI : ScanInv img (scanEvents img) t)
    {j : Nat} (hj : j < sb_ninodes img) : t.inode_type j = inodeType img j := by
  rw [hI.inode_type_eq j, if_pos ((inode_mem_scanEvents img j).mpr hj)]

theorem scanInv_nlink_of_allocated {img : Image} {t : Tables}
    (hI : ScanInv img (scanEvents img) t) {j : Nat} (hj : allocated img j) :
    t.inode_nlink j = inodeNlink img j := by
  rw [hI.inode_nlink_eq j, if_pos ⟨(inode_mem_scanEvents img j).mpr hj.1, hj.2⟩]

theorem orphanBody_eq {img : Image} {t t1 : Tables} (hscan : scanInodes img initTables = .ok t)
    (hwalk : walkInodes img t = .ok t1) (j : Nat) :
    orphanBody t1 j () = reportOrphan img j () := by
  have hI := scanInv_of_scanInodes hscan
  obtain ⟨hfr, _, href⟩ := walk_counts hscan hwalk
  unfold orphanBody reportOrphan orphanInode
  rw [hfr.1, hfr.2.1]
  by_cases ha : allocated img j
  · have hu := (scanInv_used_iff hI j).mpr ha
    have hty := scanInv_type_of_lt hI ha.1
    have hr : t1.inode_referenced j = 0 ↔ measuredLinks img j = 0 := by
      have := href j
      constructor
      · intro h0
        by_contra hc
        exact (this.mpr (by omega)) h0
      · intro h0
        by_contra hc
        have := this.mp hc
        omega
    rw [hty]
    by_cases h1 : inodeType img j ≠ T_DIR ∧ measuredLinks img j = 0
    · rw [if_pos ⟨hu, hr.mpr h1.2, h1.1⟩, if_pos ⟨ha, h1.1, h1.2⟩]
    · rw [if_neg (fun hc => h1 ⟨hc.2.2, hr.mp hc.2.1⟩), if_neg (fun hc => h1 ⟨hc.2.1, hc.2.2⟩)]
  · have hu : ¬ t.inode_used j ≠ 0 := fun hc => ha ((scanInv_used_iff hI j).mp hc)
    rw [if_neg (fun hc => hu hc.1), if_neg (fun hc => ha hc.1)]

theorem refCountBody_eq {img : Image} {t t1 : Tables} (hscan : scanInodes img initTables = .ok t)
    (hwalk : walkInodes img t = .ok t1) (j : Nat) :
    refCountBody t1 j () = reportRefCount img j () := by
  have hI := scanInv_of_scanInodes hscan
  obtain ⟨hfr, hlink, _⟩ := walk_counts hscan hwalk
  have hl := hlink j
  unfold refCountBody reportRefCount badRefCount multiplyLinked isDir
  rw [hfr.1, hfr.2.1, hfr.2.2.1]
  by_cases ha : allocated img j
  · have hu := (scanInv_used_iff hI j).mpr ha
    have hty := scanInv_type_of_lt hI ha.1
    have hnl := scanInv_nlink_of_allocated hI ha
    have hlt := ha.1
    rw [hty] at hl ⊢
    rw [hnl]
    by_cases hf : inodeType img j = T_FILE
    · have hnd : ¬ inodeType img j = T_DIR := by rw [hf]; decide
      rw [if_pos (Or.inl hf)] at hl
      rw [hl]
      by_cases hne : inodeNlink img j ≠ measuredLinks img j
      · simp [ha, hu, hf, hne, hnd, show ¬ (T_FILE = T_DIR) by decide, show ¬ (T_DIR = T_FILE) by decide]
      · simp [ha, hu, hf, hne, hnd, show ¬ (T_FILE = T_DIR) by decide, show ¬ (T_DIR = T_FILE) by decide]
    · by_cases hd : inodeType img j = T_DIR
      · rw [if_pos (Or.inr hd)] at hl
        rw [hl]
        by_cases hm : j ≠ ROOTINO ∧ measuredLinks img j > 1
        · simp [ha, hu, hf, hd, hm, hlt, show ¬ (T_FILE = T_DIR) by decide, show ¬ (T_DIR = T_FILE) by decide]
        · simp [ha, hu, hf, hd, hm, hlt, show ¬ (T_FILE = T_DIR) by decide, show ¬ (T_DIR = T_FILE) by decide]
      · simp [ha, hu, hf, hd, show ¬ (T_FILE = T_DIR) by decide, show ¬ (T_DIR = T_FILE) by decide]
  · have hu : t.inode_used j = 0 := by
      by_contra hc
      exact ha ((scanInv_used_iff hI j).mp hc)
    have hnd : ¬ (j < sb_ninodes img ∧ inodeType img j = T_DIR) := by
      intro hc
      exact ha ⟨hc.1, by rw [hc.2]; decide⟩
    simp [ha, hu, hnd, show ¬ (T_FILE = T_DIR) by decide, show ¬ (T_DIR = T_FILE) by decide]

theorem sweepMarkedBody_eq {img : Image} {t t1 : Tables}
    (hscan : scanInodes img initTables = .ok t) (hwalk : walkInodes img t = .ok t1) (b : Nat) :
    sweepMarkedBody img t1 b () = reportSweep img b () := by
  have hI := scanInv_of_scanInodes hscan
  have hfr := (walkInodes_ok hwalk).2
  unfold sweepMarkedBody reportSweep falsePositive
  rw [hfr.2.2.2.1]
  have hu := hI.used_iff b
  rw [taggedClaims_scanEvents] at hu
  by_cases h1 : block_is_marked img b ≠ 0 ∧ b ∉ claimedBlocks img
  · have h2 : block_is_marked img b ≠ 0 ∧ t.block_used b = 0 := ⟨h1.1, by
      by_contra hc
      exact h1.2 (hu.mp hc)⟩
    rw [if_pos h1, if_pos h2]
  · have h2 : ¬ (block_is_marked img b ≠ 0 ∧ t.block_used b = 0) :=
      fun hc => h1 ⟨hc.1, fun hm => hu.mpr hm hc.2⟩
    rw [if_neg h1, if_neg h2]

/-- The sweeps for claimed blocks with a clear bit never fail: the bit of every claimed
block was tested when it was claimed. -/
theorem sweepUsedBody_ok {img : Image} {t t1 : Tables}
    (hscan : scanInodes img initTables = .ok t) (hwalk : walkInodes img t = .ok t1) (b : Nat) :
    sweepUsedBody img t1 b () = .ok () := by
  have hI := scanInv_of_scanInodes hscan
  have hfr := (walkInodes_ok hwalk).2
  unfold sweepUsedBody
  rw [hfr.2.2.2.1]
  rw [if_neg]
  rintro ⟨hu, hm⟩
  obtain ⟨⟨k, b2⟩, hkb, hb2⟩ := List.mem_map.mp ((hI.used_iff b).mp hu)
  simp only at hb2
  subst hb2
  exact (hI.claim_ok k b2 hkb).2.2.2 hm

/-- After a scan and a walk that pass, with inode 1 allocated, `main` returns what the
report engine finds in the image. -/
theorem main_eq_report {img : Image} {t t1 : Tables}
    (hscan : scanInodes img initTables = .ok t) (hroot : allocated img ROOTINO)
    (hwalk : walkInodes img t = .ok t1) : main img = report img := by
  have hI := scanInv_of_scanInodes hscan
  rw [main_of_scan_ok hscan]
  unfold afterScan
  rw [if_neg ((scanInv_used_iff hI ROOTINO).mpr hroot), hwalk]
  simp only []
  unfold orphanCheck refCountCheck bitmapSweeps report inumsFrom1
  rw [forLoop_congr (fun i _ s => orphanBody_eq hscan hwalk i) (),
    forLoop_congr (fun i _ s => refCountBody_eq hscan hwalk i) (),
    forLoop_congr (fun i _ s => sweepMarkedBody_eq hscan hwalk i) ()]
  cases forLoop (reportOrphan img) (List.range' 1 (sb_ninodes img - 1)) () with
  | error e => rfl
  | ok u =>
    simp only []
    cases forLoop (reportRefCount img) (List.range' 1 (sb_ninodes img - 1)) () with
    | error e => rfl
    | ok u2 =>
      simp only []
      cases forLoop (reportSweep img) (sweepRange img) () with
      | error e => rfl
      | ok u3 =>
        simp only []
        rw [forLoop_unit_ok _ (fun i _ => sweepUsedBody_ok hscan hwalk i)]

/-- A loop of tests stops at the first index that fails, when the indices increase. -/
theorem forLoop_first_error {body : Nat → Unit → Except Err Unit} {l : List Nat} {j : Nat}
    {e : Err} (hsorted : l.Pairwise (fun a b => a < b)) (hj : j ∈ l)
    (hbefore : ∀ i ∈ l, i < j → body i () = .ok ()) (herr : body j () = .error e) :
    forLoop body l () = .error e := by
  induction l with
  | nil => simp at hj
  | cons x xs ih =>
    rw [List.pairwise_cons] at hsorted
    rcases List.mem_cons.mp hj with hx | hx
    · subst hx
      exact forLoop_cons_error herr _
    · have hlt := hsorted.1 j hx
      rw [forLoop_cons_ok (hbefore x (List.mem_cons_self _ _) hlt)]
      exact ih hsorted.2 hx (fun i hi hij => hbefore i (List.mem_cons_of_mem _ hi) hij)

/-- A loop of tests that can only fail with `e` fails with `e` as soon as some index fails. -/
theorem forLoop_uniform_error {ι : Type} {body : ι → Unit → Except Err Unit} {l : List ι}
    {e : Err} (hall : ∀ i ∈ l, body i () = .ok () ∨ body i () = .error e)
    (hex : ∃ i ∈ l, body i () = .error e) : forLoop body l () = .error e := by
  induction l with
  | nil => obtain ⟨i, hi, _⟩ := hex; simp at hi
  | cons x xs ih =>
    rcases hall x (List.mem_cons_self _ _) with hok | herr
    · rw [forLoop_cons_ok hok]
      apply ih (fun i hi => hall i (List.mem_cons_of_mem _ hi))
      obtain ⟨i, hi, hie⟩ := hex
      rcases List.mem_cons.mp hi with rfl | hi
      · rw [hok] at hie; cases hie
      · exact ⟨i, hi, hie⟩
    · exact forLoop_cons_error herr _

/-- A loop of tests that passes: every index passes. -/
theorem forLoop_unit_all {ι : Type} {body : ι → Unit → Except Err Unit} {l : List ι}
    (h : forLoop body l () = .ok ()) : ∀ i ∈ l, body i () = .ok () :=
  (forLoop_invariant (fun _ => True) (fun i => body i () = .ok ())
    (fun _ _ _ _ hb => ⟨hb, trivial⟩) l () () trivial h).1

theorem mem_inumsFrom1 (img : Image) (j : Nat) :
    j ∈ inumsFrom1 img ↔ 1 ≤ j ∧ j < sb_ninodes img := by
  unfold inumsFrom1
  rw [List.mem_range'_1]
  omega

/-- The phases of a successful report. -/
theorem report_ok {img : Image} (h : report img = .ok ()) :
    (∀ j, 1 ≤ j → j < sb_ninodes img → ¬ orphanInode img j) ∧
    (∀ j, 1 ≤ j → j < sb_ninodes img → ¬ badRefCount img j ∧ ¬ multiplyLinked img j) ∧
    (∀ b, data_block_start img ≤ b → b < sb_size img → ¬ falsePositive img b) := by
  unfold report at h
  cases h1 : forLoop (reportOrphan img) (inumsFrom1 img) () with
  | error e => rw [h1] at h; cases h
  | ok u =>
    rw [h1] at h
    simp only [] at h
    cases h2 : forLoop (reportRefCount img) (inumsFrom1 img) () with
    | error e => rw [h2] at h; cases h
    | ok u2 =>
      rw [h2] at h
      simp only [] at h
      refine ⟨?_, ?_, ?_⟩
      · intro j hj1 hj2 ho
        have := forLoop_unit_all h1 j ((mem_inumsFrom1 img j).mpr ⟨hj1, hj2⟩)
        unfold reportOrphan at this
        rw [if_pos ho] at this
        cases this
      · intro j hj1 hj2
        have := forLoop_unit_all h2 j ((mem_inumsFrom1 img j).mpr ⟨hj1, hj2⟩)
        unfold reportRefCount at this
        constructor
        · intro hb
          rw [if_pos hb] at this
          cases this
        · intro hm
          by_cases hb : badRefCount img j
          · rw [if_pos hb] at this; cases this
          · rw [if_neg hb, if_pos hm] at this; cases this
      · intro b hlo hhi hf
        have := forLoop_unit_all h b ((mem_sweepRange img b).mpr ⟨hlo, hhi⟩)
        unfold reportSweep at this
        rw [if_pos hf] at this
        cases this

/-- The phases of a successful run, with the report read off the image. -/
theorem main_ok_report {img : Image} (h : main img = .ok ()) : report img = .ok () := by
  obtain ⟨t, t1, hs, _, hw, _, _, _⟩ := main_ok_phases h
  rw [← main_eq_report hs (root_allocated_of_ok h) hw]
  exact h

/-- No entry names inode 0: inode number 0 marks a free slot. -/
theorem measuredLinks_zero (img : Image) : measuredLinks img 0 = 0 := by
  unfold measuredLinks
  rw [List.countP_eq_zero]
  intro e _ hp
  have := of_decide_eq_true hp
  exact this.1 this.2

theorem inumsFrom1_sorted (img : Image) : (inumsFrom1 img).Pairwise (fun a b => a < b) :=
  List.pairwise_lt_range' 1 _

theorem report_orphan {img : Image}
    (h : ∃ j, 1 ≤ j ∧ j < sb_ninodes img ∧ orphanInode img j) : report img = .error .Orphan := by
  obtain ⟨j, h1, h2, ho⟩ := h
  have : forLoop (reportOrphan img) (inumsFrom1 img) () = .error .Orphan := by
    apply forLoop_uniform_error
    · intro i _
      unfold reportOrphan
      by_cases hi : orphanInode img i
      · rw [if_pos hi]; exact Or.inr rfl
      · rw [if_neg hi]; exact Or.inl rfl
    · refine ⟨j, (mem_inumsFrom1 img j).mpr ⟨h1, h2⟩, ?_⟩
      unfold reportOrphan
      rw [if_pos ho]
  unfold report
  rw [this]

theorem report_no_orphan {img : Image}
    (h : ∀ j, 1 ≤ j → j < sb_ninodes img → ¬ orphanInode img j) :
    forLoop (reportOrphan img) (inumsFrom1 img) () = .ok () := by
  apply forLoop_unit_ok
  intro i hi
  obtain ⟨h1, h2⟩ := (mem_inumsFrom1 img i).mp hi
  unfold reportOrphan
  rw [if_neg (h i h1 h2)]

theorem report_refCount {img : Image} {j : Nat} {e : Err}
    (horph : ∀ i, 1 ≤ i → i < sb_ninodes img → ¬ orphanInode img i)
    (h1 : 1 ≤ j) (h2 : j < sb_ninodes img)
    (hbefore : ∀ i, 1 ≤ i → i < j → ¬ badRefCount img i ∧ ¬ multiplyLinked img i)
    (herr : reportRefCount img j () = .error e) : report img = .error e := by
  have : forLoop (reportRefCount img) (inumsFrom1 img) () = .error e := by
    apply forLoop_first_error (inumsFrom1_sorted img) ((mem_inumsFrom1 img j).mpr ⟨h1, h2⟩) _ herr
    intro i hi hij
    obtain ⟨hi1, _⟩ := (mem_inumsFrom1 img i).mp hi
    unfold reportRefCount
    rw [if_neg (hbefore i hi1 hij).1, if_neg (hbefore i hi1 hij).2]
  unfold report
  rw [report_no_orphan horph, this]

theorem report_no_refCount {img : Image}
    (h : ∀ j, 1 ≤ j → j < sb_ninodes img → ¬ badRefCount img j ∧ ¬ multiplyLinked img j) :
    forLoop (reportRefCount img) (inumsFrom1 img) () = .ok () := by
  apply forLoop_unit_ok
  intro i hi
  obtain ⟨h1, h2⟩ := (mem_inumsFrom1 img i).mp hi
  unfold reportRefCount
  rw [if_neg (h i h1 h2).1, if_neg (h i h1 h2).2]

theorem report_sweep {img : Image}
    (horph : ∀ i, 1 ≤ i → i < sb_ninodes img → ¬ orphanInode img i)
    (href : ∀ j, 1 ≤ j → j < sb_ninodes img → ¬ badRefCount img j ∧ ¬ multiplyLinked img j)
    (h : ∃ b, data_block_start img ≤ b ∧ b < sb_size img ∧ falsePositive img b) :
    report img = .error .BitmapFalsePositive := by
  obtain ⟨b, hlo, hhi, hf⟩ := h
  have : forLoop (reportSweep img) (sweepRange img) () = .error .BitmapFalsePositive := by
    apply forLoop_uniform_error
    · intro i _
      unfold reportSweep
      by_cases hi : falsePositive img i
      · rw [if_pos hi]; exact Or.inr rfl
      · rw [if_neg hi]; exact Or.inl rfl
    · refine ⟨b, (mem_sweepRange img b).mpr ⟨hlo, hhi⟩, ?_⟩
      unfold reportSweep
      rw [if_pos hf]
  unfold report
  rw [report_no_orphan horph, report_no_refCount href, this]

theorem report_clean {img : Image}
    (horph : ∀ i, 1 ≤ i → i < sb_ninodes img → ¬ orphanInode img i)
    (href : ∀ j, 1 ≤ j → j < sb_ninodes img → ¬ badRefCount img j ∧ ¬ multiplyLinked img j)
    (h : ∀ b, data_block_start img ≤ b → b < sb_size img → ¬ falsePositive img b) :
    report img = .ok () := by
  have : forLoop (reportSweep img) (sweepRange img) () = .ok () := by
    apply forLoop_unit_ok
    intro i hi
    obtain ⟨h1, h2⟩ := (mem_sweepRange img i).mp hi
    unfold reportSweep
    rw [if_neg (h i h1 h2)]
  unfold report
  rw [report_no_orphan horph, report_no_refCount href, this]

/-- On a scanned image, an allocated inode that is not a directory is a file or a device. -/
theorem scanInv_file_or_dev {img : Image} {t : Tables} (hI : ScanInv img (scanEvents img) t)
    {j : Nat} (ha : allocated img j) :
    inodeType img j ≠ T_DIR ↔ (inodeType img j = T_FILE ∨ inodeType img j = T_DEV) := by
  have hty := hI.type_ok j ((inode_mem_scanEvents img j).mpr ha.1)
  have h0 := ha.2
  constructor
  · intro hnd
    rcases hty with h | h | h | h
    · exact absurd h h0
    · exact Or.inl h
    · exact absurd h hnd
    · exact Or.inr h
  · rintro (h | h) <;> rw [h] <;> decide

/-- An unreferenced allocated file or device is what the orphan test looks for. -/
theorem orphanInode_iff {img : Image} {t : Tables} (hI : ScanInv img (scanEvents img) t)
    (j : Nat) :
    orphanInode img j ↔ (allocated img j ∧
      (inodeType img j = T_FILE ∨ inodeType img j = T_DEV) ∧ ¬ referencedInode img j) := by
  unfold orphanInode
  rw [referencedInode_iff]
  constructor
  · rintro ⟨ha, hnd, hm⟩
    exact ⟨ha, (scanInv_file_or_dev hI ha).mp hnd, by omega⟩
  · rintro ⟨ha, hfd, hm⟩
    exact ⟨ha, (scanInv_file_or_dev hI ha).mpr hfd, by omega⟩

/-- The walk stops `main` with its own diagnostic, once inode 1 is known to be allocated. -/
theorem main_of_walkInodes_error {img : Image} {t : Tables} {e : Err}
    (hscan : scanInodes img initTables = .ok t) (hroot : allocated img ROOTINO)
    (hwalk : walkInodes img t = .error e) : main img = .error e := by
  rw [main_of_scan_ok hscan]
  unfold afterScan
  rw [if_neg ((scanInv_used_iff (scanInv_of_scanInodes hscan) ROOTINO).mpr hroot), hwalk]

/-- The root check comes right after the scanner. -/
theorem main_of_no_root {img : Image} {t : Tables}
    (hscan : scanInodes img initTables = .ok t) (hroot : ¬ allocated img ROOTINO) :
    main img = .error .MissingRoot := by
  rw [main_of_scan_ok hscan]
  unfold afterScan
  have hI := scanInv_of_scanInodes hscan
  have : t.inode_used ROOTINO = 0 := by
    by_contra hc
    exact hroot ((scanInv_used_iff hI ROOTINO).mp hc)
  rw [if_pos this]

theorem eq_error_of_failsWith {α : Type} {r : Except Err α} {e : Err}
    (h : failsWith r e = true) : r = .error e := by
  cases r with
  | ok a => simp [failsWith] at h
  | error e1 =>
    simp only [failsWith, decide_eq_true_eq] at h
    rw [h]

/-! ## Completeness: runs that pass -/

/-- Under a well-formed layout the program's `data_block_start` is the layout's. -/
theorem data_block_start_eq_spec {img : Image} (h : WellFormedLayout img) :
    data_block_start img = dataStartSpec img :=
  Nat.le_antisymm (data_block_start_le img) h.bitmap_before

/-- A loop passes when every body passes from any state satisfying an invariant it keeps. -/
theorem forLoop_passes {ι σ : Type} {body : ι → σ → Except Err σ} (Q : σ → Prop) (l : List ι)
    (hstep : ∀ i ∈ l, ∀ s, Q s → ∃ s1, body i s = .ok s1 ∧ Q s1) (s : σ) (hq : Q s) :
    ∃ s1, forLoop body l s = .ok s1 ∧ Q s1 := by
  induction l generalizing s with
  | nil => exact ⟨s, rfl, hq⟩
  | cons i l ih =>
    obtain ⟨s1, hb, hq1⟩ := hstep i (List.mem_cons_self _ _) s hq
    rw [forLoop_cons_ok hb]
    exact ih (fun j hj => hstep j (List.mem_cons_of_mem _ hj)) s1 hq1

/-- The scanner passes a list of events whose types are valid and whose claims are in range,
marked and pairwise distinct. -/
theorem run_events_ok (img : Image) (E : List ScanEvent)
    (htypes : ∀ i, ScanEvent.inode i ∈ E →
      inodeType img i = 0 ∨ inodeType img i = T_FILE ∨ inodeType img i = T_DIR ∨
        inodeType img i = T_DEV)
    (hnodup : ((taggedClaims E).map Prod.snd).Nodup)
    (hclaims : ∀ b ∈ (taggedClaims E).map Prod.snd,
      data_block_start img ≤ b ∧ b < sb_size img ∧ block_is_marked img b ≠ 0) :
    ∃ t, forLoop (scanStep img) E initTables = .ok t := by
  induction E using List.reverseRecOn with
  | nil => exact ⟨initTables, rfl⟩
  | append_singleton E ev ih =>
    rw [taggedClaims_append, List.map_append] at hnodup hclaims
    obtain ⟨t, ht⟩ := ih (fun i hi => htypes i (List.mem_append_left _ hi))
      (List.nodup_append.mp hnodup).1 (fun b hb => hclaims b (List.mem_append_left _ hb))
    have hI := scanInv_of_run img E t ht
    rw [forLoop_append_ok ht, forLoop_cons]
    cases ev with
    | inode i =>
      have hty := htypes i (List.mem_append_right _ (List.mem_singleton.mpr rfl))
      have hbad : ¬ (inodeType img i ≠ 0 ∧ inodeType img i ≠ T_FILE ∧ inodeType img i ≠ T_DIR ∧
          inodeType img i ≠ T_DEV) := by
        intro hc
        rcases hty with h | h | h | h
        · exact hc.1 h
        · exact hc.2.1 h
        · exact hc.2.2.1 h
        · exact hc.2.2.2 h
      simp only [scanStep, if_neg hbad]
      by_cases h0 : inodeType img i ≠ 0
      · rw [if_pos h0]; exact ⟨_, rfl⟩
      · rw [if_neg h0]; exact ⟨_, rfl⟩
    | claim k a =>
      have hmem : a ∈ (taggedClaims [ScanEvent.claim k a]).map Prod.snd := by
        rw [taggedClaims_claim]; simp
      obtain ⟨hlo, hhi, hm⟩ := hclaims a (List.mem_append_right _ hmem)
      have hnew : a ∉ (taggedClaims E).map Prod.snd := by
        intro hc
        exact (List.nodup_append.mp hnodup).2.2 hc hmem
      have hunused : ¬ t.block_used a ≠ 0 := fun hc => hnew ((hI.used_iff a).mp hc)
      have hr : ¬ (a < data_block_start img ∨ a ≥ sb_size img) := by omega
      simp only [scanStep, claimBlock, if_neg hr, if_neg hunused, if_neg hm]
      exact ⟨_, rfl⟩

/-- A directory entry passes when it is free, or when it names an allocated inode and, if it
is named `.`, the directory itself. -/
theorem direntStep_passes {img : Image} {addr dir_inum num_inodes i : Nat} (s : WalkState)
    (hself : direntInum img addr i ≠ 0 → isDot img addr i = true →
      direntInum img addr i = dir_inum)
    (hlt : direntInum img addr i ≠ 0 → direntInum img addr i < num_inodes)
    (hused : direntInum img addr i ≠ 0 → s.t.inode_used (direntInum img addr i) ≠ 0) :
    ∃ s1, direntStep img addr dir_inum num_inodes i s = .ok s1 := by
  by_cases h0 : direntInum img addr i = 0
  · exact ⟨s, direntStep_free s h0⟩
  · have hlt2 := hlt h0
    have hu := hused h0
    have hge : ¬ direntInum img addr i ≥ num_inodes := by omega
    unfold direntStep
    rw [if_neg h0]
    by_cases hdot : isDot img addr i = true
    · have heq := hself h0 hdot
      have hne : ¬ direntInum img addr i ≠ dir_inum := fun hc => hc heq
      simp only [hdot, if_true, if_neg hne, if_neg hge]
      rw [if_neg (by simpa using hu)]
      exact ⟨_, rfl⟩
    · simp only [hdot, Bool.false_eq_true, if_false]
      by_cases hdd : isDotDot img addr i = true
      · simp only [hdd, if_true, if_neg hge]
        rw [if_neg (by simpa using hu)]
        exact ⟨_, rfl⟩
      · simp only [hdd, Bool.false_eq_true, if_false, if_neg hge]
        rw [if_neg (by simpa using hu)]
        exact ⟨_, rfl⟩

/-- The walk of one inode passes on a directory whose entries are sound, which holds `.` and
`..`, and whose `..` entries name inode 1 when the directory is inode 1. -/
theorem walkInode_passes {img : Image} {d : Nat} {t0 t : Tables} (hfr : Frame t0 t)
    (hent : t0.inode_used d ≠ 0 ∧ t0.inode_type d = T_DIR →
      (∀ e ∈ dirSlots img d, direntInum img e.1 e.2 ≠ 0 →
        direntInum img e.1 e.2 < sb_ninodes img ∧ t0.inode_used (direntInum img e.1 e.2) ≠ 0 ∧
          (isDot img e.1 e.2 = true → direntInum img e.1 e.2 = d)) ∧
      (∃ e ∈ dirSlots img d, dotEntry img e) ∧ (∃ e ∈ dirSlots img d, dotdotEntry img e) ∧
      (d = ROOTINO → ∀ e ∈ dirSlots img d, dotdotEntry img e →
        direntInum img e.1 e.2 = ROOTINO)) :
    ∃ t1, walkInode img d t = .ok t1 ∧ Frame t0 t1 := by
  unfold walkInode
  rw [hfr.1, hfr.2.1]
  by_cases hdir : t0.inode_used d ≠ 0 ∧ t0.inode_type d = T_DIR
  · rw [if_pos hdir]
    obtain ⟨hsound, hdot, hdotdot, hroot⟩ := hent hdir
    obtain ⟨s, hs, hfs⟩ := forLoop_passes (fun s : WalkState => Frame t s.t) (dirSlots img d)
      (fun e he s hq => by
        have hstep : ∃ s1, walkStep img d e s = .ok s1 := by
          unfold walkStep
          apply direntStep_passes s
          · intro h0 hd
            exact (hsound e he h0).2.2 hd
          · intro h0; exact (hsound e he h0).1
          · intro h0
            rw [hq.1, hfr.1]
            exact (hsound e he h0).2.1
        obtain ⟨s1, hs1⟩ := hstep
        refine ⟨s1, hs1, ?_⟩
        by_cases h0 : direntInum img e.1 e.2 = 0
        · unfold walkStep at hs1
          rw [direntStep_free s h0] at hs1
          simp only [Except.ok.injEq] at hs1
          subst hs1
          exact hq
        · unfold walkStep at hs1
          exact frame_trans hq (direntStep_ok h0 hs1).2.2.2.2.2.2)
      { dot_found := 0, dotdot_found := 0, t := t } (frame_refl t)
    rw [walkBlocks_eq_slots, hs]
    simp only []
    have hI := dirInv_of_run img d t _ s hs
    have h1 : s.dot_found ≠ 0 := hI.dot_iff.mpr hdot
    have h2 : s.dotdot_found ≠ 0 := hI.dotdot_iff.mpr hdotdot
    rw [if_neg (by
      intro hc
      rcases hc with hc | hc
      · exact h1 hc
      · exact h2 hc)]
    have h3 : ¬ (d = ROOTINO ∧ s.t.inode_parent d ≠ (ROOTINO : Int)) := by
      rintro ⟨hd1, hp⟩
      obtain ⟨e, he, hed, hpe⟩ := hI.parent_dotdot h2
      apply hp
      rw [hpe, hroot hd1 e he hed]
    rw [if_neg h3]
    exact ⟨s.t, rfl, frame_trans hfr hfs⟩
  · rw [if_neg hdir]
    exact ⟨t, rfl, hfr⟩

/-! ## Where the accesses of a run come from -/

/-- Rule for the log of a loop: a property of everything each body touches, from states
satisfying an invariant the bodies keep, holds of everything the loop touches. -/
theorem forLoopLog_forall {ι σ β : Type} {body : ι → σ → Except Err σ}
    {log : ι → σ → List β} (Q : σ → Prop) (P : β → Prop) (l : List ι)
    (hlog : ∀ i ∈ l, ∀ s, Q s → ∀ x ∈ log i s, P x)
    (hstep : ∀ i ∈ l, ∀ s s1, Q s → body i s = .ok s1 → Q s1) (s : σ) (hq : Q s) :
    ∀ x ∈ forLoopLog body log l s, P x := by
  induction l generalizing s with
  | nil => intro x hx; simp [forLoopLog] at hx
  | cons i l ih =>
    intro x hx
    simp only [forLoopLog, List.mem_append] at hx
    rcases hx with hx | hx
    · exact hlog i (List.mem_cons_self _ _) s hq x hx
    · cases hb : body i s with
      | error e => rw [hb] at hx; simp at hx
      | ok s1 =>
        rw [hb] at hx
        exact ih (fun j hj => hlog j (List.mem_cons_of_mem _ hj))
          (fun j hj => hstep j (List.mem_cons_of_mem _ hj)) s1
          (hstep i (List.mem_cons_self _ _) s s1 hq hb) x hx

theorem origin_inode_field (img : Image) {inum k w : Nat} (h : inum < sb_ninodes img)
    (hk : k + w ≤ DINODE_SIZE) : Origin img (.bytes (get_inode img inum + k) w) := by
  unfold Origin
  right; left
  exact ⟨inum, h, by omega, by omega⟩

theorem origin_block_bytes (img : Image) {b k w : Nat} (hlo : data_block_start img ≤ b)
    (hhi : b < sb_size img) (hk : k + w ≤ BSIZE) : Origin img (.bytes (blockOff b + k) w) := by
  unfold Origin
  right; right; right
  exact ⟨b, hlo, hhi, by omega, by omega⟩

theorem block_is_marked_log_origin (img : Image) {b : Nat} (hlo : data_block_start img ≤ b)
    (hhi : b < sb_size img) : ∀ x ∈ block_is_marked_log img b, Origin img x := by
  intro x hx
  simp only [block_is_marked_log, List.mem_cons, List.mem_singleton, List.not_mem_nil,
    or_false] at hx
  rcases hx with rfl | rfl
  · exact ⟨hlo, hhi⟩
  · unfold Origin
    right; right; left
    exact ⟨b, hlo, hhi, rfl, rfl⟩

theorem claimBlockLog_origin (img : Image) (addr : Nat) (t : Tables) :
    ∀ x ∈ claimBlockLog img addr t, Origin img x := by
  intro x hx
  unfold claimBlockLog at hx
  by_cases h1 : addr < data_block_start img ∨ addr ≥ sb_size img
  · rw [if_pos h1] at hx; simp at hx
  · rw [if_neg h1] at hx
    have hlo : data_block_start img ≤ addr := by omega
    have hhi : addr < sb_size img := by omega
    rcases List.mem_cons.mp hx with rfl | hx
    · exact ⟨hlo, hhi⟩
    · by_cases h2 : t.block_used addr ≠ 0
      · rw [if_pos h2] at hx; simp at hx
      · rw [if_neg h2] at hx
        exact block_is_marked_log_origin img hlo hhi x hx

theorem scanDirectLog_origin (img : Image) {inum i : Nat} (t : Tables)
    (h : inum < sb_ninodes img) (hi : i < NDIRECT) :
    ∀ x ∈ scanDirectLog img inum i t, Origin img x := by
  intro x hx
  unfold scanDirectLog at hx
  rcases List.mem_cons.mp hx with rfl | hx
  · have hi12 : i < 12 := hi
    have := origin_inode_field img (k := 12 + 4 * i) (w := 4) h
      (by show 12 + 4 * i + 4 ≤ 64; omega)
    rwa [← Nat.add_assoc] at this
  · by_cases h0 : inodeAddr img inum i ≠ 0
    · rw [if_pos h0] at hx
      exact claimBlockLog_origin img _ t x hx
    · rw [if_neg h0] at hx; simp at hx

theorem scanIndirectEntryLog_origin (img : Image) {ind i : Nat} (t : Tables)
    (hlo : data_block_start img ≤ ind) (hhi : ind < sb_size img) (hi : i < NINDIRECT) :
    ∀ x ∈ scanIndirectEntryLog img ind i t, Origin img x := by
  intro x hx
  unfold scanIndirectEntryLog at hx
  rcases List.mem_cons.mp hx with rfl | hx
  · have hi128 : i < 128 := hi
    exact origin_block_bytes img hlo hhi (by show 4 * i + 4 ≤ 512; omega)
  · by_cases h0 : indirectEntry img ind i ≠ 0
    · rw [if_pos h0] at hx
      exact claimBlockLog_origin img _ t x hx
    · rw [if_neg h0] at hx; simp at hx

theorem scanIndirectLog_origin (img : Image) {inum : Nat} (t : Tables)
    (h : inum < sb_ninodes img) : ∀ x ∈ scanIndirectLog img inum t, Origin img x := by
  intro x hx
  unfold scanIndirectLog at hx
  rcases List.mem_cons.mp hx with rfl | hx
  · have := origin_inode_field img (k := 12 + 4 * NDIRECT) (w := 4) h (by decide)
    rwa [← Nat.add_assoc] at this
  · by_cases h0 : inodeAddr img inum NDIRECT ≠ 0
    · rw [if_pos h0] at hx
      rcases List.mem_append.mp hx with hx | hx
      · exact claimBlockLog_origin img _ t x hx
      · cases hc : claimBlock img INDIRECT (inodeAddr img inum NDIRECT) t with
        | error e => rw [hc] at hx; simp at hx
        | ok t1 =>
          rw [hc] at hx
          obtain ⟨hlo, hhi, _, _, _⟩ := claimBlock_ok hc
          exact forLoopLog_forall (fun _ => True) (Origin img) _
            (fun i hi s _ =>
              scanIndirectEntryLog_origin img s hlo hhi (List.mem_range.mp hi))
            (fun _ _ _ _ _ _ => trivial) t1 trivial x hx
    · rw [if_neg h0] at hx; simp at hx

theorem scanInodeLog_origin (img : Image) {inum : Nat} (t : Tables)
    (h : inum < sb_ninodes img) : ∀ x ∈ scanInodeLog img inum t, Origin img x := by
  intro x hx
  unfold scanInodeLog at hx
  rcases List.mem_cons.mp hx with rfl | hx
  · exact origin_inode_field img h (by decide)
  · by_cases hbad : inodeType img inum ≠ 0 ∧ inodeType img inum ≠ T_FILE ∧
        inodeType img inum ≠ T_DIR ∧ inodeType img inum ≠ T_DEV
    · rw [if_pos hbad] at hx; simp at hx
    · rw [if_neg hbad] at hx
      by_cases h0 : inodeType img inum ≠ 0
      · rw [if_pos h0] at hx
        rcases List.mem_cons.mp hx with rfl | hx
        · exact Or.inl h
        · rcases List.mem_cons.mp hx with rfl | hx
          · exact origin_inode_field img h (by decide)
          · rcases List.mem_append.mp hx with hx | hx
            · exact forLoopLog_forall (fun _ => True) (Origin img) _
                (fun i hi s _ => scanDirectLog_origin img s h (List.mem_range.mp hi))
                (fun _ _ _ _ _ _ => trivial) _ trivial x hx
            · cases hd : forLoop (scanDirect img inum) (List.range NDIRECT)
                  (markInode img inum t) with
              | error e => rw [hd] at hx; simp at hx
              | ok t1 =>
                rw [hd] at hx
                exact scanIndirectLog_origin img t1 h x hx
      · rw [if_neg h0] at hx; simp at hx

theorem strncmpLog_lt (a b : Nat → Nat) (n : Nat) :
    ∀ k, ∀ p ∈ strncmpLog a b k n, p < k + n := by
  induction n with
  | zero => intro k p hp; simp [strncmpLog] at hp
  | succ n ih =>
    intro k p hp
    rw [strncmpLog] at hp
    rcases List.mem_cons.mp hp with rfl | hp
    · omega
    · by_cases h1 : a k ≠ b k
      · rw [if_pos h1] at hp; simp at hp
      · rw [if_neg h1] at hp
        by_cases h2 : a k = 0
        · rw [if_pos h2] at hp; simp at hp
        · rw [if_neg h2] at hp
          have := ih (k + 1) p hp
          omega

theorem direntStepLog_origin (img : Image) {addr d i : Nat} (s : WalkState)
    (hlo : data_block_start img ≤ addr) (hhi : addr < sb_size img) (hd : d < sb_ninodes img)
    (hi : i < BSIZE / DIRENT_SIZE) :
    ∀ x ∈ direntStepLog img addr d (sb_ninodes img) i s, Origin img x := by
  have hi32 : i < 32 := hi
  have hname : ∀ (lit : Nat → Nat),
      ∀ x ∈ (strncmpLog (direntName img addr i) lit 0 DIRSIZ).map
        (fun k => Access.bytes (direntOff addr i + 2 + k) 1), Origin img x := by
    intro lit x hx
    obtain ⟨k, hk, rfl⟩ := List.mem_map.mp hx
    have hk14 : k < 0 + 14 := strncmpLog_lt _ _ _ _ k hk
    have : direntOff addr i + 2 + k = blockOff addr + (i * 16 + 2 + k) := by
      show blockOff addr + i * 16 + 2 + k = _; omega
    rw [this]
    exact origin_block_bytes img hlo hhi (by show i * 16 + 2 + k + 1 ≤ 512; omega)
  have href : ∀ x ∈ (if direntInum img addr i ≥ sb_ninodes img then []
      else [Access.inode (direntInum img addr i)]), Origin img x := by
    intro x hx
    by_cases hge : direntInum img addr i ≥ sb_ninodes img
    · rw [if_pos hge] at hx; simp at hx
    · rw [if_neg hge] at hx
      rw [List.mem_singleton] at hx
      subst hx
      exact Or.inl (by omega)
  intro x hx
  unfold direntStepLog at hx
  rcases List.mem_cons.mp hx with rfl | hx
  · have : direntOff addr i + 0 = blockOff addr + (i * 16 + 0) := by
      show blockOff addr + i * 16 + 0 = _; omega
    rw [this]
    exact origin_block_bytes img hlo hhi (by show i * 16 + 0 + 2 ≤ 512; omega)
  · by_cases h0 : direntInum img addr i = 0
    · rw [if_pos h0] at hx; simp at hx
    · rw [if_neg h0] at hx
      rcases List.mem_append.mp hx with hx | hx
      · exact hname _ x hx
      · by_cases hdot : isDot img addr i = true
        · rw [if_pos hdot] at hx
          by_cases hne : direntInum img addr i ≠ d
          · rw [if_pos hne] at hx; simp at hx
          · rw [if_neg hne] at hx
            exact href x hx
        · rw [if_neg hdot] at hx
          rcases List.mem_append.mp hx with hx | hx
          · rcases List.mem_append.mp hx with hx | hx
            · exact hname _ x hx
            · by_cases hdd : isDotDot img addr i = true
              · rw [if_pos hdd, List.mem_singleton] at hx
                subst hx
                exact Or.inl hd
              · rw [if_neg hdd] at hx; simp at hx
          · exact href x hx

theorem process_directory_block_log_origin (img : Image) {addr d : Nat} (s : WalkState)
    (hlo : data_block_start img ≤ addr) (hhi : addr < sb_size img) (hd : d < sb_ninodes img) :
    ∀ x ∈ process_directory_block_log img addr d (sb_ninodes img) s, Origin img x :=
  forLoopLog_forall (fun _ => True) (Origin img) _
    (fun _ hi s _ => direntStepLog_origin img s hlo hhi hd (List.mem_range.mp hi))
    (fun _ _ _ _ _ _ => trivial) s trivial

theorem scanInv_claimed_in_range {img : Image} {t : Tables}
    (hI : ScanInv img (scanEvents img) t) {b : Nat} (hb : b ∈ claimedBlocks img) :
    data_block_start img ≤ b ∧ b < sb_size img := by
  rw [← taggedClaims_scanEvents] at hb
  obtain ⟨⟨k, b2⟩, hkb, hb2⟩ := List.mem_map.mp hb
  simp only at hb2
  subst hb2
  exact ⟨(hI.claim_ok k b2 hkb).2.1, (hI.claim_ok k b2 hkb).2.2.1⟩

theorem mem_nonzeroValues (f : Nat → Nat) (n : Nat) {i : Nat} (hi : i < n) (h0 : f i ≠ 0) :
    f i ∈ nonzeroValues f n := by
  unfold nonzeroValues
  rw [List.mem_filter]
  exact ⟨List.mem_map.mpr ⟨i, List.mem_range.mpr hi, rfl⟩, by simpa using h0⟩

/-- The blocks of an allocated inode are in the claimable range once the scanner passed. -/
theorem scanInv_inodeBlocks_in_range {img : Image} {t : Tables}
    (hI : ScanInv img (scanEvents img) t) {inum : Nat} (ha : allocated img inum) :
    ∀ b ∈ inodeBlocks img inum, data_block_start img ≤ b ∧ b < sb_size img :=
  fun b hb => scanInv_claimed_in_range hI ((mem_claimedBlocks img b).mpr ⟨inum, ha, hb⟩)

theorem walkDirectLog_origin (img : Image) {inum i : Nat} (s : WalkState)
    (h : inum < sb_ninodes img) (hi : i < NDIRECT)
    (hrange : ∀ b ∈ inodeBlocks img inum, data_block_start img ≤ b ∧ b < sb_size img) :
    ∀ x ∈ walkDirectLog img inum i s, Origin img x := by
  intro x hx
  unfold walkDirectLog at hx
  rcases List.mem_cons.mp hx with rfl | hx
  · have hi12 : i < 12 := hi
    have := origin_inode_field img (k := 12 + 4 * i) (w := 4) h
      (by show 12 + 4 * i + 4 ≤ 64; omega)
    rwa [← Nat.add_assoc] at this
  · by_cases h0 : inodeAddr img inum i ≠ 0
    · rw [if_pos h0] at hx
      have hmem : inodeAddr img inum i ∈ inodeBlocks img inum := by
        unfold inodeBlocks directBlocks
        exact List.mem_append_left _ (List.mem_append_left _ (mem_nonzeroValues _ _ hi h0))
      obtain ⟨hlo, hhi⟩ := hrange _ hmem
      exact process_directory_block_log_origin img s hlo hhi h x hx
    · rw [if_neg h0] at hx; simp at hx

theorem walkIndirectEntryLog_origin (img : Image) {inum i : Nat} (s : WalkState)
    (h : inum < sb_ninodes img) (hi : i < NINDIRECT) (hind : inodeAddr img inum NDIRECT ≠ 0)
    (hrange : ∀ b ∈ inodeBlocks img inum, data_block_start img ≤ b ∧ b < sb_size img) :
    ∀ x ∈ walkIndirectEntryLog img inum (inodeAddr img inum NDIRECT) i s, Origin img x := by
  intro x hx
  unfold walkIndirectEntryLog at hx
  rcases List.mem_cons.mp hx with rfl | hx
  · have hmem : inodeAddr img inum NDIRECT ∈ inodeBlocks img inum := by
      unfold inodeBlocks indirectSlot
      rw [if_pos hind]
      exact List.mem_append_left _ (List.mem_append_right _ (List.mem_singleton.mpr rfl))
    obtain ⟨hlo, hhi⟩ := hrange _ hmem
    have hi128 : i < 128 := hi
    exact origin_block_bytes img hlo hhi (by show 4 * i + 4 ≤ 512; omega)
  · by_cases h0 : indirectEntry img (inodeAddr img inum NDIRECT) i ≠ 0
    · rw [if_pos h0] at hx
      have hmem : indirectEntry img (inodeAddr img inum NDIRECT) i ∈ inodeBlocks img inum := by
        unfold inodeBlocks indirectBlocks
        rw [if_pos hind]
        exact List.mem_append_right _ (mem_nonzeroValues _ _ hi h0)
      obtain ⟨hlo, hhi⟩ := hrange _ hmem
      exact process_directory_block_log_origin img s hlo hhi h x hx
    · rw [if_neg h0] at hx; simp at hx

theorem walkBlocksLog_origin (img : Image) {inum : Nat} (t : Tables)
    (h : inum < sb_ninodes img)
    (hrange : ∀ b ∈ inodeBlocks img inum, data_block_start img ≤ b ∧ b < sb_size img) :
    ∀ x ∈ walkBlocksLog img inum t, Origin img x := by
  intro x hx
  unfold walkBlocksLog at hx
  rcases List.mem_append.mp hx with hx | hx
  · exact forLoopLog_forall (fun _ => True) (Origin img) _
      (fun i hi s _ => walkDirectLog_origin img s h (List.mem_range.mp hi) hrange)
      (fun _ _ _ _ _ _ => trivial) _ trivial x hx
  · cases hd : forLoop (walkDirect img inum) (List.range NDIRECT)
        { dot_found := 0, dotdot_found := 0, t := t } with
    | error e => rw [hd] at hx; simp at hx
    | ok s1 =>
      rw [hd] at hx
      rcases List.mem_cons.mp hx with rfl | hx
      · have := origin_inode_field img (k := 12 + 4 * NDIRECT) (w := 4) h (by decide)
        rwa [← Nat.add_assoc] at this
      · by_cases h0 : inodeAddr img inum NDIRECT ≠ 0
        · rw [if_pos h0] at hx
          exact forLoopLog_forall (fun _ => True) (Origin img) _
            (fun i hi s _ =>
              walkIndirectEntryLog_origin img s h (List.mem_range.mp hi) h0 hrange)
            (fun _ _ _ _ _ _ => trivial) _ trivial x hx
        · rw [if_neg h0] at hx; simp at hx

theorem walkInodeLog_origin {img : Image} {t0 t : Tables}
    (hI : ScanInv img (scanEvents img) t0) (hfr : Frame t0 t) {inum : Nat}
    (h : inum < sb_ninodes img) : ∀ x ∈ walkInodeLog img inum t, Origin img x := by
  intro x hx
  unfold walkInodeLog at hx
  rcases List.mem_cons.mp hx with rfl | hx
  · exact Or.inl h
  · by_cases hdir : t.inode_used inum ≠ 0 ∧ t.inode_type inum = T_DIR
    · rw [if_pos hdir] at hx
      have hu := hdir.1
      rw [hfr.1] at hu
      have ha := (scanInv_used_iff hI inum).mp hu
      exact walkBlocksLog_origin img t h (scanInv_inodeBlocks_in_range hI ha) x hx
    · rw [if_neg hdir] at hx; simp at hx

theorem inumsLog_origin {img : Image} {body : Nat → Unit → Except Err Unit} :
    ∀ x ∈ forLoopLog body refCountBodyLog (inumsFrom1 img) (), Origin img x :=
  forLoopLog_forall (fun _ => True) (Origin img) _
    (fun i hi _ _ x hx => by
      simp only [refCountBodyLog, List.mem_singleton] at hx
      subst hx
      exact Or.inl ((mem_inumsFrom1 img i).mp hi).2)
    (fun _ _ _ _ _ _ => trivial) () trivial

theorem bitmapSweepsLog_origin (img : Image) (t : Tables) :
    ∀ x ∈ bitmapSweepsLog img t, Origin img x := by
  have hq : ∀ b ∈ sweepRange img, ∀ x ∈ block_is_marked_log img b, Origin img x := by
    intro b hb
    obtain ⟨hlo, hhi⟩ := (mem_sweepRange img b).mp hb
    exact block_is_marked_log_origin img hlo hhi
  have h1 : ∀ (body : Nat → Unit → Except Err Unit),
      ∀ x ∈ forLoopLog body (fun b _ => block_is_marked_log img b) (sweepRange img) (),
        Origin img x := fun body =>
    forLoopLog_forall (fun _ => True) (Origin img) _ (fun b hb _ _ => hq b hb)
      (fun _ _ _ _ _ _ => trivial) () trivial
  intro x hx
  unfold bitmapSweepsLog at hx
  rcases List.mem_append.mp hx with hx | hx
  · exact h1 _ x hx
  · cases hs1 : forLoop (sweepMarkedBody img t) (sweepRange img) () with
    | error e => rw [hs1] at hx; simp at hx
    | ok u =>
      rw [hs1] at hx
      rcases List.mem_append.mp hx with hx | hx
      · refine forLoopLog_forall (fun _ => True) (Origin img) _ ?_
          (fun _ _ _ _ _ _ => trivial) () trivial x hx
        intro b hb _ _ y hy
        rcases List.mem_cons.mp hy with rfl | hy
        · exact (mem_sweepRange img b).mp hb
        · by_cases hu : t.block_used b ≠ 0
          · rw [if_pos hu] at hy
            exact hq b hb y hy
          · rw [if_neg hu] at hy; simp at hy
      · cases hs2 : forLoop (sweepUsedBody img t) (sweepRange img) () with
        | error e => rw [hs2] at hx; simp at hx
        | ok u2 =>
          rw [hs2] at hx
          exact h1 _ x hx

theorem afterScanLog_origin {img : Image} {t : Tables}
    (hscan : scanInodes img initTables = .ok t) : ∀ x ∈ afterScanLog img t, Origin img x := by
  have hI := scanInv_of_scanInodes hscan
  intro x hx
  unfold afterScanLog at hx
  rcases List.mem_cons.mp hx with rfl | hx
  · exact Or.inr rfl
  · by_cases hr : t.inode_used ROOTINO = 0
    · rw [if_pos hr] at hx; simp at hx
    · rw [if_neg hr] at hx
      rcases List.mem_append.mp hx with hx | hx
      · exact forLoopLog_forall (Frame t) (Origin img) _
          (fun i hi s hq => walkInodeLog_origin hI hq (List.mem_range.mp hi))
          (fun _ _ s s1 hq hb => (walkInode_ok hq hb).2) t (frame_refl t) x hx
      · cases hw : walkInodes img t with
        | error e => rw [hw] at hx; simp at hx
        | ok t1 =>
          rw [hw] at hx
          rcases List.mem_append.mp hx with hx | hx
          · exact inumsLog_origin x hx
          · cases ho : orphanCheck img t1 with
            | error e => rw [ho] at hx; simp at hx
            | ok u =>
              rw [ho] at hx
              rcases List.mem_append.mp hx with hx | hx
              · exact inumsLog_origin x hx
              · cases hc : refCountCheck img t1 with
                | error e => rw [hc] at hx; simp at hx
                | ok u2 =>
                  rw [hc] at hx
                  exact bitmapSweepsLog_origin img t1 x hx

/-- Everything a run touches has a checked origin: the superblock, the record of an inode
below `ninodes`, the bitmap byte of a block of the claimable range or a block of that range
for the bytes; the claimable range for the block numbers; `ninodes` or `ROOTINO` for the
inode numbers. -/
theorem mainLog_origin (img : Image) : ∀ x ∈ mainLog img, Origin img x := by
  intro x hx
  unfold mainLog at hx
  rcases List.mem_append.mp hx with hx | hx
  · rcases List.mem_append.mp hx with hx | hx
    · simp only [sbLog, List.mem_cons, List.mem_singleton, List.not_mem_nil, or_false] at hx
      rcases hx with rfl | rfl | rfl | rfl <;> exact Or.inl (by decide)
    · exact inumsLog_origin x hx
  · rw [refCountCheck_init] at hx
    rcases List.mem_append.mp hx with hx | hx
    · exact forLoopLog_forall (fun _ => True) (Origin img) _
        (fun i hi s _ => scanInodeLog_origin img s (List.mem_range.mp hi))
        (fun _ _ _ _ _ _ => trivial) initTables trivial x hx
    · cases hs : scanInodes img initTables with
      | error e => rw [hs] at hx; simp at hx
      | ok t =>
        rw [hs] at hx
        exact afterScanLog_origin hs x hx

/-! ## Byte order and layout arithmetic -/

theorem or_shiftLeft_eq_add (k a b : Nat) (h : a < 2 ^ k) : a ||| (b <<< k) = a + 2 ^ k * b := by
  rw [Nat.or_comm, Nat.shiftLeft_eq, Nat.mul_comm, ← Nat.mul_add_lt_is_or h]
  omega

theorem xshort_eq_add (b0 b1 : Nat) (h0 : b0 < 256) : xshort b0 b1 = b0 + 2 ^ 8 * b1 := by
  unfold xshort
  exact or_shiftLeft_eq_add 8 b0 b1 h0

theorem xint_eq_add (b0 b1 b2 b3 : Nat) (h0 : b0 < 256) (h1 : b1 < 256) (h2 : b2 < 256) :
    xint b0 b1 b2 b3 = b0 + 2 ^ 8 * b1 + 2 ^ 16 * b2 + 2 ^ 24 * b3 := by
  unfold xint
  rw [or_shiftLeft_eq_add 8 b0 b1 h0, or_shiftLeft_eq_add 16 _ b2 (by omega),
    or_shiftLeft_eq_add 24 _ b3 (by omega)]

theorem byte_lt (img : Image) (off : Nat) : img.byte off < 256 := Nat.mod_lt _ (by decide)

/-- The number of 4096-bit bitmap blocks that cover `n` blocks. -/
theorem ceil_div_bpb (n : Nat) : ⌈(n : ℚ) / 4096⌉₊ = (n + 4095) / 4096 := by
  apply le_antisymm
  · rw [Nat.ceil_le, div_le_iff₀ (by norm_num)]
    have : n ≤ (n + 4095) / 4096 * 4096 := by omega
    exact_mod_cast this
  · by_contra hc
    push_neg at hc
    have h1 : (n : ℚ) / 4096 ≤ ⌈(n : ℚ) / 4096⌉₊ := Nat.le_ceil _
    rw [div_le_iff₀ (by norm_num)] at h1
    have h2 : n ≤ ⌈(n : ℚ) / 4096⌉₊ * 4096 := by exact_mod_cast h1
    omega

theorem sb_size_lt (img : Image) : sb_size img < U32 := by
  have h := xint_eq_add (img.byte (BSIZE + 0)) (img.byte (BSIZE + 0 + 1))
    (img.byte (BSIZE + 0 + 2)) (img.byte (BSIZE + 0 + 3)) (byte_lt _ _) (byte_lt _ _) (byte_lt _ _)
  have h3 := byte_lt img (BSIZE + 0 + 3)
  have h2 := byte_lt img (BSIZE + 0 + 2)
  have h1 := byte_lt img (BSIZE + 0 + 1)
  have h0 := byte_lt img (BSIZE + 0)
  show Image.u32 img (BSIZE + 0) < 4294967296
  unfold Image.u32
  rw [h]
  have e8 : (2 : Nat) ^ 8 = 256 := by norm_num
  have e16 : (2 : Nat) ^ 16 = 65536 := by norm_num
  have e24 : (2 : Nat) ^ 24 = 16777216 := by norm_num
  rw [e8, e16, e24]
  omega

/-! ## The diagnostics a phase can give -/

/-- A loop fails only with a diagnostic of one of its bodies. -/
theorem forLoop_error_of {ι σ : Type} {body : ι → σ → Except Err σ} (P : Err → Prop)
    (h : ∀ i s e, body i s = .error e → P e) (l : List ι) (s : σ) (e : Err)
    (hl : forLoop body l s = .error e) : P e := by
  induction l generalizing s with
  | nil => cases hl
  | cons i l ih =>
    rw [forLoop_cons] at hl
    cases hb : body i s with
    | error e1 =>
      rw [hb] at hl
      cases hl
      exact h i s _ hb
    | ok s1 =>
      rw [hb] at hl
      exact ih s1 hl

theorem claimBlock_error {img : Image} {kind addr : Nat} {t : Tables} {e : Err}
    (h : claimBlock img kind addr t = .error e) : e ≠ .BitmapFalseNegative := by
  unfold claimBlock at h
  split_ifs at h <;> cases h <;> decide

theorem scanInodes_error {img : Image} {t : Tables} {e : Err}
    (h : scanInodes img t = .error e) : e ≠ .BitmapFalseNegative := by
  rw [scanInodes_eq_events] at h
  refine forLoop_error_of (fun e => e ≠ .BitmapFalseNegative) ?_ _ _ _ h
  intro ev s e1 he
  cases ev with
  | inode i =>
    simp only [scanStep] at he
    split_ifs at he
    cases he
    decide
  | claim k a => exact claimBlock_error he

theorem direntStep_error {img : Image} {addr d n i : Nat} {s : WalkState} {e : Err}
    (h : direntStep img addr d n i s = .error e) :
    e = .DirFormatError ∨ e = .DanglingReference := by
  by_cases h0 : direntInum img addr i = 0
  · rw [direntStep_free s h0] at h; cases h
  · by_cases hself : isDot img addr i = true → direntInum img addr i = d
    · by_cases hd : direntInum img addr i ≥ n ∨ s.t.inode_used (direntInum img addr i) = 0
      · rw [direntStep_dangling s h0 hself hd] at h
        cases h
        exact Or.inr rfl
      · push_neg at hd
        obtain ⟨s1, hs1⟩ := @direntStep_passes img addr d n i s (fun _ => hself)
          (fun _ => hd.1) (fun _ => hd.2)
        rw [hs1] at h
        cases h
    · push_neg at hself
      rw [direntStep_dot_mismatch s h0 hself.1 hself.2] at h
      cases h
      exact Or.inl rfl

theorem walkInodes_error {img : Image} {t : Tables} {e : Err}
    (h : walkInodes img t = .error e) : e ≠ .BitmapFalseNegative := by
  refine forLoop_error_of (fun e => e ≠ .BitmapFalseNegative) ?_ _ _ _ h
  intro d s e1 he
  unfold walkInode at he
  split_ifs at he
  cases hw : walkBlocks img d s with
  | error e2 =>
    rw [hw] at he
    cases he
    rw [walkBlocks_eq_slots] at hw
    have := forLoop_error_of (fun e => e = .DirFormatError ∨ e = .DanglingReference)
      (fun i s e h => direntStep_error h) _ _ _ hw
    rcases this with h | h <;> rw [h] <;> decide
  | ok s1 =>
    rw [hw] at he
    simp only [] at he
    split_ifs at he <;> cases he <;> decide

theorem main_ne_falseNegative (img : Image) : main img ≠ .error .BitmapFalseNegative := by
  intro h
  cases hs : scanInodes img initTables with
  | error e =>
    rw [main_of_scan_error hs] at h
    cases h
    exact scanInodes_error hs rfl
  | ok t =>
    by_cases hroot : allocated img ROOTINO
    · cases hw : walkInodes img t with
      | error e =>
        rw [main_of_walkInodes_error hs hroot hw] at h
        cases h
        exact walkInodes_error hw rfl
      | ok t1 =>
        rw [main_eq_report hs hroot hw] at h
        unfold report at h
        cases h1 : forLoop (reportOrphan img) (inumsFrom1 img) () with
        | error e =>
          rw [h1] at h
          cases h
          refine forLoop_error_of (fun e => e ≠ .BitmapFalseNegative) ?_ _ _ _ h1 rfl
          intro i s e he
          unfold reportOrphan at he
          split_ifs at he
          cases he
          decide
        | ok u =>
          rw [h1] at h
          simp only [] at h
          cases h2 : forLoop (reportRefCount img) (inumsFrom1 img) () with
          | error e =>
            rw [h2] at h
            cases h
            refine forLoop_error_of (fun e => e ≠ .BitmapFalseNegative) ?_ _ _ _ h2 rfl
            intro i s e he
            unfold reportRefCount at he
            split_ifs at he <;> cases he <;> decide
          | ok u2 =>
            rw [h2] at h
            simp only [] at h
            refine forLoop_error_of (fun e => e ≠ .BitmapFalseNegative) ?_ _ _ _ h rfl
            intro i s e he
            unfold reportSweep at he
            split_ifs at he
            cases he
            decide
    · rw [main_of_no_root hs hroot] at h
      cases h

/-! ## Entries naming one directory -/

/-- Two different members that satisfy `p` are counted twice. -/
theorem two_le_countP {α : Type} (p : α → Bool) {l : List α} {x y : α} (hx : x ∈ l)
    (hy : y ∈ l) (hne : x ≠ y) (hpx : p x = true) (hpy : p y = true) : 2 ≤ l.countP p := by
  induction l with
  | nil => simp at hx
  | cons a l ih =>
    rw [List.countP_cons]
    rcases List.mem_cons.mp hx with hxa | hxl
    · rcases List.mem_cons.mp hy with hya | hyl
      · exact absurd (hxa.trans hya.symm) hne
      · have : 0 < l.countP p := List.countP_pos_iff.mpr ⟨y, hyl, hpy⟩
        rw [← hxa, hpx]
        simp only [if_true]
        omega
    · rcases List.mem_cons.mp hy with hya | hyl
      · have : 0 < l.countP p := List.countP_pos_iff.mpr ⟨x, hxl, hpx⟩
        rw [← hya, hpy]
        simp only [if_true]
        omega
      · have := ih hxl hyl
        omega

/-- Members of two different segments that satisfy `p` are counted twice. -/
theorem two_le_countP_flatMap {ι α : Type} (p : α → Bool) (f : ι → List α) {l : List ι}
    {i j : ι} {x y : α} (hi : i ∈ l) (hj : j ∈ l) (hne : i ≠ j) (hx : x ∈ f i) (hy : y ∈ f j)
    (hpx : p x = true) (hpy : p y = true) : 2 ≤ (l.flatMap f).countP p := by
  induction l with
  | nil => simp at hi
  | cons a l ih =>
    rw [List.flatMap_cons, List.countP_append]
    rcases List.mem_cons.mp hi with hia | hil
    · rcases List.mem_cons.mp hj with hja | hjl
      · exact absurd (hia.trans hja.symm) hne
      · have h1 : 0 < (f a).countP p := List.countP_pos_iff.mpr ⟨x, hia ▸ hx, hpx⟩
        have h2 : 0 < (l.flatMap f).countP p :=
          List.countP_pos_iff.mpr ⟨y, List.mem_flatMap.mpr ⟨j, hjl, hy⟩, hpy⟩
        omega
    · rcases List.mem_cons.mp hj with hja | hjl
      · have h1 : 0 < (f a).countP p := List.countP_pos_iff.mpr ⟨y, hja ▸ hy, hpy⟩
        have h2 : 0 < (l.flatMap f).countP p :=
          List.countP_pos_iff.mpr ⟨x, List.mem_flatMap.mpr ⟨i, hil, hx⟩, hpx⟩
        omega
      · have := ih hil hjl
        omega

/-- Two entries naming `j`, in two directories or in two slots of one, are both measured. -/
theorem two_le_measuredLinks {img : Image} {j d0 d1 : Nat} {e0 e1 : Nat × Nat}
    (hd0 : isDir img d0) (hd1 : isDir img d1) (he0 : e0 ∈ dirSlots img d0)
    (he1 : e1 ∈ dirSlots img d1) (h0 : refersTo img j e0 = true)
    (h1 : refersTo img j e1 = true) (hne : d1 ≠ d0 ∨ e1 ≠ e0) : 2 ≤ measuredLinks img j := by
  unfold measuredLinks
  by_cases hd : d1 = d0
  · subst hd
    have hne2 : e1 ≠ e0 := by
      rcases hne with h | h
      · exact absurd rfl h
      · exact h
    obtain ⟨A, B, hAB⟩ := allSlots_split img hd1
    rw [hAB, List.countP_append, List.countP_append]
    have := two_le_countP (refersTo img j) he1 he0 hne2 h1 h0
    omega
  · unfold allSlots
    apply two_le_countP_flatMap (refersTo img j) _ (List.mem_range.mpr hd1.1)
      (List.mem_range.mpr hd0.1) hd (x := e1) (y := e0) _ _ h1 h0
    · rw [if_pos hd1.2]; exact he1
    · rw [if_pos hd0.2]; exact he0

/-! ## The outcome depends only on what pointers lead to -/

theorem byte_at {img1 img2 : Image} {x y : Nat} (h : img1.byte x = img2.byte x) (e : y = x) :
    img1.byte y = img2.byte y := e ▸ h

theorem u32_congr {img1 img2 : Image} {off : Nat}
    (h : ∀ k, k < 4 → img1.byte (off + k) = img2.byte (off + k)) :
    img1.u32 off = img2.u32 off := by
  unfold Image.u32
  rw [show img1.byte off = img2.byte off from h 0 (by decide), h 1 (by decide),
    h 2 (by decide), h 3 (by decide)]

theorem u16_congr {img1 img2 : Image} {off : Nat}
    (h : ∀ k, k < 2 → img1.byte (off + k) = img2.byte (off + k)) :
    img1.u16 off = img2.u16 off := by
  unfold Image.u16
  rw [show img1.byte off = img2.byte off from h 0 (by decide), h 1 (by decide)]

theorem agree_sb {img1 img2 : Image} (h : AgreeWhereReached img1 img2) :
    sb_size img1 = sb_size img2 ∧ sb_ninodes img1 = sb_ninodes img2 ∧
      sb_inodestart img1 = sb_inodestart img2 ∧ sb_bmapstart img1 = sb_bmapstart img2 := by
  refine ⟨u32_congr ?_, u32_congr ?_, u32_congr ?_, u32_congr ?_⟩ <;>
  · intro k hk
    have hB : BSIZE = 512 := rfl
    apply h.superblock <;> omega

theorem agree_layout {img1 img2 : Image} (h : AgreeWhereReached img1 img2) :
    data_block_start img1 = data_block_start img2 ∧
      (∀ i, get_inode img1 i = get_inode img2 i) ∧
      (∀ b, bitmapByteOff img1 b = bitmapByteOff img2 b) := by
  obtain ⟨h1, h2, h3, h4⟩ := agree_sb h
  refine ⟨?_, ?_, ?_⟩
  · unfold data_block_start num_bitmap_blocks
    rw [h1, h4]
  · intro i
    unfold get_inode
    rw [h3]
  · intro b
    unfold bitmapByteOff
    rw [h4]

theorem agree_inode {img1 img2 : Image} (h : AgreeWhereReached img1 img2) {i : Nat}
    (hi : i < sb_ninodes img1) :
    inodeType img1 i = inodeType img2 i ∧ inodeNlink img1 i = inodeNlink img2 i ∧
      ∀ j, j ≤ NDIRECT → inodeAddr img1 i j = inodeAddr img2 i j := by
  have hg := (agree_layout h).2.1 i
  refine ⟨?_, ?_, ?_⟩
  · unfold inodeType
    rw [← hg]
    apply u16_congr
    intro k hk
    exact byte_at (h.inodes i k hi (by show k < 64; omega)) (by omega)
  · unfold inodeNlink
    rw [← hg]
    apply u16_congr
    intro k hk
    exact byte_at (h.inodes i (6 + k) hi (by show 6 + k < 64; omega)) (by omega)
  · intro j hj
    have hj12 : j ≤ 12 := hj
    unfold inodeAddr
    rw [← hg]
    apply u32_congr
    intro k hk
    exact byte_at (h.inodes i (12 + 4 * j + k) hi (by show 12 + 4 * j + k < 64; omega))
      (by omega)

theorem agree_marked {img1 img2 : Image} (h : AgreeWhereReached img1 img2) {b : Nat}
    (hb : b < sb_size img1) : block_is_marked img1 b = block_is_marked img2 b := by
  have h1 := h.bitmap b hb
  have h2 := (agree_layout h).2.2 b
  rw [h2] at h1
  show (img1.byte (bitmapByteOff img1 b) >>> _) &&& 1 = (img2.byte (bitmapByteOff img2 b) >>> _) &&& 1
  rw [h2, h1]

theorem agree_indirectEntry {img1 img2 : Image} (h : AgreeWhereReached img1 img2) {a i : Nat}
    (ha : a ∈ claimedBlocks img1) (hi : i < NINDIRECT) :
    indirectEntry img1 a i = indirectEntry img2 a i := by
  have hi2 : i < 128 := hi
  unfold indirectEntry
  apply u32_congr
  intro k hk
  exact byte_at (h.blocks a ha (4 * i + k) (by show 4 * i + k < 512; omega)) (by omega)

theorem strncmp0_congr {a a1 b : Nat → Nat} (k n : Nat)
    (h : ∀ j, k ≤ j → j < k + n → a j = a1 j) : strncmp0 a b k n = strncmp0 a1 b k n := by
  induction n generalizing k with
  | zero => rfl
  | succ n ih =>
    unfold strncmp0
    rw [h k (le_refl _) (by omega), ih (k + 1) (fun j h1 h2 => h j (by omega) (by omega))]

theorem agree_dirent {img1 img2 : Image} (h : AgreeWhereReached img1 img2) {a i : Nat}
    (ha : a ∈ claimedBlocks img1) (hi : i < BSIZE / DIRENT_SIZE) :
    direntInum img1 a i = direntInum img2 a i ∧ isDot img1 a i = isDot img2 a i ∧
      isDotDot img1 a i = isDotDot img2 a i := by
  have hi2 : i < 32 := hi
  have hname : ∀ j, j < 0 + DIRSIZ → direntName img1 a i j = direntName img2 a i j := by
    intro j hj
    have hj2 : j < 14 := by
      have : j < 0 + 14 := hj
      omega
    unfold direntName direntOff
    exact byte_at (h.blocks a ha (i * 16 + 2 + j) (by show i * 16 + 2 + j < 512; omega))
      (by show blockOff a + i * 16 + 2 + j = _; omega)
  refine ⟨?_, ?_, ?_⟩
  · unfold direntInum direntOff
    apply u16_congr
    intro k hk
    exact byte_at (h.blocks a ha (i * 16 + k) (by show i * 16 + k < 512; omega))
      (by show blockOff a + i * 16 + 0 + k = _; omega)
  · unfold isDot
    exact strncmp0_congr 0 DIRSIZ (fun j _ hj => hname j hj)
  · unfold isDotDot
    exact strncmp0_congr 0 DIRSIZ (fun j _ hj => hname j hj)


theorem nonzeroValues_congr {f g : Nat → Nat} {n : Nat} (h : ∀ i, i < n → f i = g i) :
    nonzeroValues f n = nonzeroValues g n := by
  unfold nonzeroValues
  congr 1
  apply List.map_congr_left
  intro i hi
  exact h i (List.mem_range.mp hi)

/-- The blocks of an allocated inode are among the claimed blocks. -/
theorem inodeBlocks_sub_claimed {img : Image} {i : Nat} (hi : allocated img i) {b : Nat}
    (hb : b ∈ inodeBlocks img i) : b ∈ claimedBlocks img :=
  (mem_claimedBlocks img b).mpr ⟨i, hi, hb⟩

theorem agree_inodeBlocks {img1 img2 : Image} (h : AgreeWhereReached img1 img2) {i : Nat}
    (hi : allocated img1 i) :
    directBlocks img1 i = directBlocks img2 i ∧ indirectSlot img1 i = indirectSlot img2 i ∧
      indirectBlocks img1 i = indirectBlocks img2 i := by
  obtain ⟨_, _, haddr⟩ := agree_inode h hi.1
  have hslot := haddr NDIRECT (le_refl _)
  refine ⟨?_, ?_, ?_⟩
  · unfold directBlocks
    exact nonzeroValues_congr (fun j hj => haddr j (Nat.le_of_lt hj))
  · unfold indirectSlot
    rw [hslot]
  · unfold indirectBlocks
    rw [← hslot]
    by_cases h0 : inodeAddr img1 i NDIRECT ≠ 0
    · rw [if_pos h0, if_pos h0]
      apply nonzeroValues_congr
      intro j hj
      apply agree_indirectEntry h _ hj
      apply inodeBlocks_sub_claimed hi
      unfold inodeBlocks indirectSlot
      rw [if_pos h0]
      simp
    · rw [if_neg h0, if_neg h0]

theorem agree_scanEvents {img1 img2 : Image} (h : AgreeWhereReached img1 img2) :
    scanEvents img1 = scanEvents img2 := by
  unfold scanEvents
  rw [← (agree_sb h).2.1]
  apply List.flatMap_congr
  intro i hi
  have hlt := List.mem_range.mp hi
  obtain ⟨hty, _, _⟩ := agree_inode h hlt
  unfold inodeEvents
  rw [← hty]
  by_cases h0 : inodeType img1 i ≠ 0
  · obtain ⟨h1, h2, h3⟩ := agree_inodeBlocks h ⟨hlt, h0⟩
    rw [if_pos h0, if_pos h0, h1, h2, h3]
  · rw [if_neg h0, if_neg h0]

theorem agree_claimBlock {img1 img2 : Image} (h : AgreeWhereReached img1 img2)
    (kind addr : Nat) (t : Tables) : claimBlock img1 kind addr t = claimBlock img2 kind addr t := by
  unfold claimBlock
  rw [← (agree_layout h).1, ← (agree_sb h).1]
  by_cases hr : addr < data_block_start img1 ∨ addr ≥ sb_size img1
  · rw [if_pos hr, if_pos hr]
  · rw [if_neg hr, if_neg hr, agree_marked h (by omega)]

theorem agree_scanInodes {img1 img2 : Image} (h : AgreeWhereReached img1 img2) (t : Tables) :
    scanInodes img1 t = scanInodes img2 t := by
  rw [scanInodes_eq_events, scanInodes_eq_events, ← agree_scanEvents h]
  apply forLoop_congr
  intro ev hev s
  cases ev with
  | inode i =>
    have hlt := (inode_mem_scanEvents img1 i).mp hev
    obtain ⟨hty, hnl, _⟩ := agree_inode h hlt
    simp only [scanStep, markInode]
    rw [hty, hnl]
  | claim k a => exact agree_claimBlock h k a s

/-- Loops whose bodies agree on the states that satisfy an invariant of the first. -/
theorem forLoop_congr_inv {ι σ : Type} {b1 b2 : ι → σ → Except Err σ} (Q : σ → Prop)
    {l : List ι} (hstep : ∀ i ∈ l, ∀ s s1, Q s → b1 i s = .ok s1 → Q s1)
    (h : ∀ i ∈ l, ∀ s, Q s → b1 i s = b2 i s) (s : σ) (hq : Q s) :
    forLoop b1 l s = forLoop b2 l s := by
  induction l generalizing s with
  | nil => rfl
  | cons i l ih =>
    rw [forLoop_cons, forLoop_cons, ← h i (List.mem_cons_self _ _) s hq]
    cases hb : b1 i s with
    | error e => rfl
    | ok s1 =>
      exact ih (fun j hj => hstep j (List.mem_cons_of_mem _ hj))
        (fun j hj => h j (List.mem_cons_of_mem _ hj)) s1
        (hstep i (List.mem_cons_self _ _) s s1 hq hb)

theorem agree_dirSlots {img1 img2 : Image} (h : AgreeWhereReached img1 img2) {d : Nat}
    (hd : allocated img1 d) : dirSlots img1 d = dirSlots img2 d := by
  obtain ⟨h1, _, h3⟩ := agree_inodeBlocks h hd
  unfold dirSlots contentBlocks
  rw [h1, h3]

theorem agree_walkBlocks {img1 img2 : Image} (h : AgreeWhereReached img1 img2) {d : Nat}
    (hd : allocated img1 d) (t : Tables) : walkBlocks img1 d t = walkBlocks img2 d t := by
  rw [walkBlocks_eq_slots, walkBlocks_eq_slots, ← agree_dirSlots h hd]
  apply forLoop_congr
  rintro ⟨a, i⟩ he s
  have hmem : a ∈ contentBlocks img1 d ∧ i < BSIZE / DIRENT_SIZE := by
    unfold dirSlots at he
    obtain ⟨a1, ha1, hmap⟩ := List.mem_flatMap.mp he
    obtain ⟨i1, hi1, heq⟩ := List.mem_map.mp hmap
    simp only [Prod.mk.injEq] at heq
    rw [← heq.1, ← heq.2]
    exact ⟨ha1, List.mem_range.mp hi1⟩
  have hcl : a ∈ claimedBlocks img1 := by
    apply inodeBlocks_sub_claimed hd
    unfold contentBlocks at hmem
    unfold inodeBlocks
    rcases List.mem_append.mp hmem.1 with hm | hm
    · exact List.mem_append_left _ (List.mem_append_left _ hm)
    · exact List.mem_append_right _ hm
  obtain ⟨e1, e2, e3⟩ := agree_dirent h hcl hmem.2
  show direntStep img1 a d (sb_ninodes img1) i s = direntStep img2 a d (sb_ninodes img2) i s
  unfold direntStep
  rw [← (agree_sb h).2.1, ← e1, ← e2, ← e3]

theorem agree_walkInodes {img1 img2 : Image} (h : AgreeWhereReached img1 img2) {t : Tables}
    (hI : ScanInv img1 (scanEvents img1) t) : walkInodes img1 t = walkInodes img2 t := by
  unfold walkInodes
  rw [← (agree_sb h).2.1]
  apply forLoop_congr_inv (Frame t)
  · intro d _ s s1 hq hb
    exact (walkInode_ok hq hb).2
  · intro d hd s hq
    unfold walkInode
    by_cases hdir : s.inode_used d ≠ 0 ∧ s.inode_type d = T_DIR
    · rw [if_pos hdir, if_pos hdir]
      have hu : t.inode_used d ≠ 0 := by rw [← hq.1]; exact hdir.1
      rw [agree_walkBlocks h ((scanInv_used_iff hI d).mp hu)]
    · rw [if_neg hdir, if_neg hdir]
  · exact frame_refl t

theorem agree_bitmapSweeps {img1 img2 : Image} (h : AgreeWhereReached img1 img2) (t : Tables) :
    bitmapSweeps img1 t = bitmapSweeps img2 t := by
  have hr : sweepRange img1 = sweepRange img2 := by
    unfold sweepRange
    rw [(agree_layout h).1, (agree_sb h).1]
  have h1 : forLoop (sweepMarkedBody img1 t) (sweepRange img1) () =
      forLoop (sweepMarkedBody img2 t) (sweepRange img1) () := by
    apply forLoop_congr
    intro b hb s
    unfold sweepMarkedBody
    rw [agree_marked h ((mem_sweepRange img1 b).mp hb).2]
  have h2 : forLoop (sweepUsedBody img1 t) (sweepRange img1) () =
      forLoop (sweepUsedBody img2 t) (sweepRange img1) () := by
    apply forLoop_congr
    intro b hb s
    unfold sweepUsedBody
    rw [agree_marked h ((mem_sweepRange img1 b).mp hb).2]
  unfold bitmapSweeps
  rw [h1, h2, hr]

/-- Images that agree where pointers lead get the same outcome. -/
theorem agree_main {img1 img2 : Image} (h : AgreeWhereReached img1 img2) :
    main img1 = main img2 := by
  rw [main_eq, main_eq, ← agree_scanInodes h]
  cases hs : scanInodes img1 initTables with
  | error e => rfl
  | ok t =>
    simp only []
    have hI := scanInv_of_scanInodes hs
    unfold afterScan
    rw [← agree_walkInodes h hI]
    by_cases hr : t.inode_used ROOTINO = 0
    · rw [if_pos hr, if_pos hr]
    · rw [if_neg hr, if_neg hr]
      cases hw : walkInodes img1 t with
      | error e => rfl
      | ok t1 =>
        simp only []
        have ho : orphanCheck img1 t1 = orphanCheck img2 t1 := by
          unfold orphanCheck
          rw [(agree_sb h).2.1]
        have hc : refCountCheck img1 t1 = refCountCheck img2 t1 := by
          unfold refCountCheck
          rw [(agree_sb h).2.1]
        rw [ho, hc, agree_bitmapSweeps h]


theorem zero_slot_scan {img : Image} {inum : Nat} (h0 : inodeAddr img inum NDIRECT = 0)
    (t : Tables) :
    scanIndirect img inum t = .ok t ∧
      scanIndirectLog img inum t = [.bytes (get_inode img inum + 12 + 4 * NDIRECT) 4] := by
  unfold scanIndirect scanIndirectLog
  rw [if_neg (by simpa using h0), if_neg (by simpa using h0)]
  exact ⟨rfl, rfl⟩

theorem zero_slot_walk {img : Image} {inum : Nat} (h0 : inodeAddr img inum NDIRECT = 0)
    (t : Tables) :
    walkBlocks img inum t =
        forLoop (walkDirect img inum) (List.range NDIRECT)
          { dot_found := 0, dotdot_found := 0, t := t } ∧
      walkBlocksLog img inum t =
        forLoopLog (walkDirect img inum) (walkDirectLog img inum) (List.range NDIRECT)
            { dot_found := 0, dotdot_found := 0, t := t } ++
          (match forLoop (walkDirect img inum) (List.range NDIRECT)
              { dot_found := 0, dotdot_found := 0, t := t } with
           | .error _ => []
           | .ok _ => [.bytes (get_inode img inum + 12 + 4 * NDIRECT) 4]) := by
  unfold walkBlocks walkBlocksLog
  constructor
  · cases forLoop (walkDirect img inum) (List.range NDIRECT)
        { dot_found := 0, dotdot_found := 0, t := t } with
    | error e => rfl
    | ok s1 =>
      simp only []
      rw [if_neg (by simpa using h0)]
  · cases forLoop (walkDirect img inum) (List.range NDIRECT)
        { dot_found := 0, dotdot_found := 0, t := t } with
    | error e => rfl
    | ok s1 =>
      simp only []
      rw [if_neg (by simpa using h0)]

theorem zero_slot_blocks {img : Image} {inum : Nat} (h0 : inodeAddr img inum NDIRECT = 0) :
    inodeBlocks img inum = nonzeroValues (inodeAddr img inum) NDIRECT ∧
      contentBlocks img inum = nonzeroValues (inodeAddr img inum) NDIRECT := by
  unfold inodeBlocks contentBlocks indirectSlot indirectBlocks directBlocks
  rw [if_neg (by simpa using h0), if_neg (by simpa using h0)]
  simp

theorem imgGoodFileNoise_agree : AgreeWhereReached imgGoodFile imgGoodFileNoise := by
  have hb : ∀ off, off ≠ 0 → off ≠ 3072 → imgGoodFile.byte off = imgGoodFileNoise.byte off := by
    intro off h1 h2
    show imgGoodFile.mem off % 256 =
      (if off = 0 then 7 else if off = 3072 then 9 else imgGoodFile.mem off) % 256
    rw [if_neg h1, if_neg h2]
  constructor
  · intro off h1 h2
    have hB : BSIZE = 512 := rfl
    exact hb off (by omega) (by omega)
  · intro i k hi hk
    have hi4 : i < 4 := hi
    have hk2 : k < 64 := hk
    have hg : get_inode imgGoodFile i = 1024 + 64 * i := by
      interval_cases i <;> decide!
    rw [hg]
    exact hb _ (by omega) (by omega)
  · intro b hb8
    have hb2 : b < 8 := hb8
    have hg : bitmapByteOff imgGoodFile b = 1536 := by
      interval_cases b <;> decide!
    rw [hg]
    exact hb _ (by omega) (by omega)
  · intro b hbc k hk
    have hc : claimedBlocks imgGoodFile = [4] := by decide!
    rw [hc] at hbc
    have hb4 : b = 4 := by simpa using hbc
    have hk2 : k < 512 := hk
    subst hb4
    have : blockOff 4 = 2048 := by decide
    rw [this]
    exact hb _ (by omega) (by omega)

/-! ## The generator: the formatted file and the bitmap in closed form -/

theorem Mkfs.store_zero (off n : Nat) : Mkfs.store (fun _ => 0) off n Mkfs.zeroes = fun _ => 0 := by
  funext k
  unfold Mkfs.store Mkfs.zeroes
  split <;> rfl

theorem Mkfs.zero_loop (k : Nat) (hk : k ≤ 1000) (fi fb : Nat) :
    (List.range k).foldl (fun s i => Mkfs.wsect i Mkfs.zeroes s)
        { disk := fun _ => 0, fsize := 0, freeinode := fi, freeblock := fb } =
      { disk := fun _ => 0, fsize := k * 512, freeinode := fi, freeblock := fb } := by
  induction k with
  | zero => rfl
  | succ k ih =>
    rw [List.range_succ, List.foldl_append, ih (by omega)]
    simp only [List.foldl_cons, List.foldl_nil, Mkfs.wsect, Mkfs.store_zero]
    have : blockOff k = k * 512 := by
      show (k * 512) % 4294967296 = _
      omega
    rw [this]
    congr 1
    show max (k * 512) (k * 512 + 512) = _
    omega

theorem Mkfs.format_eq : Mkfs.format = Mkfs.formatted := by
  unfold Mkfs.format Mkfs.formatted
  rw [Mkfs.zero_loop 1000 (le_refl _)]
  rfl

theorem Mkfs.ballocLoop_eq (m : Nat) :
    (List.range m).foldl
        (fun buf i => Mkfs.store buf (i / 8) 1 (fun _ => (buf (i / 8) ||| (1 <<< (i % 8))) % 256))
        Mkfs.zeroes =
      fun k => if 8 * k + 8 ≤ m then 255 else if 8 * k < m then 2 ^ (m - 8 * k) - 1 else 0 := by
  induction m with
  | zero =>
    funext k
    simp [Mkfs.zeroes]
  | succ m ih =>
    rw [List.range_succ, List.foldl_append, ih]
    simp only [List.foldl_cons, List.foldl_nil]
    funext k
    unfold Mkfs.store
    beta_reduce
    by_cases hk : m / 8 ≤ k ∧ k < m / 8 + 1
    · rw [if_pos hk]
      have hkm : k = m / 8 := by omega
      obtain ⟨r, hr, hm⟩ : ∃ r, r < 8 ∧ m = 8 * k + r := ⟨m % 8, Nat.mod_lt _ (by decide), by omega⟩
      have h1 : m / 8 = k := by omega
      have h2 : m % 8 = r := by omega
      rw [h1, h2, if_neg (by omega)]
      have h3 : m - 8 * k = r := by omega
      have h4 : m + 1 - 8 * k = r + 1 := by omega
      rw [h3, h4]
      interval_cases r
      · rw [if_neg (by omega), if_neg (by omega), if_pos (by omega)]; rfl
      · rw [if_pos (by omega), if_neg (by omega), if_pos (by omega)]; rfl
      · rw [if_pos (by omega), if_neg (by omega), if_pos (by omega)]; rfl
      · rw [if_pos (by omega), if_neg (by omega), if_pos (by omega)]; rfl
      · rw [if_pos (by omega), if_neg (by omega), if_pos (by omega)]; rfl
      · rw [if_pos (by omega), if_neg (by omega), if_pos (by omega)]; rfl
      · rw [if_pos (by omega), if_neg (by omega), if_pos (by omega)]; rfl
      · rw [if_pos (by omega), if_pos (by omega)]; rfl
    · rw [if_neg hk]
      by_cases h1 : 8 * k + 8 ≤ m
      · have h1b : 8 * k + 8 ≤ m + 1 := by omega
        rw [if_pos h1, if_pos h1b]
      · have h2 : ¬ 8 * k < m := by omega
        have h1b : ¬ 8 * k + 8 ≤ m + 1 := by omega
        have h2b : ¬ 8 * k < m + 1 := by omega
        rw [if_neg h1, if_neg h2, if_neg h1b, if_neg h2b]

theorem Mkfs.ballocBuf_eq : Mkfs.ballocBuf = Mkfs.ballocBytes := by
  funext used
  unfold Mkfs.ballocBuf Mkfs.ballocBytes
  rw [Mkfs.ballocLoop_eq]

theorem checkGenerated_eq (files : List (List Nat × List Nat)) (create_error : Nat) :
    checkGenerated files create_error =
      (Mkfs.mainFrom Mkfs.formatted files create_error).map main := by
  unfold checkGenerated Mkfs.main
  rw [Mkfs.format_eq]

/-! ## The generator, operation by operation -/

theorem Mkfs.store_in {buf src : Nat → Nat} {off n k : Nat} (h1 : off ≤ k) (h2 : k < off + n) :
    Mkfs.store buf off n src k = src (k - off) := by
  unfold Mkfs.store
  rw [if_pos ⟨h1, h2⟩]

theorem Mkfs.store_out {buf src : Nat → Nat} {off n k : Nat} (h : k < off ∨ off + n ≤ k) :
    Mkfs.store buf off n src k = buf k := by
  unfold Mkfs.store
  rw [if_neg (by omega)]

theorem Mkfs.load32_store_out {buf src : Nat → Nat} {off n a : Nat}
    (h : a + 4 ≤ off ∨ off + n ≤ a) :
    Mkfs.load32 (Mkfs.store buf off n src) a = Mkfs.load32 buf a := by
  unfold Mkfs.load32
  rw [Mkfs.store_out (by omega), Mkfs.store_out (by omega), Mkfs.store_out (by omega),
    Mkfs.store_out (by omega)]

theorem Mkfs.load32_store_in {buf src : Nat → Nat} {off n a : Nat} (h1 : off ≤ a)
    (h2 : a + 4 ≤ off + n) :
    Mkfs.load32 (Mkfs.store buf off n src) a = Mkfs.load32 src (a - off) := by
  unfold Mkfs.load32
  rw [Mkfs.store_in h1 (by omega), Mkfs.store_in (by omega) (by omega),
    Mkfs.store_in (by omega) (by omega), Mkfs.store_in (by omega) (by omega)]
  have e1 : a + 1 - off = a - off + 1 := by omega
  have e2 : a + 2 - off = a - off + 2 := by omega
  have e3 : a + 3 - off = a - off + 3 := by omega
  rw [e1, e2, e3]

/-- Decoding the four bytes `xint` writes gives the value back. -/
theorem Mkfs.load32_xint {v : Nat} (hv : v < 4294967296) : Mkfs.load32 (Mkfs.xint v) 0 = v := by
  unfold Mkfs.load32
  have h0 : Mkfs.xint v 0 = v % 256 := rfl
  have h1 : Mkfs.xint v (0 + 1) = (v / 2 ^ 8) % 256 := by
    show (v >>> 8) % 256 = _
    rw [Nat.shiftRight_eq_div_pow]
  have h2 : Mkfs.xint v (0 + 2) = (v / 2 ^ 16) % 256 := by
    show (v >>> 16) % 256 = _
    rw [Nat.shiftRight_eq_div_pow]
  have h3 : Mkfs.xint v (0 + 3) = (v / 2 ^ 24) % 256 := by
    show (v >>> 24) % 256 = _
    rw [Nat.shiftRight_eq_div_pow]
  rw [h0, h1, h2, h3, xint_eq_add _ _ _ _ (Nat.mod_lt _ (by decide))
    (Nat.mod_lt _ (by decide)) (Nat.mod_lt _ (by decide))]
  norm_num
  omega

theorem blockOff_small {x : Nat} (h : x < 8388608) : blockOff x = x * 512 := by
  show (x * 512) % 4294967296 = _
  omega

theorem Mkfs.rsect_some {s : Mkfs.State} (hs : Mkfs.Sized s) {sec : Nat} (h : sec < 1000) :
    Mkfs.rsect sec s = some (fun k => s.disk (sec * 512 + k)) := by
  unfold Mkfs.rsect
  have hB : BSIZE = 512 := rfl
  rw [blockOff_small (by omega), hs, if_pos (by omega)]

theorem Mkfs.rsect_none {s : Mkfs.State} (hs : Mkfs.Sized s) {sec : Nat} (h : 1000 ≤ sec)
    (h2 : sec < 8388608) : Mkfs.rsect sec s = none := by
  unfold Mkfs.rsect
  have hB : BSIZE = 512 := rfl
  rw [blockOff_small h2, hs, if_neg (by omega)]

/-- Reading a sector, changing some of its bytes and writing it back changes those bytes of
the file. -/
theorem Mkfs.wsect_store {s : Mkfs.State} (hs : Mkfs.Sized s) {sec o n : Nat} (h : sec < 1000)
    (ho : o + n ≤ 512) (src : Nat → Nat) :
    Mkfs.wsect sec (Mkfs.store (fun k => s.disk (sec * 512 + k)) o n src) s =
      s.put (sec * 512 + o) n src := by
  have hB : BSIZE = 512 := rfl
  have hd : Mkfs.store s.disk (sec * 512) BSIZE
        (Mkfs.store (fun k => s.disk (sec * 512 + k)) o n src) =
      Mkfs.store s.disk (sec * 512 + o) n src := by
    funext a
    unfold Mkfs.store
    by_cases h1 : sec * 512 ≤ a ∧ a < sec * 512 + BSIZE
    · rw [if_pos h1]
      by_cases h2 : o ≤ a - sec * 512 ∧ a - sec * 512 < o + n
      · rw [if_pos h2, if_pos (by omega)]
        congr 1
        omega
      · rw [if_neg h2, if_neg (by omega)]
        show s.disk (sec * 512 + (a - sec * 512)) = s.disk a
        congr 1
        omega
    · rw [if_neg h1, if_neg (by omega)]
  have hm : max s.fsize (sec * 512 + BSIZE) = s.fsize := by
    have := hs
    unfold Mkfs.Sized at this
    omega
  unfold Mkfs.wsect Mkfs.State.put
  rw [blockOff_small (by omega), hd, hm]

theorem Mkfs.IBLOCK_small {i : Nat} (h : i < 7744) :
    Mkfs.IBLOCK i = i / 8 + 32 ∧ Mkfs.IBLOCK i < 1000 ∧
      Mkfs.IBLOCK i * 512 + (i % IPB) * DINODE_SIZE = Mkfs.ioff i := by
  have e : Mkfs.IBLOCK i = (i / 8 + 32) % 4294967296 := rfl
  have e2 : (i % IPB) * DINODE_SIZE = (i % 8) * 64 := rfl
  rw [e, e2]
  unfold Mkfs.ioff
  omega

theorem Mkfs.winode_eq {s : Mkfs.State} (hs : Mkfs.Sized s) {i : Nat} (h : i < 7744)
    (ip : Nat → Nat) : Mkfs.winode i ip s = some (s.put (Mkfs.ioff i) 64 ip) := by
  obtain ⟨h1, h2, h3⟩ := Mkfs.IBLOCK_small h
  unfold Mkfs.winode
  rw [Mkfs.rsect_some hs h2]
  simp only []
  rw [Mkfs.wsect_store hs h2 (by show i % 8 * 64 + 64 ≤ 512; omega), h3]

theorem Mkfs.rinode_eq {s : Mkfs.State} (hs : Mkfs.Sized s) {i : Nat} (h : i < 7744) :
    Mkfs.rinode i s = some (fun k => s.disk (Mkfs.ioff i + k)) := by
  obtain ⟨h1, h2, h3⟩ := Mkfs.IBLOCK_small h
  unfold Mkfs.rinode
  rw [Mkfs.rsect_some hs h2]
  simp only []
  have : (fun k => s.disk (Mkfs.IBLOCK i * 512 + (i % IPB * DINODE_SIZE + k))) =
      fun k => s.disk (Mkfs.ioff i + k) := by
    funext k
    rw [← h3, Nat.add_assoc]
  rw [this]

theorem Mkfs.put_sized {s : Mkfs.State} (hs : Mkfs.Sized s) (off n : Nat) (src : Nat → Nat) :
    Mkfs.Sized (s.put off n src) := hs

theorem Mkfs.iappendLoop_zero (fuel : Nat) (p : Nat → Nat) (pos off : Nat) (din : Nat → Nat)
    (s : Mkfs.State) : Mkfs.iappendLoop fuel p pos 0 off din s = some (din, off, s) := by
  cases fuel with
  | zero => rfl
  | succ m =>
    rw [Mkfs.iappendLoop]
    rw [if_pos rfl]

/-- One round of the loop of `iappend` that writes all the `n` bytes left: they fit in the
block at hand. -/
theorem Mkfs.iappendLoop_round {fuel : Nat} {p : Nat → Nat} {pos n off : Nat}
    {din din1 : Nat → Nat} {s s1 : Mkfs.State} {x : Nat} (hn : 0 < n)
    (hfit : n ≤ 512 - off % 512) (hfbn : off / 512 < 140)
    (hloc : Mkfs.locate (off / 512) din s = some (din1, x, s1)) (hs1 : Mkfs.Sized s1)
    (hx : x < 1000) (hoff : off + n < 4294967296) :
    Mkfs.iappendLoop (fuel + 1) p pos n off din s =
      some (din1, off + n, s1.put (x * 512 + off % 512) n (fun k => p (pos + k))) := by
  have hB : BSIZE = 512 := rfl
  have hM : Mkfs.MAXFILE = 140 := rfl
  rw [Mkfs.iappendLoop]
  rw [if_neg (by omega)]
  simp only []
  rw [hB, hM, if_neg (by omega), hloc]
  simp only []
  rw [Mkfs.rsect_some hs1 hx]
  simp only []
  have hmin : min n (512 - off % 512) = n := by omega
  rw [hmin, Mkfs.wsect_store hs1 hx (by omega), Nat.sub_self, Mkfs.iappendLoop_zero,
    Nat.mod_eq_of_lt hoff]

/-- An `iappend` whose bytes fit in one block. -/
theorem Mkfs.iappend_eq {i n : Nat} {p din1 : Nat → Nat} {s s1 : Mkfs.State} {x : Nat}
    (hs : Mkfs.Sized s) (hi : i < 7744) (hn : 0 < n)
    (hfit : n ≤ 512 - Mkfs.load32 s.disk (Mkfs.ioff i + 8) % 512)
    (hfbn : Mkfs.load32 s.disk (Mkfs.ioff i + 8) / 512 < 140)
    (hloc : Mkfs.locate (Mkfs.load32 s.disk (Mkfs.ioff i + 8) / 512)
      (fun k => s.disk (Mkfs.ioff i + k)) s = some (din1, x, s1))
    (hs1 : Mkfs.Sized s1) (hx : x < 1000)
    (hoff : Mkfs.load32 s.disk (Mkfs.ioff i + 8) + n < 4294967296) :
    Mkfs.iappend i p n s =
      some ((s1.put (x * 512 + Mkfs.load32 s.disk (Mkfs.ioff i + 8) % 512) n p).put
        (Mkfs.ioff i) 64
        (Mkfs.store din1 8 4 (Mkfs.xint (Mkfs.load32 s.disk (Mkfs.ioff i + 8) + n)))) := by
  have hsz : Mkfs.load32 (fun k => s.disk (Mkfs.ioff i + k)) 8 =
      Mkfs.load32 s.disk (Mkfs.ioff i + 8) := rfl
  unfold Mkfs.iappend
  rw [Mkfs.rinode_eq hs hi]
  simp only []
  cases n with
  | zero => omega
  | succ m =>
    rw [hsz, Mkfs.iappendLoop_round (by omega) hfit hfbn hloc hs1 hx hoff]
    simp only []
    rw [Mkfs.winode_eq (Mkfs.put_sized hs1 _ _ _) hi]
    simp only [Nat.zero_add]

theorem Mkfs.locate_fresh_direct {fbn : Nat} {din : Nat → Nat} {s : Mkfs.State}
    (hf : fbn < 12) (h0 : Mkfs.load32 din (12 + 4 * fbn) = 0) (hfb : s.freeblock < 4294967295) :
    Mkfs.locate fbn din s =
      some (Mkfs.store din (12 + 4 * fbn) 4 (Mkfs.xint s.freeblock), s.freeblock,
        { s with freeblock := s.freeblock + 1 }) := by
  have hN : NDIRECT = 12 := rfl
  unfold Mkfs.locate
  rw [hN, if_pos hf]
  simp only [h0, if_true]
  rw [Mkfs.load32_store_in (le_refl _) (le_refl _), Nat.sub_self,
    Mkfs.load32_xint (by omega), Nat.mod_eq_of_lt (by show s.freeblock + 1 < 4294967296; omega)]

theorem Mkfs.locate_old_direct {fbn : Nat} {din : Nat → Nat} {s : Mkfs.State}
    (hf : fbn < 12) (h0 : Mkfs.load32 din (12 + 4 * fbn) ≠ 0) :
    Mkfs.locate fbn din s = some (din, Mkfs.load32 din (12 + 4 * fbn), s) := by
  have hN : NDIRECT = 12 := rfl
  unfold Mkfs.locate
  rw [hN, if_pos hf]
  simp only [h0, if_false]

theorem Mkfs.load32_of_zero {buf : Nat → Nat} {a : Nat} (h : ∀ k, k < 4 → buf (a + k) = 0) :
    Mkfs.load32 buf a = 0 := by
  unfold Mkfs.load32
  rw [show buf a = 0 from h 0 (by decide), h 1 (by decide), h 2 (by decide), h 3 (by decide)]
  rfl

theorem Mkfs.load32_shift (d : Nat → Nat) (a b : Nat) :
    Mkfs.load32 (fun k => d (a + k)) b = Mkfs.load32 d (a + b) := by
  unfold Mkfs.load32
  simp only [Nat.add_assoc]

theorem Mkfs.locate_fresh_indirect {fbn : Nat} {din : Nat → Nat} {s : Mkfs.State}
    (hs : Mkfs.Sized s) (hf : 12 ≤ fbn) (hf2 : fbn < 140) (h0 : Mkfs.load32 din 60 = 0)
    (hfb : s.freeblock < 1000)
    (hz : ∀ k, k < 512 → s.disk (s.freeblock * 512 + k) = 0) :
    Mkfs.locate fbn din s =
      some (Mkfs.store din 60 4 (Mkfs.xint s.freeblock), s.freeblock + 1,
        Mkfs.State.put { s with freeblock := s.freeblock + 2 }
          (s.freeblock * 512 + 4 * (fbn - 12)) 4 (Mkfs.xint (s.freeblock + 1))) := by
  have hN : NDIRECT = 12 := rfl
  have h60 : 12 + 4 * 12 = 60 := rfl
  unfold Mkfs.locate
  rw [hN, if_neg (by omega), h60]
  simp only [h0, if_true]
  rw [Mkfs.load32_store_in (le_refl _) (le_refl _), Nat.sub_self,
    Mkfs.load32_xint (by omega), Nat.mod_eq_of_lt (by show s.freeblock + 1 < 4294967296; omega)]
  have hs1 : Mkfs.Sized { s with freeblock := s.freeblock + 1 } := hs
  rw [Mkfs.rsect_some hs1 (by omega)]
  simp only []
  have hz0 : Mkfs.load32 s.disk (s.freeblock * 512 + 4 * (fbn - 12)) = 0 :=
    Mkfs.load32_of_zero (fun k hk => by
      rw [Nat.add_assoc]
      exact hz _ (by omega))
  rw [Mkfs.load32_shift, if_pos hz0]
  rw [Mkfs.load32_store_in (le_refl _) (le_refl _), Nat.sub_self,
    Mkfs.load32_xint (by omega),
    Nat.mod_eq_of_lt (by show s.freeblock + 1 + 1 < 4294967296; omega)]
  have hs2 : Mkfs.Sized { s with freeblock := s.freeblock + 1 + 1 } := hs
  rw [Mkfs.wsect_store hs2 (by omega) (by omega)]

theorem Mkfs.locate_next_indirect {fbn : Nat} {din : Nat → Nat} {s : Mkfs.State}
    (hs : Mkfs.Sized s) (hf : 12 ≤ fbn) (hf2 : fbn < 140) (h0 : Mkfs.load32 din 60 ≠ 0)
    (hib : Mkfs.load32 din 60 < 1000) (hfb : s.freeblock < 4294967295)
    (hz : Mkfs.load32 s.disk (Mkfs.load32 din 60 * 512 + 4 * (fbn - 12)) = 0) :
    Mkfs.locate fbn din s =
      some (din, s.freeblock,
        Mkfs.State.put { s with freeblock := s.freeblock + 1 }
          (Mkfs.load32 din 60 * 512 + 4 * (fbn - 12)) 4 (Mkfs.xint s.freeblock)) := by
  have hN : NDIRECT = 12 := rfl
  have h60 : 12 + 4 * 12 = 60 := rfl
  unfold Mkfs.locate
  rw [hN, if_neg (by omega), h60]
  simp only [h0, if_false]
  rw [Mkfs.rsect_some hs hib]
  simp only []
  rw [Mkfs.load32_shift, if_pos hz]
  rw [Mkfs.load32_store_in (le_refl _) (le_refl _), Nat.sub_self,
    Mkfs.load32_xint (by omega), Nat.mod_eq_of_lt (by show s.freeblock + 1 < 4294967296; omega)]
  have hs2 : Mkfs.Sized { s with freeblock := s.freeblock + 1 } := hs
  rw [Mkfs.wsect_store hs2 hib (by omega)]

/-! ## The invariant of the generator -/

/-- The invariant survives a change of the file that changes no slot. -/
theorem Mkfs.Inv.update {s : Mkfs.State} (h : Mkfs.Inv s) {d1 : Nat → Nat}
    (hval : ∀ i j, i < 208 → j < 141 → Mkfs.slotVal d1 i j = Mkfs.slotVal s.disk i j)
    (hsb : ∀ j, j < 512 → d1 (512 + j) = Mkfs.sbBuf j)
    (hzb : ∀ a, s.freeblock * 512 ≤ a → a < 512000 → d1 a = 0)
    (hzi : ∀ i, (i = 0 ∨ s.freeinode ≤ i) → i < 208 → ∀ j, j < 64 → d1 (Mkfs.ioff i + j) = 0) :
    Mkfs.Inv { s with disk := d1 } where
  sized := h.sized
  sb := hsb
  fi_hi := h.fi_hi
  fb_lo := h.fb_lo
  fb_hi := h.fb_hi
  zero_blocks := hzb
  zero_inodes := hzi
  val_range := by
    intro i j hi hj hne
    rw [hval i j hi hj] at hne ⊢
    exact h.val_range i j hi hj hne
  val_inj := by
    intro i j i1 j1 hi hj hi1 hj1 hne heq
    rw [hval i j hi hj] at hne heq
    rw [hval i1 j1 hi1 hj1] at heq
    exact h.val_inj i j i1 j1 hi hj hi1 hj1 hne heq
  val_cover := by
    intro b hb1 hb2
    obtain ⟨i, j, hi, hj, hv⟩ := h.val_cover b hb1 hb2
    exact ⟨i, j, hi, hj, by rw [hval i j hi hj]; exact hv⟩

/-- The invariant survives the allocation of block `freeblock` to a position that held 0. -/
theorem Mkfs.Inv.alloc {s : Mkfs.State} (h : Mkfs.Inv s) {d1 : Nat → Nat} {c j0 : Nat}
    (hc : c < 208) (hj0 : j0 < 141) (hfb : s.freeblock < 1000)
    (hold : Mkfs.slotVal s.disk c j0 = 0)
    (hval : ∀ i j, i < 208 → j < 141 →
      Mkfs.slotVal d1 i j = if i = c ∧ j = j0 then s.freeblock else Mkfs.slotVal s.disk i j)
    (hsb : ∀ j, j < 512 → d1 (512 + j) = Mkfs.sbBuf j)
    (hzb : ∀ a, (s.freeblock + 1) * 512 ≤ a → a < 512000 → d1 a = 0)
    (hzi : ∀ i, (i = 0 ∨ s.freeinode ≤ i) → i < 208 → ∀ j, j < 64 → d1 (Mkfs.ioff i + j) = 0) :
    Mkfs.Inv { s with disk := d1, freeblock := s.freeblock + 1 } where
  sized := h.sized
  sb := hsb
  fi_hi := h.fi_hi
  fb_lo := by show 59 ≤ s.freeblock + 1; have := h.fb_lo; omega
  fb_hi := by show s.freeblock + 1 ≤ 1000; omega
  zero_blocks := hzb
  zero_inodes := hzi
  val_range := by
    intro i j hi hj hne
    show 59 ≤ Mkfs.slotVal d1 i j ∧ Mkfs.slotVal d1 i j < s.freeblock + 1
    have hne2 : Mkfs.slotVal d1 i j ≠ 0 := hne
    rw [hval i j hi hj] at hne2 ⊢
    by_cases hp : i = c ∧ j = j0
    · rw [if_pos hp]
      have := h.fb_lo
      omega
    · rw [if_neg hp] at hne2 ⊢
      have := h.val_range i j hi hj hne2
      omega
  val_inj := by
    intro i j i1 j1 hi hj hi1 hj1 hne heq
    have hne2 : Mkfs.slotVal d1 i j ≠ 0 := hne
    have heq2 : Mkfs.slotVal d1 i j = Mkfs.slotVal d1 i1 j1 := heq
    rw [hval i j hi hj] at hne2 heq2
    rw [hval i1 j1 hi1 hj1] at heq2
    by_cases hp : i = c ∧ j = j0
    · rw [if_pos hp] at heq2
      by_cases hp1 : i1 = c ∧ j1 = j0
      · exact ⟨hp.1.trans hp1.1.symm, hp.2.trans hp1.2.symm⟩
      · rw [if_neg hp1] at heq2
        have hn : Mkfs.slotVal s.disk i1 j1 ≠ 0 := by
          have := h.fb_lo
          omega
        have := h.val_range i1 j1 hi1 hj1 hn
        omega
    · rw [if_neg hp] at hne2 heq2
      by_cases hp1 : i1 = c ∧ j1 = j0
      · rw [if_pos hp1] at heq2
        have := h.val_range i j hi hj hne2
        omega
      · rw [if_neg hp1] at heq2
        exact h.val_inj i j i1 j1 hi hj hi1 hj1 hne2 heq2
  val_cover := by
    intro b hb1 hb2
    have hb3 : b < s.freeblock + 1 := hb2
    by_cases hb : b = s.freeblock
    · refine ⟨c, j0, hc, hj0, ?_⟩
      show Mkfs.slotVal d1 c j0 = b
      rw [hval c j0 hc hj0, if_pos ⟨rfl, rfl⟩, hb]
    · obtain ⟨i, j, hi, hj, hv⟩ := h.val_cover b hb1 (by omega)
      refine ⟨i, j, hi, hj, ?_⟩
      show Mkfs.slotVal d1 i j = b
      rw [hval i j hi hj, if_neg, hv]
      rintro ⟨rfl, rfl⟩
      rw [hold] at hv
      omega

/-! ### How a write changes the slots -/

theorem Mkfs.Inv.indirect_lo {s : Mkfs.State} (h : Mkfs.Inv s) {i : Nat} (hi : i < 208)
    (hne : Mkfs.load32 s.disk (Mkfs.ioff i + 60) ≠ 0) :
    59 ≤ Mkfs.load32 s.disk (Mkfs.ioff i + 60) ∧
      Mkfs.load32 s.disk (Mkfs.ioff i + 60) < s.freeblock := by
  have h1 : Mkfs.slotVal s.disk i 12 = Mkfs.load32 s.disk (Mkfs.ioff i + 60) := by
    unfold Mkfs.slotVal
    rw [if_pos (le_refl _)]
  have := h.val_range i 12 hi (by decide) (by rw [h1]; exact hne)
  rw [h1] at this
  exact this

/-- A write outside the inode table and outside every indirect block changes no slot. -/
theorem Mkfs.slotVal_data {s : Mkfs.State} {a n : Nat} (src : Nat → Nat)
    (ha : 29696 ≤ a)
    (hind : ∀ i, i < 208 → Mkfs.load32 s.disk (Mkfs.ioff i + 60) ≠ 0 →
      Mkfs.load32 s.disk (Mkfs.ioff i + 60) * 512 + 512 ≤ a ∨
        a + n ≤ Mkfs.load32 s.disk (Mkfs.ioff i + 60) * 512)
    {i j : Nat} (hi : i < 208) (hj : j < 141) :
    Mkfs.slotVal (Mkfs.store s.disk a n src) i j = Mkfs.slotVal s.disk i j := by
  unfold Mkfs.slotVal Mkfs.ioff
  by_cases hj12 : j ≤ 12
  · rw [if_pos hj12, if_pos hj12, Mkfs.load32_store_out (by omega)]
  · rw [if_neg hj12, if_neg hj12, Mkfs.load32_store_out (by omega)]
    by_cases h0 : Mkfs.load32 s.disk (16384 + 64 * i + 60) ≠ 0
    · rw [if_pos h0, if_pos h0]
      have := hind i hi h0
      unfold Mkfs.ioff at this
      rw [Mkfs.load32_store_out (by omega)]
    · rw [if_neg h0, if_neg h0]

/-- A write to a field of an inode record before its slots changes no slot. -/
theorem Mkfs.slotVal_field {s : Mkfs.State} (h : Mkfs.Inv s) {c o n : Nat} (src : Nat → Nat)
    (hc : c < 208) (ho : o + n ≤ 12) {i j : Nat} (hi : i < 208) (hj : j < 141) :
    Mkfs.slotVal (Mkfs.store s.disk (Mkfs.ioff c + o) n src) i j = Mkfs.slotVal s.disk i j := by
  have hlo := fun h0 => (h.indirect_lo hi h0).1
  unfold Mkfs.slotVal Mkfs.ioff at *
  by_cases hj12 : j ≤ 12
  · rw [if_pos hj12, if_pos hj12, Mkfs.load32_store_out (by omega)]
  · rw [if_neg hj12, if_neg hj12, Mkfs.load32_store_out (by omega)]
    by_cases h0 : Mkfs.load32 s.disk (16384 + 64 * i + 60) ≠ 0
    · rw [if_pos h0, if_pos h0]
      have := hlo h0
      rw [Mkfs.load32_store_out (by omega)]
    · rw [if_neg h0, if_neg h0]

/-- Writing a block number into a direct slot. -/
theorem Mkfs.slotVal_direct {s : Mkfs.State} (h : Mkfs.Inv s) {c j0 v : Nat}
    (hc : c < 208) (hj0 : j0 < 12) (hv : v < 4294967296) {i j : Nat} (hi : i < 208)
    (hj : j < 141) :
    Mkfs.slotVal (Mkfs.store s.disk (Mkfs.ioff c + 12 + 4 * j0) 4 (Mkfs.xint v)) i j =
      if i = c ∧ j = j0 then v else Mkfs.slotVal s.disk i j := by
  have hlo := fun h0 => (h.indirect_lo hi h0).1
  unfold Mkfs.slotVal Mkfs.ioff at *
  by_cases hj12 : j ≤ 12
  · rw [if_pos hj12, if_pos hj12]
    by_cases hp : i = c ∧ j = j0
    · rw [if_pos hp, hp.1, hp.2, Mkfs.load32_store_in (le_refl _) (le_refl _), Nat.sub_self,
        Mkfs.load32_xint hv]
    · rw [if_neg hp, Mkfs.load32_store_out (by omega)]
  · have hp : ¬ (i = c ∧ j = j0) := by omega
    rw [if_neg hj12, if_neg hj12, if_neg hp, Mkfs.load32_store_out (by omega)]
    by_cases h0 : Mkfs.load32 s.disk (16384 + 64 * i + 60) ≠ 0
    · rw [if_pos h0, if_pos h0]
      have := hlo h0
      rw [Mkfs.load32_store_out (by omega)]
    · rw [if_neg h0, if_neg h0]

/-- Writing the number of a zeroed block into an indirect slot that held 0. -/
theorem Mkfs.slotVal_indirect {s : Mkfs.State} (h : Mkfs.Inv s) {c v : Nat}
    (hc : c < 208) (hv1 : 59 ≤ v) (hv2 : v < 1000)
    (hold : Mkfs.load32 s.disk (Mkfs.ioff c + 60) = 0)
    (hz : ∀ k, k < 512 → s.disk (v * 512 + k) = 0) {i j : Nat} (hi : i < 208) (hj : j < 141) :
    Mkfs.slotVal (Mkfs.store s.disk (Mkfs.ioff c + 60) 4 (Mkfs.xint v)) i j =
      if i = c ∧ j = 12 then v else Mkfs.slotVal s.disk i j := by
  have hlo := fun h0 => (h.indirect_lo hi h0).1
  unfold Mkfs.slotVal Mkfs.ioff at *
  by_cases hj12 : j ≤ 12
  · rw [if_pos hj12, if_pos hj12]
    by_cases hp : i = c ∧ j = 12
    · rw [if_pos hp, hp.1, hp.2, Mkfs.load32_store_in (by omega) (by omega),
        show 16384 + 64 * c + 12 + 4 * 12 - (16384 + 64 * c + 60) = 0 by omega,
        Mkfs.load32_xint (by omega)]
    · rw [if_neg hp, Mkfs.load32_store_out (by omega)]
  · have hp : ¬ (i = c ∧ j = 12) := by omega
    rw [if_neg hj12, if_neg hj12, if_neg hp]
    by_cases hic : i = c
    · subst hic
      have hv0 : v ≠ 0 := by omega
      have hold2 : ¬ Mkfs.load32 s.disk (16384 + 64 * i + 60) ≠ 0 := by simpa using hold
      rw [Mkfs.load32_store_in (le_refl _) (le_refl _), Nat.sub_self,
        Mkfs.load32_xint (by omega), if_pos hv0, if_neg hold2,
        Mkfs.load32_store_out (by omega)]
      exact Mkfs.load32_of_zero (fun k hk => by
        rw [Nat.add_assoc]
        exact hz _ (by omega))
    · rw [Mkfs.load32_store_out (by omega)]
      by_cases h0 : Mkfs.load32 s.disk (16384 + 64 * i + 60) ≠ 0
      · rw [if_pos h0, if_pos h0]
        have := hlo h0
        rw [Mkfs.load32_store_out (by omega)]
      · rw [if_neg h0, if_neg h0]

/-- Writing a block number into an entry of the indirect block of inode `c`. -/
theorem Mkfs.slotVal_entry {s : Mkfs.State} (h : Mkfs.Inv s) {c e0 v : Nat}
    (hc : c < 208) (he0 : e0 < 128) (hv : v < 4294967296)
    (hb : Mkfs.load32 s.disk (Mkfs.ioff c + 60) ≠ 0) {i j : Nat} (hi : i < 208)
    (hj : j < 141) :
    Mkfs.slotVal
        (Mkfs.store s.disk (Mkfs.load32 s.disk (Mkfs.ioff c + 60) * 512 + 4 * e0) 4
          (Mkfs.xint v)) i j =
      if i = c ∧ j = 13 + e0 then v else Mkfs.slotVal s.disk i j := by
  have hlo := fun h0 => (h.indirect_lo hi h0).1
  have hloc := (h.indirect_lo hc hb).1
  have hinj : i ≠ c → Mkfs.load32 s.disk (Mkfs.ioff i + 60) ≠ 0 →
      Mkfs.load32 s.disk (Mkfs.ioff i + 60) ≠ Mkfs.load32 s.disk (Mkfs.ioff c + 60) := by
    intro hic h0 heq
    have h1 : Mkfs.slotVal s.disk i 12 = Mkfs.load32 s.disk (Mkfs.ioff i + 60) := by
      unfold Mkfs.slotVal
      rw [if_pos (le_refl _)]
    have h2 : Mkfs.slotVal s.disk c 12 = Mkfs.load32 s.disk (Mkfs.ioff c + 60) := by
      unfold Mkfs.slotVal
      rw [if_pos (le_refl _)]
    exact hic (h.val_inj i 12 c 12 hi (by decide) hc (by decide) (by rw [h1]; exact h0)
      (by rw [h1, h2]; exact heq)).1
  unfold Mkfs.slotVal Mkfs.ioff at *
  by_cases hj12 : j ≤ 12
  · have hp : ¬ (i = c ∧ j = 13 + e0) := by omega
    rw [if_pos hj12, if_pos hj12, if_neg hp, Mkfs.load32_store_out (by omega)]
  · rw [if_neg hj12, if_neg hj12, Mkfs.load32_store_out (by omega)]
    by_cases h0 : Mkfs.load32 s.disk (16384 + 64 * i + 60) ≠ 0
    · rw [if_pos h0, if_pos h0]
      by_cases hic : i = c
      · subst hic
        by_cases hje : j = 13 + e0
        · rw [if_pos ⟨rfl, hje⟩, hje, Mkfs.load32_store_in (by omega) (by omega),
            show Mkfs.load32 s.disk (16384 + 64 * i + 60) * 512 + 4 * (13 + e0 - 13) -
              (Mkfs.load32 s.disk (16384 + 64 * i + 60) * 512 + 4 * e0) = 0 by omega,
            Mkfs.load32_xint hv]
        · have hp : ¬ (i = i ∧ j = 13 + e0) := by omega
          rw [if_neg hp, Mkfs.load32_store_out (by omega)]
      · have := hinj hic h0
        have := hlo h0
        have hp : ¬ (i = c ∧ j = 13 + e0) := by omega
        rw [if_neg hp, Mkfs.load32_store_out (by omega)]
    · have hp : ¬ (i = c ∧ j = 13 + e0) := by
        rintro ⟨rfl, _⟩
        exact h0 hb
      rw [if_neg h0, if_neg h0, if_neg hp]

/-! ### Algebra of writes -/

/-- Writing back what was read changes nothing. -/
theorem Mkfs.store_self {d r : Nat → Nat} {a n : Nat} (h : ∀ k, k < n → r k = d (a + k)) :
    Mkfs.store d a n r = d := by
  funext x
  unfold Mkfs.store
  by_cases hx : a ≤ x ∧ x < a + n
  · rw [if_pos hx, h _ (by omega)]
    congr 1
    omega
  · rw [if_neg hx]

/-- Writing a buffer of which some bytes were changed: the buffer, then the change. -/
theorem Mkfs.store_store_in (d r src : Nat → Nat) {a n o m : Nat} (h : o + m ≤ n) :
    Mkfs.store d a n (Mkfs.store r o m src) = Mkfs.store (Mkfs.store d a n r) (a + o) m src := by
  funext x
  unfold Mkfs.store
  by_cases hx : a ≤ x ∧ x < a + n
  · rw [if_pos hx]
    by_cases hy : o ≤ x - a ∧ x - a < o + m
    · rw [if_pos hy, if_pos (by omega)]
      congr 1
      omega
    · rw [if_neg hy, if_neg (by omega), if_pos hx]
  · rw [if_neg hx, if_neg (by omega), if_neg hx]

/-- Writes to disjoint ranges commute. -/
theorem Mkfs.store_comm (d s1 s2 : Nat → Nat) {a1 n1 a2 n2 : Nat}
    (h : a1 + n1 ≤ a2 ∨ a2 + n2 ≤ a1) :
    Mkfs.store (Mkfs.store d a1 n1 s1) a2 n2 s2 = Mkfs.store (Mkfs.store d a2 n2 s2) a1 n1 s1 := by
  funext x
  unfold Mkfs.store
  by_cases h1 : a1 ≤ x ∧ x < a1 + n1
  · have h2 : ¬ (a2 ≤ x ∧ x < a2 + n2) := by omega
    rw [if_neg h2, if_pos h1, if_pos h1]
  · by_cases h2 : a2 ≤ x ∧ x < a2 + n2
    · rw [if_pos h2, if_neg h1, if_pos h2]
    · rw [if_neg h2, if_neg h1, if_neg h1, if_neg h2]

/-- The state after `winode` of the record read by `rinode` with two fields changed, when
the file was written elsewhere in between. -/
theorem Mkfs.put_record2 {d d1 : Nat → Nat} {i o1 m1 o2 m2 : Nat} (src1 src2 : Nat → Nat)
    (h : ∀ k, k < 64 → d1 (Mkfs.ioff i + k) = d (Mkfs.ioff i + k)) (h1 : o1 + m1 ≤ 64)
    (h2 : o2 + m2 ≤ 64) :
    Mkfs.store d1 (Mkfs.ioff i) 64
        (Mkfs.store (Mkfs.store (fun k => d (Mkfs.ioff i + k)) o1 m1 src1) o2 m2 src2) =
      Mkfs.store (Mkfs.store d1 (Mkfs.ioff i + o1) m1 src1) (Mkfs.ioff i + o2) m2 src2 := by
  rw [Mkfs.store_store_in _ _ _ h2, Mkfs.store_store_in _ _ _ h1,
    Mkfs.store_self (fun k hk => (h k hk).symm)]

/-- The state after `winode` of the record read by `rinode` with one field changed. -/
theorem Mkfs.put_record1 {d d1 : Nat → Nat} {i o1 m1 : Nat} (src1 : Nat → Nat)
    (h : ∀ k, k < 64 → d1 (Mkfs.ioff i + k) = d (Mkfs.ioff i + k)) (h1 : o1 + m1 ≤ 64) :
    Mkfs.store d1 (Mkfs.ioff i) 64 (Mkfs.store (fun k => d (Mkfs.ioff i + k)) o1 m1 src1) =
      Mkfs.store d1 (Mkfs.ioff i + o1) m1 src1 := by
  rw [Mkfs.store_store_in _ _ _ h1, Mkfs.store_self (fun k hk => (h k hk).symm)]

/-! ### `iappend`, case by case -/

/-- One round of the loop of `iappend`, the block found being inside the image or not. -/
theorem Mkfs.iappendLoop_round_or {fuel : Nat} {p : Nat → Nat} {pos n off : Nat}
    {din din1 : Nat → Nat} {s s1 : Mkfs.State} {x : Nat} (hn : 0 < n)
    (hfit : n ≤ 512 - off % 512) (hfbn : off / 512 < 140)
    (hloc : Mkfs.locate (off / 512) din s = some (din1, x, s1)) (hs1 : Mkfs.Sized s1)
    (hx : x < 8388608) (hoff : off + n < 4294967296) :
    Mkfs.iappendLoop (fuel + 1) p pos n off din s =
      if x < 1000 then
        some (din1, off + n, s1.put (x * 512 + off % 512) n (fun k => p (pos + k)))
      else none := by
  by_cases hx2 : x < 1000
  · rw [if_pos hx2]
    exact Mkfs.iappendLoop_round hn hfit hfbn hloc hs1 hx2 hoff
  · rw [if_neg hx2]
    have hB : BSIZE = 512 := rfl
    have hM : Mkfs.MAXFILE = 140 := rfl
    rw [Mkfs.iappendLoop, if_neg (by omega)]
    simp only []
    rw [hB, hM, if_neg (by omega), hloc]
    simp only []
    rw [Mkfs.rsect_none hs1 (by omega) hx]

theorem Mkfs.iappend_or {i n : Nat} {p din1 : Nat → Nat} {s s1 : Mkfs.State} {x : Nat}
    (hs : Mkfs.Sized s) (hi : i < 7744) (hn : 0 < n)
    (hfit : n ≤ 512 - Mkfs.load32 s.disk (Mkfs.ioff i + 8) % 512)
    (hfbn : Mkfs.load32 s.disk (Mkfs.ioff i + 8) / 512 < 140)
    (hloc : Mkfs.locate (Mkfs.load32 s.disk (Mkfs.ioff i + 8) / 512)
      (fun k => s.disk (Mkfs.ioff i + k)) s = some (din1, x, s1))
    (hs1 : Mkfs.Sized s1) (hx : x < 8388608)
    (hoff : Mkfs.load32 s.disk (Mkfs.ioff i + 8) + n < 4294967296) :
    Mkfs.iappend i p n s =
      if x < 1000 then
        some ((s1.put (x * 512 + Mkfs.load32 s.disk (Mkfs.ioff i + 8) % 512) n p).put
          (Mkfs.ioff i) 64
          (Mkfs.store din1 8 4 (Mkfs.xint (Mkfs.load32 s.disk (Mkfs.ioff i + 8) + n))))
      else none := by
  by_cases hx2 : x < 1000
  · rw [if_pos hx2]
    exact Mkfs.iappend_eq hs hi hn hfit hfbn hloc hs1 hx2 hoff
  · rw [if_neg hx2]
    have hsz : Mkfs.load32 (fun k => s.disk (Mkfs.ioff i + k)) 8 =
        Mkfs.load32 s.disk (Mkfs.ioff i + 8) := rfl
    unfold Mkfs.iappend
    rw [Mkfs.rinode_eq hs hi]
    simp only []
    cases n with
    | zero => omega
    | succ m =>
      rw [hsz, Mkfs.iappendLoop_round_or (by omega) hfit hfbn hloc hs1 hx hoff, if_neg hx2]

/-- `iappend` ends the run when the block cannot be found: `assert(fbn < MAXFILE)` fails or
the indirect block lies outside the image. -/
theorem Mkfs.iappend_none {i n : Nat} {p : Nat → Nat} {s : Mkfs.State}
    (hs : Mkfs.Sized s) (hi : i < 7744) (hn : 0 < n)
    (h : 140 ≤ Mkfs.load32 s.disk (Mkfs.ioff i + 8) / 512 ∨
      Mkfs.locate (Mkfs.load32 s.disk (Mkfs.ioff i + 8) / 512)
        (fun k => s.disk (Mkfs.ioff i + k)) s = none) :
    Mkfs.iappend i p n s = none := by
  have hsz : Mkfs.load32 (fun k => s.disk (Mkfs.ioff i + k)) 8 =
      Mkfs.load32 s.disk (Mkfs.ioff i + 8) := rfl
  have hB : BSIZE = 512 := rfl
  have hM : Mkfs.MAXFILE = 140 := rfl
  unfold Mkfs.iappend
  rw [Mkfs.rinode_eq hs hi]
  simp only []
  cases n with
  | zero => omega
  | succ m =>
    rw [hsz, Mkfs.iappendLoop, if_neg (by omega)]
    simp only []
    rw [hB, hM]
    rcases h with h | h
    · rw [if_pos (by omega)]
    · by_cases hf : ¬ Mkfs.load32 s.disk (Mkfs.ioff i + 8) / 512 < 140
      · rw [if_pos hf]
      · rw [if_neg hf, h]

theorem Mkfs.locate_fresh_indirect_none {fbn : Nat} {din : Nat → Nat} {s : Mkfs.State}
    (hs : Mkfs.Sized s) (hf : 12 ≤ fbn) (h0 : Mkfs.load32 din 60 = 0)
    (hfb : 1000 ≤ s.freeblock) (hfb2 : s.freeblock < 8388608) :
    Mkfs.locate fbn din s = none := by
  have hN : NDIRECT = 12 := rfl
  have h60 : 12 + 4 * 12 = 60 := rfl
  unfold Mkfs.locate
  rw [hN, if_neg (by omega), h60]
  simp only [h0, if_true]
  rw [Mkfs.load32_store_in (le_refl _) (le_refl _), Nat.sub_self,
    Mkfs.load32_xint (by omega), Nat.mod_eq_of_lt (by show s.freeblock + 1 < 4294967296; omega)]
  have hs1 : Mkfs.Sized { s with freeblock := s.freeblock + 1 } := hs
  rw [Mkfs.rsect_none hs1 hfb hfb2]

theorem Mkfs.state_eq {s : Mkfs.State} {d : Nat → Nat} {fz fi fb : Nat} (h1 : s.disk = d)
    (h2 : s.fsize = fz) (h3 : s.freeinode = fi) (h4 : s.freeblock = fb) :
    s = { disk := d, fsize := fz, freeinode := fi, freeblock := fb } := by
  cases s
  simp only at h1 h2 h3 h4
  subst h1 h2 h3 h4
  rfl

/-- `iappend` into a block the inode already holds in a direct slot. -/
theorem Mkfs.iappend_old_direct {s s1 : Mkfs.State} {c sz n : Nat} {p : Nat → Nat}
    (hs : Mkfs.Sized s) (hc : c < 208) (hsz : Mkfs.load32 s.disk (Mkfs.ioff c + 8) = sz)
    (hf : sz / 512 < 12) (hslot : Mkfs.load32 s.disk (Mkfs.ioff c + 12 + 4 * (sz / 512)) ≠ 0)
    (hx : Mkfs.load32 s.disk (Mkfs.ioff c + 12 + 4 * (sz / 512)) < 1000)
    (hx2 : 59 ≤ Mkfs.load32 s.disk (Mkfs.ioff c + 12 + 4 * (sz / 512)))
    (hn : 0 < n) (hfit : n ≤ 512 - sz % 512) (h : Mkfs.iappend c p n s = some s1) :
    s1 = { disk := Mkfs.store
              (Mkfs.store s.disk
                (Mkfs.load32 s.disk (Mkfs.ioff c + 12 + 4 * (sz / 512)) * 512 + sz % 512) n p)
              (Mkfs.ioff c + 8) 4 (Mkfs.xint (sz + n)),
           fsize := s.fsize, freeinode := s.freeinode, freeblock := s.freeblock } := by
  have hloc : Mkfs.locate (Mkfs.load32 s.disk (Mkfs.ioff c + 8) / 512)
      (fun k => s.disk (Mkfs.ioff c + k)) s =
      some (fun k => s.disk (Mkfs.ioff c + k),
        Mkfs.load32 s.disk (Mkfs.ioff c + 12 + 4 * (sz / 512)), s) := by
    rw [hsz, Mkfs.locate_old_direct hf]
    · rw [Mkfs.load32_shift, ← Nat.add_assoc]
    · rw [Mkfs.load32_shift, ← Nat.add_assoc]
      exact hslot
  rw [Mkfs.iappend_eq hs (by omega) hn (by rw [hsz]; exact hfit) (by rw [hsz]; omega) hloc hs hx
    (by rw [hsz]; omega), hsz] at h
  simp only [Option.some.injEq] at h
  rw [← h]
  unfold Mkfs.State.put
  simp only []
  have hio : Mkfs.ioff c = 16384 + 64 * c := rfl
  rw [Mkfs.put_record1 _ (fun k hk => Mkfs.store_out (by omega)) (by omega)]

/-- `iappend` into a new block, taken into a direct slot. -/
theorem Mkfs.iappend_fresh_direct {s s1 : Mkfs.State} {c sz n : Nat} {p : Nat → Nat}
    (hs : Mkfs.Sized s) (hc : c < 208) (hsz : Mkfs.load32 s.disk (Mkfs.ioff c + 8) = sz)
    (hf : sz / 512 < 12) (hslot : Mkfs.load32 s.disk (Mkfs.ioff c + 12 + 4 * (sz / 512)) = 0)
    (hfb : 59 ≤ s.freeblock) (hfb2 : s.freeblock ≤ 1000)
    (hn : 0 < n) (hfit : n ≤ 512 - sz % 512) (h : Mkfs.iappend c p n s = some s1) :
    s.freeblock < 1000 ∧
    s1 = { disk := Mkfs.store
              (Mkfs.store
                (Mkfs.store s.disk (Mkfs.ioff c + 12 + 4 * (sz / 512)) 4 (Mkfs.xint s.freeblock))
                (s.freeblock * 512 + sz % 512) n p)
              (Mkfs.ioff c + 8) 4 (Mkfs.xint (sz + n)),
           fsize := s.fsize, freeinode := s.freeinode, freeblock := s.freeblock + 1 } := by
  have hloc : Mkfs.locate (Mkfs.load32 s.disk (Mkfs.ioff c + 8) / 512)
      (fun k => s.disk (Mkfs.ioff c + k)) s =
      some (Mkfs.store (fun k => s.disk (Mkfs.ioff c + k)) (12 + 4 * (sz / 512)) 4
          (Mkfs.xint s.freeblock), s.freeblock, { s with freeblock := s.freeblock + 1 }) := by
    rw [hsz, Mkfs.locate_fresh_direct hf _ (by omega)]
    rw [Mkfs.load32_shift, ← Nat.add_assoc]
    exact hslot
  have hs1 : Mkfs.Sized { s with freeblock := s.freeblock + 1 } := hs
  rw [Mkfs.iappend_or hs (by omega) hn (by rw [hsz]; exact hfit) (by rw [hsz]; omega) hloc hs1
    (by omega) (by rw [hsz]; omega), hsz] at h
  by_cases hlt : s.freeblock < 1000
  · rw [if_pos hlt] at h
    simp only [Option.some.injEq] at h
    refine ⟨hlt, ?_⟩
    rw [← h]
    unfold Mkfs.State.put
    simp only []
    have hio : Mkfs.ioff c = 16384 + 64 * c := rfl
    rw [Mkfs.put_record2 _ _ (fun k hk => Mkfs.store_out (by omega))
      (by omega) (by omega), ← Nat.add_assoc,
      @Mkfs.store_comm s.disk p (Mkfs.xint s.freeblock) (s.freeblock * 512 + sz % 512) n
        (Mkfs.ioff c + 12 + 4 * (sz / 512)) 4 (by omega)]
  · rw [if_neg hlt] at h
    cases h

/-! ### What an append leaves alone -/

theorem Mkfs.load32_congr {d d1 : Nat → Nat} {a : Nat}
    (h : ∀ k, k < 4 → d1 (a + k) = d (a + k)) : Mkfs.load32 d1 a = Mkfs.load32 d a := by
  unfold Mkfs.load32
  rw [show d1 a = d a from h 0 (by decide), h 1 (by decide), h 2 (by decide), h 3 (by decide)]

theorem Mkfs.slotVal_twelve (d : Nat → Nat) (i : Nat) :
    Mkfs.slotVal d i 12 = Mkfs.load32 d (Mkfs.ioff i + 60) := by
  unfold Mkfs.slotVal
  rw [if_pos (le_refl _)]

/-- The slots of the other inodes are kept. -/
theorem Mkfs.Keeps.slot {c : Nat} {d d1 : Nat → Nat} (h : Mkfs.Keeps c d d1) {i j : Nat}
    (hi : i < 208) (hic : i ≠ c) (hj : j < 141) :
    Mkfs.slotVal d1 i j = Mkfs.slotVal d i j := by
  have h60 : Mkfs.load32 d1 (Mkfs.ioff i + 60) = Mkfs.load32 d (Mkfs.ioff i + 60) :=
    Mkfs.load32_congr (fun k hk => by
      rw [Nat.add_assoc]
      exact h.recs i hi hic _ (by omega))
  unfold Mkfs.slotVal
  by_cases hj12 : j ≤ 12
  · rw [if_pos hj12, if_pos hj12]
    exact Mkfs.load32_congr (fun k hk => by
      rw [Nat.add_assoc, Nat.add_assoc]
      exact h.recs i hi hic _ (by omega))
  · rw [if_neg hj12, if_neg hj12, h60]
    by_cases h0 : Mkfs.load32 d (Mkfs.ioff i + 60) ≠ 0
    · rw [if_pos h0, if_pos h0]
      have hs12 := Mkfs.slotVal_twelve d i
      exact Mkfs.load32_congr (fun k hk => by
        rw [Nat.add_assoc, ← hs12]
        exact h.blocks i 12 hi hic (by decide) (by rw [hs12]; exact h0) _ (by omega))
    · rw [if_neg h0, if_neg h0]

theorem Mkfs.keeps_refl (c : Nat) (d : Nat → Nat) : Mkfs.Keeps c d d :=
  ⟨fun _ _ _ _ _ => rfl, fun _ _ => rfl, fun _ _ _ _ _ _ _ _ => rfl⟩

theorem Mkfs.keeps_trans {c : Nat} {d d1 d2 : Nat → Nat} (h1 : Mkfs.Keeps c d d1)
    (h2 : Mkfs.Keeps c d1 d2) : Mkfs.Keeps c d d2 where
  recs := fun i hi hic k hk => (h2.recs i hi hic k hk).trans (h1.recs i hi hic k hk)
  own := fun k hk => (h2.own k hk).trans (h1.own k hk)
  blocks := by
    intro i j hi hic hj hne k hk
    have hs := h1.slot hi hic hj
    have := h2.blocks i j hi hic hj (by rw [hs]; exact hne) k hk
    rw [hs] at this
    exact this.trans (h1.blocks i j hi hic hj hne k hk)

theorem Mkfs.step_trans {c : Nat} {s s1 s2 : Mkfs.State} (h1 : Mkfs.Step c s s1)
    (h2 : Mkfs.Step c s1 s2) : Mkfs.Step c s s2 where
  inv := h2.inv
  keeps := Mkfs.keeps_trans h1.keeps h2.keeps
  freeinode := h2.freeinode.trans h1.freeinode
  freeblock := le_trans h1.freeblock h2.freeblock

/-- A write into a field of the record of `c` after `nlink` and before the slots. -/
theorem Mkfs.step_field {s : Mkfs.State} (h : Mkfs.Inv s) {c o n : Nat} (src : Nat → Nat)
    (hc1 : 1 ≤ c) (hc2 : c < s.freeinode) (ho1 : 8 ≤ o) (ho : o + n ≤ 12) :
    Mkfs.Step c s { s with disk := Mkfs.store s.disk (Mkfs.ioff c + o) n src } := by
  have hfi := h.fi_hi
  have hc : c < 208 := by omega
  have hio : ∀ i, Mkfs.ioff i = 16384 + 64 * i := fun _ => rfl
  refine ⟨?_, ?_, rfl, le_refl _⟩
  · refine h.update (fun i j hi hj => Mkfs.slotVal_field h src hc ho hi hj) ?_ ?_ ?_
    · intro j hj
      rw [Mkfs.store_out (by rw [hio]; omega)]
      exact h.sb j hj
    · intro a ha1 ha2
      have := h.fb_lo
      rw [Mkfs.store_out (by rw [hio]; omega)]
      exact h.zero_blocks a ha1 ha2
    · intro i hi0 hi j hj
      rw [Mkfs.store_out (by rw [hio, hio]; omega)]
      exact h.zero_inodes i hi0 hi j hj
  · refine ⟨?_, ?_, ?_⟩
    · intro i hi hic k hk
      exact Mkfs.store_out (by rw [hio, hio]; omega)
    · intro k hk
      exact Mkfs.store_out (by omega)
    · intro i j hi hic hj hne k hk
      have := (h.val_range i j hi hj hne).1
      exact Mkfs.store_out (by rw [hio]; omega)

/-- A write into a block that `c` holds at a position other than the indirect slot. -/
theorem Mkfs.step_block {s : Mkfs.State} (h : Mkfs.Inv s) {c j0 o n : Nat} (p : Nat → Nat)
    (hc : c < 208) (hj0 : j0 < 141) (hj12 : j0 ≠ 12) (hx : Mkfs.slotVal s.disk c j0 ≠ 0)
    (ho : o + n ≤ 512) :
    Mkfs.Step c s
      { s with disk := Mkfs.store s.disk (Mkfs.slotVal s.disk c j0 * 512 + o) n p } := by
  have hio : ∀ i, Mkfs.ioff i = 16384 + 64 * i := fun _ => rfl
  have hr := h.val_range c j0 hc hj0 hx
  have hind : ∀ i, i < 208 → Mkfs.load32 s.disk (Mkfs.ioff i + 60) ≠ 0 →
      Mkfs.load32 s.disk (Mkfs.ioff i + 60) * 512 + 512 ≤ Mkfs.slotVal s.disk c j0 * 512 + o ∨
        Mkfs.slotVal s.disk c j0 * 512 + o + n ≤ Mkfs.load32 s.disk (Mkfs.ioff i + 60) * 512 := by
    intro i hi h0
    have hs12 := Mkfs.slotVal_twelve s.disk i
    have hne : Mkfs.load32 s.disk (Mkfs.ioff i + 60) ≠ Mkfs.slotVal s.disk c j0 := by
      intro heq
      have := h.val_inj i 12 c j0 hi (by decide) hc hj0 (by rw [hs12]; exact h0)
        (by rw [hs12]; exact heq)
      exact hj12 this.2.symm
    omega
  refine ⟨?_, ?_, rfl, le_refl _⟩
  · refine h.update (fun i j hi hj => Mkfs.slotVal_data p (by omega) hind hi hj) ?_ ?_ ?_
    · intro j hj
      rw [Mkfs.store_out (by omega)]
      exact h.sb j hj
    · intro a ha1 ha2
      rw [Mkfs.store_out (by omega)]
      exact h.zero_blocks a ha1 ha2
    · intro i hi0 hi j hj
      rw [Mkfs.store_out (by rw [hio]; omega)]
      exact h.zero_inodes i hi0 hi j hj
  · refine ⟨?_, ?_, ?_⟩
    · intro i hi hic k hk
      exact Mkfs.store_out (by rw [hio]; omega)
    · intro k hk
      exact Mkfs.store_out (by rw [hio]; omega)
    · intro i j hi hic hj hne k hk
      have hne2 : Mkfs.slotVal s.disk i j ≠ Mkfs.slotVal s.disk c j0 := by
        intro heq
        exact hic (h.val_inj i j c j0 hi hj hc hj0 hne heq).1
      exact Mkfs.store_out (by omega)

/-- The next free block is taken into a direct slot of `c` that held 0. -/
theorem Mkfs.step_direct {s : Mkfs.State} (h : Mkfs.Inv s) {c j0 : Nat}
    (hc1 : 1 ≤ c) (hc2 : c < s.freeinode) (hj0 : j0 < 12)
    (hold : Mkfs.load32 s.disk (Mkfs.ioff c + 12 + 4 * j0) = 0) (hfb : s.freeblock < 1000) :
    Mkfs.Step c s
      { s with disk := Mkfs.store s.disk (Mkfs.ioff c + 12 + 4 * j0) 4 (Mkfs.xint s.freeblock),
               freeblock := s.freeblock + 1 } ∧
    Mkfs.slotVal (Mkfs.store s.disk (Mkfs.ioff c + 12 + 4 * j0) 4 (Mkfs.xint s.freeblock))
      c j0 = s.freeblock := by
  have hfi := h.fi_hi
  have hc : c < 208 := by omega
  have hio : ∀ i, Mkfs.ioff i = 16384 + 64 * i := fun _ => rfl
  have hold2 : Mkfs.slotVal s.disk c j0 = 0 := by
    unfold Mkfs.slotVal
    rw [if_pos (by omega)]
    exact hold
  have hval := fun i j (hi : i < 208) (hj : j < 141) =>
    @Mkfs.slotVal_direct s h c j0 s.freeblock hc hj0 (by omega) i j hi hj
  refine ⟨⟨?_, ?_, rfl, Nat.le_succ _⟩, ?_⟩
  · refine h.alloc hc (by omega) hfb hold2 hval ?_ ?_ ?_
    · intro j hj
      rw [Mkfs.store_out (by rw [hio]; omega)]
      exact h.sb j hj
    · intro a ha1 ha2
      have := h.fb_lo
      rw [Mkfs.store_out (by rw [hio]; omega)]
      exact h.zero_blocks a (by omega) ha2
    · intro i hi0 hi j hj
      rw [Mkfs.store_out (by rw [hio, hio]; omega)]
      exact h.zero_inodes i hi0 hi j hj
  · refine ⟨?_, ?_, ?_⟩
    · intro i hi hic k hk
      exact Mkfs.store_out (by rw [hio, hio]; omega)
    · intro k hk
      exact Mkfs.store_out (by omega)
    · intro i j hi hic hj hne k hk
      have := (h.val_range i j hi hj hne).1
      exact Mkfs.store_out (by rw [hio]; omega)
  · rw [hval c j0 hc (by omega), if_pos ⟨rfl, rfl⟩]

/-- The next free block is taken as the indirect block of `c`. -/
theorem Mkfs.step_indirect {s : Mkfs.State} (h : Mkfs.Inv s) {c : Nat}
    (hc1 : 1 ≤ c) (hc2 : c < s.freeinode)
    (hold : Mkfs.load32 s.disk (Mkfs.ioff c + 60) = 0) (hfb : s.freeblock < 1000) :
    Mkfs.Step c s
      { s with disk := Mkfs.store s.disk (Mkfs.ioff c + 60) 4 (Mkfs.xint s.freeblock),
               freeblock := s.freeblock + 1 } := by
  have hfi := h.fi_hi
  have hc : c < 208 := by omega
  have hio : ∀ i, Mkfs.ioff i = 16384 + 64 * i := fun _ => rfl
  have hold2 : Mkfs.slotVal s.disk c 12 = 0 := by
    rw [Mkfs.slotVal_twelve]
    exact hold
  have hlo := h.fb_lo
  have hval := fun i j (hi : i < 208) (hj : j < 141) =>
    @Mkfs.slotVal_indirect s h c s.freeblock hc hlo hfb hold
      (fun k hk => h.zero_blocks _ (by omega) (by omega)) i j hi hj
  refine ⟨?_, ?_, rfl, Nat.le_succ _⟩
  · refine h.alloc hc (by decide) hfb hold2 hval ?_ ?_ ?_
    · intro j hj
      rw [Mkfs.store_out (by rw [hio]; omega)]
      exact h.sb j hj
    · intro a ha1 ha2
      rw [Mkfs.store_out (by rw [hio]; omega)]
      exact h.zero_blocks a (by omega) ha2
    · intro i hi0 hi j hj
      rw [Mkfs.store_out (by rw [hio, hio]; omega)]
      exact h.zero_inodes i hi0 hi j hj
  · refine ⟨?_, ?_, ?_⟩
    · intro i hi hic k hk
      exact Mkfs.store_out (by rw [hio, hio]; omega)
    · intro k hk
      exact Mkfs.store_out (by omega)
    · intro i j hi hic hj hne k hk
      have := (h.val_range i j hi hj hne).1
      exact Mkfs.store_out (by rw [hio]; omega)

/-- The next free block is taken into an entry of the indirect block of `c` that held 0. -/
theorem Mkfs.step_entry {s : Mkfs.State} (h : Mkfs.Inv s) {c e0 : Nat}
    (hc : c < 208) (he0 : e0 < 128)
    (hb : Mkfs.load32 s.disk (Mkfs.ioff c + 60) ≠ 0)
    (hold : Mkfs.load32 s.disk (Mkfs.load32 s.disk (Mkfs.ioff c + 60) * 512 + 4 * e0) = 0)
    (hfb : s.freeblock < 1000) :
    Mkfs.Step c s
      { s with disk := Mkfs.store s.disk (Mkfs.load32 s.disk (Mkfs.ioff c + 60) * 512 + 4 * e0)
                 4 (Mkfs.xint s.freeblock),
               freeblock := s.freeblock + 1 } := by
  have hio : ∀ i, Mkfs.ioff i = 16384 + 64 * i := fun _ => rfl
  have hr := h.indirect_lo hc hb
  have hold2 : Mkfs.slotVal s.disk c (13 + e0) = 0 := by
    unfold Mkfs.slotVal
    rw [if_neg (by omega), if_pos hb, show 13 + e0 - 13 = e0 by omega]
    exact hold
  have hval := fun i j (hi : i < 208) (hj : j < 141) =>
    @Mkfs.slotVal_entry s h c e0 s.freeblock hc he0 (by omega) hb i j hi hj
  refine ⟨?_, ?_, rfl, Nat.le_succ _⟩
  · refine h.alloc hc (by omega) hfb hold2 hval ?_ ?_ ?_
    · intro j hj
      rw [Mkfs.store_out (by omega)]
      exact h.sb j hj
    · intro a ha1 ha2
      rw [Mkfs.store_out (by omega)]
      exact h.zero_blocks a (by omega) ha2
    · intro i hi0 hi j hj
      rw [Mkfs.store_out (by rw [hio]; omega)]
      exact h.zero_inodes i hi0 hi j hj
  · refine ⟨?_, ?_, ?_⟩
    · intro i hi hic k hk
      exact Mkfs.store_out (by rw [hio]; omega)
    · intro k hk
      have := hio c
      exact Mkfs.store_out (by omega)
    · intro i j hi hic hj hne k hk
      have hs12 := Mkfs.slotVal_twelve s.disk c
      have hne2 : Mkfs.slotVal s.disk i j ≠ Mkfs.load32 s.disk (Mkfs.ioff c + 60) := by
        intro heq
        exact hic (h.val_inj i j c 12 hi hj hc (by decide) hne (by rw [hs12]; exact heq)).1
      exact Mkfs.store_out (by omega)

theorem Mkfs.locate_old_indirect {fbn : Nat} {din : Nat → Nat} {s : Mkfs.State}
    (hs : Mkfs.Sized s) (hf : 12 ≤ fbn) (h0 : Mkfs.load32 din 60 ≠ 0)
    (hib : Mkfs.load32 din 60 < 1000)
    (hz : Mkfs.load32 s.disk (Mkfs.load32 din 60 * 512 + 4 * (fbn - 12)) ≠ 0) :
    Mkfs.locate fbn din s =
      some (din, Mkfs.load32 s.disk (Mkfs.load32 din 60 * 512 + 4 * (fbn - 12)), s) := by
  have hN : NDIRECT = 12 := rfl
  have h60 : 12 + 4 * 12 = 60 := rfl
  unfold Mkfs.locate
  rw [hN, if_neg (by omega), h60]
  simp only [h0, if_false]
  rw [Mkfs.rsect_some hs hib]
  simp only []
  rw [Mkfs.load32_shift, if_neg hz]

theorem Mkfs.slotVal_low (d : Nat → Nat) (i : Nat) {j : Nat} (hj : j ≤ 12) :
    Mkfs.slotVal d i j = Mkfs.load32 d (Mkfs.ioff i + 12 + 4 * j) := by
  unfold Mkfs.slotVal
  rw [if_pos hj]

theorem Mkfs.slotVal_high (d : Nat → Nat) (i : Nat) {e : Nat}
    (h0 : Mkfs.load32 d (Mkfs.ioff i + 60) ≠ 0) :
    Mkfs.slotVal d i (13 + e) =
      Mkfs.load32 d (Mkfs.load32 d (Mkfs.ioff i + 60) * 512 + 4 * e) := by
  unfold Mkfs.slotVal
  rw [if_neg (by omega), if_pos h0, show 13 + e - 13 = e by omega]

theorem Mkfs.load32_store_self (d : Nat → Nat) (a : Nat) {v : Nat} (hv : v < 4294967296) :
    Mkfs.load32 (Mkfs.store d a 4 (Mkfs.xint v)) a = v := by
  rw [Mkfs.load32_store_in (le_refl _) (le_refl _), Nat.sub_self, Mkfs.load32_xint hv]

/-- A write into the block `x` that `c` holds at a position other than the indirect slot. -/
theorem Mkfs.step_block_at {s : Mkfs.State} (h : Mkfs.Inv s) {c j0 o n x : Nat} (p : Nat → Nat)
    (hc : c < 208) (hj0 : j0 < 141) (hj12 : j0 ≠ 12) (hx : Mkfs.slotVal s.disk c j0 = x)
    (hx0 : x ≠ 0) (ho : o + n ≤ 512) :
    Mkfs.Step c s { s with disk := Mkfs.store s.disk (x * 512 + o) n p } := by
  subst hx
  exact Mkfs.step_block h p hc hj0 hj12 hx0 ho

/-- The next free block is taken into an entry of the indirect block `ib` of `c`. -/
theorem Mkfs.step_entry_at {s : Mkfs.State} (h : Mkfs.Inv s) {c e0 ib : Nat}
    (hc : c < 208) (he0 : e0 < 128)
    (hb : Mkfs.load32 s.disk (Mkfs.ioff c + 60) = ib) (hib : ib ≠ 0)
    (hold : Mkfs.load32 s.disk (ib * 512 + 4 * e0) = 0)
    (hfb : s.freeblock < 1000) :
    Mkfs.Step c s
      { s with disk := Mkfs.store s.disk (ib * 512 + 4 * e0) 4 (Mkfs.xint s.freeblock),
               freeblock := s.freeblock + 1 } ∧
    Mkfs.slotVal (Mkfs.store s.disk (ib * 512 + 4 * e0) 4 (Mkfs.xint s.freeblock)) c (13 + e0) =
      s.freeblock := by
  subst hb
  refine ⟨Mkfs.step_entry h hc he0 hib hold hfb, ?_⟩
  rw [Mkfs.slotVal_entry h hc he0 (by omega) hib hc (by omega), if_pos ⟨rfl, rfl⟩]

/-- An `iappend` of bytes that fit in the block at hand keeps the invariant, leaves the
other inodes alone and adds the bytes to the size. -/
theorem Mkfs.iappend_step {s s1 : Mkfs.State} {c n : Nat} {p : Nat → Nat} (h : Mkfs.Inv s)
    (hc1 : 1 ≤ c) (hc2 : c < s.freeinode) (hn : 0 < n)
    (hfit0 : n ≤ 512 - Mkfs.load32 s.disk (Mkfs.ioff c + 8) % 512)
    (happ : Mkfs.iappend c p n s = some s1) :
    Mkfs.Step c s s1 ∧
      Mkfs.load32 s1.disk (Mkfs.ioff c + 8) = Mkfs.load32 s.disk (Mkfs.ioff c + 8) + n := by
  have hfi := h.fi_hi
  have hc : c < 208 := by omega
  have hs := h.sized
  have hlo := h.fb_lo
  have hhi := h.fb_hi
  have hio : Mkfs.ioff c = 16384 + 64 * c := rfl
  obtain ⟨sz, hsz⟩ : ∃ sz, Mkfs.load32 s.disk (Mkfs.ioff c + 8) = sz := ⟨_, rfl⟩
  have hfit : n ≤ 512 - sz % 512 := by rw [← hsz]; exact hfit0
  rw [hsz]
  by_cases hfbn : sz / 512 < 140
  swap
  · rw [Mkfs.iappend_none hs (by omega) hn (Or.inl (by rw [hsz]; omega))] at happ
    cases happ
  have h60 : Mkfs.load32 (fun k => s.disk (Mkfs.ioff c + k)) 60 =
      Mkfs.load32 s.disk (Mkfs.ioff c + 60) := Mkfs.load32_shift _ _ _
  by_cases hdir : sz / 512 < 12
  · have hsv := Mkfs.slotVal_low s.disk c (show sz / 512 ≤ 12 by omega)
    by_cases hslot : Mkfs.load32 s.disk (Mkfs.ioff c + 12 + 4 * (sz / 512)) = 0
    · -- a new block in a direct slot
      obtain ⟨hlt, hS⟩ := Mkfs.iappend_fresh_direct hs hc hsz hdir hslot hlo hhi hn hfit happ
      obtain ⟨st1, hv1⟩ := Mkfs.step_direct h hc1 hc2 hdir hslot hlt
      have st2 := Mkfs.step_block_at st1.inv p hc (show sz / 512 < 141 by omega) (by omega) hv1
        (by omega) (show sz % 512 + n ≤ 512 by omega)
      have st3 := Mkfs.step_field st2.inv (Mkfs.xint (sz + n)) hc1 hc2 (le_refl 8)
        (show 8 + 4 ≤ 12 by decide)
      subst hS
      exact ⟨Mkfs.step_trans (Mkfs.step_trans st1 st2) st3,
        Mkfs.load32_store_self _ _ (by omega)⟩
    · -- the block of a direct slot
      have hr := h.val_range c (sz / 512) hc (by omega) (by rw [hsv]; exact hslot)
      rw [hsv] at hr
      have hS := Mkfs.iappend_old_direct hs hc hsz hdir hslot (by omega) hr.1 hn hfit happ
      have st1 := Mkfs.step_block_at h p hc (show sz / 512 < 141 by omega) (by omega) hsv
        hslot (show sz % 512 + n ≤ 512 by omega)
      have st2 := Mkfs.step_field st1.inv (Mkfs.xint (sz + n)) hc1 hc2 (le_refl 8)
        (show 8 + 4 ≤ 12 by decide)
      subst hS
      exact ⟨Mkfs.step_trans st1 st2, Mkfs.load32_store_self _ _ (by omega)⟩
  · have hf : 12 ≤ sz / 512 := by omega
    obtain ⟨e0, he0⟩ : ∃ e0, sz / 512 - 12 = e0 := ⟨_, rfl⟩
    have he128 : e0 < 128 := by omega
    by_cases hind : Mkfs.load32 s.disk (Mkfs.ioff c + 60) = 0
    · -- a new indirect block and a new block in its entry
      by_cases hfb : s.freeblock < 1000
      swap
      · rw [Mkfs.iappend_none hs (by omega) hn (Or.inr (by
          rw [hsz]
          exact Mkfs.locate_fresh_indirect_none hs hf (by rw [h60]; exact hind) (by omega)
            (by omega)))] at happ
        cases happ
      have hz : ∀ k, k < 512 → s.disk (s.freeblock * 512 + k) = 0 :=
        fun k hk => h.zero_blocks _ (by omega) (by omega)
      have hloc := @Mkfs.locate_fresh_indirect (sz / 512) (fun k => s.disk (Mkfs.ioff c + k)) s
        hs hf hfbn (by rw [h60]; exact hind) hfb hz
      have hs1 : Mkfs.Sized (Mkfs.State.put { s with freeblock := s.freeblock + 2 }
          (s.freeblock * 512 + 4 * (sz / 512 - 12)) 4 (Mkfs.xint (s.freeblock + 1))) := hs
      have hor := Mkfs.iappend_or (p := p) hs (show c < 7744 by omega) hn (by rw [hsz]; exact hfit)
        (by rw [hsz]; exact hfbn) (by rw [hsz]; exact hloc) hs1 (by omega) (by rw [hsz]; omega)
      rw [hsz, happ] at hor
      by_cases hfb1 : s.freeblock + 1 < 1000
      swap
      · rw [if_neg hfb1] at hor
        cases hor
      rw [if_pos hfb1, he0] at hor
      simp only [Option.some.injEq] at hor
      have st1 := Mkfs.step_indirect h hc1 hc2 hind hfb
      have hb1 := Mkfs.load32_store_self s.disk (Mkfs.ioff c + 60)
        (show s.freeblock < 4294967296 by omega)
      obtain ⟨st2, hv2⟩ := Mkfs.step_entry_at st1.inv hc he128 hb1 (by omega)
        (Mkfs.load32_of_zero (fun k hk => by
          show Mkfs.store s.disk (Mkfs.ioff c + 60) 4 (Mkfs.xint s.freeblock)
            (s.freeblock * 512 + 4 * e0 + k) = 0
          rw [Mkfs.store_out (by omega), Nat.add_assoc]
          exact hz _ (by omega))) hfb1
      have st3 := Mkfs.step_block_at st2.inv p hc (show 13 + e0 < 141 by omega) (by omega) hv2
        (show s.freeblock + 1 ≠ 0 by omega) (show sz % 512 + n ≤ 512 by omega)
      have st4 := Mkfs.step_field st3.inv (Mkfs.xint (sz + n)) hc1 hc2 (le_refl 8)
        (show 8 + 4 ≤ 12 by decide)
      have hD : s1.disk = Mkfs.store (Mkfs.store (Mkfs.store (Mkfs.store s.disk
          (Mkfs.ioff c + 60) 4 (Mkfs.xint s.freeblock))
          (s.freeblock * 512 + 4 * e0) 4 (Mkfs.xint (s.freeblock + 1)))
          ((s.freeblock + 1) * 512 + sz % 512) n p)
          (Mkfs.ioff c + 8) 4 (Mkfs.xint (sz + n)) := by
        rw [hor]
        unfold Mkfs.State.put
        simp only []
        rw [Mkfs.put_record2 _ _ (fun k hk => by
            rw [Mkfs.store_out (by omega), Mkfs.store_out (by omega)]) (by omega) (by omega),
          @Mkfs.store_comm _ p (Mkfs.xint s.freeblock) ((s.freeblock + 1) * 512 + sz % 512) n
            (Mkfs.ioff c + 60) 4 (by omega),
          @Mkfs.store_comm s.disk (Mkfs.xint (s.freeblock + 1)) (Mkfs.xint s.freeblock)
            (s.freeblock * 512 + 4 * e0) 4 (Mkfs.ioff c + 60) 4 (by omega)]
      have hS := Mkfs.state_eq hD (show s1.fsize = s.fsize by rw [hor]; rfl)
        (show s1.freeinode = s.freeinode by rw [hor]; rfl)
        (show s1.freeblock = s.freeblock + 2 by rw [hor]; rfl)
      subst hS
      exact ⟨Mkfs.step_trans (Mkfs.step_trans (Mkfs.step_trans st1 st2) st3) st4,
        Mkfs.load32_store_self _ _ (by omega)⟩
    · have hir := h.indirect_lo hc hind
      have hsv := Mkfs.slotVal_high s.disk c (e := e0) hind
      by_cases hent : Mkfs.load32 s.disk
          (Mkfs.load32 s.disk (Mkfs.ioff c + 60) * 512 + 4 * e0) = 0
      · -- a new block in an entry of the indirect block
        have hloc := @Mkfs.locate_next_indirect (sz / 512) (fun k => s.disk (Mkfs.ioff c + k)) s
          hs hf hfbn (by rw [h60]; exact hind) (by rw [h60]; omega) (by omega)
          (by rw [h60, he0]; exact hent)
        rw [h60, he0] at hloc
        have hs1 : Mkfs.Sized (Mkfs.State.put { s with freeblock := s.freeblock + 1 }
            (Mkfs.load32 s.disk (Mkfs.ioff c + 60) * 512 + 4 * e0) 4
            (Mkfs.xint s.freeblock)) := hs
        have hor := Mkfs.iappend_or (p := p) hs (show c < 7744 by omega) hn
          (by rw [hsz]; exact hfit)
          (by rw [hsz]; exact hfbn) (by rw [hsz]; exact hloc) hs1 (by omega) (by rw [hsz]; omega)
        rw [hsz, happ] at hor
        by_cases hfb : s.freeblock < 1000
        swap
        · rw [if_neg hfb] at hor
          cases hor
        rw [if_pos hfb] at hor
        simp only [Option.some.injEq] at hor
        obtain ⟨st1, hv1⟩ := Mkfs.step_entry_at h hc he128 rfl hind hent hfb
        have st2 := Mkfs.step_block_at st1.inv p hc (show 13 + e0 < 141 by omega) (by omega) hv1
          (by omega) (show sz % 512 + n ≤ 512 by omega)
        have st3 := Mkfs.step_field st2.inv (Mkfs.xint (sz + n)) hc1 hc2 (le_refl 8)
          (show 8 + 4 ≤ 12 by decide)
        have hD : s1.disk = Mkfs.store (Mkfs.store (Mkfs.store s.disk
            (Mkfs.load32 s.disk (Mkfs.ioff c + 60) * 512 + 4 * e0) 4 (Mkfs.xint s.freeblock))
            (s.freeblock * 512 + sz % 512) n p)
            (Mkfs.ioff c + 8) 4 (Mkfs.xint (sz + n)) := by
          rw [hor]
          unfold Mkfs.State.put
          simp only []
          rw [Mkfs.put_record1 _ (fun k hk => by
            rw [Mkfs.store_out (by omega), Mkfs.store_out (by omega)]) (by omega)]
        have hS := Mkfs.state_eq hD (show s1.fsize = s.fsize by rw [hor]; rfl)
          (show s1.freeinode = s.freeinode by rw [hor]; rfl)
          (show s1.freeblock = s.freeblock + 1 by rw [hor]; rfl)
        subst hS
        exact ⟨Mkfs.step_trans (Mkfs.step_trans st1 st2) st3,
          Mkfs.load32_store_self _ _ (by omega)⟩
      · -- the block of an entry of the indirect block
        have hr := h.val_range c (13 + e0) hc (by omega) (by rw [hsv]; exact hent)
        rw [hsv] at hr
        have hloc := @Mkfs.locate_old_indirect (sz / 512) (fun k => s.disk (Mkfs.ioff c + k)) s
          hs hf (by rw [h60]; exact hind) (by rw [h60]; omega) (by rw [h60, he0]; exact hent)
        rw [h60, he0] at hloc
        have hor := Mkfs.iappend_eq (p := p) hs (show c < 7744 by omega) hn
          (by rw [hsz]; exact hfit)
          (by rw [hsz]; exact hfbn) (by rw [hsz]; exact hloc) hs (by omega) (by rw [hsz]; omega)
        rw [hsz, happ] at hor
        simp only [Option.some.injEq] at hor
        have st1 := Mkfs.step_block_at h p hc (show 13 + e0 < 141 by omega) (by omega) hsv
          hent (show sz % 512 + n ≤ 512 by omega)
        have st2 := Mkfs.step_field st1.inv (Mkfs.xint (sz + n)) hc1 hc2 (le_refl 8)
          (show 8 + 4 ≤ 12 by decide)
        have hD : s1.disk = Mkfs.store (Mkfs.store s.disk
            (Mkfs.load32 s.disk (Mkfs.load32 s.disk (Mkfs.ioff c + 60) * 512 + 4 * e0) * 512 +
              sz % 512) n p)
            (Mkfs.ioff c + 8) 4 (Mkfs.xint (sz + n)) := by
          rw [hor]
          unfold Mkfs.State.put
          simp only []
          rw [Mkfs.put_record1 _ (fun k hk => by rw [Mkfs.store_out (by omega)]) (by omega)]
        have hS := Mkfs.state_eq hD (show s1.fsize = s.fsize by rw [hor]; rfl)
          (show s1.freeinode = s.freeinode by rw [hor]; rfl)
          (show s1.freeblock = s.freeblock by rw [hor]; rfl)
        subst hS
        exact ⟨Mkfs.step_trans st1 st2, Mkfs.load32_store_self _ _ (by omega)⟩

theorem Mkfs.ialloc_eq {s : Mkfs.State} (hs : Mkfs.Sized s) (hfi : s.freeinode < 208)
    (type : Nat) :
    Mkfs.ialloc type s = some (s.freeinode,
      { s with disk := Mkfs.store s.disk (Mkfs.ioff s.freeinode) 64 (Mkfs.freshRecord type),
               freeinode := s.freeinode + 1 }) := by
  have hs1 : Mkfs.Sized { s with freeinode := (s.freeinode + 1) % U32 } := hs
  have hU : U32 = 4294967296 := rfl
  unfold Mkfs.ialloc
  simp only []
  rw [Mkfs.winode_eq hs1 (by omega)]
  simp only []
  unfold Mkfs.State.put Mkfs.freshRecord
  simp only []
  rw [hU, Nat.mod_eq_of_lt (by omega)]

theorem Mkfs.freshRecord_high (type : Nat) {k : Nat} (hk : 8 ≤ k) :
    Mkfs.freshRecord type k = 0 := by
  unfold Mkfs.freshRecord
  by_cases h : k < 12
  · rw [Mkfs.store_in hk (by omega)]
    have : k - 8 < 4 := by omega
    interval_cases (k - 8) <;> rfl
  · rw [Mkfs.store_out (by omega), Mkfs.store_out (by omega), Mkfs.store_out (by omega)]
    rfl

/-- Writing a record without slots over a zeroed record changes no slot. -/
theorem Mkfs.slotVal_ialloc {s : Mkfs.State} (h : Mkfs.Inv s) (hfi : s.freeinode < 208)
    (type : Nat) {i j : Nat} (hi : i < 208) (hj : j < 141) :
    Mkfs.slotVal (Mkfs.store s.disk (Mkfs.ioff s.freeinode) 64 (Mkfs.freshRecord type)) i j =
      Mkfs.slotVal s.disk i j := by
  have hio : ∀ i, Mkfs.ioff i = 16384 + 64 * i := fun _ => rfl
  by_cases hic : i = s.freeinode
  · subst hic
    have hz := h.zero_inodes s.freeinode (Or.inr (le_refl _)) hi
    have h60 : Mkfs.load32 s.disk (Mkfs.ioff s.freeinode + 60) = 0 :=
      Mkfs.load32_of_zero (fun k hk => by
        rw [Nat.add_assoc]
        exact hz _ (by omega))
    have h60n : Mkfs.load32 (Mkfs.store s.disk (Mkfs.ioff s.freeinode) 64
        (Mkfs.freshRecord type)) (Mkfs.ioff s.freeinode + 60) = 0 :=
      Mkfs.load32_of_zero (fun k hk => by
        rw [Mkfs.store_in (by omega) (by omega)]
        exact Mkfs.freshRecord_high type (by omega))
    unfold Mkfs.slotVal
    by_cases hj12 : j ≤ 12
    · rw [if_pos hj12, if_pos hj12]
      rw [Mkfs.load32_of_zero (fun k hk => by
        rw [Mkfs.store_in (by omega) (by omega)]
        exact Mkfs.freshRecord_high type (by omega))]
      rw [Mkfs.load32_of_zero (fun k hk => by
        rw [Nat.add_assoc, Nat.add_assoc]
        exact hz _ (by omega))]
    · rw [if_neg hj12, if_neg hj12, h60, h60n]
      rfl
  · have hlo := fun h0 => (h.indirect_lo hi h0).1
    unfold Mkfs.slotVal
    have h60 : Mkfs.load32 (Mkfs.store s.disk (Mkfs.ioff s.freeinode) 64
        (Mkfs.freshRecord type)) (Mkfs.ioff i + 60) = Mkfs.load32 s.disk (Mkfs.ioff i + 60) :=
      Mkfs.load32_store_out (by rw [hio, hio]; omega)
    by_cases hj12 : j ≤ 12
    · rw [if_pos hj12, if_pos hj12, Mkfs.load32_store_out (by rw [hio, hio]; omega)]
    · rw [if_neg hj12, if_neg hj12, h60]
      by_cases h0 : Mkfs.load32 s.disk (Mkfs.ioff i + 60) ≠ 0
      · rw [if_pos h0, if_pos h0]
        have := hlo h0
        have := hio s.freeinode
        rw [Mkfs.load32_store_out (by omega)]
      · rw [if_neg h0, if_neg h0]

/-- The invariant after `ialloc`. -/
theorem Mkfs.Inv.ialloc {s : Mkfs.State} (h : Mkfs.Inv s) (hfi : s.freeinode < 208)
    (hfi1 : 1 ≤ s.freeinode) (type : Nat) :
    Mkfs.Inv { s with disk := Mkfs.store s.disk (Mkfs.ioff s.freeinode) 64 (Mkfs.freshRecord type),
                      freeinode := s.freeinode + 1 } where
  sized := h.sized
  sb := by
    intro j hj
    have hio : ∀ i, Mkfs.ioff i = 16384 + 64 * i := fun _ => rfl
    have := hio s.freeinode
    show Mkfs.store s.disk _ 64 _ (512 + j) = _
    rw [Mkfs.store_out (by omega)]
    exact h.sb j hj
  fi_hi := by show s.freeinode + 1 ≤ 208; omega
  fb_lo := h.fb_lo
  fb_hi := h.fb_hi
  zero_blocks := by
    intro a ha1 ha2
    have hio : ∀ i, Mkfs.ioff i = 16384 + 64 * i := fun _ => rfl
    have := hio s.freeinode
    have := h.fb_lo
    have ha3 : s.freeblock * 512 ≤ a := ha1
    show Mkfs.store s.disk _ 64 _ a = _
    rw [Mkfs.store_out (by omega)]
    exact h.zero_blocks a ha1 ha2
  zero_inodes := by
    intro i hi0 hi j hj
    have hio : ∀ i, Mkfs.ioff i = 16384 + 64 * i := fun _ => rfl
    have := hio s.freeinode
    have := hio i
    have hi1 : i = 0 ∨ s.freeinode + 1 ≤ i := hi0
    show Mkfs.store s.disk _ 64 _ (Mkfs.ioff i + j) = _
    rw [Mkfs.store_out (by omega)]
    exact h.zero_inodes i (by omega) hi j hj
  val_range := by
    intro i j hi hj hne
    have e := Mkfs.slotVal_ialloc h hfi type hi hj
    show 59 ≤ Mkfs.slotVal (Mkfs.store s.disk _ 64 _) i j ∧
      Mkfs.slotVal (Mkfs.store s.disk _ 64 _) i j < s.freeblock
    have hne2 : Mkfs.slotVal (Mkfs.store s.disk _ 64 _) i j ≠ 0 := hne
    rw [e] at hne2 ⊢
    exact h.val_range i j hi hj hne2
  val_inj := by
    intro i j i1 j1 hi hj hi1 hj1 hne heq
    have hne2 : Mkfs.slotVal (Mkfs.store s.disk _ 64 _) i j ≠ 0 := hne
    have heq2 : Mkfs.slotVal (Mkfs.store s.disk _ 64 _) i j =
      Mkfs.slotVal (Mkfs.store s.disk _ 64 _) i1 j1 := heq
    rw [Mkfs.slotVal_ialloc h hfi type hi hj] at hne2 heq2
    rw [Mkfs.slotVal_ialloc h hfi type hi1 hj1] at heq2
    exact h.val_inj i j i1 j1 hi hj hi1 hj1 hne2 heq2
  val_cover := by
    intro b hb1 hb2
    obtain ⟨i, j, hi, hj, hv⟩ := h.val_cover b hb1 hb2
    refine ⟨i, j, hi, hj, ?_⟩
    show Mkfs.slotVal (Mkfs.store s.disk _ 64 _) i j = b
    rw [Mkfs.slotVal_ialloc h hfi type hi hj]
    exact hv

theorem Mkfs.entryAt_append (ents : List (Nat × List Nat)) (e : Nat × List Nat) (q k : Nat) :
    Mkfs.entryAt (ents ++ [e]) q k =
      if q = ents.length then Mkfs.dirent e.1 e.2 k else Mkfs.entryAt ents q k := by
  unfold Mkfs.entryAt
  by_cases h1 : q < ents.length
  · rw [if_neg (by omega), List.getElem?_append_left h1]
  · by_cases h2 : q = ents.length
    · rw [if_pos h2, h2, List.getElem?_append_right (le_refl _), Nat.sub_self]
      rfl
    · rw [if_neg h2, List.getElem?_eq_none (by simp; omega), List.getElem?_eq_none (by omega)]

/-- A write into a block that `c` holds at a position other than the indirect slot changes
no slot. -/
theorem Mkfs.slotVal_block {s : Mkfs.State} (h : Mkfs.Inv s) {c j0 o n x : Nat} (p : Nat → Nat)
    (hc : c < 208) (hj0 : j0 < 141) (hj12 : j0 ≠ 12) (hx : Mkfs.slotVal s.disk c j0 = x)
    (hx0 : x ≠ 0) (ho : o + n ≤ 512) {i j : Nat} (hi : i < 208) (hj : j < 141) :
    Mkfs.slotVal (Mkfs.store s.disk (x * 512 + o) n p) i j = Mkfs.slotVal s.disk i j := by
  subst hx
  have hr := h.val_range c j0 hc hj0 hx0
  refine Mkfs.slotVal_data p (by omega) ?_ hi hj
  intro i hi h0
  have hs12 := Mkfs.slotVal_twelve s.disk i
  have hne : Mkfs.load32 s.disk (Mkfs.ioff i + 60) ≠ Mkfs.slotVal s.disk c j0 := by
    intro heq
    have := h.val_inj i 12 c j0 hi (by decide) hc hj0 (by rw [hs12]; exact h0)
      (by rw [hs12]; exact heq)
    exact hj12 this.2.symm
  omega

/-- The root directory after a change that leaves its slots and its blocks alone. -/
theorem Mkfs.Dir.congr {d d1 : Nat → Nat} {ents : List (Nat × List Nat)} (h : Mkfs.Dir d ents)
    (hslot : ∀ j, j < 141 → Mkfs.slotVal d1 1 j = Mkfs.slotVal d 1 j)
    (hblock : ∀ j, j < 12 → Mkfs.slotVal d 1 j ≠ 0 → ∀ k, k < 512 →
      d1 (Mkfs.slotVal d 1 j * 512 + k) = d (Mkfs.slotVal d 1 j * 512 + k)) :
    Mkfs.Dir d1 ents where
  slots := by
    intro j hj
    rw [hslot j hj]
    exact h.slots j hj
  entries := by
    intro j t k hj ht hk hne
    rw [hslot j (by omega)] at hne ⊢
    rw [Nat.add_assoc, hblock j hj hne _ (by omega), ← Nat.add_assoc]
    exact h.entries j t k hj ht hk hne

/-- The root directory after a change made on behalf of another inode. -/
theorem Mkfs.Dir.keep {d d1 : Nat → Nat} {ents : List (Nat × List Nat)} (h : Mkfs.Dir d ents)
    {c : Nat} (hk : Mkfs.Keeps c d d1) (hc : c ≠ 1) : Mkfs.Dir d1 ents :=
  h.congr (fun j hj => hk.slot (by decide) (Ne.symm hc) hj)
    (fun j hj hne k hk1 => hk.blocks 1 j (by decide) (Ne.symm hc) (by omega) hne k hk1)

/-- An entry appended to the root directory. -/
theorem Mkfs.dir_append {s s1 : Mkfs.State} {ents : List (Nat × List Nat)} {inum : Nat}
    {name : List Nat} (h : Mkfs.Inv s) (hroot : 1 < s.freeinode)
    (hsz : Mkfs.load32 s.disk (Mkfs.ioff 1 + 8) = 16 * ents.length) (hlen : ents.length < 384)
    (hD : Mkfs.Dir s.disk ents)
    (happ : Mkfs.iappend 1 (Mkfs.dirent inum name) 16 s = some s1) :
    Mkfs.Step 1 s s1 ∧ Mkfs.load32 s1.disk (Mkfs.ioff 1 + 8) = 16 * (ents.length + 1) ∧
      Mkfs.Dir s1.disk (ents ++ [(inum, name)]) := by
  have hs := h.sized
  have hlo := h.fb_lo
  have hhi := h.fb_hi
  have hio : Mkfs.ioff 1 = 16448 := rfl
  have hfit : 16 ≤ 512 - (16 * ents.length) % 512 := by omega
  obtain ⟨hstep, hsize⟩ := Mkfs.iappend_step h (le_refl 1) hroot (by decide)
    (by rw [hsz]; exact hfit) happ
  refine ⟨hstep, by rw [hsize, hsz]; omega, ?_⟩
  obtain ⟨fbn, hfbn⟩ : ∃ fbn, 16 * ents.length / 512 = fbn := ⟨_, rfl⟩
  obtain ⟨o, ho⟩ : ∃ o, 16 * ents.length % 512 = o := ⟨_, rfl⟩
  have hdir : fbn < 12 := by omega
  have hsv := Mkfs.slotVal_low s.disk 1 (show fbn ≤ 12 by omega)
  have hsl := hD.slots fbn (by omega)
  have hlast : (ents ++ [(inum, name)]).length = ents.length + 1 := by simp
  have h1 : (1 : Nat) < 208 := by decide
  by_cases hslot : Mkfs.load32 s.disk (Mkfs.ioff 1 + 12 + 4 * fbn) = 0
  · -- the entry opens a new block
    have hal : ents.length = 32 * fbn := by
      have : ¬ fbn * 512 < 16 * ents.length := by
        rw [← hsl, hsv]
        exact fun hne => hne hslot
      omega
    have ho0 : o = 0 := by omega
    obtain ⟨hlt, hS⟩ := Mkfs.iappend_fresh_direct hs h1 hsz (by rw [hfbn]; exact hdir)
      (by rw [hfbn]; exact hslot) hlo hhi (by decide) hfit happ
    rw [hfbn, ho, ho0] at hS
    obtain ⟨st1, hv1⟩ := Mkfs.step_direct h (le_refl 1) hroot hdir hslot hlt
    have st2 := Mkfs.step_block_at st1.inv (Mkfs.dirent inum name) h1
      (show fbn < 141 by omega) (by omega) hv1 (by omega) (show 0 + 16 ≤ 512 by decide)
    have hval : ∀ j, j < 141 → Mkfs.slotVal s1.disk 1 j =
        if j = fbn then s.freeblock else Mkfs.slotVal s.disk 1 j := by
      intro j hj
      rw [hS]
      show Mkfs.slotVal (Mkfs.store (Mkfs.store (Mkfs.store s.disk _ 4 _) _ 16 _)
        (Mkfs.ioff 1 + 8) 4 _) 1 j = _
      rw [Mkfs.slotVal_field st2.inv _ h1 (show 8 + 4 ≤ 12 by decide) h1 hj]
      show Mkfs.slotVal (Mkfs.store (Mkfs.store s.disk _ 4 _) (s.freeblock * 512 + 0) 16 _)
        1 j = _
      rw [Mkfs.slotVal_block st1.inv _ h1 (show fbn < 141 by omega) (by omega) hv1 (by omega)
        (show 0 + 16 ≤ 512 by decide) h1 hj]
      show Mkfs.slotVal (Mkfs.store s.disk _ 4 _) 1 j = _
      rw [Mkfs.slotVal_direct h h1 hdir (by omega) h1 hj]
      by_cases hjf : j = fbn
      · rw [if_pos ⟨rfl, hjf⟩, if_pos hjf]
      · rw [if_neg (by omega), if_neg hjf]
    constructor
    · intro j hj
      rw [hval j hj, hlast]
      by_cases hjf : j = fbn
      · rw [if_pos hjf]
        constructor
        · intro _
          omega
        · intro _
          omega
      · rw [if_neg hjf, hD.slots j hj]
        omega
    · intro j t k hj ht hk hne
      rw [hval j (by omega)] at hne ⊢
      rw [Mkfs.entryAt_append]
      by_cases hjf : j = fbn
      · rw [if_pos hjf]
        rw [hS]
        show Mkfs.store (Mkfs.store (Mkfs.store s.disk _ 4 _) (s.freeblock * 512 + 0) 16 _)
          (Mkfs.ioff 1 + 8) 4 _ (s.freeblock * 512 + 16 * t + k) = _
        rw [Mkfs.store_out (by omega)]
        by_cases ht0 : t = 0
        · rw [if_pos (by omega), Mkfs.store_in (by omega) (by omega)]
          congr 1
          omega
        · rw [if_neg (by omega), Mkfs.store_out (by omega), Mkfs.store_out (by omega),
            h.zero_blocks _ (by omega) (by omega)]
          unfold Mkfs.entryAt
          rw [List.getElem?_eq_none (by omega)]
      · rw [if_neg hjf] at hne ⊢
        have hr := h.val_range 1 j h1 (by omega) hne
        rw [hS]
        show Mkfs.store (Mkfs.store (Mkfs.store s.disk _ 4 _) (s.freeblock * 512 + 0) 16 _)
          (Mkfs.ioff 1 + 8) 4 _ (Mkfs.slotVal s.disk 1 j * 512 + 16 * t + k) = _
        rw [Mkfs.store_out (by omega), Mkfs.store_out (by omega), Mkfs.store_out (by omega),
          if_neg (by omega)]
        exact hD.entries j t k hj ht hk hne
  · -- the entry goes into the last block
    have hin : fbn * 512 < 16 * ents.length := by
      rw [← hsl, hsv]
      exact hslot
    have hr0 := h.val_range 1 fbn h1 (by omega) (by rw [hsv]; exact hslot)
    rw [hsv] at hr0
    have hS := Mkfs.iappend_old_direct hs h1 hsz (by rw [hfbn]; exact hdir)
      (by rw [hfbn]; exact hslot) (by rw [hfbn]; omega) (by rw [hfbn]; exact hr0.1)
      (by decide) hfit happ
    rw [hfbn, ho] at hS
    have st1 := Mkfs.step_block_at h (Mkfs.dirent inum name) h1
      (show fbn < 141 by omega) (by omega) hsv hslot (show o + 16 ≤ 512 by omega)
    have hval : ∀ j, j < 141 → Mkfs.slotVal s1.disk 1 j = Mkfs.slotVal s.disk 1 j := by
      intro j hj
      rw [hS]
      show Mkfs.slotVal (Mkfs.store (Mkfs.store s.disk _ 16 _) (Mkfs.ioff 1 + 8) 4 _) 1 j = _
      rw [Mkfs.slotVal_field st1.inv _ h1 (show 8 + 4 ≤ 12 by decide) h1 hj]
      show Mkfs.slotVal (Mkfs.store s.disk _ 16 _) 1 j = _
      rw [Mkfs.slotVal_block h _ h1 (show fbn < 141 by omega) (by omega) hsv hslot
        (show o + 16 ≤ 512 by omega) h1 hj]
    constructor
    · intro j hj
      rw [hval j hj, hlast, hD.slots j hj]
      omega
    · intro j t k hj ht hk hne
      rw [hval j (by omega)] at hne ⊢
      rw [Mkfs.entryAt_append]
      have hr := h.val_range 1 j h1 (by omega) hne
      rw [hS]
      show Mkfs.store (Mkfs.store s.disk _ 16 _) (Mkfs.ioff 1 + 8) 4 _
        (Mkfs.slotVal s.disk 1 j * 512 + 16 * t + k) = _
      rw [Mkfs.store_out (by omega)]
      by_cases hq : 32 * j + t = ents.length
      · have hjf : j = fbn := by omega
        subst hjf
        rw [if_pos hq, hsv, Mkfs.store_in (by omega) (by omega)]
        congr 1
        omega
      · rw [if_neg hq]
        have hout : Mkfs.slotVal s.disk 1 j * 512 + 16 * t + k <
              Mkfs.load32 s.disk (Mkfs.ioff 1 + 12 + 4 * fbn) * 512 + o ∨
            Mkfs.load32 s.disk (Mkfs.ioff 1 + 12 + 4 * fbn) * 512 + o + 16 ≤
              Mkfs.slotVal s.disk 1 j * 512 + 16 * t + k := by
          by_cases hjf : j = fbn
          · subst hjf
            rw [hsv]
            omega
          · have hne2 : Mkfs.slotVal s.disk 1 j ≠
                Mkfs.load32 s.disk (Mkfs.ioff 1 + 12 + 4 * fbn) := by
              intro heq
              rw [← hsv] at heq
              exact hjf (h.val_inj 1 j 1 fbn h1 (by omega) h1 (by omega) hne heq).2
            omega
        rw [Mkfs.store_out hout]
        exact hD.entries j t k hj ht hk hne

theorem Mkfs.rd16_congr {d d1 : Nat → Nat} {a : Nat} (h0 : d1 a = d a)
    (h1 : d1 (a + 1) = d (a + 1)) : Mkfs.rd16 d1 a = Mkfs.rd16 d a := by
  unfold Mkfs.rd16
  rw [h0, h1]

theorem Mkfs.step_refl (c : Nat) {s : Mkfs.State} (h : Mkfs.Inv s) : Mkfs.Step c s s :=
  ⟨h, Mkfs.keeps_refl c s.disk, rfl, le_refl _⟩

/-- A write into the fields of the record of `c` that precede the slots keeps the
invariant. -/
theorem Mkfs.inv_field {s : Mkfs.State} (h : Mkfs.Inv s) {c o n : Nat} (src : Nat → Nat)
    (hc1 : 1 ≤ c) (hc2 : c < s.freeinode) (ho : o + n ≤ 12) :
    Mkfs.Inv { s with disk := Mkfs.store s.disk (Mkfs.ioff c + o) n src } := by
  have hfi := h.fi_hi
  have hc : c < 208 := by omega
  have hio : ∀ i, Mkfs.ioff i = 16384 + 64 * i := fun _ => rfl
  refine h.update (fun i j hi hj => Mkfs.slotVal_field h src hc ho hi hj) ?_ ?_ ?_
  · intro j hj
    rw [Mkfs.store_out (by rw [hio]; omega)]
    exact h.sb j hj
  · intro a ha1 ha2
    have := h.fb_lo
    rw [Mkfs.store_out (by rw [hio]; omega)]
    exact h.zero_blocks a ha1 ha2
  · intro i hi0 hi j hj
    rw [Mkfs.store_out (by rw [hio, hio]; omega)]
    exact h.zero_inodes i hi0 hi j hj

theorem Mkfs.setNlink_eq {s : Mkfs.State} (hs : Mkfs.Sized s) {i : Nat} (hi : i < 208)
    (v : Nat) :
    Mkfs.setNlink i v s =
      some { s with disk := Mkfs.store s.disk (Mkfs.ioff i + 6) 2 (Mkfs.xshort v) } := by
  unfold Mkfs.setNlink
  rw [Mkfs.rinode_eq hs (by omega)]
  simp only []
  rw [Mkfs.winode_eq hs (by omega)]
  unfold Mkfs.State.put
  rw [Mkfs.put_record1 _ (fun k hk => rfl) (by decide)]

/-- The copy of the content of an input file into inode `c`. -/
theorem Mkfs.copyFile_step {c : Nat} (hc1 : 1 ≤ c) :
    ∀ (fuel : Nat) (rest : List Nat) (s s1 : Mkfs.State), Mkfs.Inv s → c < s.freeinode →
      (rest ≠ [] → Mkfs.load32 s.disk (Mkfs.ioff c + 8) % 512 = 0) →
      Mkfs.copyFile c fuel rest s = some s1 → Mkfs.Step c s s1 := by
  intro fuel
  induction fuel with
  | zero =>
    intro rest s s1 h hc2 hal hcp
    rw [Mkfs.copyFile] at hcp
    cases hcp
    exact Mkfs.step_refl c h
  | succ m ih =>
    intro rest s s1 h hc2 hal hcp
    rw [Mkfs.copyFile] at hcp
    by_cases hr : rest = []
    · rw [if_pos hr] at hcp
      cases hcp
      exact Mkfs.step_refl c h
    · rw [if_neg hr] at hcp
      have hB : BSIZE = 512 := rfl
      have hlen : 0 < rest.length := List.length_pos.mpr hr
      cases hA : Mkfs.iappend c (fun k => rest.getD k 0 % 256) (min BSIZE rest.length) s with
      | none =>
        rw [hA] at hcp
        cases hcp
      | some s2 =>
        rw [hA] at hcp
        simp only [] at hcp
        have hz := hal hr
        obtain ⟨st, hsz⟩ := Mkfs.iappend_step h hc1 hc2 (by omega) (by omega) hA
        refine Mkfs.step_trans st (ih (rest.drop BSIZE) s2 s1 st.inv ?_ ?_ hcp)
        · rw [st.freeinode]
          exact hc2
        · intro hd
          have : 512 < rest.length := by
            by_contra hle
            exact hd (List.drop_eq_nil_of_le (by omega))
          rw [hsz]
          omega

theorem Mkfs.freshRecord_type (type : Nat) (ht : type < 256) :
    Xcheck.xshort (Mkfs.freshRecord type 0 % 256) (Mkfs.freshRecord type 1 % 256) = type := by
  have h0 : Mkfs.freshRecord type 0 = type % 256 := rfl
  have h1 : Mkfs.freshRecord type 1 = (type >>> 8) % 256 := rfl
  rw [h0, h1, Nat.shiftRight_eq_div_pow]
  have e : type / 2 ^ 8 = 0 := by
    have : (2:Nat) ^ 8 = 256 := by norm_num
    rw [this]
    omega
  rw [e, Nat.mod_mod, Nat.mod_eq_of_lt ht]
  show type ||| 0 <<< 8 = type
  simp

theorem Mkfs.freshRecord_nlink (type : Nat) :
    Xcheck.xshort (Mkfs.freshRecord type 6 % 256) (Mkfs.freshRecord type 7 % 256) = 1 := by
  rw [show Mkfs.freshRecord type 6 = 1 from rfl, show Mkfs.freshRecord type 7 = 0 from rfl]
  decide

theorem Mkfs.freshRecord_six (type : Nat) {k : Nat} (hk : k < 2) :
    Mkfs.freshRecord type (6 + k) = Mkfs.xshort 1 k := by
  interval_cases k <;> rfl

theorem Mkfs.rd16_of {d : Nat → Nat} {a v0 v1 : Nat} (h0 : d a = v0) (h1 : d (a + 1) = v1) :
    Mkfs.rd16 d a = Xcheck.xshort (v0 % 256) (v1 % 256) := by
  unfold Mkfs.rd16
  rw [h0, h1]

/-- One input file added: its inode, its entry in the root directory, its content. -/
theorem Mkfs.addFile_good {s s1 : Mkfs.State} {ents : List (Nat × List Nat)}
    {file : List Nat × List Nat} (hG : Mkfs.Good s ents) (hfi : s.freeinode < 208)
    (hname : Mkfs.plainName (Mkfs.nameOf file.1))
    (hadd : Mkfs.addFile 0 1 file s = some s1) :
    Mkfs.Good s1 (ents ++ [(s.freeinode, Mkfs.nameOf file.1)]) := by
  have hL := hG.laid
  have h := hL.inv
  have hs := h.sized
  have hio : ∀ i, Mkfs.ioff i = 16384 + 64 * i := fun _ => rfl
  have hlen := hL.fi
  have h2 : 2 ≤ ents.length := by
    by_contra hlt
    have := hL.dotdot
    rw [List.getElem?_eq_none (by omega)] at this
    cases this
  have hfi1 : 1 < s.freeinode := by omega
  obtain ⟨c, hcdef⟩ : ∃ c, s.freeinode = c := ⟨_, rfl⟩
  have hc : c < 208 := by omega
  -- the state after `ialloc`
  obtain ⟨sa, hsa⟩ : ∃ sa : Mkfs.State, sa =
      { s with disk := Mkfs.store s.disk (Mkfs.ioff s.freeinode) 64 (Mkfs.freshRecord T_FILE),
               freeinode := s.freeinode + 1 } := ⟨_, rfl⟩
  have hIa : Mkfs.Inv sa := by
    rw [hsa]
    exact h.ialloc hfi (by omega) T_FILE
  have hsa_fi : sa.freeinode = c + 1 := by rw [hsa, ← hcdef]
  have hsa_out : ∀ a, (a < Mkfs.ioff c ∨ Mkfs.ioff c + 64 ≤ a) → sa.disk a = s.disk a := by
    intro a ha
    rw [hsa, hcdef]
    exact Mkfs.store_out ha
  have hsa_in : ∀ k, k < 64 → sa.disk (Mkfs.ioff c + k) = Mkfs.freshRecord T_FILE k := by
    intro k hk
    rw [hsa, hcdef]
    show Mkfs.store s.disk (Mkfs.ioff c) 64 _ (Mkfs.ioff c + k) = _
    rw [Mkfs.store_in (by omega) (by omega), Nat.add_sub_cancel_left]
  have hDa : Mkfs.Dir sa.disk ents := by
    refine hL.dir.congr ?_ ?_
    · intro j hj
      rw [hsa]
      exact Mkfs.slotVal_ialloc h hfi T_FILE (by decide) hj
    · intro j hj hne k hk
      have := (h.val_range 1 j (by decide) (by omega) hne).1
      have := hio c
      exact hsa_out _ (by omega)
  have hsza : Mkfs.load32 sa.disk (Mkfs.ioff 1 + 8) = 16 * ents.length := by
    rw [← hG.size]
    have := hio 1
    have := hio c
    exact Mkfs.load32_congr (fun k hk => hsa_out _ (by omega))
  unfold Mkfs.addFile at hadd
  rw [Mkfs.ialloc_eq hs hfi] at hadd
  simp only [] at hadd
  rw [← hsa, if_pos (by decide)] at hadd
  have hnm : (if file.1.head? = some 95 then file.1.tail else file.1) = Mkfs.nameOf file.1 := rfl
  rw [hnm, hcdef] at hadd
  cases hA : Mkfs.iappend 1 (Mkfs.dirent c (Mkfs.nameOf file.1)) DIRENT_SIZE sa with
  | none =>
    rw [hA] at hadd
    cases hadd
  | some sb =>
    rw [hA] at hadd
    simp only [] at hadd
    obtain ⟨stb, hszb, hDb⟩ := Mkfs.dir_append hIa (by omega) hsza (by omega) hDa hA
    have hsb := stb.inv.sized
    have hc1 : (c : Nat) ≠ 1 := by omega
    rw [Mkfs.rinode_eq hsb (by omega)] at hadd
    simp only [] at hadd
    rw [if_neg (by decide), Mkfs.winode_eq hsb (by omega)] at hadd
    have hrec : ∀ k, k < 64 → sb.disk (Mkfs.ioff c + k) = Mkfs.freshRecord T_FILE k := by
      intro k hk
      rw [stb.keeps.recs c hc hc1 k hk]
      exact hsa_in k hk
    have hput : sb.put (Mkfs.ioff c) 64
        (Mkfs.store (fun k => sb.disk (Mkfs.ioff c + k)) 6 2 (Mkfs.xshort 1)) = sb := by
      unfold Mkfs.State.put
      rw [Mkfs.put_record1 _ (fun k hk => rfl) (by decide),
        Mkfs.store_self (fun k hk => by
          rw [Nat.add_assoc, hrec _ (by omega)]
          exact (Mkfs.freshRecord_six T_FILE hk).symm)]
    rw [hput] at hadd
    simp only [] at hadd
    cases hC : Mkfs.copyFile c file.2.length file.2 sb with
    | none =>
      rw [hC] at hadd
      cases hadd
    | some sc =>
      rw [hC] at hadd
      simp only [] at hadd
      rw [if_neg (by decide)] at hadd
      simp only [] at hadd
      rw [if_neg (by decide)] at hadd
      simp only [] at hadd
      rw [if_neg (by decide)] at hadd
      simp only [Option.some.injEq] at hadd
      subst hadd
      have hcb : c < sb.freeinode := by
        rw [stb.freeinode, hsa_fi]
        omega
      have stc := Mkfs.copyFile_step (show 1 ≤ c by omega) file.2.length file.2 sb sc stb.inv
        hcb (fun _ => by
          rw [Mkfs.load32_of_zero (fun k hk => by
            rw [Nat.add_assoc, hrec _ (by omega)]
            exact Mkfs.freshRecord_high T_FILE (by omega))]) hC
      have hto : ∀ i, i < 208 → i ≠ c → ∀ k, k < 64 →
          sc.disk (Mkfs.ioff i + k) = sb.disk (Mkfs.ioff i + k) :=
        fun i hi hic k hk => stc.keeps.recs i hi hic k hk
      have hfrom : ∀ i, i < 208 → i ≠ 1 → i ≠ c → ∀ k, k < 64 →
          sc.disk (Mkfs.ioff i + k) = s.disk (Mkfs.ioff i + k) := by
        intro i hi hi1 hic k hk
        rw [hto i hi hic k hk, stb.keeps.recs i hi hi1 k hk]
        have := hio i
        have := hio c
        exact hsa_out _ (by omega)
      rw [hcdef]
      refine ⟨⟨stc.inv, ?_, ?_, ?_, ?_, ?_, ?_, ?_⟩, ?_⟩
      · rw [stc.freeinode, stb.freeinode, hsa_fi, List.length_append, ← hlen, hcdef]
        rfl
      · refine Eq.trans ?_ hL.root_type
        have e0 := hto 1 (by decide) (Ne.symm hc1) 0 (by decide)
        have e1 := hto 1 (by decide) (Ne.symm hc1) 1 (by decide)
        have f0 := stb.keeps.own 0 (by decide)
        have f1 := stb.keeps.own 1 (by decide)
        have := hio 1
        have := hio c
        refine Mkfs.rd16_congr ?_ ?_
        · exact (e0.trans f0).trans (hsa_out _ (by omega))
        · exact (e1.trans f1).trans (hsa_out _ (by omega))
      · intro i hi2 hi
        rw [stc.freeinode, stb.freeinode, hsa_fi] at hi
        by_cases hic : i = c
        · subst hic
          have t0 : sc.disk (Mkfs.ioff i) = Mkfs.freshRecord T_FILE 0 :=
            (stc.keeps.own 0 (by decide)).trans (hrec 0 (by decide))
          have t1 : sc.disk (Mkfs.ioff i + 1) = Mkfs.freshRecord T_FILE 1 :=
            (stc.keeps.own 1 (by decide)).trans (hrec 1 (by decide))
          have t6 : sc.disk (Mkfs.ioff i + 6) = Mkfs.freshRecord T_FILE 6 :=
            (stc.keeps.own 6 (by decide)).trans (hrec 6 (by decide))
          have t7 : sc.disk (Mkfs.ioff i + 6 + 1) = Mkfs.freshRecord T_FILE 7 :=
            (stc.keeps.own 7 (by decide)).trans (hrec 7 (by decide))
          constructor
          · rw [Mkfs.rd16_of t0 t1]
            exact Mkfs.freshRecord_type T_FILE (by decide)
          · rw [Mkfs.rd16_of t6 t7]
            exact Mkfs.freshRecord_nlink T_FILE
        · obtain ⟨g1, g2⟩ := hL.files i hi2 (by omega)
          rw [← g1, ← g2]
          constructor
          · exact Mkfs.rd16_congr (hfrom i (by omega) (by omega) hic 0 (by decide))
              (hfrom i (by omega) (by omega) hic 1 (by decide))
          · exact Mkfs.rd16_congr (hfrom i (by omega) (by omega) hic 6 (by decide))
              (hfrom i (by omega) (by omega) hic 7 (by decide))
      · exact hDb.keep stc.keeps hc1
      · rw [List.getElem?_append_left (by omega)]
        exact hL.dot
      · rw [List.getElem?_append_left (by omega)]
        exact hL.dotdot
      · intro q e hq he
        by_cases hql : q < ents.length
        · rw [List.getElem?_append_left hql] at he
          exact hL.rest q e hq he
        · have hqe : q = ents.length := by
            by_contra hne
            rw [List.getElem?_eq_none (by simp; omega)] at he
            cases he
          rw [hqe, List.getElem?_append_right (le_refl _), Nat.sub_self] at he
          simp only [List.getElem?_cons_zero, Option.some.injEq] at he
          subst he
          exact ⟨by rw [hqe, ← hlen, hcdef], hname⟩
      · rw [List.length_append, List.length_singleton, ← hszb]
        exact Mkfs.load32_congr (fun k hk => by
          rw [Nat.add_assoc]
          exact hto 1 (by decide) (Ne.symm hc1) _ (by omega))

/-- All the input files added. -/
theorem Mkfs.addFiles_good :
    ∀ (files : List (List Nat × List Nat)) (s s1 : Mkfs.State) (ents : List (Nat × List Nat)),
      Mkfs.Good s ents → ents.length + files.length ≤ 208 →
      (∀ f ∈ files, Mkfs.plainName (Mkfs.nameOf f.1)) →
      Mkfs.addFiles 0 1 files s = some s1 →
      ∃ ents1, Mkfs.Good s1 ents1 ∧ ents1.length = ents.length + files.length := by
  intro files
  induction files with
  | nil =>
    intro s s1 ents hG _ _ h
    rw [Mkfs.addFiles] at h
    cases h
    exact ⟨ents, hG, rfl⟩
  | cons f rest ih =>
    intro s s1 ents hG hlen hnames h
    rw [Mkfs.addFiles] at h
    have hl : (f :: rest).length = rest.length + 1 := rfl
    cases hA : Mkfs.addFile 0 1 f s with
    | none =>
      rw [hA] at h
      cases h
    | some s2 =>
      rw [hA] at h
      simp only [] at h
      have hG2 := Mkfs.addFile_good hG (by rw [hG.laid.fi]; omega)
        (hnames f (List.mem_cons_self _ _)) hA
      obtain ⟨ents1, hG1, hlen1⟩ := ih s2 s1 _ hG2
        (by rw [List.length_append, List.length_singleton]; omega)
        (fun g hg => hnames g (List.mem_cons_of_mem _ hg)) h
      refine ⟨ents1, hG1, ?_⟩
      rw [hlen1, List.length_append, List.length_singleton]
      omega

theorem Mkfs.slotVal_zero_record {d : Nat → Nat} {i : Nat}
    (hz : ∀ k, k < 64 → d (Mkfs.ioff i + k) = 0) (j : Nat) (hj : j < 141) :
    Mkfs.slotVal d i j = 0 := by
  unfold Mkfs.slotVal
  by_cases hj12 : j ≤ 12
  · rw [if_pos hj12]
    exact Mkfs.load32_of_zero (fun k hk => by
      rw [Nat.add_assoc, Nat.add_assoc]
      exact hz _ (by omega))
  · rw [if_neg hj12, if_neg]
    intro hne
    exact hne (Mkfs.load32_of_zero (fun k hk => by
      rw [Nat.add_assoc]
      exact hz _ (by omega)))

theorem Mkfs.formatted_zero {a : Nat} (ha : 1024 ≤ a) : Mkfs.formatted.disk a = 0 := by
  show Mkfs.store (fun _ => 0) 512 512 Mkfs.sbBuf a = 0
  rw [Mkfs.store_out (by omega)]

/-- The formatted file satisfies the invariant. -/
theorem Mkfs.inv_formatted : Mkfs.Inv Mkfs.formatted := by
  have hio : ∀ i, Mkfs.ioff i = 16384 + 64 * i := fun _ => rfl
  have hz : ∀ i j, i < 208 → j < 141 → Mkfs.slotVal Mkfs.formatted.disk i j = 0 :=
    fun i j hi hj => Mkfs.slotVal_zero_record
      (fun k hk => Mkfs.formatted_zero (by rw [hio]; omega)) j hj
  refine ⟨rfl, ?_, by decide, by decide, by decide, ?_, ?_, ?_, ?_, ?_⟩
  · intro j hj
    show Mkfs.store (fun _ => 0) 512 512 Mkfs.sbBuf (512 + j) = _
    rw [Mkfs.store_in (by omega) (by omega), Nat.add_sub_cancel_left]
  · intro a ha _
    have : Mkfs.formatted.freeblock = 59 := rfl
    rw [this] at ha
    exact Mkfs.formatted_zero (by omega)
  · intro i _ hi j hj
    exact Mkfs.formatted_zero (by rw [hio]; omega)
  · intro i j hi hj hne
    exact absurd (hz i j hi hj) hne
  · intro i j i1 j1 hi hj _ _ hne
    exact absurd (hz i j hi hj) hne
  · intro b hb1 hb2
    have : Mkfs.formatted.freeblock = 59 := rfl
    omega

theorem Mkfs.freshRecord_low (type : Nat) :
    Mkfs.freshRecord type 0 = type % 256 ∧ Mkfs.freshRecord type 1 = (type >>> 8) % 256 :=
  ⟨rfl, rfl⟩

/-- The state after `makeRoot`. -/
theorem Mkfs.makeRoot_good {r : Nat} {s : Mkfs.State}
    (h : Mkfs.makeRoot 0 Mkfs.formatted = some (r, s)) :
    r = 1 ∧ Mkfs.Good s Mkfs.dotEntries := by
  have hio : ∀ i, Mkfs.ioff i = 16384 + 64 * i := fun _ => rfl
  have h0 := Mkfs.inv_formatted
  have hfi0 : Mkfs.formatted.freeinode = 1 := rfl
  have h1 : (1 : Nat) < 208 := by decide
  obtain ⟨sa, hsa⟩ : ∃ sa : Mkfs.State, sa =
      { disk := Mkfs.store Mkfs.formatted.disk (Mkfs.ioff Mkfs.formatted.freeinode) 64
          (Mkfs.freshRecord T_DIR),
        fsize := Mkfs.formatted.fsize,
        freeinode := Mkfs.formatted.freeinode + 1,
        freeblock := Mkfs.formatted.freeblock } := ⟨_, rfl⟩
  have hIa : Mkfs.Inv sa := by
    rw [hsa]
    exact h0.ialloc (by decide) (by decide) T_DIR
  have hsa_fi : sa.freeinode = 2 := by
    rw [hsa]
    rfl
  have hsa_in : ∀ k, k < 64 → sa.disk (Mkfs.ioff 1 + k) = Mkfs.freshRecord T_DIR k := by
    intro k hk
    rw [hsa]
    show Mkfs.store Mkfs.formatted.disk (Mkfs.ioff 1) 64 _ (Mkfs.ioff 1 + k) = _
    rw [Mkfs.store_in (by omega) (by omega), Nat.add_sub_cancel_left]
  have hDa : Mkfs.Dir sa.disk [] := by
    have hz : ∀ j, j < 141 → Mkfs.slotVal sa.disk 1 j = 0 := by
      intro j hj
      rw [hsa]
      show Mkfs.slotVal (Mkfs.store Mkfs.formatted.disk (Mkfs.ioff Mkfs.formatted.freeinode) 64
        (Mkfs.freshRecord T_DIR)) 1 j = 0
      rw [Mkfs.slotVal_ialloc h0 (by decide) T_DIR h1 hj]
      exact Mkfs.slotVal_zero_record (fun k hk => Mkfs.formatted_zero (by rw [hio]; omega)) j hj
    constructor
    · intro j hj
      rw [hz j hj]
      simp
    · intro j t k hj _ _ hne
      exact absurd (hz j (by omega)) hne
  have hsza : Mkfs.load32 sa.disk (Mkfs.ioff 1 + 8) = 16 * ([] : List (Nat × List Nat)).length :=
    Mkfs.load32_of_zero (fun k hk => by
      rw [Nat.add_assoc, hsa_in _ (by omega)]
      exact Mkfs.freshRecord_high T_DIR (by omega))
  unfold Mkfs.makeRoot at h
  rw [Mkfs.ialloc_eq h0.sized (by decide)] at h
  simp only [] at h
  rw [← hsa, if_neg (by decide), if_pos (by decide), hfi0] at h
  cases hA : Mkfs.iappend 1 (Mkfs.dirent 1 (Mkfs.bytesOf ".")) DIRENT_SIZE sa with
  | none =>
    rw [hA] at h
    cases h
  | some sb =>
    rw [hA] at h
    simp only [] at h
    obtain ⟨stb, hszb, hDb⟩ := Mkfs.dir_append hIa (by omega) hsza (by decide) hDa hA
    rw [if_pos (by decide)] at h
    cases hB : Mkfs.iappend 1 (Mkfs.dirent 1 (Mkfs.bytesOf "..")) DIRENT_SIZE sb with
    | none =>
      rw [hB] at h
      cases h
    | some sc =>
      rw [hB] at h
      simp only [] at h
      have hfb : 1 < sb.freeinode := by
        rw [stb.freeinode, hsa_fi]
        decide
      have hszb2 : Mkfs.load32 sb.disk (Mkfs.ioff 1 + 8) =
          16 * (([] : List (Nat × List Nat)) ++ [(1, Mkfs.bytesOf ".")]).length := by
        rw [hszb]
        rfl
      obtain ⟨stc, hszc, hDc⟩ := Mkfs.dir_append stb.inv hfb hszb2 (by decide) hDb hB
      have hfc : sc.freeinode = 2 := by rw [stc.freeinode, stb.freeinode, hsa_fi]
      rw [Mkfs.setNlink_eq stc.inv.sized h1] at h
      simp only [Option.some.injEq, Prod.mk.injEq] at h
      obtain ⟨hr, hs⟩ := h
      refine ⟨hr.symm, ?_⟩
      rw [← hs]
      have hrec : ∀ k, k < 8 → sc.disk (Mkfs.ioff 1 + k) = Mkfs.freshRecord T_DIR k :=
        fun k hk => ((stc.keeps.own k hk).trans (stb.keeps.own k hk)).trans
          (hsa_in k (by omega))
      refine ⟨⟨Mkfs.inv_field stc.inv _ (le_refl 1) (by omega) (by decide), hfc, ?_, ?_, ?_,
        rfl, rfl, ?_⟩, ?_⟩
      · have t0 : Mkfs.store sc.disk (Mkfs.ioff 1 + 6) 2 (Mkfs.xshort 2) (Mkfs.ioff 1) =
            Mkfs.freshRecord T_DIR 0 :=
          (Mkfs.store_out (by omega)).trans (hrec 0 (by decide))
        have t1 : Mkfs.store sc.disk (Mkfs.ioff 1 + 6) 2 (Mkfs.xshort 2) (Mkfs.ioff 1 + 1) =
            Mkfs.freshRecord T_DIR 1 :=
          (Mkfs.store_out (by omega)).trans (hrec 1 (by decide))
        show Mkfs.rd16 (Mkfs.store sc.disk (Mkfs.ioff 1 + 6) 2 (Mkfs.xshort 2)) (Mkfs.ioff 1) = 1
        rw [Mkfs.rd16_of t0 t1]
        exact Mkfs.freshRecord_type T_DIR (by decide)
      · intro i hi2 hi
        have : i < 2 := by
          rw [← hfc]
          exact hi
        omega
      · refine hDc.congr ?_ ?_
        · intro j hj
          exact Mkfs.slotVal_field stc.inv _ h1 (show 6 + 2 ≤ 12 by decide) h1 hj
        · intro j hj hne k hk
          have := (stc.inv.val_range 1 j h1 (by omega) hne).1
          have := hio 1
          exact Mkfs.store_out (by omega)
      · intro q e hq he
        have : Mkfs.dotEntries[q]? = none := List.getElem?_eq_none (by
          show 2 ≤ q
          exact hq)
        rw [this] at he
        cases he
      · show Mkfs.load32 (Mkfs.store sc.disk (Mkfs.ioff 1 + 6) 2 (Mkfs.xshort 2))
          (Mkfs.ioff 1 + 8) = _
        rw [Mkfs.load32_store_out (by omega), hszc]
        rfl

theorem Mkfs.fixRootSize_eq {s : Mkfs.State} (hs : Mkfs.Sized s) :
    Mkfs.fixRootSize 1 s =
      some { s with disk := Mkfs.store s.disk (Mkfs.ioff 1 + 8) 4 (Mkfs.xint (Mkfs.roundedSize s.disk)) } := by
  unfold Mkfs.fixRootSize Mkfs.roundedSize
  rw [Mkfs.rinode_eq hs (by decide)]
  simp only []
  rw [Mkfs.winode_eq hs (by decide)]
  unfold Mkfs.State.put
  rw [Mkfs.put_record1 _ (fun k hk => rfl) (by decide), Mkfs.load32_shift]

theorem Mkfs.balloc_eq {s : Mkfs.State} (hs : Mkfs.Sized s) {used : Nat} (hu : used < 1000) :
    Mkfs.balloc used s =
      some { s with disk := Mkfs.store s.disk 29696 512 (Mkfs.ballocBytes used) } := by
  have h1 : (Mkfs.FSSIZE + BPB - 1) / BPB = 1 := rfl
  have hF : Mkfs.FSSIZE = 1000 := rfl
  have hb : blockOff ((Mkfs.bmapstart + 0) % U32) = 29696 := rfl
  have hB : BSIZE = 512 := rfl
  unfold Mkfs.balloc
  rw [hF, if_neg (by omega), h1]
  simp only [List.range_succ, List.range_zero, List.nil_append, List.foldl_cons, List.foldl_nil]
  unfold Mkfs.wsect
  rw [hb, hB, Mkfs.ballocBuf_eq, Nat.zero_mul, Nat.sub_zero]
  have hm : max s.fsize (29696 + 512) = s.fsize := by
    have := hs
    unfold Mkfs.Sized at this
    omega
  rw [hm]

/-- The layout after `finish`: that of the last `Good` state, the root size rounded up and
the bitmap written. -/
theorem Mkfs.finish_laid {s s1 : Mkfs.State} {ents : List (Nat × List Nat)}
    (hG : Mkfs.Good s ents) (h : Mkfs.finish 0 1 s = some s1) :
    Mkfs.Laid s1 ents ∧ s1.freeblock < 1000 ∧
      ∀ k, k < 512 → s1.disk (29696 + k) = Mkfs.ballocBytes s1.freeblock k := by
  have hL := hG.laid
  have hI := hL.inv
  have hs := hI.sized
  have hio : ∀ i, Mkfs.ioff i = 16384 + 64 * i := fun _ => rfl
  have h1 : (1 : Nat) < 208 := by decide
  have h2 : 2 ≤ ents.length := by
    by_contra hlt
    have := hL.dotdot
    rw [List.getElem?_eq_none (by omega)] at this
    cases this
  have hfi : 1 < s.freeinode := by
    rw [hL.fi]
    omega
  unfold Mkfs.finish at h
  rw [if_neg (by decide)] at h
  simp only [] at h
  rw [if_neg (by decide)] at h
  simp only [] at h
  rw [Mkfs.fixRootSize_eq hs] at h
  simp only [] at h
  rw [if_neg (by decide)] at h
  simp only [] at h
  rw [if_neg (by decide)] at h
  simp only [] at h
  by_cases hfb : s.freeblock < 1000
  swap
  · unfold Mkfs.balloc at h
    rw [if_pos (by exact hfb)] at h
    cases h
  obtain ⟨x, hx⟩ : ∃ x, Mkfs.xint (Mkfs.roundedSize s.disk) = x := ⟨_, rfl⟩
  rw [hx] at h
  have hs3 : Mkfs.Sized { s with disk := Mkfs.store s.disk (Mkfs.ioff 1 + 8) 4 x } := hs
  rw [Mkfs.balloc_eq hs3 (show s.freeblock < 1000 from hfb)] at h
  simp only [] at h
  rw [if_neg (by decide)] at h
  simp only [] at h
  rw [if_neg (by decide)] at h
  simp only [Option.some.injEq] at h
  subst h
  have hI3 := Mkfs.inv_field hI x (le_refl 1) hfi (show 8 + 4 ≤ 12 by decide)
  have hval : ∀ i j, i < 208 → j < 141 →
      Mkfs.slotVal (Mkfs.store (Mkfs.store s.disk (Mkfs.ioff 1 + 8) 4 x) 29696 512
        (Mkfs.ballocBytes s.freeblock)) i j = Mkfs.slotVal s.disk i j := by
    intro i j hi hj
    have e1 := @Mkfs.slotVal_data { s with disk := Mkfs.store s.disk (Mkfs.ioff 1 + 8) 4 x }
      29696 512 (Mkfs.ballocBytes s.freeblock) (le_refl _) (fun i hi h0 => by
        have := (hI3.indirect_lo hi h0).1
        omega) i j hi hj
    exact e1.trans (Mkfs.slotVal_field hI x h1 (show 8 + 4 ≤ 12 by decide) hi hj)
  have hout : ∀ a, (a < 16456 ∨ 16460 ≤ a) → (a < 29696 ∨ 30208 ≤ a) →
      Mkfs.store (Mkfs.store s.disk (Mkfs.ioff 1 + 8) 4 x) 29696 512
        (Mkfs.ballocBytes s.freeblock) a = s.disk a := by
    intro a ha1 ha2
    have := hio 1
    rw [Mkfs.store_out (by omega), Mkfs.store_out (by omega)]
  refine ⟨⟨?_, hL.fi, ?_, ?_, ?_, hL.dot, hL.dotdot, hL.rest⟩, hfb, ?_⟩
  · refine hI3.update (fun i j hi hj => ?_) ?_ ?_ ?_
    · exact @Mkfs.slotVal_data { s with disk := Mkfs.store s.disk (Mkfs.ioff 1 + 8) 4 x }
        29696 512 (Mkfs.ballocBytes s.freeblock) (le_refl _) (fun i hi h0 => by
          have := (hI3.indirect_lo hi h0).1
          omega) i j hi hj
    · intro j hj
      rw [Mkfs.store_out (by omega)]
      exact hI3.sb j hj
    · intro a ha1 ha2
      have := hI.fb_lo
      have ha3 : s.freeblock * 512 ≤ a := ha1
      rw [Mkfs.store_out (by omega)]
      exact hI3.zero_blocks a ha1 ha2
    · intro i hi0 hi j hj
      have := hio i
      rw [Mkfs.store_out (by omega)]
      exact hI3.zero_inodes i hi0 hi j hj
  · refine Eq.trans ?_ hL.root_type
    have := hio 1
    exact Mkfs.rd16_congr (hout (Mkfs.ioff 1) (by omega) (by omega))
      (hout (Mkfs.ioff 1 + 1) (by omega) (by omega))
  · intro i hi2 hi
    obtain ⟨g1, g2⟩ := hL.files i hi2 hi
    have hi208 : i < 208 := by
      have := hI.fi_hi
      have : i < s.freeinode := hi
      omega
    have := hio i
    constructor
    · refine Eq.trans ?_ g1
      exact Mkfs.rd16_congr (hout (Mkfs.ioff i) (by omega) (by omega))
        (hout (Mkfs.ioff i + 1) (by omega) (by omega))
    · refine Eq.trans ?_ g2
      exact Mkfs.rd16_congr (hout (Mkfs.ioff i + 6) (by omega) (by omega))
        (hout (Mkfs.ioff i + 6 + 1) (by omega) (by omega))
  · refine hL.dir.congr (fun j hj => hval 1 j h1 hj) ?_
    intro j hj hne k hk
    have := (hI.val_range 1 j h1 (by omega) hne).1
    exact hout _ (by omega) (by omega)
  · intro k hk
    exact Mkfs.store_in (by omega) (by omega) |>.trans (by rw [Nat.add_sub_cancel_left])

/-! ## The image of the generator as xcheck reads it -/

theorem Mkfs.sb_field {s : Mkfs.State} (h : Mkfs.Inv s) {o : Nat} (ho : o + 4 ≤ 512) :
    Mkfs.load32 s.disk (512 + o) = Mkfs.load32 Mkfs.sbBuf o := by
  unfold Mkfs.load32
  rw [h.sb o (by omega), Nat.add_assoc, h.sb (o + 1) (by omega), Nat.add_assoc,
    h.sb (o + 2) (by omega), Nat.add_assoc, h.sb (o + 3) (by omega)]

theorem Mkfs.image_sb {s : Mkfs.State} (h : Mkfs.Inv s) :
    sb_size s.image = 1000 ∧ sb_ninodes s.image = 200 ∧ sb_inodestart s.image = 32 ∧
      sb_bmapstart s.image = 58 := by
  have e0 : Mkfs.load32 Mkfs.sbBuf 0 = 1000 := by decide
  have e8 : Mkfs.load32 Mkfs.sbBuf 8 = 200 := by decide
  have e20 : Mkfs.load32 Mkfs.sbBuf 20 = 32 := by decide
  have e24 : Mkfs.load32 Mkfs.sbBuf 24 = 58 := by decide
  refine ⟨?_, ?_, ?_, ?_⟩
  · exact (Mkfs.sb_field h (show 0 + 4 ≤ 512 by decide)).trans e0
  · exact (Mkfs.sb_field h (show 8 + 4 ≤ 512 by decide)).trans e8
  · exact (Mkfs.sb_field h (show 20 + 4 ≤ 512 by decide)).trans e20
  · exact (Mkfs.sb_field h (show 24 + 4 ≤ 512 by decide)).trans e24

theorem Mkfs.image_data_start {s : Mkfs.State} (h : Mkfs.Inv s) :
    data_block_start s.image = 59 := by
  obtain ⟨h1, _, _, h4⟩ := Mkfs.image_sb h
  unfold data_block_start num_bitmap_blocks
  rw [h1, h4]
  rfl

theorem Mkfs.image_get_inode {s : Mkfs.State} (h : Mkfs.Inv s) {i : Nat} (hi : i < 208) :
    get_inode s.image i = Mkfs.ioff i := by
  obtain ⟨_, _, h3, _⟩ := Mkfs.image_sb h
  unfold get_inode
  rw [h3]
  show ((32 + i / 8) % 4294967296 * 512) % 4294967296 + i % 8 * 64 = 16384 + 64 * i
  omega

theorem Mkfs.image_type {s : Mkfs.State} (h : Mkfs.Inv s) {i : Nat} (hi : i < 208) :
    inodeType s.image i = Mkfs.rd16 s.disk (Mkfs.ioff i) := by
  unfold inodeType
  rw [Mkfs.image_get_inode h hi]
  rfl

theorem Mkfs.image_nlink {s : Mkfs.State} (h : Mkfs.Inv s) {i : Nat} (hi : i < 208) :
    inodeNlink s.image i = Mkfs.rd16 s.disk (Mkfs.ioff i + 6) := by
  unfold inodeNlink
  rw [Mkfs.image_get_inode h hi]
  rfl

theorem Mkfs.image_addr {s : Mkfs.State} (h : Mkfs.Inv s) {i : Nat} (hi : i < 208) (j : Nat) :
    inodeAddr s.image i j = Mkfs.load32 s.disk (Mkfs.ioff i + 12 + 4 * j) := by
  unfold inodeAddr
  rw [Mkfs.image_get_inode h hi]
  rfl

theorem Mkfs.image_entry (s : Mkfs.State) {a : Nat} (ha : a < 8388608) (e : Nat) :
    indirectEntry s.image a e = Mkfs.load32 s.disk (a * 512 + 4 * e) := by
  unfold indirectEntry
  rw [blockOff_small ha]
  rfl

/-- The address slots of an inode, as xcheck reads them, are the positions of `slotVal`. -/
theorem Mkfs.image_slot_low {s : Mkfs.State} (h : Mkfs.Inv s) {i : Nat} (hi : i < 208)
    {j : Nat} (hj : j ≤ 12) : inodeAddr s.image i j = Mkfs.slotVal s.disk i j := by
  rw [Mkfs.image_addr h hi, Mkfs.slotVal_low _ _ hj]

theorem Mkfs.image_slot_high {s : Mkfs.State} (h : Mkfs.Inv s) {i : Nat} (hi : i < 208)
    (h0 : inodeAddr s.image i NDIRECT ≠ 0) (e : Nat) :
    indirectEntry s.image (inodeAddr s.image i NDIRECT) e = Mkfs.slotVal s.disk i (13 + e) := by
  have e12 : inodeAddr s.image i NDIRECT = Mkfs.load32 s.disk (Mkfs.ioff i + 60) :=
    Mkfs.image_addr h hi 12
  rw [e12] at h0 ⊢
  have h1 := (h.indirect_lo hi h0).2
  have h2 := h.fb_hi
  have hlt : Mkfs.load32 s.disk (Mkfs.ioff i + 60) < 8388608 := by omega
  rw [Mkfs.image_entry s hlt, Mkfs.slotVal_high _ _ h0]

theorem Mkfs.image_slot_none {s : Mkfs.State} (h : Mkfs.Inv s) {i : Nat} (hi : i < 208)
    (h0 : inodeAddr s.image i NDIRECT = 0) (e : Nat) :
    Mkfs.slotVal s.disk i (13 + e) = 0 := by
  have e12 : inodeAddr s.image i NDIRECT = Mkfs.load32 s.disk (Mkfs.ioff i + 60) :=
    Mkfs.image_addr h hi 12
  rw [e12] at h0
  unfold Mkfs.slotVal
  rw [if_neg (by omega), if_neg (by rw [h0]; exact fun hne => hne rfl)]

theorem Mkfs.image_dirent_inum (s : Mkfs.State) {a : Nat} (ha : a < 8388608) (t : Nat) :
    direntInum s.image a t = Mkfs.rd16 s.disk (a * 512 + 16 * t) := by
  unfold direntInum direntOff
  rw [blockOff_small ha, Nat.mul_comm t, Nat.add_zero]
  have e : DIRENT_SIZE = 16 := rfl
  rw [e]
  rfl

theorem Mkfs.image_dirent_name (s : Mkfs.State) {a : Nat} (ha : a < 8388608) (t k : Nat) :
    direntName s.image a t k = s.disk (a * 512 + 16 * t + 2 + k) % 256 := by
  unfold direntName direntOff
  have e : DIRENT_SIZE = 16 := rfl
  rw [blockOff_small ha, Nat.mul_comm t, e]
  rfl

/-! ### Lists of non-zero values -/

theorem mem_nonzeroValues_iff (f : Nat → Nat) (n b : Nat) :
    b ∈ nonzeroValues f n ↔ b ≠ 0 ∧ ∃ j, j < n ∧ f j = b := by
  unfold nonzeroValues
  rw [List.mem_filter, List.mem_map]
  constructor
  · rintro ⟨⟨j, hj, hf⟩, hb⟩
    exact ⟨by simpa using hb, j, List.mem_range.mp hj, hf⟩
  · rintro ⟨hb, j, hj, hf⟩
    exact ⟨⟨j, List.mem_range.mpr hj, hf⟩, by simpa using hb⟩

theorem nonzeroValues_nodup (f : Nat → Nat) (n : Nat)
    (hinj : ∀ j k, j < n → k < n → f j ≠ 0 → f j = f k → j = k) :
    (nonzeroValues f n).Nodup := by
  unfold nonzeroValues
  rw [List.filter_map]
  apply List.Nodup.map_on
  · intro x hx y hy hxy
    obtain ⟨hx1, hx2⟩ := List.mem_filter.mp hx
    obtain ⟨hy1, _⟩ := List.mem_filter.mp hy
    exact hinj x y (List.mem_range.mp hx1) (List.mem_range.mp hy1) (by simpa using hx2) hxy
  · exact (List.nodup_range n).filter _

theorem nonzeroValues_add (f : Nat → Nat) (n m : Nat) :
    nonzeroValues f (n + m) = nonzeroValues f n ++ nonzeroValues (fun k => f (n + k)) m := by
  unfold nonzeroValues
  rw [List.range_add, List.map_append, List.filter_append, List.map_map]
  rfl

theorem nonzeroValues_one (f : Nat → Nat) :
    nonzeroValues f 1 = if f 0 ≠ 0 then [f 0] else [] := by
  unfold nonzeroValues
  by_cases h : f 0 ≠ 0
  · rw [if_pos h]
    simp [List.range_succ, h]
  · rw [if_neg h]
    simp [List.range_succ, h]

theorem nonzeroValues_zero (f : Nat → Nat) (n : Nat) (h : ∀ j, j < n → f j = 0) :
    nonzeroValues f n = [] := by
  unfold nonzeroValues
  rw [List.filter_eq_nil_iff]
  intro a ha
  obtain ⟨j, hj, hf⟩ := List.mem_map.mp ha
  rw [← hf, h j (List.mem_range.mp hj)]
  simp

/-! ### The blocks the inodes of the image claim -/

/-- The blocks of an inode, as xcheck lists them, are the non-zero positions of `slotVal`. -/
theorem Mkfs.image_inodeBlocks {s : Mkfs.State} (h : Mkfs.Inv s) {i : Nat} (hi : i < 208) :
    inodeBlocks s.image i = nonzeroValues (Mkfs.slotVal s.disk i) 141 := by
  have e141 : 141 = 12 + 1 + 128 := rfl
  have hN : NDIRECT = 12 := rfl
  have hNI : NINDIRECT = 128 := rfl
  rw [e141, nonzeroValues_add, nonzeroValues_add, nonzeroValues_one]
  unfold inodeBlocks directBlocks indirectSlot indirectBlocks
  have e12 : inodeAddr s.image i NDIRECT = Mkfs.slotVal s.disk i (12 + 0) :=
    Mkfs.image_slot_low h hi (le_refl 12)
  congr 1
  · congr 1
    · rw [hN]
      exact nonzeroValues_congr (fun j hj => Mkfs.image_slot_low h hi (by omega))
    · rw [e12]
  · by_cases h0 : inodeAddr s.image i NDIRECT ≠ 0
    · rw [if_pos h0, hNI]
      exact nonzeroValues_congr (fun e he => Mkfs.image_slot_high h hi h0 e)
    · rw [if_neg h0]
      have h00 : inodeAddr s.image i NDIRECT = 0 := by
        by_contra hne
        exact h0 hne
      exact (nonzeroValues_zero _ _ (fun e he => Mkfs.image_slot_none h hi h00 e)).symm

theorem Mkfs.mem_image_inodeBlocks {s : Mkfs.State} (h : Mkfs.Inv s) {i : Nat} (hi : i < 208)
    (b : Nat) :
    b ∈ inodeBlocks s.image i ↔ b ≠ 0 ∧ ∃ j, j < 141 ∧ Mkfs.slotVal s.disk i j = b := by
  rw [Mkfs.image_inodeBlocks h hi, mem_nonzeroValues_iff]

/-- An inode without a record holds no block. -/
theorem Mkfs.Inv.slot_free {s : Mkfs.State} (h : Mkfs.Inv s) {i : Nat} (hi : i < 208)
    (hfree : i = 0 ∨ s.freeinode ≤ i) (j : Nat) (hj : j < 141) : Mkfs.slotVal s.disk i j = 0 :=
  Mkfs.slotVal_zero_record (fun k hk => h.zero_inodes i hfree hi k hk) j hj

theorem Mkfs.Inv.type_free {s : Mkfs.State} (h : Mkfs.Inv s) {i : Nat} (hi : i < 208)
    (hfree : i = 0 ∨ s.freeinode ≤ i) : inodeType s.image i = 0 := by
  rw [Mkfs.image_type h hi]
  have t0 : s.disk (Mkfs.ioff i) = 0 := h.zero_inodes i hfree hi 0 (by decide)
  have t1 : s.disk (Mkfs.ioff i + 1) = 0 := h.zero_inodes i hfree hi 1 (by decide)
  rw [Mkfs.rd16_of t0 t1]
  decide

/-- The types of the inodes of the image. -/
theorem Mkfs.Laid.types {s : Mkfs.State} {ents : List (Nat × List Nat)} (h : Mkfs.Laid s ents)
    {i : Nat} (hi : i < 208) :
    inodeType s.image i = if i = 1 then 1 else if 2 ≤ i ∧ i < ents.length then 2 else 0 := by
  by_cases h1 : i = 1
  · rw [if_pos h1, h1, Mkfs.image_type h.inv (by decide)]
    exact h.root_type
  · rw [if_neg h1]
    by_cases h2 : 2 ≤ i ∧ i < ents.length
    · rw [if_pos h2, Mkfs.image_type h.inv hi]
      exact (h.files i h2.1 (by rw [h.fi]; exact h2.2)).1
    · rw [if_neg h2]
      exact h.inv.type_free hi (by rw [h.fi]; omega)

/-- The claimed blocks of the image are pairwise distinct. -/
theorem Mkfs.claimed_nodup {s : Mkfs.State} (h : Mkfs.Inv s) :
    (claimedBlocks s.image).Nodup := by
  have hn : sb_ninodes s.image = 200 := (Mkfs.image_sb h).2.1
  unfold claimedBlocks
  rw [List.nodup_flatMap, hn]
  constructor
  · intro i hi
    have hi2 : i < 208 := by
      have := List.mem_range.mp hi
      omega
    by_cases h0 : inodeType s.image i ≠ 0
    · rw [if_pos h0, Mkfs.image_inodeBlocks h hi2]
      exact nonzeroValues_nodup _ _ (fun j k hj hk hne heq =>
        (h.val_inj i j i k hi2 hj hi2 hk hne heq).2)
    · rw [if_neg h0]
      exact List.nodup_nil
  · refine (List.nodup_range 200).imp_of_mem ?_
    intro i k hi hk hne
    have hi2 : i < 208 := by
      have := List.mem_range.mp hi
      omega
    have hk2 : k < 208 := by
      have := List.mem_range.mp hk
      omega
    intro b hb1 hb2
    beta_reduce at hb1 hb2
    have m1 : b ∈ inodeBlocks s.image i := by
      by_cases h0 : inodeType s.image i ≠ 0
      · rw [if_pos h0] at hb1
        exact hb1
      · rw [if_neg h0] at hb1
        cases hb1
    have m2 : b ∈ inodeBlocks s.image k := by
      by_cases h0 : inodeType s.image k ≠ 0
      · rw [if_pos h0] at hb2
        exact hb2
      · rw [if_neg h0] at hb2
        cases hb2
    obtain ⟨hb0, j, hj, hv⟩ := (Mkfs.mem_image_inodeBlocks h hi2 b).mp m1
    obtain ⟨_, j1, hj1, hv1⟩ := (Mkfs.mem_image_inodeBlocks h hk2 b).mp m2
    exact hne (h.val_inj i j k j1 hi2 hj hk2 hj1 (by rw [hv]; exact hb0) (by rw [hv, hv1])).1

theorem bit_of_mask (n r : Nat) (hn : n ≤ 8) (hr : r < 8) :
    (((2 ^ n - 1) % 256) >>> r) &&& 1 = if r < n then 1 else 0 := by
  interval_cases n <;> interval_cases r <;> rfl

/-- The bitmap of the image marks the blocks below `freeblock`. -/
theorem Mkfs.image_marked {s : Mkfs.State} (h : Mkfs.Inv s)
    (hbm : ∀ k, k < 512 → s.disk (29696 + k) = Mkfs.ballocBytes s.freeblock k)
    (hfb : s.freeblock < 1000) {b : Nat} (hb : b < 1000) :
    block_is_marked s.image b = if b < s.freeblock then 1 else 0 := by
  have h4 : sb_bmapstart s.image = 58 := (Mkfs.image_sb h).2.2.2
  have hB : BPB = 4096 := rfl
  unfold block_is_marked
  simp only []
  rw [h4, hB, Nat.div_eq_of_lt (show b < 4096 by omega), Nat.mod_eq_of_lt (show b < 4096 by omega)]
  have hoff : blockOff ((58 + 0) % U32) = 29696 := rfl
  rw [hoff]
  show ((s.disk (29696 + b / 8) % 256) >>> (b % 8)) &&& 1 = _
  rw [hbm _ (by omega)]
  unfold Mkfs.ballocBytes
  rw [hB, Nat.min_eq_right (show s.freeblock ≤ 4096 by omega)]
  by_cases h1 : 8 * (b / 8) + 8 ≤ s.freeblock
  · rw [if_pos h1, if_pos (by omega)]
    exact (bit_of_mask 8 (b % 8) (le_refl _) (Nat.mod_lt _ (by decide))).trans
      (if_pos (Nat.mod_lt _ (by decide)))
  · rw [if_neg h1]
    by_cases h2 : 8 * (b / 8) < s.freeblock
    · rw [if_pos h2, bit_of_mask _ _ (by omega) (Nat.mod_lt _ (by decide))]
      by_cases h3 : b < s.freeblock
      · rw [if_pos h3, if_pos (by omega)]
      · rw [if_neg h3, if_neg (by omega)]
    · rw [if_neg h2, if_neg (by omega)]
      exact (bit_of_mask 0 (b % 8) (by decide) (Nat.mod_lt _ (by decide))).trans
        (if_neg (by omega))

/-- Every claimed block of the image is a data block whose bit is set. -/
theorem Mkfs.claimed_ok {s : Mkfs.State} {ents : List (Nat × List Nat)} (h : Mkfs.Laid s ents)
    (hbm : ∀ k, k < 512 → s.disk (29696 + k) = Mkfs.ballocBytes s.freeblock k)
    (hfb : s.freeblock < 1000) {b : Nat} (hb : b ∈ claimedBlocks s.image) :
    59 ≤ b ∧ b < 1000 ∧ block_is_marked s.image b ≠ 0 := by
  have hn : sb_ninodes s.image = 200 := (Mkfs.image_sb h.inv).2.1
  obtain ⟨i, ⟨hi, _⟩, hm⟩ := (mem_claimedBlocks _ b).mp hb
  rw [hn] at hi
  obtain ⟨hb0, j, hj, hv⟩ := (Mkfs.mem_image_inodeBlocks h.inv (show i < 208 by omega) b).mp hm
  have hr := h.inv.val_range i j (by omega) hj (by rw [hv]; exact hb0)
  rw [hv] at hr
  refine ⟨hr.1, by omega, ?_⟩
  rw [Mkfs.image_marked h.inv hbm hfb (by omega), if_pos hr.2]
  decide

/-- Every data block of the image whose bit is set is claimed. -/
theorem Mkfs.marked_claimed {s : Mkfs.State} {ents : List (Nat × List Nat)}
    (h : Mkfs.Laid s ents) (hlen : ents.length ≤ 200)
    (hbm : ∀ k, k < 512 → s.disk (29696 + k) = Mkfs.ballocBytes s.freeblock k)
    (hfb : s.freeblock < 1000) {b : Nat} (hlo : 59 ≤ b) (hhi : b < 1000)
    (hm : block_is_marked s.image b ≠ 0) : b ∈ claimedBlocks s.image := by
  have hn : sb_ninodes s.image = 200 := (Mkfs.image_sb h.inv).2.1
  rw [Mkfs.image_marked h.inv hbm hfb hhi] at hm
  have hlt : b < s.freeblock := by
    by_contra hge
    rw [if_neg hge] at hm
    exact hm rfl
  obtain ⟨i, j, hi, hj, hv⟩ := h.inv.val_cover b hlo hlt
  have hused : ¬ (i = 0 ∨ s.freeinode ≤ i) := by
    intro hfree
    have := h.inv.slot_free hi hfree j hj
    omega
  have hfi := h.fi
  have hty := h.types hi
  refine (mem_claimedBlocks _ b).mpr ⟨i, ⟨by rw [hn]; omega, ?_⟩, ?_⟩
  · rw [hty]
    by_cases h1 : i = 1
    · rw [if_pos h1]
      decide
    · rw [if_neg h1, if_pos (by omega)]
      decide
  · exact (Mkfs.mem_image_inodeBlocks h.inv hi b).mpr ⟨by omega, j, hj, hv⟩

/-! ### The root directory of the image -/

theorem mem_dirSlots (img : Image) (d : Nat) (e : Nat × Nat) :
    e ∈ dirSlots img d ↔ e.1 ∈ contentBlocks img d ∧ e.2 < 32 := by
  unfold dirSlots
  rw [List.mem_flatMap]
  constructor
  · rintro ⟨a, ha, he⟩
    obtain ⟨i, hi, rfl⟩ := List.mem_map.mp he
    exact ⟨ha, List.mem_range.mp hi⟩
  · rintro ⟨h1, h2⟩
    exact ⟨e.1, h1, List.mem_map.mpr ⟨e.2, List.mem_range.mpr h2, rfl⟩⟩

theorem Mkfs.xshort_bytes (v : Nat) :
    Xcheck.xshort (Mkfs.xshort v 0 % 256) (Mkfs.xshort v 1 % 256) = v % 65536 := by
  have h0 : Mkfs.xshort v 0 = v % 256 := rfl
  have h1 : Mkfs.xshort v 1 = (v / 2 ^ 8) % 256 := by
    show (v >>> 8) % 256 = _
    rw [Nat.shiftRight_eq_div_pow]
  have e8 : (2 : Nat) ^ 8 = 256 := by norm_num
  rw [h0, h1, xshort_eq_add _ _ (Nat.mod_lt _ (by decide)), e8]
  omega

theorem Mkfs.dirent_inum (inum : Nat) (name : List Nat) :
    Xcheck.xshort (Mkfs.dirent inum name 0 % 256) (Mkfs.dirent inum name 1 % 256) =
      inum % 65536 :=
  Mkfs.xshort_bytes inum

theorem Mkfs.dirent_name (inum : Nat) (name : List Nat) {k : Nat} (hk : k < 14) :
    Mkfs.dirent inum name (2 + k) = Mkfs.storedName name k := by
  have hD : DIRSIZ = 14 := rfl
  unfold Mkfs.dirent Mkfs.storedName
  rw [hD, Mkfs.store_in (by omega) (by omega), Nat.add_sub_cancel_left]

theorem Mkfs.storedName_lt (name : List Nat) (k : Nat) : Mkfs.storedName name k < 256 :=
  Nat.mod_lt _ (by decide)

/-- The content of the root directory of the image is made of its direct blocks. -/
theorem Mkfs.Laid.root_content {s : Mkfs.State} {ents : List (Nat × List Nat)}
    (h : Mkfs.Laid s ents) (hlen : ents.length ≤ 208) :
    contentBlocks s.image 1 = nonzeroValues (Mkfs.slotVal s.disk 1) 12 := by
  have h1 : (1 : Nat) < 208 := by decide
  have hN : NDIRECT = 12 := rfl
  have h12 : inodeAddr s.image 1 NDIRECT = 0 := by
    rw [Mkfs.image_slot_low h.inv h1 (le_refl 12)]
    by_contra hne
    have := (h.dir.slots 12 (by decide)).mp hne
    omega
  unfold contentBlocks directBlocks indirectBlocks
  rw [if_neg (by rw [h12]; exact fun hne => hne rfl), List.append_nil, hN]
  exact nonzeroValues_congr (fun j hj => Mkfs.image_slot_low h.inv h1 (by omega))

theorem Mkfs.Laid.mem_root_slots {s : Mkfs.State} {ents : List (Nat × List Nat)}
    (h : Mkfs.Laid s ents) (hlen : ents.length ≤ 208) (e : Nat × Nat) :
    e ∈ dirSlots s.image 1 ↔
      ∃ j t, j < 12 ∧ t < 32 ∧ Mkfs.slotVal s.disk 1 j ≠ 0 ∧ e = (Mkfs.slotVal s.disk 1 j, t) := by
  rw [mem_dirSlots, h.root_content hlen, mem_nonzeroValues_iff]
  constructor
  · rintro ⟨⟨h0, j, hj, hv⟩, ht⟩
    exact ⟨j, e.2, hj, ht, by rw [hv]; exact h0, by rw [hv]⟩
  · rintro ⟨j, t, hj, ht, hne, rfl⟩
    exact ⟨⟨hne, j, hj, rfl⟩, ht⟩

/-- An entry slot of the root directory that holds entry `e`. -/
theorem Mkfs.Laid.entry_some {s : Mkfs.State} {ents : List (Nat × List Nat)}
    (h : Mkfs.Laid s ents) {j t : Nat} (hj : j < 12) (ht : t < 32)
    (hne : Mkfs.slotVal s.disk 1 j ≠ 0) {e : Nat × List Nat} (he : ents[32 * j + t]? = some e) :
    direntInum s.image (Mkfs.slotVal s.disk 1 j) t = e.1 % 65536 ∧
      isDot s.image (Mkfs.slotVal s.disk 1 j) t =
        strncmp0 (Mkfs.storedName e.2) strDot 0 DIRSIZ ∧
      isDotDot s.image (Mkfs.slotVal s.disk 1 j) t =
        strncmp0 (Mkfs.storedName e.2) strDotDot 0 DIRSIZ := by
  have hr := h.inv.val_range 1 j (by decide) (by omega) hne
  have hfb := h.inv.fb_hi
  have hx : Mkfs.slotVal s.disk 1 j < 8388608 := by omega
  have hbyte : ∀ k, k < 16 →
      s.disk (Mkfs.slotVal s.disk 1 j * 512 + 16 * t + k) = Mkfs.dirent e.1 e.2 k := by
    intro k hk
    rw [h.dir.entries j t k hj ht hk hne]
    unfold Mkfs.entryAt
    rw [he]
  have hname : ∀ k, 0 ≤ k → k < 0 + 14 →
      direntName s.image (Mkfs.slotVal s.disk 1 j) t k = Mkfs.storedName e.2 k := by
    intro k _ hk
    rw [Mkfs.image_dirent_name s hx, Nat.add_assoc, hbyte _ (by omega),
      Mkfs.dirent_name _ _ (by omega), Nat.mod_eq_of_lt (Mkfs.storedName_lt _ _)]
  refine ⟨?_, ?_, ?_⟩
  · have b0 := hbyte 0 (by decide)
    rw [Nat.add_zero] at b0
    rw [Mkfs.image_dirent_inum s hx, Mkfs.rd16_of b0 (hbyte 1 (by decide))]
    exact Mkfs.dirent_inum e.1 e.2
  · unfold isDot
    exact strncmp0_congr 0 14 hname
  · unfold isDotDot
    exact strncmp0_congr 0 14 hname

/-- An entry slot of the root directory past the last entry is free. -/
theorem Mkfs.Laid.entry_none {s : Mkfs.State} {ents : List (Nat × List Nat)}
    (h : Mkfs.Laid s ents) {j t : Nat} (hj : j < 12) (ht : t < 32)
    (hne : Mkfs.slotVal s.disk 1 j ≠ 0) (he : ents[32 * j + t]? = none) :
    direntInum s.image (Mkfs.slotVal s.disk 1 j) t = 0 := by
  have hr := h.inv.val_range 1 j (by decide) (by omega) hne
  have hfb := h.inv.fb_hi
  have hx : Mkfs.slotVal s.disk 1 j < 8388608 := by omega
  have hbyte : ∀ k, k < 16 → s.disk (Mkfs.slotVal s.disk 1 j * 512 + 16 * t + k) = 0 := by
    intro k hk
    rw [h.dir.entries j t k hj ht hk hne]
    unfold Mkfs.entryAt
    rw [he]
  have b0 := hbyte 0 (by decide)
  rw [Nat.add_zero] at b0
  rw [Mkfs.image_dirent_inum s hx, Mkfs.rd16_of b0 (hbyte 1 (by decide))]
  decide

/-- An image is accepted when its inode types are valid, its claims are pairwise distinct
data blocks whose bits are set, its root is allocated, every directory passes the walk, and
the final checks find nothing. -/
theorem main_ok_of_facts (img : Image)
    (htypes : ∀ i, i < sb_ninodes img →
      inodeType img i = 0 ∨ inodeType img i = T_FILE ∨ inodeType img i = T_DIR ∨
        inodeType img i = T_DEV)
    (hnodup : (claimedBlocks img).Nodup)
    (hclaims : ∀ b ∈ claimedBlocks img,
      data_block_start img ≤ b ∧ b < sb_size img ∧ block_is_marked img b ≠ 0)
    (hroot : allocated img ROOTINO)
    (hdirs : ∀ d, isDir img d →
      (∀ e ∈ dirSlots img d, direntInum img e.1 e.2 ≠ 0 →
        direntInum img e.1 e.2 < sb_ninodes img ∧ inodeType img (direntInum img e.1 e.2) ≠ 0 ∧
          (isDot img e.1 e.2 = true → direntInum img e.1 e.2 = d)) ∧
      (∃ e ∈ dirSlots img d, dotEntry img e) ∧ (∃ e ∈ dirSlots img d, dotdotEntry img e) ∧
      (d = ROOTINO → ∀ e ∈ dirSlots img d, dotdotEntry img e →
        direntInum img e.1 e.2 = ROOTINO))
    (horph : ∀ i, 1 ≤ i → i < sb_ninodes img → ¬ orphanInode img i)
    (href : ∀ j, 1 ≤ j → j < sb_ninodes img → ¬ badRefCount img j ∧ ¬ multiplyLinked img j)
    (hsweep : ∀ b, data_block_start img ≤ b → b < sb_size img → ¬ falsePositive img b) :
    main img = .ok () := by
  obtain ⟨t, ht⟩ : ∃ t, scanInodes img initTables = .ok t := by
    rw [scanInodes_eq_events]
    apply run_events_ok
    · intro i hi
      exact htypes i ((inode_mem_scanEvents img i).mp hi)
    · rw [taggedClaims_scanEvents]
      exact hnodup
    · rw [taggedClaims_scanEvents]
      exact hclaims
  have hI := scanInv_of_scanInodes ht
  obtain ⟨t1, hw, _⟩ : ∃ t1, walkInodes img t = .ok t1 ∧ Frame t t1 := by
    unfold walkInodes
    apply forLoop_passes (Frame t) _ _ t (frame_refl t)
    intro d hd s hq
    apply walkInode_passes hq
    intro hdir
    have hdl := List.mem_range.mp hd
    have hisdir : isDir img d := ⟨hdl, by rw [← scanInv_type_of_lt hI hdl]; exact hdir.2⟩
    obtain ⟨hent, hdot, hdotdot, hpar⟩ := hdirs d hisdir
    refine ⟨?_, hdot, hdotdot, hpar⟩
    intro e he h0
    obtain ⟨hlt, hty, hself⟩ := hent e he h0
    exact ⟨hlt, (scanInv_used_iff hI _).mpr ⟨hlt, hty⟩, hself⟩
  rw [main_eq_report ht hroot hw]
  exact report_clean horph href hsweep

/-- What an entry slot of the root directory of the image holds: `.`, `..`, the entry
of a file under a plain name, or nothing. -/
theorem Mkfs.Laid.entry_cases {s : Mkfs.State} {ents : List (Nat × List Nat)}
    (h : Mkfs.Laid s ents) (hlen : ents.length ≤ 208) {j t : Nat} (hj : j < 12) (ht : t < 32)
    (hne : Mkfs.slotVal s.disk 1 j ≠ 0) :
    (32 * j + t = 0 ∧ direntInum s.image (Mkfs.slotVal s.disk 1 j) t = 1 ∧
        isDot s.image (Mkfs.slotVal s.disk 1 j) t = true) ∨
      (32 * j + t = 1 ∧ direntInum s.image (Mkfs.slotVal s.disk 1 j) t = 1 ∧
        isDot s.image (Mkfs.slotVal s.disk 1 j) t = false ∧
        isDotDot s.image (Mkfs.slotVal s.disk 1 j) t = true) ∨
      (2 ≤ 32 * j + t ∧ 32 * j + t < ents.length ∧
        direntInum s.image (Mkfs.slotVal s.disk 1 j) t = 32 * j + t ∧
        isDot s.image (Mkfs.slotVal s.disk 1 j) t = false ∧
        isDotDot s.image (Mkfs.slotVal s.disk 1 j) t = false) ∨
      (ents.length ≤ 32 * j + t ∧ direntInum s.image (Mkfs.slotVal s.disk 1 j) t = 0) := by
  cases he : ents[32 * j + t]? with
  | none =>
    exact Or.inr (Or.inr (Or.inr ⟨List.getElem?_eq_none_iff.mp he, h.entry_none hj ht hne he⟩))
  | some e =>
    have hq : 32 * j + t < ents.length := by
      by_contra hge
      rw [List.getElem?_eq_none (by omega)] at he
      cases he
    obtain ⟨e1, e2, e3⟩ := h.entry_some hj ht hne he
    by_cases h0 : 32 * j + t = 0
    · have : e = (1, Mkfs.bytesOf ".") := by
        have hd := h.dot
        rw [h0] at he
        rw [he] at hd
        exact Option.some.inj hd
      subst this
      exact Or.inl ⟨h0, e1, e2.trans (by decide)⟩
    · by_cases h1 : 32 * j + t = 1
      · have : e = (1, Mkfs.bytesOf "..") := by
          have hd := h.dotdot
          rw [h1] at he
          rw [he] at hd
          exact Option.some.inj hd
        subst this
        exact Or.inr (Or.inl ⟨h1, e1, e2.trans (by decide), e3.trans (by decide)⟩)
      · obtain ⟨r1, r2, r3⟩ := h.rest _ e (by omega) he
        refine Or.inr (Or.inr (Or.inl ⟨by omega, hq, ?_, e2.trans r2, e3.trans r3⟩))
        rw [e1, r1]
        omega

/-- The root is the only directory of the image. -/
theorem Mkfs.Laid.isDir_iff {s : Mkfs.State} {ents : List (Nat × List Nat)}
    (h : Mkfs.Laid s ents) (d : Nat) : isDir s.image d ↔ d = 1 := by
  have hn : sb_ninodes s.image = 200 := (Mkfs.image_sb h.inv).2.1
  unfold isDir
  rw [hn]
  constructor
  · rintro ⟨hd, hty⟩
    rw [h.types (show d < 208 by omega)] at hty
    by_contra h1
    rw [if_neg h1] at hty
    by_cases h2 : 2 ≤ d ∧ d < ents.length
    · rw [if_pos h2] at hty
      cases hty
    · rw [if_neg h2] at hty
      cases hty
  · intro h1
    subst h1
    refine ⟨by decide, ?_⟩
    rw [h.types (by decide), if_pos rfl]

theorem Mkfs.Laid.two_le {s : Mkfs.State} {ents : List (Nat × List Nat)}
    (h : Mkfs.Laid s ents) : 2 ≤ ents.length := by
  by_contra hlt
  have := h.dotdot
  rw [List.getElem?_eq_none (by omega)] at this
  cases this

/-- The walk of the root directory of the image finds nothing wrong. -/
theorem Mkfs.Laid.walk_facts {s : Mkfs.State} {ents : List (Nat × List Nat)}
    (h : Mkfs.Laid s ents) (hlen : ents.length ≤ 200) :
    (∀ e ∈ dirSlots s.image 1, direntInum s.image e.1 e.2 ≠ 0 →
        direntInum s.image e.1 e.2 < sb_ninodes s.image ∧
        inodeType s.image (direntInum s.image e.1 e.2) ≠ 0 ∧
          (isDot s.image e.1 e.2 = true → direntInum s.image e.1 e.2 = 1)) ∧
      (∃ e ∈ dirSlots s.image 1, dotEntry s.image e) ∧
      (∃ e ∈ dirSlots s.image 1, dotdotEntry s.image e) ∧
      (∀ e ∈ dirSlots s.image 1, dotdotEntry s.image e →
        direntInum s.image e.1 e.2 = ROOTINO) := by
  have hn : sb_ninodes s.image = 200 := (Mkfs.image_sb h.inv).2.1
  have h2 := h.two_le
  have hl : ents.length ≤ 208 := by omega
  have hs0 : Mkfs.slotVal s.disk 1 0 ≠ 0 := (h.dir.slots 0 (by decide)).mpr (by omega)
  refine ⟨?_, ?_, ?_, ?_⟩
  · intro e he h0
    obtain ⟨j, t, hj, ht, hne, rfl⟩ := (h.mem_root_slots hl e).mp he
    rw [hn]
    rcases h.entry_cases hl hj ht hne with ⟨_, c1, _⟩ | ⟨_, c1, _, _⟩ | ⟨c0, c1, c2, c3, _⟩ |
      ⟨_, c1⟩
    · rw [c1]
      refine ⟨by decide, ?_, fun _ => rfl⟩
      rw [h.types (by decide), if_pos rfl]
      decide
    · rw [c1]
      refine ⟨by decide, ?_, fun _ => rfl⟩
      rw [h.types (by decide), if_pos rfl]
      decide
    · rw [c2]
      refine ⟨by omega, ?_, ?_⟩
      · rw [h.types (by omega), if_neg (by omega), if_pos ⟨c0, c1⟩]
        decide
      · intro hd
        rw [c3] at hd
        cases hd
    · exact absurd c1 h0
  · refine ⟨(Mkfs.slotVal s.disk 1 0, 0), (h.mem_root_slots hl _).mpr
      ⟨0, 0, by decide, by decide, hs0, rfl⟩, ?_⟩
    rcases h.entry_cases hl (show 0 < 12 by decide) (show 0 < 32 by decide) hs0 with
      ⟨_, c1, c2⟩ | ⟨c0, _⟩ | ⟨c0, _⟩ | ⟨c0, _⟩
    · exact ⟨by rw [c1]; decide, c2⟩
    · omega
    · omega
    · omega
  · refine ⟨(Mkfs.slotVal s.disk 1 0, 1), (h.mem_root_slots hl _).mpr
      ⟨0, 1, by decide, by decide, hs0, rfl⟩, ?_⟩
    rcases h.entry_cases hl (show 0 < 12 by decide) (show 1 < 32 by decide) hs0 with
      ⟨c0, _⟩ | ⟨_, c1, _, c3⟩ | ⟨c0, _⟩ | ⟨c0, _⟩
    · omega
    · exact ⟨by rw [c1]; decide, c3⟩
    · omega
    · omega
  · intro e he hdd
    obtain ⟨j, t, hj, ht, hne, rfl⟩ := (h.mem_root_slots hl e).mp he
    obtain ⟨d0, d1⟩ := hdd
    rcases h.entry_cases hl hj ht hne with ⟨_, c1, _⟩ | ⟨_, c1, _, _⟩ | ⟨_, _, _, _, c4⟩ |
      ⟨_, c1⟩
    · exact c1
    · exact c1
    · rw [c4] at d1
      cases d1
    · exact absurd c1 d0

theorem Mkfs.Laid.root_slots_nodup {s : Mkfs.State} {ents : List (Nat × List Nat)}
    (h : Mkfs.Laid s ents) (hlen : ents.length ≤ 208) : (dirSlots s.image 1).Nodup := by
  have hc : (contentBlocks s.image 1).Nodup := by
    rw [h.root_content hlen]
    exact nonzeroValues_nodup _ _ (fun j k hj hk hne heq =>
      (h.inv.val_inj 1 j 1 k (by decide) (by omega) (by decide) (by omega) hne heq).2)
  unfold dirSlots
  rw [List.nodup_flatMap]
  constructor
  · intro a _
    exact (List.nodup_range _).map (fun x y hxy => (Prod.mk.inj hxy).2)
  · refine hc.imp ?_
    intro a b hab x hx1 hx2
    obtain ⟨i, _, rfl⟩ := List.mem_map.mp hx1
    obtain ⟨k, _, hk⟩ := List.mem_map.mp hx2
    exact hab (Prod.mk.inj hk).1.symm

theorem Mkfs.Laid.allSlots_nodup {s : Mkfs.State} {ents : List (Nat × List Nat)}
    (h : Mkfs.Laid s ents) (hlen : ents.length ≤ 208) : (allSlots s.image).Nodup := by
  have hn : sb_ninodes s.image = 200 := (Mkfs.image_sb h.inv).2.1
  unfold allSlots
  rw [List.nodup_flatMap, hn]
  constructor
  · intro d hd
    by_cases hty : inodeType s.image d = T_DIR
    · rw [if_pos hty]
      have : d = 1 := (h.isDir_iff d).mp ⟨by rw [hn]; exact List.mem_range.mp hd, hty⟩
      subst this
      exact h.root_slots_nodup hlen
    · rw [if_neg hty]
      exact List.nodup_nil
  · refine (List.nodup_range 200).imp_of_mem ?_
    intro a b ha hb hab x hx1 hx2
    beta_reduce at hx1 hx2
    have ha1 : a = 1 := by
      by_cases hty : inodeType s.image a = T_DIR
      · exact (h.isDir_iff a).mp ⟨by rw [hn]; exact List.mem_range.mp ha, hty⟩
      · rw [if_neg hty] at hx1
        cases hx1
    have hb1 : b = 1 := by
      by_cases hty : inodeType s.image b = T_DIR
      · exact (h.isDir_iff b).mp ⟨by rw [hn]; exact List.mem_range.mp hb, hty⟩
      · rw [if_neg hty] at hx2
        cases hx2
    exact hab (ha1.trans hb1.symm)

/-- Every file of the image is named by exactly one directory entry. -/
theorem Mkfs.Laid.links {s : Mkfs.State} {ents : List (Nat × List Nat)}
    (h : Mkfs.Laid s ents) (hlen : ents.length ≤ 208) {i : Nat} (hi2 : 2 ≤ i)
    (hi : i < ents.length) : measuredLinks s.image i = 1 := by
  have hs0 : Mkfs.slotVal s.disk 1 (i / 32) ≠ 0 :=
    (h.dir.slots (i / 32) (by omega)).mpr (by omega)
  have hj : i / 32 < 12 := by omega
  have ht : i % 32 < 32 := Nat.mod_lt _ (by decide)
  have hq : 32 * (i / 32) + i % 32 = i := Nat.div_add_mod i 32
  have hmem : (Mkfs.slotVal s.disk 1 (i / 32), i % 32) ∈ allSlots s.image :=
    (mem_allSlots _ _).mpr ⟨1, (h.isDir_iff 1).mpr rfl,
      (h.mem_root_slots hlen _).mpr ⟨i / 32, i % 32, hj, ht, hs0, rfl⟩⟩
  have hc : List.countP
      (fun x => decide (x = (Mkfs.slotVal s.disk 1 (i / 32), i % 32))) (allSlots s.image) = 1 :=
    List.count_eq_one_of_mem (h.allSlots_nodup hlen) hmem
  unfold measuredLinks
  rw [← hc]
  apply List.countP_congr
  · intro e he
    obtain ⟨d, hd, hed⟩ := (mem_allSlots _ _).mp he
    have := (h.isDir_iff d).mp hd
    subst this
    obtain ⟨j, t, hj1, ht1, hne, rfl⟩ := (h.mem_root_slots hlen e).mp hed
    show decide (direntInum s.image (Mkfs.slotVal s.disk 1 j) t ≠ 0 ∧
        direntInum s.image (Mkfs.slotVal s.disk 1 j) t = i) = true ↔
      decide ((Mkfs.slotVal s.disk 1 j, t) = (Mkfs.slotVal s.disk 1 (i / 32), i % 32)) = true
    rw [decide_eq_true_iff, decide_eq_true_iff]
    constructor
    · rintro ⟨_, hre⟩
      rcases h.entry_cases hlen hj1 ht1 hne with ⟨_, c1, _⟩ | ⟨_, c1, _, _⟩ | ⟨_, _, c2, _, _⟩ |
        ⟨_, c1⟩
      · omega
      · omega
      · have : 32 * j + t = i := by rw [← c2]; exact hre
        have hj2 : j = i / 32 := by omega
        have ht2 : t = i % 32 := by omega
        rw [hj2, ht2]
      · omega
    · intro hee
      obtain ⟨hx, hy⟩ := Prod.mk.inj hee
      have hy2 : t = i % 32 := hy
      subst hy2
      have hjj : j = i / 32 := (h.inv.val_inj 1 j 1 (i / 32) (by decide) (by omega) (by decide)
        (by omega) hne hx).2
      subst hjj
      rcases h.entry_cases hlen hj ht hs0 with ⟨c0, _⟩ | ⟨c0, _⟩ | ⟨_, _, c2, _, _⟩ | ⟨c0, _⟩
      · omega
      · omega
      · rw [c2, hq]
        exact ⟨by omega, rfl⟩
      · omega

/-- The image laid out by `mkfs` for fewer than 199 files is accepted. -/
theorem Mkfs.laid_accepted {s : Mkfs.State} {ents : List (Nat × List Nat)}
    (h : Mkfs.Laid s ents) (hlen : ents.length ≤ 200)
    (hbm : ∀ k, k < 512 → s.disk (29696 + k) = Mkfs.ballocBytes s.freeblock k)
    (hfb : s.freeblock < 1000) : Xcheck.main s.image = .ok () := by
  obtain ⟨hsz, hn, _, _⟩ := Mkfs.image_sb h.inv
  have hds := Mkfs.image_data_start h.inv
  have h2 := h.two_le
  have hl : ents.length ≤ 208 := by omega
  have hfile : ∀ i, i < 200 → inodeType s.image i ≠ 0 → inodeType s.image i ≠ T_DIR →
      2 ≤ i ∧ i < ents.length := by
    intro i hi h0 hnd
    rw [h.types (show i < 208 by omega)] at h0 hnd
    by_cases h1 : i = 1
    · rw [if_pos h1] at hnd
      exact absurd rfl hnd
    · rw [if_neg h1] at h0
      by_contra hc
      rw [if_neg hc] at h0
      exact h0 rfl
  apply main_ok_of_facts
  · intro i hi
    rw [hn] at hi
    rw [h.types (show i < 208 by omega)]
    by_cases h1 : i = 1
    · rw [if_pos h1]
      exact Or.inr (Or.inr (Or.inl rfl))
    · rw [if_neg h1]
      by_cases hc : 2 ≤ i ∧ i < ents.length
      · rw [if_pos hc]
        exact Or.inr (Or.inl rfl)
      · rw [if_neg hc]
        exact Or.inl rfl
  · exact Mkfs.claimed_nodup h.inv
  · intro b hb
    rw [hds, hsz]
    exact Mkfs.claimed_ok h hbm hfb hb
  · refine ⟨by rw [hn]; decide, ?_⟩
    rw [h.types (by decide), if_pos rfl]
    decide
  · intro d hd
    have := (h.isDir_iff d).mp hd
    subst this
    obtain ⟨w1, w2, w3, w4⟩ := h.walk_facts hlen
    exact ⟨w1, w2, w3, fun _ => w4⟩
  · intro i _ hi ho
    rw [hn] at hi
    obtain ⟨g1, g2⟩ := hfile i hi ho.1.2 ho.2.1
    have := h.links hl g1 g2
    have := ho.2.2
    omega
  · intro j _ hj
    rw [hn] at hj
    constructor
    · intro hb
      obtain ⟨g1, g2⟩ := hfile j hj hb.1.2 (by rw [hb.2.1]; decide)
      apply hb.2.2
      rw [h.links hl g1 g2, Mkfs.image_nlink h.inv (show j < 208 by omega)]
      exact (h.files j g1 (by rw [h.fi]; exact g2)).2
    · intro hm
      exact hm.2.1 ((h.isDir_iff j).mp hm.1)
  · intro b hlo hhi hf
    rw [hds] at hlo
    rw [hsz] at hhi
    exact hf.2 (Mkfs.marked_claimed h hlen hbm hfb hlo hhi hf.1)

/-- What `mkfs` leaves without an error type: a laid-out file with one entry per input file
after `.` and `..`, the bitmap marking the blocks below `freeblock`. -/
theorem Mkfs.main_laid {files : List (List Nat × List Nat)} {img : Image}
    (hlen : files.length ≤ 206) (hnames : ∀ f ∈ files, Mkfs.plainName (Mkfs.nameOf f.1))
    (h : Mkfs.main files 0 = some img) :
    ∃ (s : Mkfs.State) (ents : List (Nat × List Nat)), img = s.image ∧ Mkfs.Laid s ents ∧
      ents.length = files.length + 2 ∧ s.freeblock < 1000 ∧
      ∀ k, k < 512 → s.disk (29696 + k) = Mkfs.ballocBytes s.freeblock k := by
  unfold Mkfs.main Mkfs.mainFrom at h
  rw [Mkfs.format_eq, if_neg (by decide)] at h
  cases hR : Mkfs.makeRoot 0 Mkfs.formatted with
  | none =>
    rw [hR] at h
    cases h
  | some rs =>
    obtain ⟨r, s1⟩ := rs
    rw [hR] at h
    simp only [] at h
    obtain ⟨hr, hG1⟩ := Mkfs.makeRoot_good hR
    subst hr
    cases hA : Mkfs.addFiles 0 1 files s1 with
    | none =>
      rw [hA] at h
      cases h
    | some s2 =>
      rw [hA] at h
      simp only [] at h
      obtain ⟨ents, hG2, hl2⟩ := Mkfs.addFiles_good files s1 s2 _ hG1
        (by show 2 + files.length ≤ 208; omega) hnames hA
      cases hF : Mkfs.finish 0 1 s2 with
      | none =>
        rw [hF] at h
        cases h
      | some s3 =>
        rw [hF] at h
        simp only [Option.some.injEq] at h
        obtain ⟨hL, hfb, hbm⟩ := Mkfs.finish_laid hG2 hF
        refine ⟨s3, ents, h.symm, hL, ?_, hfb, hbm⟩
        rw [hl2]
        show 2 + files.length = files.length + 2
        omega

/-- Without an error type, the image `mkfs` makes of at most 198 input files with plain names
is accepted by xcheck. -/
theorem Mkfs.generated_accepted {files : List (List Nat × List Nat)} {img : Image}
    (hlen : files.length ≤ 198) (hnames : ∀ f ∈ files, Mkfs.plainName (Mkfs.nameOf f.1))
    (h : Mkfs.main files 0 = some img) : Xcheck.main img = .ok () := by
  obtain ⟨s, ents, himg, hL, hl, hfb, hbm⟩ := Mkfs.main_laid (by omega) hnames h
  rw [himg]
  exact Mkfs.laid_accepted hL (by omega) hbm hfb

/-- A list with an element satisfying `P` splits at the first such element. -/
theorem exists_first_of_mem {α : Type} (P : α → Prop) [DecidablePred P] :
    ∀ l : List α, (∃ x ∈ l, P x) →
      ∃ pre e post, l = pre ++ e :: post ∧ P e ∧ ∀ x ∈ pre, ¬ P x := by
  intro l
  induction l with
  | nil =>
    rintro ⟨x, hx, _⟩
    cases hx
  | cons a l ih =>
    intro h
    by_cases ha : P a
    · exact ⟨[], a, l, rfl, ha, fun x hx => by cases hx⟩
    · obtain ⟨x, hx, hp⟩ := h
      have hxl : x ∈ l := by
        rcases List.mem_cons.mp hx with rfl | hm
        · exact absurd hp ha
        · exact hm
      obtain ⟨pre, e, post, hl, he, hpre⟩ := ih ⟨x, hxl, hp⟩
      refine ⟨a :: pre, e, post, by rw [hl]; rfl, he, ?_⟩
      intro y hy
      rcases List.mem_cons.mp hy with rfl | hm
      · exact ha
      · exact hpre y hm

/-- The walk stops with "inode referred to in directory but marked free" at an entry that
names no allocated inode, when the entries before it in its directory are sound and the
directories before it pass. -/
theorem main_dangling_of_entry {img : Image} {d : Nat} {pre post : List (Nat × Nat)}
    {e : Nat × Nat} {t0 t1 : Tables}
    (hscan : scanInodes img initTables = .ok t0) (hroot : allocated img ROOTINO)
    (hwalk : forLoop (walkInode img) (List.range d) t0 = .ok t1) (hd : isDir img d)
    (hslots : dirSlots img d = pre ++ e :: post)
    (hpre : ∀ x ∈ pre, direntInum img x.1 x.2 ≠ 0 →
      direntInum img x.1 x.2 < sb_ninodes img ∧ inodeType img (direntInum img x.1 x.2) ≠ 0 ∧
        (isDot img x.1 x.2 = true → direntInum img x.1 x.2 = d))
    (hnonfree : direntInum img e.1 e.2 ≠ 0)
    (hname : isDot img e.1 e.2 = true → direntInum img e.1 e.2 = d)
    (hdangling : direntInum img e.1 e.2 ≥ sb_ninodes img ∨
      inodeType img (direntInum img e.1 e.2) = 0) :
    main img = .error .DanglingReference := by
  have hI := scanInv_of_scanInodes hscan
  have hfr := walk_prefix_frame hwalk
  obtain ⟨s, hs, hfs⟩ := forLoop_passes (fun s : WalkState => Frame t1 s.t) pre
    (fun x hx s hq => by
      have hstep : ∃ s1, walkStep img d x s = .ok s1 := by
        unfold walkStep
        apply direntStep_passes s
        · intro h0 hdot
          exact (hpre x hx h0).2.2 hdot
        · intro h0
          exact (hpre x hx h0).1
        · intro h0
          rw [hq.1, hfr.1]
          exact (scanInv_used_iff hI _).mpr ⟨(hpre x hx h0).1, (hpre x hx h0).2.1⟩
      obtain ⟨s1, hs1⟩ := hstep
      refine ⟨s1, hs1, ?_⟩
      by_cases h0 : direntInum img x.1 x.2 = 0
      · unfold walkStep at hs1
        rw [direntStep_free s h0] at hs1
        simp only [Except.ok.injEq] at hs1
        subst hs1
        exact hq
      · unfold walkStep at hs1
        exact frame_trans hq (direntStep_ok h0 hs1).2.2.2.2.2.2)
    { dot_found := 0, dotdot_found := 0, t := t1 } (frame_refl t1)
  apply main_of_walk_error hscan hroot hwalk hd.1
  rw [walkInode_of_isDir hscan hwalk hd, walkBlocks_eq_slots, hslots, forLoop_append_ok hs]
  have hused : direntInum img e.1 e.2 ≥ sb_ninodes img ∨
      s.t.inode_used (direntInum img e.1 e.2) = 0 := by
    rcases hdangling with hge | hty
    · exact Or.inl hge
    · right
      rw [hfs.1, hfr.1]
      by_contra hne
      exact ((scanInv_used_iff hI _).mp hne).2 hty
  have : walkStep img d e s = .error .DanglingReference :=
    direntStep_dangling s hnonfree hname hused
  rw [forLoop_cons_error this]

/-- The image laid out by `mkfs` for 199 to 206 files is rejected: the entry of the 199th
file names inode 200, which the inode table of 200 inodes does not hold. -/
theorem Mkfs.laid_rejected {s : Mkfs.State} {ents : List (Nat × List Nat)}
    (h : Mkfs.Laid s ents) (hlo : 201 ≤ ents.length) (hlen : ents.length ≤ 208)
    (hbm : ∀ k, k < 512 → s.disk (29696 + k) = Mkfs.ballocBytes s.freeblock k)
    (hfb : s.freeblock < 1000) : Xcheck.main s.image = .error .DanglingReference := by
  obtain ⟨hsz, hn, _, _⟩ := Mkfs.image_sb h.inv
  have hds := Mkfs.image_data_start h.inv
  have htype : ∀ i, i < 200 → inodeType s.image i =
      if i = 1 then 1 else if 2 ≤ i ∧ i < ents.length then 2 else 0 :=
    fun i hi => h.types (show i < 208 by omega)
  obtain ⟨t0, ht0⟩ : ∃ t, scanInodes s.image initTables = .ok t := by
    rw [scanInodes_eq_events]
    apply run_events_ok
    · intro i hi
      have hi2 := (inode_mem_scanEvents s.image i).mp hi
      rw [hn] at hi2
      rw [htype i hi2]
      by_cases h1 : i = 1
      · rw [if_pos h1]
        exact Or.inr (Or.inr (Or.inl rfl))
      · rw [if_neg h1]
        by_cases hc : 2 ≤ i ∧ i < ents.length
        · rw [if_pos hc]
          exact Or.inr (Or.inl rfl)
        · rw [if_neg hc]
          exact Or.inl rfl
    · rw [taggedClaims_scanEvents]
      exact Mkfs.claimed_nodup h.inv
    · rw [taggedClaims_scanEvents]
      intro b hb
      rw [hds, hsz]
      exact Mkfs.claimed_ok h hbm hfb hb
  have hI := scanInv_of_scanInodes ht0
  have hroot : allocated s.image ROOTINO := by
    refine ⟨by rw [hn]; decide, ?_⟩
    rw [htype 1 (by decide), if_pos rfl]
    decide
  have hwalk : forLoop (walkInode s.image) (List.range 1) t0 = .ok t0 := by
    have h0 : walkInode s.image 0 t0 = .ok t0 := by
      unfold walkInode
      rw [if_neg]
      rintro ⟨hu, _⟩
      have := ((scanInv_used_iff hI 0).mp hu).2
      rw [htype 0 (by decide)] at this
      exact this rfl
    show forLoop (walkInode s.image) [0] t0 = .ok t0
    rw [forLoop_cons_ok h0]
    rfl
  have hd : isDir s.image 1 := (h.isDir_iff 1).mpr rfl
  have hs6 : Mkfs.slotVal s.disk 1 6 ≠ 0 := (h.dir.slots 6 (by decide)).mpr (by omega)
  have hbad : ∃ x ∈ dirSlots s.image 1,
      direntInum s.image x.1 x.2 ≠ 0 ∧ direntInum s.image x.1 x.2 ≥ 200 := by
    refine ⟨(Mkfs.slotVal s.disk 1 6, 8), (h.mem_root_slots hlen _).mpr
      ⟨6, 8, by decide, by decide, hs6, rfl⟩, ?_⟩
    rcases h.entry_cases hlen (show 6 < 12 by decide) (show 8 < 32 by decide) hs6 with
      ⟨c0, _⟩ | ⟨c0, _⟩ | ⟨_, _, c2, _, _⟩ | ⟨c0, _⟩
    · omega
    · omega
    · show direntInum s.image (Mkfs.slotVal s.disk 1 6) 8 ≠ 0 ∧
        direntInum s.image (Mkfs.slotVal s.disk 1 6) 8 ≥ 200
      rw [c2]
      exact ⟨by decide, by decide⟩
    · omega
  obtain ⟨pre, e, post, hsplit, ⟨he0, hege⟩, hpre⟩ := exists_first_of_mem
    (fun x : Nat × Nat => direntInum s.image x.1 x.2 ≠ 0 ∧ direntInum s.image x.1 x.2 ≥ 200)
    (dirSlots s.image 1) hbad
  have hmem : ∀ x, x ∈ pre ∨ x = e → x ∈ dirSlots s.image 1 := by
    intro x hx
    rw [hsplit]
    rcases hx with hx | hx
    · exact List.mem_append_left _ hx
    · rw [hx]
      exact List.mem_append_right _ (List.mem_cons_self _ _)
  refine main_dangling_of_entry ht0 hroot hwalk hd hsplit ?_ he0 ?_ (Or.inl (by rw [hn]; exact hege))
  · intro x hx h0
    have hlt : direntInum s.image x.1 x.2 < 200 := by
      by_contra hge
      exact hpre x hx ⟨h0, by omega⟩
    obtain ⟨j, t, hj, ht, hne, rfl⟩ := (h.mem_root_slots hlen x).mp (hmem x (Or.inl hx))
    rw [hn]
    refine ⟨hlt, ?_, ?_⟩
    · rcases h.entry_cases hlen hj ht hne with ⟨_, c1, _⟩ | ⟨_, c1, _, _⟩ | ⟨c0, c1, c2, _, _⟩ |
        ⟨_, c1⟩
      · show inodeType s.image (direntInum s.image (Mkfs.slotVal s.disk 1 j) t) ≠ 0
        rw [c1, htype 1 (by decide), if_pos rfl]
        decide
      · show inodeType s.image (direntInum s.image (Mkfs.slotVal s.disk 1 j) t) ≠ 0
        rw [c1, htype 1 (by decide), if_pos rfl]
        decide
      · have hlt2 : direntInum s.image (Mkfs.slotVal s.disk 1 j) t < 200 := hlt
        show inodeType s.image (direntInum s.image (Mkfs.slotVal s.disk 1 j) t) ≠ 0
        rw [c2] at hlt2 ⊢
        rw [htype _ hlt2, if_neg (by omega), if_pos ⟨c0, c1⟩]
        decide
      · exact absurd c1 h0
    · intro hdot
      rcases h.entry_cases hlen hj ht hne with ⟨_, c1, _⟩ | ⟨_, c1, _, _⟩ | ⟨_, _, _, c3, _⟩ |
        ⟨_, c1⟩
      · exact c1
      · exact c1
      · have hdot2 : isDot s.image (Mkfs.slotVal s.disk 1 j) t = true := hdot
        rw [c3] at hdot2
        cases hdot2
      · exact absurd c1 h0
  · intro hdot
    obtain ⟨j, t, hj, ht, hne, rfl⟩ := (h.mem_root_slots hlen e).mp (hmem e (Or.inr rfl))
    rcases h.entry_cases hlen hj ht hne with ⟨_, c1, _⟩ | ⟨_, c1, _, _⟩ | ⟨_, _, _, c3, _⟩ |
      ⟨_, c1⟩
    · exact c1
    · exact c1
    · have hdot2 : isDot s.image (Mkfs.slotVal s.disk 1 j) t = true := hdot
      rw [c3] at hdot2
      cases hdot2
    · exact absurd c1 he0

/-- Without an error type, the image `mkfs` makes of 199 to 206 input files with plain names
is rejected by xcheck: the root entry of the 199th file is dangling. -/
theorem Mkfs.generated_rejected {files : List (List Nat × List Nat)} {img : Image}
    (hlo : 199 ≤ files.length) (hlen : files.length ≤ 206)
    (hnames : ∀ f ∈ files, Mkfs.plainName (Mkfs.nameOf f.1))
    (h : Mkfs.main files 0 = some img) : Xcheck.main img = .error .DanglingReference := by
  obtain ⟨s, ents, himg, hL, hl, hfb, hbm⟩ := Mkfs.main_laid hlen hnames h
  rw [himg]
  exact Mkfs.laid_rejected hL (by omega) (by omega) hbm hfb

/-! ### Runs that complete -/

/-- An `iappend` into a direct block completes while a block is free; it takes at most one
block. -/
theorem Mkfs.iappend_direct_some {s : Mkfs.State} {c sz n : Nat} (p : Nat → Nat)
    (hs : Mkfs.Sized s) (hc : c < 208) (hsz : Mkfs.load32 s.disk (Mkfs.ioff c + 8) = sz)
    (hf : sz / 512 < 12) (hn : 0 < n) (hfit : n ≤ 512 - sz % 512) (hfb : s.freeblock < 1000)
    (hslot : Mkfs.load32 s.disk (Mkfs.ioff c + 12 + 4 * (sz / 512)) < 1000) :
    ∃ s1, Mkfs.iappend c p n s = some s1 ∧ s1.freeblock ≤ s.freeblock + 1 := by
  by_cases h0 : Mkfs.load32 s.disk (Mkfs.ioff c + 12 + 4 * (sz / 512)) = 0
  · have hloc : Mkfs.locate (Mkfs.load32 s.disk (Mkfs.ioff c + 8) / 512)
        (fun k => s.disk (Mkfs.ioff c + k)) s =
        some (Mkfs.store (fun k => s.disk (Mkfs.ioff c + k)) (12 + 4 * (sz / 512)) 4
            (Mkfs.xint s.freeblock), s.freeblock, { s with freeblock := s.freeblock + 1 }) := by
      rw [hsz, Mkfs.locate_fresh_direct hf _ (by omega)]
      rw [Mkfs.load32_shift, ← Nat.add_assoc]
      exact h0
    have hs1 : Mkfs.Sized { s with freeblock := s.freeblock + 1 } := hs
    have hor := Mkfs.iappend_or (p := p) hs (show c < 7744 by omega) hn
      (by rw [hsz]; exact hfit) (by rw [hsz]; omega) hloc hs1 (by omega) (by rw [hsz]; omega)
    rw [if_pos hfb] at hor
    exact ⟨_, hor, le_refl _⟩
  · have hloc : Mkfs.locate (Mkfs.load32 s.disk (Mkfs.ioff c + 8) / 512)
        (fun k => s.disk (Mkfs.ioff c + k)) s =
        some (fun k => s.disk (Mkfs.ioff c + k),
          Mkfs.load32 s.disk (Mkfs.ioff c + 12 + 4 * (sz / 512)), s) := by
      rw [hsz, Mkfs.locate_old_direct hf]
      · rw [Mkfs.load32_shift, ← Nat.add_assoc]
      · rw [Mkfs.load32_shift, ← Nat.add_assoc]
        exact h0
    have heq := Mkfs.iappend_eq (p := p) hs (show c < 7744 by omega) hn
      (by rw [hsz]; exact hfit) (by rw [hsz]; omega) hloc hs hslot (by rw [hsz]; omega)
    exact ⟨_, heq, Nat.le_succ _⟩

/-- An input file without content is added while a block is free. -/
theorem Mkfs.addFile_empty_some {s : Mkfs.State} {ents : List (Nat × List Nat)}
    (hG : Mkfs.Good s ents) (hfi : s.freeinode < 208) (hfb : s.freeblock < 1000)
    (arg : List Nat) :
    ∃ s1, Mkfs.addFile 0 1 (arg, []) s = some s1 ∧ s1.freeblock ≤ s.freeblock + 1 := by
  have hL := hG.laid
  have h := hL.inv
  have hs := h.sized
  have hio : ∀ i, Mkfs.ioff i = 16384 + 64 * i := fun _ => rfl
  have hlen := hL.fi
  have h2 := hL.two_le
  obtain ⟨c, hcdef⟩ : ∃ c, s.freeinode = c := ⟨_, rfl⟩
  have hc : c < 208 := by omega
  obtain ⟨sa, hsa⟩ : ∃ sa : Mkfs.State, sa =
      { s with disk := Mkfs.store s.disk (Mkfs.ioff s.freeinode) 64 (Mkfs.freshRecord T_FILE),
               freeinode := s.freeinode + 1 } := ⟨_, rfl⟩
  have hIa : Mkfs.Inv sa := by
    rw [hsa]
    exact h.ialloc hfi (by omega) T_FILE
  have hsa_fi : sa.freeinode = c + 1 := by rw [hsa, ← hcdef]
  have hsa_fb : sa.freeblock = s.freeblock := by rw [hsa]
  have hsa_out : ∀ a, (a < Mkfs.ioff c ∨ Mkfs.ioff c + 64 ≤ a) → sa.disk a = s.disk a := by
    intro a ha
    rw [hsa, hcdef]
    exact Mkfs.store_out ha
  have hsa_in : ∀ k, k < 64 → sa.disk (Mkfs.ioff c + k) = Mkfs.freshRecord T_FILE k := by
    intro k hk
    rw [hsa, hcdef]
    show Mkfs.store s.disk (Mkfs.ioff c) 64 _ (Mkfs.ioff c + k) = _
    rw [Mkfs.store_in (by omega) (by omega), Nat.add_sub_cancel_left]
  have hDa : Mkfs.Dir sa.disk ents := by
    refine hL.dir.congr ?_ ?_
    · intro j hj
      rw [hsa]
      exact Mkfs.slotVal_ialloc h hfi T_FILE (by decide) hj
    · intro j hj hne k hk
      have := (h.val_range 1 j (by decide) (by omega) hne).1
      have := hio c
      exact hsa_out _ (by omega)
  have hsza : Mkfs.load32 sa.disk (Mkfs.ioff 1 + 8) = 16 * ents.length := by
    rw [← hG.size]
    have := hio 1
    have := hio c
    exact Mkfs.load32_congr (fun k hk => hsa_out _ (by omega))
  have hslot : Mkfs.load32 sa.disk (Mkfs.ioff 1 + 12 + 4 * (16 * ents.length / 512)) < 1000 := by
    rw [← Mkfs.slotVal_low sa.disk 1 (show 16 * ents.length / 512 ≤ 12 by omega)]
    by_cases h0 : Mkfs.slotVal sa.disk 1 (16 * ents.length / 512) = 0
    · rw [h0]
      decide
    · have := (hIa.val_range 1 _ (by decide) (by omega) h0).2
      have := hIa.fb_hi
      omega
  obtain ⟨sb, hA, hfbb⟩ := Mkfs.iappend_direct_some (Mkfs.dirent c (Mkfs.nameOf arg))
    hIa.sized (show 1 < 208 by decide) hsza (by omega) (show 0 < 16 by decide) (by omega)
    (by rw [hsa_fb]; exact hfb) hslot
  obtain ⟨stb, _, _⟩ := Mkfs.dir_append hIa (by omega) hsza (by omega) hDa hA
  have hsb := stb.inv.sized
  have hc1 : (c : Nat) ≠ 1 := by omega
  have hrec : ∀ k, k < 64 → sb.disk (Mkfs.ioff c + k) = Mkfs.freshRecord T_FILE k := by
    intro k hk
    rw [stb.keeps.recs c hc hc1 k hk]
    exact hsa_in k hk
  have hput : sb.put (Mkfs.ioff c) 64
      (Mkfs.store (fun k => sb.disk (Mkfs.ioff c + k)) 6 2 (Mkfs.xshort 1)) = sb := by
    unfold Mkfs.State.put
    rw [Mkfs.put_record1 _ (fun k hk => rfl) (by decide),
      Mkfs.store_self (fun k hk => by
        rw [Nat.add_assoc, hrec _ (by omega)]
        exact (Mkfs.freshRecord_six T_FILE hk).symm)]
  refine ⟨sb, ?_, by rw [← hsa_fb]; exact hfbb⟩
  unfold Mkfs.addFile
  rw [Mkfs.ialloc_eq hs hfi]
  simp only []
  rw [← hsa, if_pos (by decide)]
  have hnm : (if arg.head? = some 95 then arg.tail else arg) = Mkfs.nameOf arg := rfl
  rw [hnm, hcdef, hA]
  simp only []
  rw [Mkfs.rinode_eq hsb (by omega)]
  simp only []
  rw [if_neg (by decide), Mkfs.winode_eq hsb (by omega), hput]
  simp only [List.length_nil, Mkfs.copyFile]
  rw [if_neg (by decide)]
  simp only []
  rw [if_neg (by decide)]
  simp only []
  rw [if_neg (by decide)]

/-- Input files without content are added while inodes and blocks last. -/
theorem Mkfs.addFiles_empty_some :
    ∀ (files : List (List Nat × List Nat)) (s : Mkfs.State) (ents : List (Nat × List Nat)),
      Mkfs.Good s ents → ents.length + files.length ≤ 208 →
      s.freeblock + files.length ≤ 1000 →
      (∀ f ∈ files, f.2 = [] ∧ Mkfs.plainName (Mkfs.nameOf f.1)) →
      ∃ s1, Mkfs.addFiles 0 1 files s = some s1 ∧
        s1.freeblock ≤ s.freeblock + files.length := by
  intro files
  induction files with
  | nil =>
    intro s ents _ _ _ _
    exact ⟨s, rfl, le_refl _⟩
  | cons f rest ih =>
    intro s ents hG hlen hfb hfiles
    have hl : (f :: rest).length = rest.length + 1 := rfl
    rw [hl] at hlen hfb ⊢
    obtain ⟨arg, content⟩ := f
    obtain ⟨hcont, hplain⟩ := hfiles (arg, content) (List.mem_cons_self _ _)
    have hcont2 : content = [] := hcont
    subst hcont2
    have hfi : s.freeinode < 208 := by
      rw [hG.laid.fi]
      omega
    obtain ⟨s2, hA, hfb2⟩ := Mkfs.addFile_empty_some hG hfi (by omega) arg
    have hG2 := Mkfs.addFile_good hG hfi hplain hA
    obtain ⟨s1, hR, hfb1⟩ := ih s2 _ hG2
      (by rw [List.length_append, List.length_singleton]; omega) (by omega)
      (fun g hg => hfiles g (List.mem_cons_of_mem _ hg))
    refine ⟨s1, ?_, by omega⟩
    rw [Mkfs.addFiles, hA]
    exact hR

theorem Mkfs.makeRoot_some :
    (Mkfs.makeRoot 0 Mkfs.formatted).map (fun p => (p.1, p.2.freeblock)) = some (1, 60) := by
  decide!

theorem Mkfs.finish_some {s : Mkfs.State} {ents : List (Nat × List Nat)}
    (hG : Mkfs.Good s ents) (hfb : s.freeblock < 1000) :
    ∃ s1, Mkfs.finish 0 1 s = some s1 := by
  have hs := hG.laid.inv.sized
  have hs3 : Mkfs.Sized
      { s with disk := Mkfs.store s.disk (Mkfs.ioff 1 + 8) 4 (Mkfs.xint (Mkfs.roundedSize s.disk)) } :=
    hs
  unfold Mkfs.finish
  rw [if_neg (by decide)]
  simp only []
  rw [if_neg (by decide)]
  simp only []
  rw [Mkfs.fixRootSize_eq hs]
  simp only []
  rw [if_neg (by decide)]
  simp only []
  rw [if_neg (by decide)]
  simp only []
  rw [Mkfs.balloc_eq hs3 (show s.freeblock < 1000 from hfb)]
  simp only []
  rw [if_neg (by decide)]
  simp only []
  rw [if_neg (by decide)]
  exact ⟨_, rfl⟩

/-- Without an error type `mkfs` runs to completion on up to 206 input files without
content. -/
theorem Mkfs.main_empty_some {files : List (List Nat × List Nat)} (hlen : files.length ≤ 206)
    (hfiles : ∀ f ∈ files, f.2 = [] ∧ Mkfs.plainName (Mkfs.nameOf f.1)) :
    ∃ img, Mkfs.main files 0 = some img := by
  unfold Mkfs.main Mkfs.mainFrom
  rw [Mkfs.format_eq, if_neg (by decide)]
  have hm := Mkfs.makeRoot_some
  cases hR : Mkfs.makeRoot 0 Mkfs.formatted with
  | none =>
    rw [hR] at hm
    cases hm
  | some rs =>
    obtain ⟨r, s1⟩ := rs
    rw [hR] at hm
    simp only [Option.map_some', Option.some.injEq, Prod.mk.injEq] at hm
    obtain ⟨hr, hfb1⟩ := hm
    subst hr
    obtain ⟨_, hG1⟩ := Mkfs.makeRoot_good hR
    obtain ⟨s2, hA, hfb2⟩ := Mkfs.addFiles_empty_some files s1 _ hG1
      (by show 2 + files.length ≤ 208; omega) (by omega) hfiles
    obtain ⟨ents, hG2, _⟩ := Mkfs.addFiles_good files s1 s2 _ hG1
      (by show 2 + files.length ≤ 208; omega) (fun f hf => (hfiles f hf).2) hA
    obtain ⟨s3, hF⟩ := Mkfs.finish_some hG2 (by omega)
    simp only []
    rw [hA]
    simp only []
    rw [hF]
    exact ⟨_, rfl⟩

theorem Mkfs.manyFiles_rejected :
    checkGenerated Mkfs.manyFiles 0 = some (.error .DanglingReference) := by
  have hmem : ∀ f ∈ Mkfs.manyFiles, f.2 = [] ∧ Mkfs.plainName (Mkfs.nameOf f.1) := by
    intro f hf
    have := List.eq_of_mem_replicate hf
    subst this
    exact ⟨rfl, by decide⟩
  have hlen : Mkfs.manyFiles.length = 199 := List.length_replicate _ _
  obtain ⟨img, himg⟩ := Mkfs.main_empty_some (by rw [hlen]; decide) hmem
  unfold checkGenerated
  rw [himg]
  show some (Xcheck.main img) = _
  rw [Mkfs.generated_rejected (by rw [hlen]) (by rw [hlen]; decide) (fun f hf => (hmem f hf).2)
    himg]

/-- The image of a run that completes. -/
theorem Mkfs.main_generated {files : List (List Nat × List Nat)} {create_error : Nat}
    (h : (Mkfs.main files create_error).isSome = true) :
    Mkfs.main files create_error = some (Mkfs.generated files create_error) := by
  unfold Mkfs.generated
  cases hm : Mkfs.main files create_error with
  | none =>
    rw [hm] at h
    cases h
  | some img => rfl

/-! ## The outcome depends only on the bytes the run reads -/

end Xcheck

namespace Xcheck

/-! ## The claims -/

/-- C1: on every image that xcheck accepts, each block has at most one claimant — the
non-zero direct slots, non-zero indirect slots and non-zero indirect-block entries of all
allocated inodes, listed slot by slot, contain no block number twice. -/
theorem C1_claims_pairwise_distinct (img : Image) (h : main img = .ok ()) :
    (claimedBlocks img).Nodup := by
  obtain ⟨t, t1, hs, _, _, _, _, _⟩ := main_ok_phases h
  have hI := scanInv_of_scanInodes hs
  rw [← taggedClaims_scanEvents]
  exact hI.nodup

theorem C1_claims_pairwise_distinct_witness :
    main imgRootOnly = .ok () ∧ (claimedBlocks imgRootOnly).Nodup :=
  ⟨by decide!, C1_claims_pairwise_distinct imgRootOnly (by decide!)⟩

/-- C2: on every image that xcheck accepts, for every block number `b` from the start of the
data blocks (as the program computes it, and a fortiori from `bmapstart + ceil(size/4096)`)
up to `size`, the bitmap bit of `b` is set if and only if some allocated inode claims `b`
through a direct slot, its indirect slot or an entry of its indirect block. -/
theorem C2_bitmap_iff_claimed (img : Image) (h : main img = .ok ()) :
    (∀ b, data_block_start img ≤ b → b < sb_size img →
      (block_is_marked img b ≠ 0 ↔ ∃ inum, allocated img inum ∧ b ∈ inodeBlocks img inum)) ∧
    (∀ b, sb_bmapstart img + (sb_size img + (BPB - 1)) / BPB ≤ b → b < sb_size img →
      (block_is_marked img b ≠ 0 ↔ ∃ inum, allocated img inum ∧ b ∈ inodeBlocks img inum)) := by
  obtain ⟨t, t1, hs, _, hw, _, _, hb⟩ := main_ok_phases h
  have hI := scanInv_of_scanInodes hs
  have hfr := (walkInodes_ok hw).2
  have key : ∀ b, data_block_start img ≤ b → b < sb_size img →
      (block_is_marked img b ≠ 0 ↔ ∃ inum, allocated img inum ∧ b ∈ inodeBlocks img inum) := by
    intro b hlo hhi
    rw [← mem_claimedBlocks, ← taggedClaims_scanEvents]
    constructor
    · intro hm
      have hu := sweepMarked_ok (bitmapSweeps_ok hb) b ((mem_sweepRange img b).mpr ⟨hlo, hhi⟩) hm
      rw [hfr.2.2.2.1] at hu
      exact (hI.used_iff b).mp hu
    · intro hmem
      obtain ⟨⟨k, b2⟩, hkb, hb2⟩ := List.mem_map.mp hmem
      simp only at hb2
      subst hb2
      exact (hI.claim_ok k b2 hkb).2.2.2
  exact ⟨key, fun b hlo hhi => key b (le_trans (data_block_start_le img) hlo) hhi⟩

theorem C2_bitmap_iff_claimed_witness :
    main imgRootOnly = .ok () ∧
      (block_is_marked imgRootOnly 4 ≠ 0 ↔
        ∃ inum, allocated imgRootOnly inum ∧ 4 ∈ inodeBlocks imgRootOnly inum) :=
  ⟨by decide!, (C2_bitmap_iff_claimed imgRootOnly (by decide!)).1 4 (by decide!) (by decide!)⟩

/-- C3: if the events before a non-zero direct slot all pass and the slot's value `a` has
`a < data_block_start` or `a >= size`, xcheck fails with "bad direct address in inode"; if
the event is a non-zero indirect slot or indirect-block entry, it fails with "bad indirect
address in inode".  The range accepted is exactly `data_block_start <= a < size`: a claim is
refused for its address precisely outside it, `a = size` is refused, and
`a = data_block_start` is accepted whenever it is below `size`. -/
theorem C3_bad_address (img : Image) :
    (∀ pre post a, scanEvents img = pre ++ ScanEvent.claim DIRECT a :: post →
      passes (forLoop (scanStep img) pre initTables) = true →
      (a < data_block_start img ∨ a ≥ sb_size img) →
      main img = .error .BadAddressDirect) ∧
    (∀ pre post a, scanEvents img = pre ++ ScanEvent.claim INDIRECT a :: post →
      passes (forLoop (scanStep img) pre initTables) = true →
      (a < data_block_start img ∨ a ≥ sb_size img) →
      main img = .error .BadAddressIndirect) ∧
    (∀ kind a t, (claimBlock img kind a t = .error .BadAddressDirect ∨
        claimBlock img kind a t = .error .BadAddressIndirect) ↔
      ¬ (data_block_start img ≤ a ∧ a < sb_size img)) ∧
    (∀ t, claimBlock img DIRECT (sb_size img) t = .error .BadAddressDirect) ∧
    (∀ t, claimBlock img INDIRECT (sb_size img) t = .error .BadAddressIndirect) ∧
    (∀ kind t, data_block_start img < sb_size img →
      claimBlock img kind (data_block_start img) t ≠ .error .BadAddressDirect ∧
      claimBlock img kind (data_block_start img) t ≠ .error .BadAddressIndirect) := by
  have hiff : ∀ kind a t, (claimBlock img kind a t = .error .BadAddressDirect ∨
        claimBlock img kind a t = .error .BadAddressIndirect) ↔
      ¬ (data_block_start img ≤ a ∧ a < sb_size img) := by
    intro kind a t
    unfold claimBlock
    by_cases h1 : a < data_block_start img ∨ a ≥ sb_size img
    · rw [if_pos h1]
      have hn : ¬ (data_block_start img ≤ a ∧ a < sb_size img) := by omega
      by_cases hk : kind = DIRECT
      · simp [hk, hn]
      · simp [hk, hn]
    · rw [if_neg h1]
      have hn : data_block_start img ≤ a ∧ a < sb_size img := by omega
      by_cases h2 : t.block_used a ≠ 0
      · rw [if_pos h2]
        by_cases hk : t.block_type a = DIRECT
        · simp [hk, hn]
        · simp [hk, hn]
      · rw [if_neg h2]
        by_cases h3 : block_is_marked img a = 0
        · simp [h3, hn]
        · simp [h3, hn]
  refine ⟨?_, ?_, hiff, ?_, ?_, ?_⟩
  · intro pre post a hev hrun hbad
    obtain ⟨t, ht⟩ := (passes_iff _).mp hrun
    apply main_of_event_error hev ht
    simp only [scanStep, claimBlock, if_pos hbad, if_true]
  · intro pre post a hev hrun hbad
    obtain ⟨t, ht⟩ := (passes_iff _).mp hrun
    apply main_of_event_error hev ht
    simp only [scanStep, claimBlock, if_pos hbad]
    rfl
  · intro t
    simp [claimBlock]
  · intro t
    simp [claimBlock]
  · intro kind t hlt
    have := (hiff kind (data_block_start img) t).not.mpr (by simpa using hlt)
    push_neg at this
    exact this

theorem C3_bad_address_witness :
    main imgBadDirect = .error .BadAddressDirect ∧
      main imgBadIndirect = .error .BadAddressIndirect ∧
      (claimBlock imgRootOnly DIRECT (data_block_start imgRootOnly) initTables ≠
          .error .BadAddressDirect ∧
        claimBlock imgRootOnly DIRECT (data_block_start imgRootOnly) initTables ≠
          .error .BadAddressIndirect) :=
  ⟨(C3_bad_address imgBadDirect).1 [.inode 0, .inode 1] [.inode 2, .inode 3] 9
      (by decide!) (by decide!) (by decide!),
   (C3_bad_address imgBadIndirect).2.1
      [.inode 0, .inode 1, .claim DIRECT 4, .claim INDIRECT 5] [.inode 2, .inode 3] 9
      (by decide!) (by decide!) (by decide!),
   (C3_bad_address imgRootOnly).2.2.2.2.2 DIRECT initTables (by decide!)⟩

/-- C4: an image in which some inode below `ninodes` has a type field outside
`{0, 1, 2, 3}` is never accepted; and when every claim of the inodes with a smaller index
passes its checks once reached, the outcome is exactly "bad inode". -/
theorem C4_bad_inode_type (img : Image) (k : Nat) (hk : k < sb_ninodes img)
    (hbad : inodeType img k ≠ 0 ∧ inodeType img k ≠ T_FILE ∧ inodeType img k ≠ T_DIR ∧
      inodeType img k ≠ T_DEV) :
    main img ≠ .ok () ∧
    ((∀ pre post kind a t,
        (List.range k).flatMap (inodeEvents img) = pre ++ ScanEvent.claim kind a :: post →
        forLoop (scanStep img) pre initTables = .ok t →
        passes (claimBlock img kind a t) = true) →
      main img = .error .BadInodeType) := by
  constructor
  · intro h
    obtain ⟨t, t1, hs, _, _, _, _, _⟩ := main_ok_phases h
    have hI := scanInv_of_scanInodes hs
    have := hI.type_ok k ((inode_mem_scanEvents img k).mpr hk)
    omega
  · intro H
    obtain ⟨rest, hsplit⟩ := scanEvents_split img hk
    rcases run_ok_or_badType img _ H with ⟨t, ht⟩ | herr
    · apply main_of_event_error hsplit ht
      simp only [scanStep, if_pos hbad]
    · apply main_of_scan_error
      rw [scanInodes_eq_events, hsplit]
      exact forLoop_append_error herr _

theorem C4_bad_inode_type_witness :
    main imgBadType ≠ .ok () ∧ main imgBadType = .error .BadInodeType := by
  have h := C4_bad_inode_type imgBadType 2 (by decide!) (by decide!)
  refine ⟨h.1, h.2 ?_⟩
  intro pre post kind a t hev hrun
  have hE : (List.range 2).flatMap (inodeEvents imgBadType) =
      [.inode 0, .inode 1, .claim DIRECT 4] := by decide!
  rw [hE] at hev
  have hlen := congrArg List.length hev
  simp only [List.length_cons, List.length_nil, List.length_append] at hlen
  match pre, hev, hrun, hlen with
  | [], hev, _, _ => simp at hev
  | [_], hev, _, _ => simp at hev
  | [e0, e1], hev, hrun, _ =>
    simp only [List.cons_append, List.nil_append, List.cons.injEq, ScanEvent.claim.injEq] at hev
    obtain ⟨rfl, rfl, ⟨rfl, rfl⟩, _⟩ := hev
    have hrun2 : t = markInode imgBadType 1 initTables := by
      have h0 : scanStep imgBadType (.inode 0) initTables = .ok initTables := by
        simp only [scanStep]
        rw [if_neg (by decide!), if_neg (by decide!)]
      have h1 : scanStep imgBadType (.inode 1) initTables =
          .ok (markInode imgBadType 1 initTables) := by
        simp only [scanStep]
        rw [if_neg (by decide!), if_pos (by decide!)]
      rw [forLoop_cons_ok h0, forLoop_cons_ok h1, forLoop_nil] at hrun
      exact (Except.ok.inj hrun).symm
    subst hrun2
    decide!
  | _ :: _ :: _ :: _, _, _, hlen =>
    simp only [List.length_cons] at hlen
    omega

/-- C5: when the events before a claim all pass and the claimed address, in range, was
already claimed by one of them with tag `k0`, xcheck fails with the duplicate diagnostic of
that earlier claim: "direct address used more than once" if `k0` is `DIRECT` (a direct slot),
"indirect address used more than once" otherwise (an indirect slot or an indirect-block
entry) — whatever the kind of the later claim. -/
theorem C5_duplicate_tag (img : Image) (pre post : List ScanEvent) (kind a k0 : Nat)
    (hev : scanEvents img = pre ++ ScanEvent.claim kind a :: post)
    (hrun : passes (forLoop (scanStep img) pre initTables) = true)
    (hrange : data_block_start img ≤ a ∧ a < sb_size img)
    (hold : (k0, a) ∈ taggedClaims pre) :
    main img = .error (if k0 = DIRECT then .DuplicateDirect else .DuplicateIndirect) := by
  obtain ⟨t, ht⟩ := (passes_iff _).mp hrun
  have hI := scanInv_of_run img pre t ht
  have hty := (hI.claim_ok k0 a hold).1
  have hused : t.block_used a ≠ 0 :=
    (hI.used_iff a).mpr (List.mem_map.mpr ⟨(k0, a), hold, rfl⟩)
  apply main_of_event_error hev ht
  have hr : ¬ (a < data_block_start img ∨ a ≥ sb_size img) := by omega
  simp only [scanStep, claimBlock, if_neg hr, if_pos hused, hty]

theorem C5_duplicate_tag_witness : main imgDupDirect = .error .DuplicateDirect :=
  C5_duplicate_tag imgDupDirect [.inode 0, .inode 1, .claim DIRECT 4, .inode 2]
    [.inode 3] DIRECT 4 DIRECT (by decide!) (by decide!) (by decide!) (by decide!)

/-- C6 (the code departs from it): the image `imgRootIsFile` has `ninodes = 4 > 1`, its
inode 1 is a regular file, and xcheck accepts it: the root check only tests that inode 1 is
allocated, and the `..` test of the root is made only when inode 1 is a directory. -/
theorem C6_root_file_accepted :
    sb_ninodes imgRootIsFile > 1 ∧ main imgRootIsFile = .ok () ∧
      inodeType imgRootIsFile ROOTINO = T_FILE ∧ ¬ isDir imgRootIsFile ROOTINO := by
  decide!

/-- C7 as stated fails: `imgTwoDots` is accepted although its root directory holds two
non-free entries named `.` and two named `..`. -/
theorem C7_counterexample :
    main imgTwoDots = .ok () ∧ isDir imgTwoDots 1 ∧
      countSlots imgTwoDots 1 (fun e => decide (dotEntry imgTwoDots e)) = 2 ∧
      countSlots imgTwoDots 1 (fun e => decide (dotdotEntry imgTwoDots e)) = 2 := by
  decide!

/-- C7 (amended): on every image that xcheck accepts, the content of every allocated
directory inode contains at least one non-free entry named `.` (exactly one when the
directory's index is 2 or more, where the link-count test applies), every non-free entry
named `.` references the directory itself, and there is at least one non-free entry named
`..`. -/
theorem C7_dot_and_dotdot_present (img : Image) (h : main img = .ok ()) (d : Nat)
    (hd : isDir img d) :
    (∃ e ∈ dirSlots img d, dotEntry img e) ∧
    (∀ e ∈ dirSlots img d, dotEntry img e → direntInum img e.1 e.2 = d) ∧
    (∃ e ∈ dirSlots img d, dotdotEntry img e) ∧
    (2 ≤ d → countSlots img d (fun e => decide (dotEntry img e)) = 1) := by
  obtain ⟨t, t1, hs, _, hw, _, hc, _⟩ := main_ok_phases h
  have hI := scanInv_of_scanInodes hs
  obtain ⟨hu, hty⟩ := scanInv_isDir hI hd
  obtain ⟨hent, hdot, hdotdot, _⟩ := (walkInodes_ok hw).1 d hd.1 hu hty
  refine ⟨hdot, fun e he hde => (hent e he hde.1).2.2 hde.2, hdotdot, ?_⟩
  intro hd2
  obtain ⟨hfr, hlink, _⟩ := walk_counts hs hw
  have hbody := refCountCheck_ok hc d (by omega) hd.1
  have hu1 : t1.inode_used d ≠ 0 := by rw [hfr.1]; exact hu
  have hty1 : t1.inode_type d = T_DIR := by rw [hfr.2.1]; exact hty
  have hle : t1.inode_linkcount d ≤ 1 := by
    unfold refCountBody at hbody
    rw [if_pos hu1, if_neg (by rw [hty1]; decide), if_pos hty1] at hbody
    by_contra hgt
    have hcond : d ≠ ROOTINO ∧ t1.inode_linkcount d > 1 := ⟨by show d ≠ 1; omega, by omega⟩
    rw [if_pos hcond] at hbody
    cases hbody
  have hml : t1.inode_linkcount d = measuredLinks img d := by
    rw [hlink d, if_pos (Or.inr hty)]
  obtain ⟨A, B, hAB⟩ := allSlots_split img hd
  have h1 : (dirSlots img d).countP (refersTo img d) ≤ measuredLinks img d := by
    unfold measuredLinks
    rw [hAB, List.countP_append, List.countP_append]
    omega
  have h2 : countSlots img d (fun e => decide (dotEntry img e)) ≤
      (dirSlots img d).countP (refersTo img d) := by
    unfold countSlots
    apply List.countP_mono_left
    intro e he hp
    have hde : dotEntry img e := of_decide_eq_true hp
    exact decide_eq_true ⟨hde.1, (hent e he hde.1).2.2 hde.2⟩
  have h3 : 0 < countSlots img d (fun e => decide (dotEntry img e)) := by
    obtain ⟨e, he, hde⟩ := hdot
    exact List.countP_pos_iff.mpr ⟨e, he, decide_eq_true hde⟩
  omega

theorem C7_dot_and_dotdot_present_witness :
    (∃ e ∈ dirSlots imgTwoDirs 2, dotEntry imgTwoDirs e) ∧
      direntInum imgTwoDirs 5 0 = 2 ∧
      (∃ e ∈ dirSlots imgTwoDirs 2, dotdotEntry imgTwoDirs e) ∧
      countSlots imgTwoDirs 2 (fun e => decide (dotEntry imgTwoDirs e)) = 1 :=
  ⟨(C7_dot_and_dotdot_present imgTwoDirs (by decide!) 2 (by decide!)).1,
   (C7_dot_and_dotdot_present imgTwoDirs (by decide!) 2 (by decide!)).2.1 (5, 0)
      (by decide!) (by decide!),
   (C7_dot_and_dotdot_present imgTwoDirs (by decide!) 2 (by decide!)).2.2.1,
   (C7_dot_and_dotdot_present imgTwoDirs (by decide!) 2 (by decide!)).2.2.2 (by decide)⟩

/-- C8: an image in which some allocated directory inode has no non-free entry named `.`,
or none named `..`, in any of its blocks is never accepted; if moreover the scanner passes,
inode 1 is allocated, the directories before it pass the walk and all its own entries pass
the entry checks, the outcome is "directory not properly formatted".  In particular a
directory without any content block is rejected. -/
theorem C8_missing_dot_or_dotdot (img : Image) (d : Nat) (hd : isDir img d) :
    (((∀ e ∈ dirSlots img d, ¬ dotEntry img e) ∨ (∀ e ∈ dirSlots img d, ¬ dotdotEntry img e)) →
      main img ≠ .ok () ∧
      ∀ t0 t1 s, scanInodes img initTables = .ok t0 → allocated img ROOTINO →
        forLoop (walkInode img) (List.range d) t0 = .ok t1 →
        walkBlocks img d t1 = .ok s → main img = .error .DirFormatError) ∧
    (contentBlocks img d = [] → main img ≠ .ok ()) := by
  have part1 : ((∀ e ∈ dirSlots img d, ¬ dotEntry img e) ∨
      (∀ e ∈ dirSlots img d, ¬ dotdotEntry img e)) → main img ≠ .ok () := by
    intro hmiss h
    obtain ⟨t, _, hF⟩ := dirFacts_of_ok h
    obtain ⟨_, ⟨e1, he1, hd1⟩, ⟨e2, he2, hd2⟩, _⟩ := hF d hd
    rcases hmiss with hm | hm
    · exact hm e1 he1 hd1
    · exact hm e2 he2 hd2
  refine ⟨fun hmiss => ⟨part1 hmiss, ?_⟩, ?_⟩
  · intro t0 t1 s hscan hroot hwalk hblocks
    apply main_of_walk_error hscan hroot hwalk hd.1
    rw [walkInode_of_isDir hscan hwalk hd, hblocks]
    simp only []
    have hI := dirInv_of_run img d t1 _ s (by rw [← walkBlocks_eq_slots]; exact hblocks)
    have hflags : s.dot_found = 0 ∨ s.dotdot_found = 0 := by
      rcases hmiss with hm | hm
      · left
        by_contra hc
        obtain ⟨e, he, hde⟩ := hI.dot_iff.mp hc
        exact hm e he hde
      · right
        by_contra hc
        obtain ⟨e, he, hde⟩ := hI.dotdot_iff.mp hc
        exact hm e he hde
    rw [if_pos hflags]
  · intro hempty
    apply part1
    left
    intro e he
    unfold dirSlots at he
    rw [hempty] at he
    simp at he

theorem C8_missing_dot_or_dotdot_witness :
    main imgNoDots ≠ .ok () ∧ main imgNoDots = .error .DirFormatError ∧
      contentBlocks imgNoDots 1 = [] ∧ main imgNoDots ≠ .ok () := by
  have h := (C8_missing_dot_or_dotdot imgNoDots 1 (by decide!)).1 (Or.inl (by decide!))
  refine ⟨h.1, h.2 (getOk (scanInodes imgNoDots initTables) initTables)
    (getOk (forLoop (walkInode imgNoDots) (List.range 1)
      (getOk (scanInodes imgNoDots initTables) initTables)) initTables)
    (getOk (walkBlocks imgNoDots 1 (getOk (forLoop (walkInode imgNoDots) (List.range 1)
      (getOk (scanInodes imgNoDots initTables) initTables)) initTables))
      { dot_found := 0, dotdot_found := 0, t := initTables })
    (eq_ok_getOk _ (by decide!)) (by decide!) (eq_ok_getOk _ (by decide!))
    (eq_ok_getOk _ (by decide!)), by decide!,
    (C8_missing_dot_or_dotdot imgNoDots 1 (by decide!)).2 (by decide!)⟩

/-- C9: on every image that xcheck accepts, every non-free directory entry in every block of
every allocated directory inode references an inode number below `ninodes` whose type is not
0. -/
theorem C9_no_dangling_entry (img : Image) (h : main img = .ok ()) (d : Nat) (hd : isDir img d)
    (e : Nat × Nat) (he : e ∈ dirSlots img d) (hnonfree : direntInum img e.1 e.2 ≠ 0) :
    direntInum img e.1 e.2 < sb_ninodes img ∧ inodeType img (direntInum img e.1 e.2) ≠ 0 := by
  obtain ⟨t, hI, hF⟩ := dirFacts_of_ok h
  obtain ⟨hlt, hused, _⟩ := (hF d hd).1 e he hnonfree
  exact ⟨hlt, ((scanInv_used_iff hI _).mp hused).2⟩

theorem C9_no_dangling_entry_witness :
    direntInum imgRootOnly 4 1 < sb_ninodes imgRootOnly ∧
      inodeType imgRootOnly (direntInum imgRootOnly 4 1) ≠ 0 :=
  C9_no_dangling_entry imgRootOnly (by decide!) 1 (by decide!) (4, 1) (by decide!) (by decide!)

/-- C10 as stated fails: in `imgDotDangling` the first entry of the root directory is
non-free, is named `.` and names inode 3, which is unallocated and is not the directory;
the outcome is "directory not properly formatted", not "inode referred to in directory but
marked free". -/
theorem C10_counterexample :
    isDir imgDotDangling 1 ∧ dirSlots imgDotDangling 1 = (4, 0) :: (dirSlots imgDotDangling 1).tail ∧
      direntInum imgDotDangling 4 0 = 3 ∧ isDot imgDotDangling 4 0 = true ∧
      inodeType imgDotDangling 3 = 0 ∧
      main imgDotDangling = .error .DirFormatError ∧
      main imgDotDangling ≠ .error .DanglingReference := by
  decide!

/-- C10 (amended): for a non-free directory entry that the walk reaches without an earlier
failure and whose inode number is `>= ninodes` or names an unallocated inode, the outcome is
"inode referred to in directory but marked free" whatever the entry's name, except when the
entry is named `.` and its inode number is not the directory's own: the `.` self-reference
check comes first and the outcome is then "directory not properly formatted". -/
theorem C10_dangling_reference (img : Image) (d : Nat) (pre post : List (Nat × Nat))
    (e : Nat × Nat) (t0 t1 : Tables) (s : WalkState)
    (hscan : scanInodes img initTables = .ok t0) (hroot : allocated img ROOTINO)
    (hwalk : forLoop (walkInode img) (List.range d) t0 = .ok t1) (hd : isDir img d)
    (hslots : dirSlots img d = pre ++ e :: post)
    (hpre : forLoop (walkStep img d) pre { dot_found := 0, dotdot_found := 0, t := t1 } = .ok s)
    (hnonfree : direntInum img e.1 e.2 ≠ 0)
    (hdangling : direntInum img e.1 e.2 ≥ sb_ninodes img ∨
      inodeType img (direntInum img e.1 e.2) = 0) :
    main img = .error (if isDot img e.1 e.2 = true ∧ direntInum img e.1 e.2 ≠ d
      then .DirFormatError else .DanglingReference) := by
  apply main_of_walk_error hscan hroot hwalk hd.1
  rw [walkInode_of_isDir hscan hwalk hd, walkBlocks_eq_slots, hslots, forLoop_append_ok hpre]
  have hI := scanInv_of_scanInodes hscan
  have hfr := walk_prefix_frame hwalk
  have hIs := dirInv_of_run img d t1 pre s hpre
  by_cases hc : isDot img e.1 e.2 = true ∧ direntInum img e.1 e.2 ≠ d
  · rw [if_pos hc]
    have : walkStep img d e s = .error .DirFormatError := direntStep_dot_mismatch s hnonfree hc.1 hc.2
    rw [forLoop_cons_error this]
  · rw [if_neg hc]
    have hused : direntInum img e.1 e.2 ≥ sb_ninodes img ∨
        s.t.inode_used (direntInum img e.1 e.2) = 0 := by
      rcases hdangling with hge | hty
      · exact Or.inl hge
      · right
        rw [hIs.frame.1, hfr.1]
        by_contra hne
        exact ((scanInv_used_iff hI _).mp hne).2 hty
    have : walkStep img d e s = .error .DanglingReference :=
      direntStep_dangling s hnonfree (fun hdot => by
        by_contra hne
        exact hc ⟨hdot, hne⟩) hused
    rw [forLoop_cons_error this]

theorem C10_dangling_reference_witness : main imgDangling = .error .DanglingReference :=
  C10_dangling_reference imgDangling 1 [(4, 0), (4, 1)] ((dirSlots imgDangling 1).drop 3) (4, 2)
    (getOk (scanInodes imgDangling initTables) initTables)
    (getOk (forLoop (walkInode imgDangling) (List.range 1)
      (getOk (scanInodes imgDangling initTables) initTables)) initTables)
    (getOk (forLoop (walkStep imgDangling 1) [(4, 0), (4, 1)]
      { dot_found := 0, dotdot_found := 0,
        t := getOk (forLoop (walkInode imgDangling) (List.range 1)
          (getOk (scanInodes imgDangling initTables) initTables)) initTables })
      { dot_found := 0, dotdot_found := 0, t := initTables })
    (eq_ok_getOk _ (by decide!)) (by decide!) (eq_ok_getOk _ (by decide!)) (by decide!)
    (by decide!) (eq_ok_getOk _ (by decide!)) (by decide!) (by decide!)

/-- C11 as stated fails at index 0: `imgInode0File` is accepted although its inode 0 is an
allocated file that no directory entry names (the orphan loop starts at inode 1). -/
theorem C11_counterexample :
    main imgInode0File = .ok () ∧ allocated imgInode0File 0 ∧
      inodeType imgInode0File 0 = T_FILE ∧ measuredLinks imgInode0File 0 = 0 := by
  decide!

/-- C11 (amended): on every image that xcheck accepts, every allocated inode of type file or
device with index from 1 to `ninodes - 1` is referenced by at least one non-free directory
entry in a block of some allocated directory; and when the scanner, the root check and the
walk pass, an unreferenced allocated file or device of index at least 1 makes the run fail
with "inode marked use but not found in a directory". -/
theorem C11_files_referenced (img : Image) :
    (main img = .ok () → ∀ j, 1 ≤ j → allocated img j →
      (inodeType img j = T_FILE ∨ inodeType img j = T_DEV) → referencedInode img j) ∧
    (∀ t t1, scanInodes img initTables = .ok t → allocated img ROOTINO →
      walkInodes img t = .ok t1 →
      (∃ j, 1 ≤ j ∧ allocated img j ∧ (inodeType img j = T_FILE ∨ inodeType img j = T_DEV) ∧
        ¬ referencedInode img j) →
      main img = .error .Orphan) := by
  constructor
  · intro h j h1 ha hfd
    obtain ⟨t, t1, hs, _, _, _, _, _⟩ := main_ok_phases h
    have hI := scanInv_of_scanInodes hs
    have hno := (report_ok (main_ok_report h)).1 j h1 ha.1
    by_contra hc
    exact hno ((orphanInode_iff hI j).mpr ⟨ha, hfd, hc⟩)
  · rintro t t1 hscan hroot hwalk ⟨j, h1, ha, hfd, hnr⟩
    have hI := scanInv_of_scanInodes hscan
    rw [main_eq_report hscan hroot hwalk]
    exact report_orphan ⟨j, h1, ha.1, (orphanInode_iff hI j).mpr ⟨ha, hfd, hnr⟩⟩

theorem C11_files_referenced_witness :
    referencedInode imgGoodFile 2 ∧ main imgOrphan = .error .Orphan :=
  ⟨(C11_files_referenced imgGoodFile).1 (by decide!) 2 (by decide) (by decide!)
      (Or.inl (by decide!)),
   (C11_files_referenced imgOrphan).2
      (getOk (scanInodes imgOrphan initTables) initTables)
      (getOk (walkInodes imgOrphan (getOk (scanInodes imgOrphan initTables) initTables))
        initTables)
      (eq_ok_getOk _ (by decide!)) (by decide!) (eq_ok_getOk _ (by decide!))
      ⟨2, by decide, by decide!, Or.inl (by decide!),
        fun h => absurd ((referencedInode_iff imgOrphan 2).mp h) (by decide!)⟩⟩

/-- C12 as stated fails at index 0: `imgInode0File` is accepted although its inode 0 is an
allocated file with `nlink` 1 and measured link count 0 (the reference-count loop starts at
inode 1). -/
theorem C12_counterexample :
    main imgInode0File = .ok () ∧ allocated imgInode0File 0 ∧
      inodeType imgInode0File 0 = T_FILE ∧ inodeNlink imgInode0File 0 = 1 ∧
      measuredLinks imgInode0File 0 = 0 := by
  decide!

/-- C12 (amended): on every image that xcheck accepts, for every allocated inode of type file
with index at least 1, the `nlink` field equals the measured link count, the number of
non-free directory entries over all blocks of all allocated directory inodes that name it;
and when the scanner, the root check, the walk and the orphan test pass, an allocated file of
index at least 1 whose `nlink` differs from its measured link count makes the run fail with
"bad reference count for file", provided no inode of smaller index fails the reference-count
loop first. -/
theorem C12_file_link_count (img : Image) :
    (main img = .ok () → ∀ j, 1 ≤ j → allocated img j → inodeType img j = T_FILE →
      inodeNlink img j = measuredLinks img j) ∧
    (∀ t t1, scanInodes img initTables = .ok t → allocated img ROOTINO →
      walkInodes img t = .ok t1 →
      (∀ i, 1 ≤ i → i < sb_ninodes img → ¬ orphanInode img i) →
      ∀ j, 1 ≤ j → allocated img j → inodeType img j = T_FILE →
        inodeNlink img j ≠ measuredLinks img j →
        (∀ i, 1 ≤ i → i < j → ¬ badRefCount img i ∧ ¬ multiplyLinked img i) →
        main img = .error .BadRefCount) := by
  constructor
  · intro h j h1 ha hf
    have hno := ((report_ok (main_ok_report h)).2.1 j h1 ha.1).1
    by_contra hc
    exact hno ⟨ha, hf, hc⟩
  · intro t t1 hscan hroot hwalk horph j h1 ha hf hne hbefore
    rw [main_eq_report hscan hroot hwalk]
    apply report_refCount horph h1 ha.1 hbefore
    unfold reportRefCount
    rw [if_pos ⟨ha, hf, hne⟩]

theorem C12_file_link_count_witness :
    inodeNlink imgGoodFile 2 = measuredLinks imgGoodFile 2 ∧
      main imgBadNlink = .error .BadRefCount :=
  ⟨(C12_file_link_count imgGoodFile).1 (by decide!) 2 (by decide) (by decide!) (by decide!),
   (C12_file_link_count imgBadNlink).2
      (getOk (scanInodes imgBadNlink initTables) initTables)
      (getOk (walkInodes imgBadNlink (getOk (scanInodes imgBadNlink initTables) initTables))
        initTables)
      (eq_ok_getOk _ (by decide!)) (by decide!) (eq_ok_getOk _ (by decide!))
      (by
        intro i h1 h2
        have h4 : i < 4 := h2
        interval_cases i <;> decide!)
      2 (by decide) (by decide!) (by decide!) (by decide!)
      (by
        intro i h1 h2
        interval_cases i
        decide!)⟩

/-- C13 as stated fails: in `imgBadBeforeMulti` the directory inode 3 is named by two entries
(its own `.` and the entry `d` of the root), the scanner, the root check, the walk and the
orphan test pass, and the outcome is "bad reference count for file", the diagnostic of the
file inode 2 that the same loop meets first, not "directory appears more than once in file
system". -/
theorem C13_counterexample :
    isDir imgBadBeforeMulti 3 ∧ 3 ≠ ROOTINO ∧ measuredLinks imgBadBeforeMulti 3 = 2 ∧
      passes (scanInodes imgBadBeforeMulti initTables) = true ∧
      allocated imgBadBeforeMulti 1 ∧
      passes (walkInodes imgBadBeforeMulti
        (getOk (scanInodes imgBadBeforeMulti initTables) initTables)) = true ∧
      (∀ i, i < 4 → ¬ orphanInode imgBadBeforeMulti i) ∧
      badRefCount imgBadBeforeMulti 2 ∧
      main imgBadBeforeMulti = .error .BadRefCount ∧
      main imgBadBeforeMulti ≠ .error .MultiplyLinkedDirectory := by
  decide!

/-- C13 (amended): on every image that xcheck accepts, every allocated directory inode other
than inode 1 is named by at most one non-free directory entry of the whole image, `.` and
`..` entries and its own entries included; and when the scanner, the root check, the walk and
the orphan test pass, an allocated directory other than inode 1 that more than one entry
names makes the run fail with "directory appears more than once in file system", provided no
file inode of smaller index has a wrong link count (the file test and the directory test are
made in one loop over the inodes). -/
theorem C13_directory_link_count (img : Image) :
    (main img = .ok () → ∀ d, isDir img d → d ≠ ROOTINO → measuredLinks img d ≤ 1) ∧
    (∀ t t1, scanInodes img initTables = .ok t → allocated img ROOTINO →
      walkInodes img t = .ok t1 →
      (∀ i, 1 ≤ i → i < sb_ninodes img → ¬ orphanInode img i) →
      ∀ d, isDir img d → d ≠ ROOTINO → measuredLinks img d > 1 →
        (∀ i, 1 ≤ i → i < d → ¬ badRefCount img i) →
        main img = .error .MultiplyLinkedDirectory) := by
  constructor
  · intro h d hd hne
    by_cases h0 : d = 0
    · subst h0
      rw [measuredLinks_zero]
      omega
    · have hno := ((report_ok (main_ok_report h)).2.1 d (by omega) hd.1).2
      by_contra hc
      exact hno ⟨hd, hne, by omega⟩
  · intro t t1 hscan hroot hwalk horph d hd hne hgt hbefore
    have hex : ∃ j, multiplyLinked img j := ⟨d, hd, hne, hgt⟩
    have hj : multiplyLinked img (Nat.find hex) := Nat.find_spec hex
    have hjd : Nat.find hex ≤ d := Nat.find_min' hex ⟨hd, hne, hgt⟩
    have hmin : ∀ i, i < Nat.find hex → ¬ multiplyLinked img i := fun i hi => Nat.find_min hex hi
    generalize Nat.find hex = j at hj hjd hmin
    have h1 : 1 ≤ j := by
      by_contra hc
      have h0 : j = 0 := by omega
      subst h0
      have := hj.2.2
      rw [measuredLinks_zero] at this
      omega
    rw [main_eq_report hscan hroot hwalk]
    apply report_refCount horph h1 hj.1.1
      (fun i hi1 hij => ⟨hbefore i hi1 (by omega), hmin i hij⟩)
    unfold reportRefCount
    have hnb : ¬ badRefCount img j := by
      intro hb
      have := hb.2.1
      rw [hj.1.2] at this
      exact absurd this (by decide)
    rw [if_neg hnb, if_pos hj]

theorem C13_directory_link_count_witness :
    measuredLinks imgTwoDirs 2 ≤ 1 ∧ main imgLinkedDir = .error .MultiplyLinkedDirectory :=
  ⟨(C13_directory_link_count imgTwoDirs).1 (by decide!) 2 (by decide!) (by decide),
   (C13_directory_link_count imgLinkedDir).2
      (getOk (scanInodes imgLinkedDir initTables) initTables)
      (getOk (walkInodes imgLinkedDir (getOk (scanInodes imgLinkedDir initTables) initTables))
        initTables)
      (eq_ok_getOk _ (by decide!)) (by decide!) (eq_ok_getOk _ (by decide!))
      (by
        intro i h1 h2
        have h4 : i < 4 := h2
        interval_cases i <;> decide!)
      2 (by decide!) (by decide) (by decide!)
      (by
        intro i h1 h2
        interval_cases i
        decide!)⟩

/-- C14 as stated fails: `imgNoRootBadDir` passes the scanner, has inode 1 unallocated and
an allocated directory, inode 2, without any entry (so without `.`), and the outcome is "root
directory does not exist", not the walker's "directory not properly formatted". -/
theorem C14_counterexample :
    passes (scanInodes imgNoRootBadDir initTables) = true ∧ ¬ allocated imgNoRootBadDir 1 ∧
      isDir imgNoRootBadDir 2 ∧ dirSlots imgNoRootBadDir 2 = [] ∧
      main imgNoRootBadDir = .error .MissingRoot ∧
      main imgNoRootBadDir ≠ .error .DirFormatError := by
  decide!

/-- C14 (amended): the phases run in the order scanner, root-existence check, directory walk,
remaining report checks, and the first violation in that order is reported: a scanner
failure is the outcome; for every image that passes the scanner and has inode 1 unallocated
the outcome is "root directory does not exist", whatever its directories hold; and when
inode 1 is allocated a failure of the walk is the outcome. -/
theorem C14_phase_order (img : Image) :
    (∀ e, scanInodes img initTables = .error e → main img = .error e) ∧
    (∀ t, scanInodes img initTables = .ok t → ¬ allocated img ROOTINO →
      main img = .error .MissingRoot) ∧
    (∀ t e, scanInodes img initTables = .ok t → allocated img ROOTINO →
      walkInodes img t = .error e → main img = .error e) :=
  ⟨fun _ h => main_of_scan_error h, fun _ hs hr => main_of_no_root hs hr,
    fun _ _ hs hr hw => main_of_walkInodes_error hs hr hw⟩

theorem C14_phase_order_witness :
    main imgBadDirect = .error .BadAddressDirect ∧
      main imgNoRootBadDir = .error .MissingRoot ∧
      main imgNoDots = .error .DirFormatError :=
  ⟨(C14_phase_order imgBadDirect).1 .BadAddressDirect (eq_error_of_failsWith (by decide!)),
   (C14_phase_order imgNoRootBadDir).2.1
      (getOk (scanInodes imgNoRootBadDir initTables) initTables)
      (eq_ok_getOk _ (by decide!)) (by decide!),
   (C14_phase_order imgNoDots).2.2
      (getOk (scanInodes imgNoDots initTables) initTables) .DirFormatError
      (eq_ok_getOk _ (by decide!)) (by decide!) (eq_error_of_failsWith (by decide!))⟩

/-- C15 as stated fails: `imgMultiBeforeBad` has inode 0 unused, passes the scanner, the root
check, the walk and the orphan test, and holds both a file with a wrong link count (inode 3)
and a multiply linked directory (inode 2); the outcome is "directory appears more than once
in file system", the diagnostic of the smaller index, not "bad reference count for file". -/
theorem C15_counterexample :
    inodeType imgMultiBeforeBad 0 = 0 ∧
      passes (scanInodes imgMultiBeforeBad initTables) = true ∧
      allocated imgMultiBeforeBad 1 ∧
      passes (walkInodes imgMultiBeforeBad
        (getOk (scanInodes imgMultiBeforeBad initTables) initTables)) = true ∧
      multiplyLinked imgMultiBeforeBad 2 ∧ badRefCount imgMultiBeforeBad 3 ∧
      main imgMultiBeforeBad = .error .MultiplyLinkedDirectory ∧
      main imgMultiBeforeBad ≠ .error .BadRefCount := by
  decide!

/-- C15 (amended): for every image with inode 0 unused that passes the scanner, the root
check and the directory walk, the outcome is: Orphan if some allocated file or device inode
is unreferenced; else, the file test and the directory test being made in one loop over the
inodes, the diagnostic of the smallest index that fails one of them (BadRefCount for a file
whose `nlink` differs from the measured link count, MultiplyLinkedDirectory for a directory
other than inode 1 named by more than one entry); else BitmapFalsePositive if some block of
`[data_block_start, size)` is bitmap-set but unclaimed; else success. -/
theorem C15_report_order (img : Image) (t t1 : Tables)
    (hscan : scanInodes img initTables = .ok t) (hroot : allocated img ROOTINO)
    (hwalk : walkInodes img t = .ok t1) (h0 : inodeType img 0 = 0) :
    ((∃ j, allocated img j ∧ (inodeType img j = T_FILE ∨ inodeType img j = T_DEV) ∧
        ¬ referencedInode img j) → main img = .error .Orphan) ∧
    ((¬ ∃ j, allocated img j ∧ (inodeType img j = T_FILE ∨ inodeType img j = T_DEV) ∧
        ¬ referencedInode img j) →
      (∀ j, (badRefCount img j ∨ multiplyLinked img j) →
        (∀ i, i < j → ¬ badRefCount img i ∧ ¬ multiplyLinked img i) →
        main img =
          .error (if badRefCount img j then .BadRefCount else .MultiplyLinkedDirectory)) ∧
      ((∀ j, ¬ badRefCount img j ∧ ¬ multiplyLinked img j) →
        ((∃ b, data_block_start img ≤ b ∧ b < sb_size img ∧ falsePositive img b) →
          main img = .error .BitmapFalsePositive) ∧
        ((¬ ∃ b, data_block_start img ≤ b ∧ b < sb_size img ∧ falsePositive img b) →
          main img = .ok ()))) := by
  have hI := scanInv_of_scanInodes hscan
  have hna0 : ¬ allocated img 0 := fun ha => ha.2 h0
  rw [main_eq_report hscan hroot hwalk]
  constructor
  · rintro ⟨j, ha, hfd, hnr⟩
    have h1 : 1 ≤ j := by
      by_contra hc
      have hj : j = 0 := by omega
      subst hj
      exact hna0 ha
    exact report_orphan ⟨j, h1, ha.1, (orphanInode_iff hI j).mpr ⟨ha, hfd, hnr⟩⟩
  · intro hno
    have horph : ∀ i, 1 ≤ i → i < sb_ninodes img → ¬ orphanInode img i := by
      intro i _ _ ho
      exact hno ⟨i, (orphanInode_iff hI i).mp ho⟩
    constructor
    · intro j hj hbefore
      have hlt : j < sb_ninodes img := by
        rcases hj with hb | hm
        · exact hb.1.1
        · exact hm.1.1
      have h1 : 1 ≤ j := by
        by_contra hc
        have hj0 : j = 0 := by omega
        subst hj0
        rcases hj with hb | hm
        · exact hna0 hb.1
        · exact hna0 ⟨hm.1.1, by rw [hm.1.2]; decide⟩
      apply report_refCount horph h1 hlt (fun i _ hij => hbefore i hij)
      unfold reportRefCount
      by_cases hb : badRefCount img j
      · rw [if_pos hb, if_pos hb]
      · rw [if_neg hb, if_neg hb]
        rcases hj with hb2 | hm
        · exact absurd hb2 hb
        · rw [if_pos hm]
    · intro hclean
      constructor
      · intro hfp
        exact report_sweep horph (fun j _ _ => hclean j) hfp
      · intro hnfp
        exact report_clean horph (fun j _ _ => hclean j)
          (fun b hlo hhi hf => hnfp ⟨b, hlo, hhi, hf⟩)

theorem C15_report_order_witness :
    main imgOrphan = .error .Orphan ∧ main imgMultiBeforeBad = .error .MultiplyLinkedDirectory :=
  ⟨(C15_report_order imgOrphan
      (getOk (scanInodes imgOrphan initTables) initTables)
      (getOk (walkInodes imgOrphan (getOk (scanInodes imgOrphan initTables) initTables))
        initTables)
      (eq_ok_getOk _ (by decide!)) (by decide!) (eq_ok_getOk _ (by decide!)) (by decide!)).1
      ⟨2, by decide!, Or.inl (by decide!),
        fun h => absurd ((referencedInode_iff imgOrphan 2).mp h) (by decide!)⟩,
   by
    have h := ((C15_report_order imgMultiBeforeBad
      (getOk (scanInodes imgMultiBeforeBad initTables) initTables)
      (getOk (walkInodes imgMultiBeforeBad
        (getOk (scanInodes imgMultiBeforeBad initTables) initTables)) initTables)
      (eq_ok_getOk _ (by decide!)) (by decide!) (eq_ok_getOk _ (by decide!)) (by decide!)).2
      (by
        rintro ⟨j, ha, hfd, hnr⟩
        have h4 : j < 4 := ha.1
        rw [referencedInode_iff] at hnr
        interval_cases j
        · exact absurd ha (by decide!)
        · exact absurd hfd (by decide!)
        · exact absurd hfd (by decide!)
        · exact hnr (by decide!))).1 2 (Or.inr (by decide!))
      (by
        intro i hi
        interval_cases i <;> decide!)
    rw [if_neg (by decide!)] at h
    exact h⟩

/-- C17: `block_is_marked` is the LSB-first bitmap lookup.  For every block number `n` it
returns bit `(n mod 4096) mod 8` of the byte at index `(n mod 4096) / 8` of the block
`bmapstart + n / 4096` (block number and byte offset taken in `uint`); absent 32-bit overflow
of that byte offset, this is bit `n mod 8`, counted from the least significant bit, of the
image byte at offset `bmapstart * 512 + n / 8`; and the result is always 0 or 1. -/
theorem C17_bitmap_lookup (img : Image) (n : Nat) :
    block_is_marked img n =
      (img.byte (blockOff ((sb_bmapstart img + n / 4096) % U32) + (n % 4096) / 8) /
        2 ^ ((n % 4096) % 8)) % 2 ∧
    ((sb_bmapstart img + n / 4096) * 512 < U32 →
      block_is_marked img n = (img.byte (sb_bmapstart img * 512 + n / 8) / 2 ^ (n % 8)) % 2 ∧
      (block_is_marked img n ≠ 0 ↔
        (img.byte (sb_bmapstart img * 512 + n / 8)).testBit (n % 8) = true)) ∧
    (block_is_marked img n = 0 ∨ block_is_marked img n = 1) := by
  have h1 : block_is_marked img n =
      (img.byte (blockOff ((sb_bmapstart img + n / 4096) % U32) + (n % 4096) / 8) /
        2 ^ ((n % 4096) % 8)) % 2 := by
    unfold block_is_marked
    simp only [Nat.and_one_is_mod, Nat.shiftRight_eq_div_pow]
    rfl
  refine ⟨h1, ?_, ?_⟩
  · intro hno
    have hlt : sb_bmapstart img + n / 4096 < U32 := by
      have : sb_bmapstart img + n / 4096 ≤ (sb_bmapstart img + n / 4096) * 512 :=
        Nat.le_mul_of_pos_right _ (by decide)
      omega
    have hoff : blockOff ((sb_bmapstart img + n / 4096) % U32) + (n % 4096) / 8 =
        sb_bmapstart img * 512 + n / 8 := by
      unfold blockOff
      rw [Nat.mod_eq_of_lt hlt, Nat.mod_eq_of_lt hno]
      omega
    have hbit : (n % 4096) % 8 = n % 8 := by omega
    have h2 : block_is_marked img n =
        (img.byte (sb_bmapstart img * 512 + n / 8) / 2 ^ (n % 8)) % 2 := by
      rw [h1, hoff, hbit]
    refine ⟨h2, ?_⟩
    rw [h2]
    unfold Nat.testBit
    rw [Nat.one_and_eq_mod_two, Nat.shiftRight_eq_div_pow]
    simp
  · rw [h1]
    omega

/-- C16: completeness.  Every image with a well-formed layout (more than one inode, a buffer
of `size * 512` bytes, inode table and bitmap inside the image and before
`data_block_start`) that satisfies the acceptance invariants 1-8 of the specification is
accepted. -/
theorem C16_completeness (img : Image) (hlayout : WellFormedLayout img)
    (hinv : Invariants img) : main img = .ok () := by
  have hds := data_block_start_eq_spec hlayout
  obtain ⟨t, ht⟩ : ∃ t, scanInodes img initTables = .ok t := by
    rw [scanInodes_eq_events]
    apply run_events_ok
    · intro i hi
      exact hinv.types_valid i ((inode_mem_scanEvents img i).mp hi)
    · rw [taggedClaims_scanEvents]
      exact hinv.claims_once
    · rw [taggedClaims_scanEvents]
      intro b hb
      rw [hds]
      exact ⟨(hinv.claims_in_range b hb).1, (hinv.claims_in_range b hb).2,
        hinv.claims_marked b hb⟩
  have hI := scanInv_of_scanInodes ht
  have hroot : allocated img ROOTINO := ⟨hinv.root.1.1, by rw [hinv.root.1.2]; decide⟩
  obtain ⟨t1, hw, _⟩ : ∃ t1, walkInodes img t = .ok t1 ∧ Frame t t1 := by
    unfold walkInodes
    apply forLoop_passes (Frame t) _ _ t (frame_refl t)
    intro d hd s hq
    apply walkInode_passes hq
    intro hdir
    have hdl := List.mem_range.mp hd
    have hisdir : isDir img d := ⟨hdl, by rw [← scanInv_type_of_lt hI hdl]; exact hdir.2⟩
    obtain ⟨hc1, hc2, hself⟩ := hinv.dot_dotdot d hisdir
    refine ⟨?_, ?_, ?_, ?_⟩
    · intro e he h0
      obtain ⟨hlt, hty⟩ := hinv.no_dangling d hisdir e he h0
      exact ⟨hlt, (scanInv_used_iff hI _).mpr ⟨hlt, hty⟩, fun hd => hself e he ⟨h0, hd⟩⟩
    · have hpos : 0 < (dirSlots img d).countP (fun e => decide (dotEntry img e)) := by
        unfold countSlots at hc1
        omega
      obtain ⟨e, he, hp⟩ := List.countP_pos_iff.mp hpos
      exact ⟨e, he, of_decide_eq_true hp⟩
    · have hpos : 0 < (dirSlots img d).countP (fun e => decide (dotdotEntry img e)) := by
        unfold countSlots at hc2
        omega
      obtain ⟨e, he, hp⟩ := List.countP_pos_iff.mp hpos
      exact ⟨e, he, of_decide_eq_true hp⟩
    · intro hd1
      subst hd1
      exact hinv.root.2
  rw [main_eq_report ht hroot hw]
  apply report_clean
  · intro i _ _ ho
    have := (referencedInode_iff img i).mp (hinv.referenced i ho.1 ho.2.1)
    have := ho.2.2
    omega
  · intro j _ _
    constructor
    · intro hb
      exact hb.2.2 (hinv.link_counts j hb.1 hb.2.1)
    · intro hm
      have := hinv.dir_links j hm.1 hm.2.1
      have := hm.2.2
      omega
  · intro b hlo hhi hf
    rw [hds] at hlo
    exact hf.2 (hinv.marked_claimed b hlo hhi hf.1)

theorem C16_completeness_witness : main imgGoodFile = .ok () := by
  apply C16_completeness imgGoodFile
  · exact ⟨by decide!, by decide!, by decide!, by decide!, by decide!⟩
  · refine ⟨?_, by decide!, by decide!, by decide!, ?_, ?_, ?_, ?_, ?_, ?_, ?_⟩
    · intro i hi
      have h4 : i < 4 := hi
      interval_cases i <;> decide!
    · intro b hlo hhi
      have h1 : 4 ≤ b := hlo
      have h2 : b < 8 := hhi
      interval_cases b <;> decide!
    · intro d hd
      have h4 : d < 4 := hd.1
      interval_cases d
      · exact absurd hd (by decide!)
      · decide!
      · exact absurd hd (by decide!)
      · exact absurd hd (by decide!)
    · exact ⟨by decide!, by decide!⟩
    · intro j ha hnd
      have h4 : j < 4 := ha.1
      rw [referencedInode_iff]
      interval_cases j
      · exact absurd ha (by decide!)
      · exact absurd hnd (by decide!)
      · decide!
      · exact absurd ha (by decide!)
    · intro j ha hf
      have h4 : j < 4 := ha.1
      interval_cases j
      · exact absurd ha (by decide!)
      · exact absurd hf (by decide!)
      · decide!
      · exact absurd ha (by decide!)
    · intro d hd hne
      have h4 : d < 4 := hd.1
      interval_cases d
      · exact absurd hd (by decide!)
      · exact absurd rfl hne
      · exact absurd hd (by decide!)
      · exact absurd hd (by decide!)
    · intro d hd
      have h4 : d < 4 := hd.1
      interval_cases d
      · exact absurd hd (by decide!)
      · decide!
      · exact absurd hd (by decide!)
      · exact absurd hd (by decide!)

theorem C17_bitmap_lookup_witness :
    block_is_marked imgRootOnly 4 =
      (imgRootOnly.byte (sb_bmapstart imgRootOnly * 512 + 4 / 8) / 2 ^ (4 % 8)) % 2 :=
  ((C17_bitmap_lookup imgRootOnly 4).2.1 (by decide!)).1

/-- C19 as stated fails: the buffer of `imgFarInodes` has exactly `size * 512` bytes, its
superblock puts the inode table at block 1000, and the run reads the type field of inode 0
at offset 512000, outside the buffer. -/
theorem C19_counterexample :
    imgFarInodes.len = sb_size imgFarInodes * BSIZE ∧
      Access.bytes 512000 2 ∈ mainLog imgFarInodes ∧
      ¬ (512000 + 2 ≤ imgFarInodes.len) := by
  decide!

/-- C19 (amended): for every image buffer of at least `size * 512` bytes and at least two
blocks whose superblock puts the inode table and the bitmap inside the image
(`inodestart + ceil(ninodes / 8) <= size` and `bmapstart + ceil(size / 4096) <= size`),
however corrupted its inode records, indirect blocks and directory entries are, every byte
the checker reads lies inside the buffer. -/
theorem C19_reads_in_bounds (img : Image) (hlen : sb_size img * BSIZE ≤ img.len)
    (hsb : 2 * BSIZE ≤ img.len)
    (hinodes : sb_inodestart img + (sb_ninodes img + (IPB - 1)) / IPB ≤ sb_size img)
    (hbitmap : sb_bmapstart img + (sb_size img + (BPB - 1)) / BPB ≤ sb_size img)
    (off w : Nat) (h : Access.bytes off w ∈ mainLog img) : off + w ≤ img.len := by
  have ho := mainLog_origin img _ h
  have hlen2 : sb_size img * 512 ≤ img.len := hlen
  have hsb2 : 1024 ≤ img.len := hsb
  have hin2 : sb_inodestart img + (sb_ninodes img + 7) / 8 ≤ sb_size img := hinodes
  have hbm2 : sb_bmapstart img + (sb_size img + 4095) / 4096 ≤ sb_size img := hbitmap
  unfold Origin at ho
  rcases ho with ⟨h1, h2⟩ | ⟨inum, hi, h1, h2⟩ | ⟨blk, _, hhi, h1, h2⟩ | ⟨b, _, hhi, h1, h2⟩
  · have h3 : off + w ≤ 512 + 28 := h2
    omega
  · have hg : get_inode img inum =
        ((sb_inodestart img + inum / 8) % 4294967296 * 512) % 4294967296 + inum % 8 * 64 := rfl
    have h3 : off + w ≤ get_inode img inum + 64 := h2
    omega
  · have hb : blockOff ((sb_bmapstart img + blk / BPB) % U32) + blk % BPB / 8 =
        ((sb_bmapstart img + blk / 4096) % 4294967296 * 512) % 4294967296 + blk % 4096 / 8 := rfl
    rw [hb] at h1
    omega
  · have hb : blockOff b = (b * 512) % 4294967296 := rfl
    have h3 : off + w ≤ blockOff b + 512 := h2
    omega

theorem C19_reads_in_bounds_witness : 2048 + 2 ≤ imgGoodFile.len :=
  C19_reads_in_bounds imgGoodFile (by decide!) (by decide!) (by decide!) (by decide!) 2048 2
    (by decide!)

/-- C20: in every run, every block number for which the checker queries the bitmap or reads
or writes `block_used` / `block_type` satisfies `data_block_start <= b < size`; a block number
that fails the range check stops the run before any table or bitmap access; and absent
32-bit overflow the program's `data_block_start` is `bmapstart + ceil(size / 4096)`. -/
theorem C20_block_accesses_in_range (img : Image) :
    (∀ b, Access.block b ∈ mainLog img → data_block_start img ≤ b ∧ b < sb_size img) ∧
    (∀ kind a t, (a < data_block_start img ∨ a ≥ sb_size img) →
      claimBlockLog img a t = [] ∧ passes (claimBlock img kind a t) = false) ∧
    (sb_size img + BPB - 1 < U32 → dataStartSpec img < U32 →
      data_block_start img = dataStartSpec img) := by
  refine ⟨fun b hb => mainLog_origin img _ hb, ?_, ?_⟩
  · intro kind a t hbad
    unfold claimBlockLog claimBlock
    rw [if_pos hbad, if_pos hbad]
    exact ⟨rfl, rfl⟩
  · intro h1 h2
    unfold data_block_start num_bitmap_blocks
    unfold dataStartSpec at h2 ⊢
    have h3 : sb_size img + BPB - 1 = sb_size img + (BPB - 1) := by
      show sb_size img + 4096 - 1 = sb_size img + (4096 - 1)
      omega
    rw [Nat.mod_eq_of_lt h1, h3, Nat.mod_eq_of_lt h2]

theorem C20_block_accesses_in_range_witness :
    (data_block_start imgGoodFile ≤ 4 ∧ 4 < sb_size imgGoodFile) ∧
      (claimBlockLog imgBadDirect 9 initTables = [] ∧
        passes (claimBlock imgBadDirect DIRECT 9 initTables) = false) ∧
      data_block_start imgRootOnly = dataStartSpec imgRootOnly :=
  ⟨(C20_block_accesses_in_range imgGoodFile).1 4 (by decide!),
   (C20_block_accesses_in_range imgBadDirect).2.1 DIRECT 9 initTables (by decide!),
   (C20_block_accesses_in_range imgRootOnly).2.2 (by decide!) (by decide!)⟩

/-- C24: the checker's `xint` maps the bytes `b0, b1, b2, b3` its argument has in memory to
`b0 + 2^8 b1 + 2^16 b2 + 2^24 b3` and `xshort` maps `b0, b1` to `b0 + 2^8 b1`; every `uint`
and `ushort` field of an image is decoded so; and the decoders invert the encoders of the
generator: decoding the bytes that the `xint` of `mkfs` writes for a 32-bit `v` yields `v`,
and likewise for the bytes `xshort` writes for a 16-bit `v`.  Both sides are functions of the
bytes in memory, so nothing depends on the byte order of the host. -/
theorem C24_little_endian_codec :
    (∀ b0 b1 b2 b3, b0 < 256 → b1 < 256 → b2 < 256 → b3 < 256 →
      xint b0 b1 b2 b3 = b0 + 2 ^ 8 * b1 + 2 ^ 16 * b2 + 2 ^ 24 * b3) ∧
    (∀ b0 b1, b0 < 256 → b1 < 256 → xshort b0 b1 = b0 + 2 ^ 8 * b1) ∧
    (∀ (img : Image) off, img.u32 off =
      img.byte off + 2 ^ 8 * img.byte (off + 1) + 2 ^ 16 * img.byte (off + 2) +
        2 ^ 24 * img.byte (off + 3)) ∧
    (∀ (img : Image) off, img.u16 off = img.byte off + 2 ^ 8 * img.byte (off + 1)) ∧
    (∀ v, v < 2 ^ 32 →
      xint (Mkfs.xint v 0) (Mkfs.xint v 1) (Mkfs.xint v 2) (Mkfs.xint v 3) = v) ∧
    (∀ v, v < 2 ^ 16 → xshort (Mkfs.xshort v 0) (Mkfs.xshort v 1) = v) := by
  refine ⟨fun b0 b1 b2 b3 h0 h1 h2 _ => xint_eq_add b0 b1 b2 b3 h0 h1 h2,
    fun b0 b1 h0 _ => xshort_eq_add b0 b1 h0,
    fun img off => xint_eq_add _ _ _ _ (byte_lt _ _) (byte_lt _ _) (byte_lt _ _),
    fun img off => xshort_eq_add _ _ (byte_lt _ _), ?_, ?_⟩
  · intro v hv
    have h0 : Mkfs.xint v 0 = v % 256 := rfl
    have h1 : Mkfs.xint v 1 = (v / 2 ^ 8) % 256 := by
      show (v >>> 8) % 256 = _
      rw [Nat.shiftRight_eq_div_pow]
    have h2 : Mkfs.xint v 2 = (v / 2 ^ 16) % 256 := by
      show (v >>> 16) % 256 = _
      rw [Nat.shiftRight_eq_div_pow]
    have h3 : Mkfs.xint v 3 = (v / 2 ^ 24) % 256 := by
      show (v >>> 24) % 256 = _
      rw [Nat.shiftRight_eq_div_pow]
    rw [h0, h1, h2, h3, xint_eq_add _ _ _ _ (Nat.mod_lt _ (by decide))
      (Nat.mod_lt _ (by decide)) (Nat.mod_lt _ (by decide))]
    norm_num at hv ⊢
    omega
  · intro v hv
    have h0 : Mkfs.xshort v 0 = v % 256 := rfl
    have h1 : Mkfs.xshort v 1 = (v / 2 ^ 8) % 256 := by
      show (v >>> 8) % 256 = _
      rw [Nat.shiftRight_eq_div_pow]
    rw [h0, h1, xshort_eq_add _ _ (Nat.mod_lt _ (by decide))]
    norm_num at hv ⊢
    omega

theorem C24_little_endian_codec_witness :
    xint 232 3 0 0 = 232 + 2 ^ 8 * 3 + 2 ^ 16 * 0 + 2 ^ 24 * 0 ∧
      xshort 200 0 = 200 + 2 ^ 8 * 0 ∧
      xint (Mkfs.xint 1000 0) (Mkfs.xint 1000 1) (Mkfs.xint 1000 2) (Mkfs.xint 1000 3) = 1000 ∧
      xshort (Mkfs.xshort 99 0) (Mkfs.xshort 99 1) = 99 :=
  ⟨C24_little_endian_codec.1 232 3 0 0 (by decide) (by decide) (by decide) (by decide),
   C24_little_endian_codec.2.1 200 0 (by decide) (by decide),
   C24_little_endian_codec.2.2.2.2.1 1000 (by decide),
   C24_little_endian_codec.2.2.2.2.2 99 (by decide)⟩

/-- C25: the reference-count loop that runs before the scanner passes on every image: on the
freshly allocated tables no index makes its body fail, so it reports neither "bad reference
count for file" nor "directory appears more than once in file system", and `main` returns on
every image what `main` without that loop returns. -/
theorem C25_early_pass_vacuous (img : Image) :
    (∀ inum, refCountBody initTables inum () = .ok ()) ∧
    refCountCheck img initTables = .ok () ∧
    refCountCheck img initTables ≠ .error .BadRefCount ∧
    refCountCheck img initTables ≠ .error .MultiplyLinkedDirectory ∧
    main img = mainWithoutEarlyPass img := by
  refine ⟨refCountBody_init, refCountCheck_init img, ?_, ?_, main_eq img⟩
  · rw [refCountCheck_init]; intro h; cases h
  · rw [refCountCheck_init]; intro h; cases h

/-- C29: with `uint` arithmetic the bitmap block count `(size + 4095) / 4096` is
`ceil(size / 4096)` exactly when `size <= 2^32 - 4096`; the byte offset `n * 512` of block `n`
is computed without wrap-around exactly when `n < 2^23`; hence two distinct blocks below
`2^23`, in particular two distinct blocks of an image with `size <= 2^23`, are read from
disjoint 512-byte windows. -/
theorem C29_layout_arithmetic :
    (∀ img, sb_size img ≤ 2 ^ 32 - 4096 →
      num_bitmap_blocks img = ⌈(sb_size img : ℚ) / 4096⌉₊) ∧
    (∀ img, 2 ^ 32 - 4096 < sb_size img →
      num_bitmap_blocks img ≠ ⌈(sb_size img : ℚ) / 4096⌉₊) ∧
    (∀ n, n < 2 ^ 23 → blockOff n = n * 512) ∧
    (∀ n, 2 ^ 23 ≤ n → blockOff n ≠ n * 512) ∧
    (∀ n m, n < 2 ^ 23 → m < 2 ^ 23 → n ≠ m →
      blockOff n + BSIZE ≤ blockOff m ∨ blockOff m + BSIZE ≤ blockOff n) ∧
    (∀ img n m, sb_size img ≤ 2 ^ 23 → n < sb_size img → m < sb_size img → n ≠ m →
      ∀ i j, i < BSIZE → j < BSIZE → blockOff n + i ≠ blockOff m + j) := by
  have hoff : ∀ n, blockOff n = (n * 512) % 4294967296 := fun _ => rfl
  have hnb : ∀ img, num_bitmap_blocks img = ((sb_size img + 4096 - 1) % 4294967296) / 4096 :=
    fun _ => rfl
  refine ⟨?_, ?_, ?_, ?_, ?_, ?_⟩
  · intro img h
    rw [ceil_div_bpb, hnb]
    norm_num at h
    omega
  · intro img h
    rw [ceil_div_bpb, hnb]
    have := sb_size_lt img
    norm_num at h
    omega
  · intro n h
    rw [hoff]
    norm_num at h
    omega
  · intro n h
    rw [hoff]
    norm_num at h
    omega
  · intro n m hn hm hne
    rw [hoff, hoff]
    norm_num at hn hm
    show (n * 512) % 4294967296 + 512 ≤ _ ∨ (m * 512) % 4294967296 + 512 ≤ _
    omega
  · intro img n m hs hn hm hne i j hi hj
    rw [hoff, hoff]
    norm_num at hs
    have hi2 : i < 512 := hi
    have hj2 : j < 512 := hj
    omega

theorem C29_layout_arithmetic_witness :
    num_bitmap_blocks imgRootOnly = ⌈(sb_size imgRootOnly : ℚ) / 4096⌉₊ ∧
      blockOff 4 = 4 * 512 ∧ blockOff 8388608 ≠ 8388608 * 512 ∧
      (blockOff 4 + BSIZE ≤ blockOff 5 ∨ blockOff 5 + BSIZE ≤ blockOff 4) ∧
      blockOff 4 + 511 ≠ blockOff 5 + 0 :=
  ⟨C29_layout_arithmetic.1 imgRootOnly (by decide!),
   C29_layout_arithmetic.2.2.1 4 (by decide),
   C29_layout_arithmetic.2.2.2.1 8388608 (by decide),
   C29_layout_arithmetic.2.2.2.2.1 4 5 (by decide) (by decide) (by decide),
   C29_layout_arithmetic.2.2.2.2.2 imgRootOnly 4 5 (by decide!) (by decide!) (by decide!)
     (by decide) 511 0 (by decide) (by decide)⟩

/-- C26: the two final sweeps for claimed blocks whose bitmap bit is clear never fail: after a
scan and a walk that pass, every block with `block_used` set has its bit set, so both sweeps
pass; no image makes `main` stop at them; a block that the scanner claims (in range, not
claimed before) while its bit is clear stops the run at that claim with the scanner's
diagnostic; and the only diagnostic of `main` that prints "address used by inode but marked
free in bitmap" is the scanner's, which shares that line with the sweeps. -/
theorem C26_false_negative_unreachable (img : Image) :
    (∀ t t1, scanInodes img initTables = .ok t → walkInodes img t = .ok t1 →
      (∀ b, t1.block_used b ≠ 0 → block_is_marked img b ≠ 0) ∧
      forLoop (sweepUsedBody img t1) (sweepRange img) () = .ok ()) ∧
    main img ≠ .error .BitmapFalseNegative ∧
    (∀ pre post kind addr t, scanEvents img = pre ++ .claim kind addr :: post →
      forLoop (scanStep img) pre initTables = .ok t →
      data_block_start img ≤ addr → addr < sb_size img → t.block_used addr = 0 →
      block_is_marked img addr = 0 → main img = .error .FreeBlockInUse) ∧
    (∀ e, main img = .error e → e.message = Err.message .BitmapFalseNegative →
      e = .FreeBlockInUse) ∧
    Err.message .BitmapFalseNegative = Err.message .FreeBlockInUse := by
  refine ⟨?_, main_ne_falseNegative img, ?_, ?_, rfl⟩
  · intro t t1 hs hw
    constructor
    · intro b hu
      have h := sweepUsedBody_ok hs hw b
      unfold sweepUsedBody at h
      by_contra hc
      rw [if_pos ⟨hu, hc⟩] at h
      cases h
    · exact forLoop_unit_ok _ (fun b _ => sweepUsedBody_ok hs hw b)
  · intro pre post kind addr t hev hrun hlo hhi hu hm
    apply main_of_event_error hev hrun
    show claimBlock img kind addr t = _
    unfold claimBlock
    rw [if_neg (by omega), if_neg (by simpa using hu), if_pos hm]
  · intro e he hmsg
    have hne : e ≠ .BitmapFalseNegative := fun hc => main_ne_falseNegative img (hc ▸ he)
    cases e <;> first | rfl | exact absurd rfl hne | exact absurd hmsg (by decide)

theorem C26_false_negative_unreachable_witness :
    ((∀ b, (getOk (walkInodes imgGoodFile (getOk (scanInodes imgGoodFile initTables) initTables))
          initTables).block_used b ≠ 0 → block_is_marked imgGoodFile b ≠ 0) ∧
      forLoop (sweepUsedBody imgGoodFile
          (getOk (walkInodes imgGoodFile (getOk (scanInodes imgGoodFile initTables) initTables))
            initTables)) (sweepRange imgGoodFile) () = .ok ()) ∧
      main imgClearBit = .error .FreeBlockInUse ∧
      Err.FreeBlockInUse = Err.FreeBlockInUse :=
  ⟨(C26_false_negative_unreachable imgGoodFile).1
      (getOk (scanInodes imgGoodFile initTables) initTables)
      (getOk (walkInodes imgGoodFile (getOk (scanInodes imgGoodFile initTables) initTables))
        initTables)
      (eq_ok_getOk _ (by decide!)) (eq_ok_getOk _ (by decide!)),
   (C26_false_negative_unreachable imgClearBit).2.2.1 [.inode 0, .inode 1]
      [.inode 2, .inode 3] DIRECT 4
      (getOk (forLoop (scanStep imgClearBit) [.inode 0, .inode 1] initTables) initTables)
      (by decide!) (eq_ok_getOk _ (by decide!)) (by decide!) (by decide!) (by decide!)
      (by decide!),
   (C26_false_negative_unreachable imgClearBit).2.2.2.1 .FreeBlockInUse (by decide!) rfl⟩

/-- C28: under a well-formed layout (`ninodes >= 2`,
`inodestart + ceil(ninodes / 8) <= bmapstart`, `bmapstart + ceil(size / 4096) <= size <= 2^23`,
a buffer of at least `size * 512` bytes) every access of a run is in bounds, whatever the
inode table, the indirect blocks, the directory blocks and the bitmap hold: every byte range
read (superblock field, inode record, bitmap byte, indirect-block entry, directory entry) lies
inside the buffer, every index of a per-inode table is below `ninodes`, and every index of a
per-block table is below `size`. -/
theorem C28_accesses_in_bounds (img : Image) (hn : 2 ≤ sb_ninodes img)
    (hinodes : sb_inodestart img + (sb_ninodes img + (IPB - 1)) / IPB ≤ sb_bmapstart img)
    (hbitmap : sb_bmapstart img + (sb_size img + (BPB - 1)) / BPB ≤ sb_size img)
    (hsize : sb_size img ≤ 2 ^ 23) (hlen : sb_size img * BSIZE ≤ img.len) :
    ∀ a ∈ mainLog img, Access.inBounds img a := by
  intro a ha
  have ho := mainLog_origin img _ ha
  have hlen2 : sb_size img * 512 ≤ img.len := hlen
  have hin2 : sb_inodestart img + (sb_ninodes img + 7) / 8 ≤ sb_bmapstart img := hinodes
  have hbm2 : sb_bmapstart img + (sb_size img + 4095) / 4096 ≤ sb_size img := hbitmap
  have hsz2 : sb_size img ≤ 8388608 := by norm_num at hsize; exact hsize
  cases a with
  | bytes off w =>
    show off + w ≤ img.len
    unfold Origin at ho
    rcases ho with ⟨h1, h2⟩ | ⟨inum, hi, h1, h2⟩ | ⟨blk, _, hhi, h1, h2⟩ | ⟨b, _, hhi, h1, h2⟩
    · have h3 : off + w ≤ 512 + 28 := h2
      omega
    · have hg : get_inode img inum =
          ((sb_inodestart img + inum / 8) % 4294967296 * 512) % 4294967296 + inum % 8 * 64 := rfl
      have h3 : off + w ≤ get_inode img inum + 64 := h2
      omega
    · have hb : blockOff ((sb_bmapstart img + blk / BPB) % U32) + blk % BPB / 8 =
          ((sb_bmapstart img + blk / 4096) % 4294967296 * 512) % 4294967296 + blk % 4096 / 8 :=
        rfl
      rw [hb] at h1
      omega
    · have hb : blockOff b = (b * 512) % 4294967296 := rfl
      have h3 : off + w ≤ blockOff b + 512 := h2
      omega
  | block b => exact ho.2
  | inode i =>
    show i < sb_ninodes img
    rcases ho with h | h
    · exact h
    · have h1 : i = 1 := h
      omega

theorem C28_accesses_in_bounds_witness :
    Access.inBounds imgGoodFile (.bytes 2048 2) ∧ Access.inBounds imgGoodFile (.block 4) ∧
      Access.inBounds imgGoodFile (.inode 2) :=
  ⟨C28_accesses_in_bounds imgGoodFile (by decide!) (by decide!) (by decide!) (by decide!)
      (by decide!) _ (by decide!),
   C28_accesses_in_bounds imgGoodFile (by decide!) (by decide!) (by decide!) (by decide!)
      (by decide!) _ (by decide!),
   C28_accesses_in_bounds imgGoodFile (by decide!) (by decide!) (by decide!) (by decide!)
      (by decide!) _ (by decide!)⟩

/-- C27: a directory's own `.` is counted among the entries that name it, so xcheck accepts
no image with a linked subdirectory.  On every accepted image a directory `d` other than
inode 1 is named by exactly one entry of the whole image, and every entry that names it is
its own `.` (it lies in a block of `d` and is named `.`): no name in a parent, no `..` of `d`
or of a child names it.  Hence an image in which a directory other than inode 1 holds a `.`
naming itself and is named by one more entry is rejected; and when the scanner, the root
check, the walk and the orphan test pass and no inode of smaller index fails the
reference-count loop, the diagnostic is "directory appears more than once in file system". -/
theorem C27_no_linked_subdirectory (img : Image) :
    (main img = .ok () → ∀ d, isDir img d → d ≠ ROOTINO →
      measuredLinks img d = 1 ∧
      (∃ e0 ∈ dirSlots img d, dotEntry img e0 ∧ direntInum img e0.1 e0.2 = d) ∧
      (∀ d1 e1, isDir img d1 → e1 ∈ dirSlots img d1 → direntInum img e1.1 e1.2 = d →
        d1 = d ∧ isDot img e1.1 e1.2 = true)) ∧
    (∀ d, isDir img d → d ≠ ROOTINO → linkedBesidesDot img d → main img ≠ .ok ()) ∧
    (∀ t t1, scanInodes img initTables = .ok t → allocated img ROOTINO →
      walkInodes img t = .ok t1 →
      (∀ i, 1 ≤ i → i < sb_ninodes img → ¬ orphanInode img i) →
      ∀ d, isDir img d → d ≠ ROOTINO → linkedBesidesDot img d →
        (∀ i, 1 ≤ i → i < d → ¬ badRefCount img i ∧ ¬ multiplyLinked img i) →
        main img = .error .MultiplyLinkedDirectory) := by
  have hcount : ∀ d, isDir img d → linkedBesidesDot img d → 2 ≤ measuredLinks img d := by
    rintro d hd ⟨e0, he0, hdot, hself, d1, e1, hd1, he1, hname, hne⟩
    have hd0 : d ≠ 0 := by
      rw [← hself]
      exact hdot.1
    exact two_le_measuredLinks hd hd1 he0 he1
      (decide_eq_true ⟨hdot.1, hself⟩) (decide_eq_true ⟨by rw [hname]; exact hd0, hname⟩) hne
  have hok : main img = .ok () → ∀ d, isDir img d → d ≠ ROOTINO → measuredLinks img d ≤ 1 := by
    intro h d hd hne
    by_cases h0 : d = 0
    · subst h0
      rw [measuredLinks_zero]
      omega
    · have hno := ((report_ok (main_ok_report h)).2.1 d (by omega) hd.1).2
      by_contra hc
      exact hno ⟨hd, hne, by omega⟩
  refine ⟨?_, ?_, ?_⟩
  · intro h d hd hne
    obtain ⟨t, hI, hfacts⟩ := dirFacts_of_ok h
    obtain ⟨hent, ⟨e0, he0, hdot⟩, _, _⟩ := hfacts d hd
    have hself : direntInum img e0.1 e0.2 = d := (hent e0 he0 hdot.1).2.2 hdot.2
    have hle := hok h d hd hne
    have hpos : 0 < measuredLinks img d :=
      List.countP_pos_iff.mpr
        ⟨e0, (mem_allSlots img e0).mpr ⟨d, hd, he0⟩, decide_eq_true ⟨hdot.1, hself⟩⟩
    refine ⟨by omega, ⟨e0, he0, hdot, hself⟩, ?_⟩
    intro d1 e1 hd1 he1 hname
    by_contra hc
    have hne2 : d1 ≠ d ∨ e1 ≠ e0 := by
      by_contra hboth
      push_neg at hboth
      apply hc
      refine ⟨hboth.1, ?_⟩
      rw [hboth.2]
      exact hdot.2
    have := hcount d hd ⟨e0, he0, hdot, hself, d1, e1, hd1, he1, hname, hne2⟩
    omega
  · intro d hd hne hl h
    have h1 := hok h d hd hne
    have h2 := hcount d hd hl
    omega
  · intro t t1 hscan hroot hwalk horph d hd hne hl hbefore
    have hgt := hcount d hd hl
    have h1 : 1 ≤ d := by
      by_contra hc
      have h0 : d = 0 := by omega
      subst h0
      rw [measuredLinks_zero] at hgt
      omega
    rw [main_eq_report hscan hroot hwalk]
    apply report_refCount horph h1 hd.1 hbefore
    unfold reportRefCount
    have hnb : ¬ badRefCount img d := by
      intro hb
      have := hb.2.1
      rw [hd.2] at this
      exact absurd this (by decide)
    rw [if_neg hnb, if_pos ⟨hd, hne, hgt⟩]

theorem C27_no_linked_subdirectory_witness :
    measuredLinks imgTwoDirs 2 = 1 ∧ main imgLinkedDir ≠ .ok () ∧
      main imgLinkedDir = .error .MultiplyLinkedDirectory :=
  ⟨((C27_no_linked_subdirectory imgTwoDirs).1 (by decide!) 2 (by decide!) (by decide)).1,
   (C27_no_linked_subdirectory imgLinkedDir).2.1 2 (by decide!) (by decide)
      ⟨(5, 0), by decide!, by decide!, by decide!, 1, (4, 2), by decide!, by decide!,
        by decide!, Or.inl (by decide)⟩,
   (C27_no_linked_subdirectory imgLinkedDir).2.2
      (getOk (scanInodes imgLinkedDir initTables) initTables)
      (getOk (walkInodes imgLinkedDir (getOk (scanInodes imgLinkedDir initTables) initTables))
        initTables)
      (eq_ok_getOk _ (by decide!)) (by decide!) (eq_ok_getOk _ (by decide!))
      (by
        intro i h1 h2
        have h4 : i < 4 := h2
        interval_cases i <;> decide!)
      2 (by decide!) (by decide)
      ⟨(5, 0), by decide!, by decide!, by decide!, 1, (4, 2), by decide!, by decide!,
        by decide!, Or.inl (by decide)⟩
      (by
        intro i h1 h2
        interval_cases i
        decide!)⟩

/-- C21: for an allocated inode whose indirect slot `addrs[12]` is zero, the scanner claims
nothing through the slot and reads only the slot itself, the walk visits only the blocks of
the direct slots and reads only the slot itself after them: no indirect block is read; the
blocks the inode claims, and the blocks walked when it is a directory, are exactly the
non-zero values of its 12 direct slots.  Two images that hold the same bytes in the
superblock, in the inode table, in the bitmap and in every block named by a non-zero pointer
of an allocated inode get the same outcome, whatever else differs (block 0, which a zero
pointer would address, or any block no pointer names). -/
theorem C21_zero_indirect_slot (img : Image) :
    (∀ inum, allocated img inum → inodeAddr img inum NDIRECT = 0 →
      (∀ t, scanIndirect img inum t = .ok t ∧
        scanIndirectLog img inum t = [.bytes (get_inode img inum + 12 + 4 * NDIRECT) 4]) ∧
      (∀ t, walkBlocks img inum t =
          forLoop (walkDirect img inum) (List.range NDIRECT)
            { dot_found := 0, dotdot_found := 0, t := t } ∧
        walkBlocksLog img inum t =
          forLoopLog (walkDirect img inum) (walkDirectLog img inum) (List.range NDIRECT)
              { dot_found := 0, dotdot_found := 0, t := t } ++
            (match forLoop (walkDirect img inum) (List.range NDIRECT)
                { dot_found := 0, dotdot_found := 0, t := t } with
             | .error _ => []
             | .ok _ => [.bytes (get_inode img inum + 12 + 4 * NDIRECT) 4])) ∧
      inodeBlocks img inum = nonzeroValues (inodeAddr img inum) NDIRECT ∧
      contentBlocks img inum = nonzeroValues (inodeAddr img inum) NDIRECT) ∧
    (∀ img2, AgreeWhereReached img img2 → main img = main img2) :=
  ⟨fun _ _ h0 => ⟨zero_slot_scan h0, zero_slot_walk h0, zero_slot_blocks h0⟩,
    fun _ h => agree_main h⟩

theorem C21_zero_indirect_slot_witness :
    (scanIndirect imgGoodFile 1 initTables = .ok initTables ∧
        scanIndirectLog imgGoodFile 1 initTables =
          [.bytes (get_inode imgGoodFile 1 + 12 + 4 * NDIRECT) 4]) ∧
      inodeBlocks imgGoodFile 1 = nonzeroValues (inodeAddr imgGoodFile 1) NDIRECT ∧
      main imgGoodFile = main imgGoodFileNoise ∧
      imgGoodFile.byte 0 ≠ imgGoodFileNoise.byte 0 ∧
      imgGoodFile.byte 3072 ≠ imgGoodFileNoise.byte 3072 :=
  ⟨((C21_zero_indirect_slot imgGoodFile).1 1 (by decide!) (by decide!)).1 initTables,
   ((C21_zero_indirect_slot imgGoodFile).1 1 (by decide!) (by decide!)).2.2.1,
   (C21_zero_indirect_slot imgGoodFile).2 imgGoodFileNoise imgGoodFileNoise_agree,
   by decide!, by decide!⟩

/-- C22 as stated fails: without an error type `mkfs` runs to completion and xcheck rejects the
image for the single input file `_.`, whose name on the image is `.` ("directory not properly
formatted"), for the single input file `_..`, whose name on the image is `..` ("root directory
does not exist"), and for 199 input files named `a` without content, the last of which gets
inode 200 of a table of 200 inodes ("inode referred to in directory but marked free"). -/
theorem C22_counterexample :
    checkGenerated Mkfs.oneDotFile 0 = some (.error .DirFormatError) ∧
    checkGenerated Mkfs.oneDotDotFile 0 = some (.error .MissingRoot) ∧
    checkGenerated Mkfs.manyFiles 0 = some (.error .DanglingReference) := by
  refine ⟨?_, ?_, Mkfs.manyFiles_rejected⟩
  · simp only [checkGenerated_eq]
    unfold Mkfs.mainFrom Mkfs.finish Mkfs.balloc
    rw [Mkfs.ballocBuf_eq]
    decide!
  · simp only [checkGenerated_eq]
    unfold Mkfs.mainFrom Mkfs.finish Mkfs.balloc
    rw [Mkfs.ballocBuf_eq]
    decide!

/-- C22 (amended): for every list of at most 198 input files whose names as `mkfs` stores them
(a leading `_` dropped, the name cut at its first NUL) compare equal neither to `.` nor to
`..`, if `mkfs` runs to completion with no error type then xcheck returns success on the
image it leaves.  The base case is as the claim describes it: with no input file `mkfs` runs
to completion and leaves 1000 blocks of 512 bytes, 200 inodes, inode 1 the only allocated
inode, a directory whose only block is block 59, holding `.` and `..` that both name inode 1,
and exactly the bitmap bits 0..59 set; xcheck accepts it. -/
theorem C22_generated_images (files : List (List Nat × List Nat)) (img : Image)
    (hlen : files.length ≤ 198)
    (hnames : ∀ f ∈ files, Mkfs.plainName (Mkfs.nameOf f.1))
    (hrun : Mkfs.main files 0 = some img) :
    main img = .ok () ∧
    ((Mkfs.main [] 0).isSome = true ∧
      (Mkfs.generated [] 0).len = 1000 * BSIZE ∧ sb_size (Mkfs.generated [] 0) = 1000 ∧
      sb_ninodes (Mkfs.generated [] 0) = 200 ∧ isDir (Mkfs.generated [] 0) ROOTINO ∧
      (List.range 200).filter (fun i => decide (inodeType (Mkfs.generated [] 0) i ≠ 0)) = [1] ∧
      inodeBlocks (Mkfs.generated [] 0) ROOTINO = [59] ∧
      dotEntry (Mkfs.generated [] 0) (59, 0) ∧ direntInum (Mkfs.generated [] 0) 59 0 = 1 ∧
      dotdotEntry (Mkfs.generated [] 0) (59, 1) ∧ direntInum (Mkfs.generated [] 0) 59 1 = 1 ∧
      (List.range 1000).filter (fun b => decide (block_is_marked (Mkfs.generated [] 0) b ≠ 0)) =
        List.range 60 ∧
      main (Mkfs.generated [] 0) = .ok ()) := by
  refine ⟨Mkfs.generated_accepted hlen hnames hrun, ?_⟩
  unfold Mkfs.generated Mkfs.main
  unfold Mkfs.mainFrom Mkfs.finish Mkfs.balloc
  rw [Mkfs.format_eq, Mkfs.ballocBuf_eq]
  decide!

theorem C22_generated_images_witness :
    Mkfs.main Mkfs.oneSmallFile 0 = some (Mkfs.generated Mkfs.oneSmallFile 0) ∧
      main (Mkfs.generated Mkfs.oneSmallFile 0) = .ok () := by
  have hrun : Mkfs.main Mkfs.oneSmallFile 0 = some (Mkfs.generated Mkfs.oneSmallFile 0) := by
    apply Mkfs.main_generated
    unfold Mkfs.main
    rw [Mkfs.format_eq]
    unfold Mkfs.mainFrom Mkfs.finish Mkfs.balloc
    rw [Mkfs.ballocBuf_eq]
    decide!
  exact ⟨hrun, (C22_generated_images Mkfs.oneSmallFile (Mkfs.generated Mkfs.oneSmallFile 0)
    (by decide) (by decide) hrun).1⟩

/-- C23: on the one-file list `Mkfs.oneSmallFile` each of the twelve error types makes
`mkfs` run to completion and xcheck fail with the category the claim pairs with it.  But not
on every list: with no input file the error types that are injected in the loop over the
input files (`error_bad_inode_type`, `error_bad_direct_addr`, `error_duplicate_direct_addr`,
`error_inode_not_found`, `error_bad_ref_count`) leave an image that xcheck accepts; and for
one input file of thirteen blocks `error_duplicate_direct_addr` duplicates a block listed in
the indirect block, so that xcheck fails with "indirect address used more than once". -/
theorem C23_corruption_modes :
    (checkMode Mkfs.oneSmallFile "error_bad_inode_type" = some (.error .BadInodeType) ∧
      checkMode Mkfs.oneSmallFile "error_bad_direct_addr" = some (.error .BadAddressDirect) ∧
      checkMode Mkfs.oneSmallFile "error_bad_indirect_addr" =
        some (.error .BadAddressIndirect) ∧
      checkMode Mkfs.oneSmallFile "error_missing_root" = some (.error .MissingRoot) ∧
      checkMode Mkfs.oneSmallFile "error_dir_not_formatted" = some (.error .DirFormatError) ∧
      checkMode Mkfs.oneSmallFile "error_free_addr_in_use" = some (.error .FreeBlockInUse) ∧
      checkMode Mkfs.oneSmallFile "error_bmap_not_in_use" =
        some (.error .BitmapFalsePositive) ∧
      checkMode Mkfs.oneSmallFile "error_duplicate_direct_addr" =
        some (.error .DuplicateDirect) ∧
      checkMode Mkfs.oneSmallFile "error_duplicate_indirect_addr" =
        some (.error .DuplicateIndirect) ∧
      checkMode Mkfs.oneSmallFile "error_inode_not_found" = some (.error .Orphan) ∧
      checkMode Mkfs.oneSmallFile "error_inode_referred_not_used" =
        some (.error .DanglingReference) ∧
      checkMode Mkfs.oneSmallFile "error_bad_ref_count" = some (.error .BadRefCount)) ∧
    (checkMode [] "error_bad_inode_type" = some (.ok ()) ∧
      checkMode [] "error_bad_direct_addr" = some (.ok ()) ∧
      checkMode [] "error_duplicate_direct_addr" = some (.ok ()) ∧
      checkMode [] "error_inode_not_found" = some (.ok ()) ∧
      checkMode [] "error_bad_ref_count" = some (.ok ())) ∧
    checkMode Mkfs.oneBigFile "error_duplicate_direct_addr" =
      some (.error .DuplicateIndirect) := by
  unfold checkMode
  simp only [checkGenerated_eq]
  unfold Mkfs.mainFrom Mkfs.finish Mkfs.balloc
  rw [Mkfs.ballocBuf_eq]
  decide!

end Xcheck
